import Mathlib

/-!
# NLTE level-population solver (pubsed): shallow embedding

Embedding of `src/opacity/nlte_atom.cpp` and `src/opacity/nlte_atom_opacities.cpp`.

Conventions of the embedding.

* A C++ `double` is an element of a linearly ordered field `K`; arithmetic is exact
  (no rounding, no overflow, no infinities or NaN).  Every expression keeps the
  association order of the source.  Where the value of a quotient matters to a theorem,
  its hypotheses make the divisor non-zero; a quotient whose value is overwritten or
  multiplied away before it is read needs no such hypothesis.
* A C array is a function on `Nat` together with its length; a store `a[i] = v` is
  `Function.update`.  A counted `for` loop is `forLoop`.
* What the sources use but do not define is a parameter: the constants of
  `physical_constants.h`, the libm functions `exp` and `pow`, the interpolation
  `xy_array::value_at`, and the GSL routines `gsl_linalg_LU_decomp` and
  `gsl_linalg_LU_solve`.
-/

namespace Pubsed

/-- Counted loop `for (int i = 0; i < n; i++) s = body i s`. -/
def forLoop {σ : Type} : Nat → (Nat → σ → σ) → σ → σ
  | 0, _, s => s
  | k + 1, body, s => body k (forLoop k body s)

/-- Constants of the header `physical_constants.h` (not among the sources), as parameters. -/
structure physical_constants (K : Type) where
  pi : K
  h : K
  c : K
  k : K
  k_ev : K
  m_e : K
  sigma_tot : K
  ev_to_ergs : K
  ergs_to_ev : K
  cm_to_angs : K
  angs_to_cm : K

/-- Class `xy_array` (declared outside the sources): a table of `n` points `(x[j], y[j])`. -/
structure xy_array (K : Type) where
  n : Nat
  x : Nat → K
  y : Nat → K

/-- Size of a table, `xy_array::size()`. -/
def xy_array.size {K : Type} (t : xy_array K) : Nat := t.n

/-- Library routines the sources call but do not define, as parameters. -/
structure Externals (K : Type) where
  /-- libm `exp`. -/
  exp : K → K
  /-- libm `pow`. -/
  pow : K → K → K
  /-- Interpolation `xy_array::value_at`. -/
  value_at : xy_array K → K → K
  /-- The matrix and permutation left by `gsl_linalg_LU_decomp(M, p, &signum)`. -/
  LU_decomp : Nat → (Nat → Nat → K) → (Nat → Nat → K) × (Nat → Nat)
  /-- The vector `x` left by `gsl_linalg_LU_solve(LU, p, b, x)`. -/
  LU_solve : Nat → (Nat → Nat → K) → (Nat → Nat) → (Nat → K) → (Nat → K)

/-- Record `nlte_ion`. -/
structure nlte_ion (K : Type) where
  stage : Int
  ground : Int
  chi : K
  part : K
  frac : K

/-- Record `nlte_level`. -/
structure nlte_level (K : Type) where
  id : Int
  ion : Nat
  g : Int
  E : K
  E_ion : K
  ic : Int
  n : K
  n_lte : K
  b : K
  s_photo : xy_array K
  a_rec : xy_array K

/-- Record `nlte_line`. -/
structure nlte_line (K : Type) where
  ll : Nat
  lu : Nat
  A_ul : K
  B_ul : K
  B_lu : K
  f_lu : K
  lam : K
  nu : K
  J : K
  tau : K
  etau : K
  beta : K
  bin : Int

/-- Working state of class `nlte_atom`. -/
structure nlte_atom (K : Type) where
  n_ions : Nat
  n_levels : Nat
  n_lines : Nat
  ions : Nat → nlte_ion K
  levels : Nat → nlte_level K
  lines : Nat → nlte_line K
  e_gamma : K
  n_dens : K
  use_betas : Bool
  no_ground_recomb : Bool
  rates : Nat → Nat → K
  M_nlte : Nat → Nat → K
  b_nlte : Nat → K
  x_nlte : Nat → K
  p_nlte : Nat → Nat

section Model

variable {K : Type} [LinearOrderedField K]

/-- Smallest positive normal double, `std::numeric_limits<double>::min()`, equal to `2^-1022`. -/
def dbl_min : K := 1 / 2 ^ 1022

/-- Store `ions[i] = v`. -/
def set_ion (a : nlte_atom K) (i : Nat) (v : nlte_ion K) : nlte_atom K :=
  { a with ions := Function.update a.ions i v }

/-- Store `levels[i] = v`. -/
def set_level (a : nlte_atom K) (i : Nat) (v : nlte_level K) : nlte_atom K :=
  { a with levels := Function.update a.levels i v }

/-- Store `lines[i] = v`. -/
def set_line (a : nlte_atom K) (i : Nat) (v : nlte_line K) : nlte_atom K :=
  { a with lines := Function.update a.lines i v }

/-- Store `rates[i][j] = v`. -/
def set_rate (a : nlte_atom K) (i j : Nat) (v : K) : nlte_atom K :=
  { a with rates := Function.update a.rates i (Function.update (a.rates i) j v) }

/-- Store `gsl_matrix_set(M_nlte, i, j, v)`. -/
def gsl_matrix_set (a : nlte_atom K) (i j : Nat) (v : K) : nlte_atom K :=
  { a with M_nlte := Function.update a.M_nlte i (Function.update (a.M_nlte i) j v) }

/-- Store `gsl_vector_set(b_nlte, i, v)`. -/
def gsl_vector_set (a : nlte_atom K) (i : Nat) (v : K) : nlte_atom K :=
  { a with b_nlte := Function.update a.b_nlte i v }

/-- Planck function `nlte_atom::blackbody_nu`. -/
def blackbody_nu (pc : physical_constants K) (ext : Externals K) (T nu : K) : K :=
  let zeta := pc.h * nu / pc.k / T
  2 * nu * nu * nu * pc.h / pc.c / pc.c / (ext.exp zeta - 1)

/-- Version of `nlte_atom::compute_sobolev_tau` in `nlte_atom.cpp`: the returned value and
the state it leaves. -/
def compute_sobolev_tau (pc : physical_constants K) (ext : Externals K)
    (a : nlte_atom K) (i : Nat) (time : K) : K × nlte_atom K :=
  let ll := (a.lines i).ll
  let lu := (a.lines i).lu
  let nl := (a.levels ll).n
  let nu := (a.levels lu).n
  let gl : K := ((a.levels ll).g : K)
  let gu : K := ((a.levels lu).g : K)
  if nl < dbl_min then
    (0, set_line a i { a.lines i with tau := 0, etau := 1, beta := 1 })
  else
    let lam := (a.lines i).lam * pc.angs_to_cm
    let tau := nl * a.n_dens * pc.sigma_tot * (a.lines i).f_lu * time * lam
    let tau := tau * (1 - nu * gl / (nl * gu))
    if nu * gl > nl * gu then
      (0, set_line a i { a.lines i with tau := 0, etau := 1, beta := 1 })
    else
      let etau := ext.exp (-tau)
      (tau, set_line a i { a.lines i with etau := etau, tau := tau, beta := (1 - etau) / tau })

/-- Whether the call of `compute_sobolev_tau` of `nlte_atom.cpp` writes its
`laser regime` message to standard output. -/
def compute_sobolev_tau_prints (a : nlte_atom K) (i : Nat) : Bool :=
  let ll := (a.lines i).ll
  let lu := (a.lines i).lu
  let nl := (a.levels ll).n
  let nu := (a.levels lu).n
  let gl : K := ((a.levels ll).g : K)
  let gu : K := ((a.levels lu).g : K)
  if nl < dbl_min then false
  else if nu * gl > nl * gu then true
  else false

/-- Version of `nlte_atom::compute_sobolev_tau` in `nlte_atom_opacities.cpp` (the wavelength
is `c / nu`, and nothing is printed). -/
def compute_sobolev_tau_opac (pc : physical_constants K) (ext : Externals K)
    (a : nlte_atom K) (i : Nat) (time : K) : K × nlte_atom K :=
  let ll := (a.lines i).ll
  let lu := (a.lines i).lu
  let nl := (a.levels ll).n
  let nu := (a.levels lu).n
  let gl : K := ((a.levels ll).g : K)
  let gu : K := ((a.levels lu).g : K)
  if nl < dbl_min then
    (0, set_line a i { a.lines i with tau := 0, etau := 1, beta := 1 })
  else
    let lam := pc.c / (a.lines i).nu
    let tau := nl * a.n_dens * pc.sigma_tot * (a.lines i).f_lu * time * lam
    let tau := tau * (1 - nu * gl / (nl * gu))
    if nu * gl > nl * gu then
      (0, set_line a i { a.lines i with tau := 0, etau := 1, beta := 1 })
    else
      let etau := ext.exp (-tau)
      (tau, set_line a i { a.lines i with etau := etau, tau := tau, beta := (1 - etau) / tau })

/-- Loop `nlte_atom::compute_sobolev_taus`. -/
def compute_sobolev_taus (pc : physical_constants K) (ext : Externals K)
    (a : nlte_atom K) (time : K) : nlte_atom K :=
  forLoop a.n_lines (fun i (s : nlte_atom K) => (compute_sobolev_tau pc ext s i time).2) a

/-- Lines 189-195 of `solve_lte`: partition functions. -/
def lte_partition (pc : physical_constants K) (ext : Externals K)
    (a : nlte_atom K) (T : K) : nlte_atom K :=
  let a := forLoop a.n_ions (fun i (s : nlte_atom K) =>
    set_ion s i { s.ions i with part := 0 }) a
  forLoop a.n_levels (fun i (s : nlte_atom K) =>
    let s := set_level s i { s.levels i with
      n := ((s.levels i).g : K) * ext.exp (-(s.levels i).E / pc.k_ev / T) }
    let k := (s.levels i).ion
    set_ion s k { s.ions k with part := (s.ions k).part + (s.levels i).n }) a

/-- Lines 197-216 of `solve_lte`: Saha ratios relative to ion 0; the state and `norm`. -/
def lte_saha_ratios (pc : physical_constants K) (ext : Externals K)
    (a : nlte_atom K) (T ne : K) : nlte_atom K × K :=
  -- thermal de Broglie wavelength
  let lt := pc.h * pc.h / (2.0 * pc.pi * pc.m_e * pc.k * T)
  let fac := 2 / ne / ext.pow lt 1.5
  -- Saha ratios
  let a := set_ion a 0 { a.ions 0 with frac := 1.0 }
  forLoop (a.n_ions - 1) (fun j (r : nlte_atom K × K) =>
    let i := j + 1
    let s := r.1
    let saha := ext.exp (-1.0 * (s.ions (i - 1)).chi / pc.k_ev / T)
    let saha := saha * ((s.ions i).part / (s.ions (i - 1)).part) * fac
    let s := set_ion s i { s.ions i with frac := saha * (s.ions (i - 1)).frac }
    let s := if ne < 1e-50 then set_ion s i { s.ions i with frac := 0 } else s
    (s, r.2 + (s.ions i).frac)) (a, 1.0)

/-- Lines 197-218 of `solve_lte`: Saha ratios and their normalisation. -/
def lte_saha (pc : physical_constants K) (ext : Externals K)
    (a : nlte_atom K) (T ne : K) : nlte_atom K :=
  let r := lte_saha_ratios pc ext a T ne
  let a := r.1
  let norm := r.2
  -- renormalize ionization fractions
  forLoop a.n_ions (fun i (s : nlte_atom K) =>
    set_ion s i { s.ions i with frac := (s.ions i).frac / norm }) a

/-- Lines 220-230 of `solve_lte`: level densities (Boltzmann factors). -/
def lte_levels (pc : physical_constants K) (ext : Externals K)
    (a : nlte_atom K) (T : K) : nlte_atom K :=
  forLoop a.n_levels (fun i (s : nlte_atom K) =>
    let E := (s.levels i).E
    let g : K := ((s.levels i).g : K)
    let Z := (s.ions (s.levels i).ion).part
    let f := (s.ions (s.levels i).ion).frac
    let n := f * g * ext.exp (-E / pc.k_ev / T) / Z
    set_level s i { s.levels i with n := n, n_lte := n, b := 1 }) a

/-- Routine `nlte_atom::solve_lte` (Saha-Boltzmann populations): partition functions, Saha
fractions, level densities, then the line optical depths. -/
def solve_lte (pc : physical_constants K) (ext : Externals K)
    (a : nlte_atom K) (T ne time : K) : nlte_atom K :=
  compute_sobolev_taus pc ext
    (lte_levels pc ext (lte_saha pc ext (lte_partition pc ext a T) T ne) T) time

/-- Statement `rates[i][j] += v`. -/
def add_rate (a : nlte_atom K) (i j : Nat) (v : K) : nlte_atom K :=
  set_rate a i j (a.rates i j + v)

/-- Photoionization integral of `set_rates` over the cross-section table `s_photo` of a
level (the inner loop of the bound-free block, which starts at `j = 1`). -/
def photoionization_rate (pc : physical_constants K) (ext : Externals K)
    (s_photo : xy_array K) (T : K) : K :=
  let W : K := 1.0
  forLoop (s_photo.size - 1) (fun m (R_ion : K) =>
    let j := m + 1
    let E := s_photo.x j
    let nu := E * pc.ev_to_ergs / pc.h
    let E_0 := s_photo.x (j - 1)
    let nu_0 := E_0 * pc.ev_to_ergs / pc.h
    let dnu := nu - nu_0
    let J := W * blackbody_nu pc ext T nu
    let sigma := s_photo.y j
    let sigma := sigma * (1 - ext.exp (-pc.h * nu / pc.k / T))
    R_ion + 4 * pc.pi * sigma * J / (pc.h * nu) * dnu) 0

/-- Routine `nlte_atom::set_rates`.  The local `norm` of the source (the sum of the
oscillator strengths) is never read and is left out. -/
def set_rates (pc : physical_constants K) (ext : Externals K)
    (a : nlte_atom K) (T ne : K) : nlte_atom K :=
  -- zero out rate matrix
  let a := forLoop a.n_levels (fun i (s : nlte_atom K) =>
    forLoop s.n_levels (fun j (s : nlte_atom K) => set_rate s i j 0) s) a
  -- radiative bound-bound transitions
  let a := forLoop a.n_lines (fun l (s : nlte_atom K) =>
    let lu := (s.lines l).lu
    let ll := (s.lines l).ll
    let R_ul := (s.lines l).B_ul * (s.lines l).J + (s.lines l).A_ul
    let R_lu := (s.lines l).B_lu * (s.lines l).J
    let R_ul := if s.use_betas then R_ul * (s.lines l).beta else R_ul
    let R_lu := if s.use_betas then R_lu * (s.lines l).beta else R_lu
    let s := add_rate s ll lu R_lu
    add_rate s lu ll R_ul) a
  -- non-thermal (radioactive) bound-bound transitions
  let a := forLoop a.n_lines (fun l (s : nlte_atom K) =>
    let lu := (s.lines l).lu
    let ll := (s.lines l).ll
    let dE := ((s.levels lu).E - (s.levels ll).E) * pc.ev_to_ergs
    let R_lu := s.e_gamma / s.n_dens / dE
    let R_lu := if ll ≠ 0 then 0 else R_lu
    add_rate s ll lu R_lu) a
  -- collisional bound-bound transitions
  let a := forLoop a.n_levels (fun i (s : nlte_atom K) =>
    forLoop s.n_levels (fun j (s : nlte_atom K) =>
      if i = j then s
      else if (s.levels i).ion ≠ (s.levels j).ion then s
      else
        let dE := (s.levels i).E - (s.levels j).E
        let zeta := dE / pc.k_ev / T
        let zeta := if zeta < 0 then -1 * zeta else zeta
        let C := 2.16 * ext.pow zeta (-1.68) * ext.pow T (-1.5)
        let C := if dE < 0 then
            let gl : K := ((s.levels i).g : K)
            let gu : K := ((s.levels j).g : K)
            C * gu / gl * ext.exp (-zeta)
          else C
        add_rate s i j C) s) a
  -- bound-free transitions
  let a := forLoop a.n_levels (fun i (s : nlte_atom K) =>
    let ic := (s.levels i).ic
    if ic = -1 then s
    else
      let ic := ic.toNat
      let istage := (s.levels i).ion
      let chi := (s.ions istage).chi - (s.levels i).E
      let zeta := chi / pc.k_ev / T
      let C_ion := 2.7 / zeta / zeta * ext.pow T (-1.5) * ext.exp (-zeta) * ne
      let s := add_rate s i ic C_ion
      let gi : K := ((s.levels i).g : K)
      let gc : K := ((s.levels ic).g : K)
      let C_rec := 5.59080e-16 / zeta / zeta * ext.pow T (-3) * gi / gc * ne * ne
      let s := add_rate s ic i C_rec
      let R_rec := ne * ext.value_at (s.levels i).a_rec T
      let R_rec := if s.no_ground_recomb then (if (s.levels i).E = 0 then 0 else R_rec) else R_rec
      let s := add_rate s ic i R_rec
      let R_ion := photoionization_rate pc ext (s.levels i).s_photo T
      add_rate s i ic R_ion) a
  -- multiply the rates by the LTE population of the level coming from
  forLoop a.n_levels (fun i (s : nlte_atom K) =>
    forLoop s.n_levels (fun j (s : nlte_atom K) => set_rate s i j (s.rates i j * (s.levels i).n_lte)) s) a

/-- Lines 429-453 of `solve_nlte`: clear the buffers and assemble the linear system
`M_nlte x = b_nlte` from `rates`. -/
def build_system (a : nlte_atom K) : nlte_atom K :=
  -- zero out matrix and vectors
  let a := { a with M_nlte := fun _ _ => 0, b_nlte := fun _ => 0, x_nlte := fun _ => 0,
                    p_nlte := fun i => i }
  -- diagonal elements of the rate matrix
  let a := forLoop a.n_levels (fun i (s : nlte_atom K) =>
    let Rout := forLoop s.n_levels (fun j (Rout : K) => Rout + s.rates i j) (0.0 : K)
    let Rout := -1 * Rout
    gsl_matrix_set s i i Rout) a
  -- off diagonal elements of the rate matrix
  let a := forLoop a.n_levels (fun i (s : nlte_atom K) =>
    forLoop s.n_levels (fun j (s : nlte_atom K) =>
      if i ≠ j then gsl_matrix_set s i j (s.rates j i) else s) s) a
  -- last row expresses number conservation
  let a := forLoop a.n_levels (fun i (s : nlte_atom K) =>
    gsl_matrix_set s (s.n_levels - 1) i (s.levels i).n_lte) a
  gsl_vector_set a (a.n_levels - 1) 1.0

/-- Lines 461-464 of `solve_nlte`: the two GSL calls.  The source does not read the value
either call returns. -/
def linear_solve (ext : Externals K) (a : nlte_atom K) : nlte_atom K :=
  let lu := ext.LU_decomp a.n_levels a.M_nlte
  let a := { a with M_nlte := lu.1, p_nlte := lu.2 }
  { a with x_nlte := ext.LU_solve a.n_levels a.M_nlte a.p_nlte a.b_nlte }

/-- Lines 466-480 of `solve_nlte`: install the populations, departure coefficients and
ion fractions from `x_nlte`. -/
def install_populations (a : nlte_atom K) : nlte_atom K :=
  -- the x vector holds the departure coefficients
  let a := forLoop a.n_levels (fun i (s : nlte_atom K) =>
    let b := s.x_nlte i
    let n_nlte := b * (s.levels i).n_lte
    set_level s i { s.levels i with n := n_nlte, b := b }) a
  -- set the ionization fraction
  let a := forLoop a.n_ions (fun i (s : nlte_atom K) =>
    set_ion s i { s.ions i with frac := 0 }) a
  forLoop a.n_levels (fun i (s : nlte_atom K) =>
    let k := (s.levels i).ion
    set_ion s k { s.ions k with frac := (s.ions k).frac + (s.levels i).n }) a

/-- Lines 461-480 of `solve_nlte`: solve, then install. -/
def solve_and_update (ext : Externals K) (a : nlte_atom K) : nlte_atom K :=
  install_populations (linear_solve ext a)

/-- Beta convergence test of `solve_nlte` (lines 484-495): recompute every line and report
whether all of them moved by at most `beta_tol`. -/
def check_betas (pc : physical_constants K) (ext : Externals K)
    (a : nlte_atom K) (time : K) : Bool × nlte_atom K :=
  let beta_tol : K := 0.1
  forLoop a.n_lines (fun i (r : Bool × nlte_atom K) =>
    let s := r.2
    let old_beta := (s.lines i).beta
    let s := (compute_sobolev_tau pc ext s i time).2
    let new_beta := (s.lines i).beta
    if |old_beta - new_beta| / new_beta > beta_tol then (false, s) else (r.1, s)) (true, a)

/-- One pass of the body of the iteration loop of `solve_nlte` up to the first `return`:
rates, system, solve, update. -/
def nlte_pass (pc : physical_constants K) (ext : Externals K)
    (a : nlte_atom K) (T ne : K) : nlte_atom K :=
  solve_and_update ext (build_system (set_rates pc ext a T ne))

/-- Iteration loop of `solve_nlte` with `iters` iterations left. -/
def nlte_loop (pc : physical_constants K) (ext : Externals K) (T ne time : K) :
    Nat → nlte_atom K → Int × nlte_atom K
  | 0, a => (0, a)
  | iters + 1, a =>
    let a := nlte_pass pc ext a T ne
    if !a.use_betas then (1, a)
    else
      let r := check_betas pc ext a time
      if r.1 then (1, r.2) else nlte_loop pc ext T ne time iters r.2

/-- Lines 408-419 of `solve_nlte`: LTE start and blackbody line intensities. -/
def nlte_init (pc : physical_constants K) (ext : Externals K)
    (a : nlte_atom K) (T ne time : K) : nlte_atom K :=
  let a := solve_lte pc ext a T ne time
  forLoop a.n_lines (fun i (s : nlte_atom K) =>
    let lam := (s.lines i).lam
    let nu := pc.c / (lam * pc.angs_to_cm)
    let W : K := 1.0
    set_line s i { s.lines i with J := W * blackbody_nu pc ext T nu }) a

/-- Routine `nlte_atom::solve_nlte`: the returned code and the state it leaves. -/
def solve_nlte (pc : physical_constants K) (ext : Externals K)
    (a : nlte_atom K) (T ne time : K) : Int × nlte_atom K :=
  let max_iter := 100
  nlte_loop pc ext T ne time max_iter (nlte_init pc ext a T ne time)

/-- The part of the state that `build_system` reads and leaves alone. -/
def same_inputs (s a : nlte_atom K) : Prop :=
  s.n_levels = a.n_levels ∧ s.n_ions = a.n_ions ∧ s.n_lines = a.n_lines ∧
  s.rates = a.rates ∧ s.levels = a.levels ∧ s.ions = a.ions ∧ s.lines = a.lines ∧
  s.use_betas = a.use_betas ∧ s.no_ground_recomb = a.no_ground_recomb ∧
  s.e_gamma = a.e_gamma ∧ s.n_dens = a.n_dens

/-- Entry `(i, j)` of the matrix that `build_system` assembles, read off the rates and the
LTE populations. -/
def system_entry (a : nlte_atom K) (i j : Nat) : K :=
  if i = a.n_levels - 1 then (a.levels j).n_lte
  else if i = j then -1 * ∑ k in Finset.range a.n_levels, a.rates i k
  else a.rates j i

/-- Every field other than `rates` agrees. -/
def same_but_rates (s a : nlte_atom K) : Prop :=
  s.n_levels = a.n_levels ∧ s.n_ions = a.n_ions ∧ s.n_lines = a.n_lines ∧
  s.levels = a.levels ∧ s.ions = a.ions ∧ s.lines = a.lines ∧
  s.use_betas = a.use_betas ∧ s.no_ground_recomb = a.no_ground_recomb ∧
  s.e_gamma = a.e_gamma ∧ s.n_dens = a.n_dens ∧
  s.M_nlte = a.M_nlte ∧ s.b_nlte = a.b_nlte ∧ s.x_nlte = a.x_nlte ∧ s.p_nlte = a.p_nlte


/-- Every field other than `levels` agrees. -/
def same_but_levels (s a : nlte_atom K) : Prop :=
  s.n_levels = a.n_levels ∧ s.n_ions = a.n_ions ∧ s.n_lines = a.n_lines ∧
  s.rates = a.rates ∧ s.ions = a.ions ∧ s.lines = a.lines ∧
  s.use_betas = a.use_betas ∧ s.no_ground_recomb = a.no_ground_recomb ∧
  s.e_gamma = a.e_gamma ∧ s.n_dens = a.n_dens ∧
  s.M_nlte = a.M_nlte ∧ s.b_nlte = a.b_nlte ∧ s.x_nlte = a.x_nlte ∧ s.p_nlte = a.p_nlte

/-- Every field other than `ions` agrees. -/
def same_but_ions (s a : nlte_atom K) : Prop :=
  s.n_levels = a.n_levels ∧ s.n_ions = a.n_ions ∧ s.n_lines = a.n_lines ∧
  s.rates = a.rates ∧ s.levels = a.levels ∧ s.lines = a.lines ∧
  s.use_betas = a.use_betas ∧ s.no_ground_recomb = a.no_ground_recomb ∧
  s.e_gamma = a.e_gamma ∧ s.n_dens = a.n_dens ∧
  s.M_nlte = a.M_nlte ∧ s.b_nlte = a.b_nlte ∧ s.x_nlte = a.x_nlte ∧ s.p_nlte = a.p_nlte


/-- Every field other than `levels` and `ions` agrees. -/
def same_but_pops (s a : nlte_atom K) : Prop :=
  s.n_levels = a.n_levels ∧ s.n_ions = a.n_ions ∧ s.n_lines = a.n_lines ∧
  s.rates = a.rates ∧ s.lines = a.lines ∧
  s.use_betas = a.use_betas ∧ s.no_ground_recomb = a.no_ground_recomb ∧
  s.e_gamma = a.e_gamma ∧ s.n_dens = a.n_dens ∧
  s.M_nlte = a.M_nlte ∧ s.b_nlte = a.b_nlte ∧ s.x_nlte = a.x_nlte ∧ s.p_nlte = a.p_nlte

/-- Boltzmann weight `g * exp(-E / k_ev / T)` of level `i`, as `solve_lte` computes it. -/
def boltz (pc : physical_constants K) (ext : Externals K) (a : nlte_atom K) (T : K)
    (i : Nat) : K :=
  ((a.levels i).g : K) * ext.exp (-(a.levels i).E / pc.k_ev / T)

/-- Partition function of ion `k`: the Boltzmann weights of its levels, added in level
order. -/
def partition_fn (pc : physical_constants K) (ext : Externals K) (a : nlte_atom K) (T : K)
    (k : Nat) : K :=
  ∑ i in Finset.range a.n_levels, if (a.levels i).ion = k then boltz pc ext a T i else 0

/-- Factor `2 / ne / pow(lt, 1.5)` of `solve_lte`. -/
def saha_fac (pc : physical_constants K) (ext : Externals K) (T ne : K) : K :=
  2 / ne / ext.pow (pc.h * pc.h / (2.0 * pc.pi * pc.m_e * pc.k * T)) 1.5

/-- Saha ratio of ion `i` to ion `i - 1` as `solve_lte` computes it from ionization
energies `chi` and partition functions `Z`. -/
def saha_ratio (pc : physical_constants K) (ext : Externals K) (chi Z : Nat → K)
    (T ne : K) (i : Nat) : K :=
  ext.exp (-1.0 * chi (i - 1) / pc.k_ev / T) * (Z i / Z (i - 1)) * saha_fac pc ext T ne

/-- Ionization fractions relative to ion 0, before normalisation. -/
def saha_frac (pc : physical_constants K) (ext : Externals K) (chi Z : Nat → K)
    (T ne : K) : Nat → K
  | 0 => 1.0
  | i + 1 =>
    if ne < 1e-50 then 0
    else saha_ratio pc ext chi Z T ne (i + 1) * saha_frac pc ext chi Z T ne i

/-- Normalisation `norm` of `solve_lte` for `n_ions` ions. -/
def saha_norm (pc : physical_constants K) (ext : Externals K) (chi Z : Nat → K)
    (T ne : K) (n_ions : Nat) : K :=
  1.0 + ∑ i in Finset.range (n_ions - 1), saha_frac pc ext chi Z T ne (i + 1)

/-- Partition function field of ion `k` after `lte_partition` (an ion outside the range
`n_ions` is not cleared first). -/
def lte_part (pc : physical_constants K) (ext : Externals K) (a : nlte_atom K) (T : K)
    (k : Nat) : K :=
  (if k < a.n_ions then 0 else (a.ions k).part) + partition_fn pc ext a T k

/-- Ionization energies of the ions. -/
def ion_chi (a : nlte_atom K) (k : Nat) : K := (a.ions k).chi

/-- Ion fraction of ion `k` after `solve_lte`. -/
def lte_frac (pc : physical_constants K) (ext : Externals K) (a : nlte_atom K) (T ne : K)
    (k : Nat) : K :=
  saha_frac pc ext (ion_chi a) (lte_part pc ext a T) T ne k /
    saha_norm pc ext (ion_chi a) (lte_part pc ext a T) T ne a.n_ions

/-- Every field other than `lines` agrees. -/
def same_but_lines (s a : nlte_atom K) : Prop :=
  s.n_levels = a.n_levels ∧ s.n_ions = a.n_ions ∧ s.n_lines = a.n_lines ∧
  s.rates = a.rates ∧ s.levels = a.levels ∧ s.ions = a.ions ∧
  s.use_betas = a.use_betas ∧ s.no_ground_recomb = a.no_ground_recomb ∧
  s.e_gamma = a.e_gamma ∧ s.n_dens = a.n_dens ∧
  s.M_nlte = a.M_nlte ∧ s.b_nlte = a.b_nlte ∧ s.x_nlte = a.x_nlte ∧ s.p_nlte = a.p_nlte

/-- Round trip between levels and ions: the fraction of every ion is the sum of the
populations of the levels it owns. -/
def ion_fracs_consistent (s : nlte_atom K) : Prop :=
  ∀ k, k < s.n_ions →
    ∑ i in (Finset.range s.n_levels).filter (fun i => (s.levels i).ion = k), (s.levels i).n =
      (s.ions k).frac

/-- The sizes and the caller's settings agree. -/
def same_config (s a : nlte_atom K) : Prop :=
  s.n_levels = a.n_levels ∧ s.n_ions = a.n_ions ∧ s.n_lines = a.n_lines ∧
  s.use_betas = a.use_betas ∧ s.no_ground_recomb = a.no_ground_recomb ∧
  s.e_gamma = a.e_gamma ∧ s.n_dens = a.n_dens

/-- The rates balance at level `i`: what flows in equals what flows out. -/
def rates_balance (a : nlte_atom K) (i : Nat) : Prop :=
  (∑ j in Finset.range a.n_levels, if j = i then 0 else a.rates j i) =
    ∑ j in Finset.range a.n_levels, a.rates i j

/-- Vector `x` solves the `n` by `n` system `M x = b`. -/
def solves (n : Nat) (M : Nat → Nat → K) (b x : Nat → K) : Prop :=
  ∀ i, i < n → ∑ j in Finset.range n, M i j * x j = b i

/-- The `n` by `n` block of `M` is singular: some vector that is not zero on the block is
sent to zero. -/
def singular (n : Nat) (M : Nat → Nat → K) : Prop :=
  ∃ v : Nat → K, (∃ i, i < n ∧ v i ≠ 0) ∧ solves n M (fun _ => 0) v

/-- The line record `compute_sobolev_tau` leaves when it clamps: `tau = 0`, `etau = 1`,
`beta = 1`, every other field as before. -/
def clamped_line (l : nlte_line K) : nlte_line K :=
  { l with tau := 0, etau := 1, beta := 1 }

/-- The lower level of line `i` is empty in the sense of `compute_sobolev_tau`. -/
def lower_empty (a : nlte_atom K) (i : Nat) : Prop :=
  (a.levels (a.lines i).ll).n < dbl_min

/-- The populations of line `i` are inverted: `n_upper * g_lower > n_lower * g_upper`. -/
def inverted (a : nlte_atom K) (i : Nat) : Prop :=
  (a.levels (a.lines i).lu).n * ((a.levels (a.lines i).ll).g : K) >
    (a.levels (a.lines i).ll).n * ((a.levels (a.lines i).lu).g : K)

/-- Optical depth of line `i` in the regular branch of `compute_sobolev_tau`, for a
wavelength `lam` in cm:
`n_lower * n_dens * sigma_tot * f_lu * time * lam * (1 - n_upper * g_lower / (n_lower * g_upper))`. -/
def sobolev_tau (pc : physical_constants K) (a : nlte_atom K) (i : Nat) (time lam : K) : K :=
  (a.levels (a.lines i).ll).n * a.n_dens * pc.sigma_tot * (a.lines i).f_lu * time * lam *
    (1 - (a.levels (a.lines i).lu).n * ((a.levels (a.lines i).ll).g : K) /
      ((a.levels (a.lines i).ll).n * ((a.levels (a.lines i).lu).g : K)))

/-- The line record the regular branch of `compute_sobolev_tau` leaves for optical depth
`tau`: `etau = exp(-tau)`, `beta = (1 - etau) / tau`, every other field as before. -/
def regular_line (ext : Externals K) (l : nlte_line K) (tau : K) : nlte_line K :=
  { l with etau := ext.exp (-tau), tau := tau, beta := (1 - ext.exp (-tau)) / tau }

/-- First loop of `set_rates`: zero out the rate matrix. -/
def rates_zero (a : nlte_atom K) : nlte_atom K :=
  forLoop a.n_levels (fun i (s : nlte_atom K) =>
    forLoop s.n_levels (fun j (s : nlte_atom K) => set_rate s i j 0) s) a

/-- Local `R_ul` of the radiative loop of `set_rates` for line `l`, as it is added. -/
def R_ul (s : nlte_atom K) (l : Nat) : K :=
  let R_ul := (s.lines l).B_ul * (s.lines l).J + (s.lines l).A_ul
  if s.use_betas then R_ul * (s.lines l).beta else R_ul

/-- Local `R_lu` of the radiative loop of `set_rates` for line `l`, as it is added. -/
def R_lu (s : nlte_atom K) (l : Nat) : K :=
  let R_lu := (s.lines l).B_lu * (s.lines l).J
  if s.use_betas then R_lu * (s.lines l).beta else R_lu

/-- Body of the radiative bound-bound loop of `set_rates` for line `l`. -/
def radiative_step (l : Nat) (s : nlte_atom K) : nlte_atom K :=
  let lu := (s.lines l).lu
  let ll := (s.lines l).ll
  let s1 := add_rate s ll lu (R_lu s l)
  add_rate s1 lu ll (R_ul s l)

/-- Radiative bound-bound loop of `set_rates`. -/
def rates_radiative (a : nlte_atom K) : nlte_atom K :=
  forLoop a.n_lines radiative_step a

/-- Local `R_lu` of the non-thermal loop of `set_rates` for line `l`, as it is added. -/
def R_lu_nonthermal (pc : physical_constants K) (s : nlte_atom K) (l : Nat) : K :=
  let lu := (s.lines l).lu
  let ll := (s.lines l).ll
  let dE := ((s.levels lu).E - (s.levels ll).E) * pc.ev_to_ergs
  let R_lu := s.e_gamma / s.n_dens / dE
  if ll ≠ 0 then 0 else R_lu

/-- Non-thermal bound-bound loop of `set_rates`. -/
def rates_nonthermal (pc : physical_constants K) (a : nlte_atom K) : nlte_atom K :=
  forLoop a.n_lines (fun l (s : nlte_atom K) =>
    add_rate s (s.lines l).ll (s.lines l).lu (R_lu_nonthermal pc s l)) a

/-- Local `C` of the collisional loop of `set_rates` for the ordered pair `(i, j)`, as it is
added when the pair is not skipped. -/
def C_coll (pc : physical_constants K) (ext : Externals K) (s : nlte_atom K) (T : K)
    (i j : Nat) : K :=
  let dE := (s.levels i).E - (s.levels j).E
  let zeta := dE / pc.k_ev / T
  let zeta := if zeta < 0 then -1 * zeta else zeta
  let C := 2.16 * ext.pow zeta (-1.68) * ext.pow T (-1.5)
  if dE < 0 then
    let gl : K := ((s.levels i).g : K)
    let gu : K := ((s.levels j).g : K)
    C * gu / gl * ext.exp (-zeta)
  else C

/-- Body of the collisional bound-bound loop of `set_rates` for the pair `(i, j)`. -/
def collisional_step (pc : physical_constants K) (ext : Externals K) (T : K)
    (i j : Nat) (s : nlte_atom K) : nlte_atom K :=
  if i = j then s
  else if (s.levels i).ion ≠ (s.levels j).ion then s
  else add_rate s i j (C_coll pc ext s T i j)

/-- Collisional bound-bound loop of `set_rates`. -/
def rates_collisional (pc : physical_constants K) (ext : Externals K)
    (a : nlte_atom K) (T : K) : nlte_atom K :=
  forLoop a.n_levels (fun i (s : nlte_atom K) =>
    forLoop s.n_levels (fun j (s : nlte_atom K) => collisional_step pc ext T i j s) s) a

/-- Local `zeta` of the bound-free loop of `set_rates` for level `i`. -/
def zeta_ion (pc : physical_constants K) (s : nlte_atom K) (T : K) (i : Nat) : K :=
  let istage := (s.levels i).ion
  let chi := (s.ions istage).chi - (s.levels i).E
  chi / pc.k_ev / T

/-- Local `C_ion` of the bound-free loop of `set_rates`: collisional ionization of level `i`. -/
def C_ion (pc : physical_constants K) (ext : Externals K) (s : nlte_atom K) (T ne : K)
    (i : Nat) : K :=
  let zeta := zeta_ion pc s T i
  2.7 / zeta / zeta * ext.pow T (-1.5) * ext.exp (-zeta) * ne

/-- Local `C_rec` of the bound-free loop of `set_rates`: collisional (three-body)
recombination onto level `i`. -/
def C_rec (pc : physical_constants K) (ext : Externals K) (s : nlte_atom K) (T ne : K)
    (i : Nat) : K :=
  let zeta := zeta_ion pc s T i
  let ic := (s.levels i).ic.toNat
  let gi : K := ((s.levels i).g : K)
  let gc : K := ((s.levels ic).g : K)
  5.59080e-16 / zeta / zeta * ext.pow T (-3) * gi / gc * ne * ne

/-- Local `R_rec` of the bound-free loop of `set_rates`: radiative recombination onto level
`i`, as it is added. -/
def R_rec (ext : Externals K) (s : nlte_atom K) (T ne : K) (i : Nat) : K :=
  let R_rec := ne * ext.value_at (s.levels i).a_rec T
  if s.no_ground_recomb then (if (s.levels i).E = 0 then 0 else R_rec) else R_rec

/-- Body of the bound-free loop of `set_rates` for level `i`. -/
def bound_free_step (pc : physical_constants K) (ext : Externals K) (T ne : K)
    (i : Nat) (s : nlte_atom K) : nlte_atom K :=
  let ic := (s.levels i).ic
  if ic = -1 then s
  else
    let ic := ic.toNat
    let s1 := add_rate s i ic (C_ion pc ext s T ne i)
    let s2 := add_rate s1 ic i (C_rec pc ext s1 T ne i)
    let s3 := add_rate s2 ic i (R_rec ext s2 T ne i)
    add_rate s3 i ic (photoionization_rate pc ext (s3.levels i).s_photo T)

/-- Bound-free loop of `set_rates`. -/
def rates_bound_free (pc : physical_constants K) (ext : Externals K)
    (a : nlte_atom K) (T ne : K) : nlte_atom K :=
  forLoop a.n_levels (bound_free_step pc ext T ne) a

/-- Last loop of `set_rates`: multiply every rate by the LTE population of the level it
leaves. -/
def rates_weight (a : nlte_atom K) : nlte_atom K :=
  forLoop a.n_levels (fun i (s : nlte_atom K) =>
    forLoop s.n_levels (fun j (s : nlte_atom K) =>
      set_rate s i j (s.rates i j * (s.levels i).n_lte)) s) a

/-- What the radiative loop of `set_rates` adds to `rates[i][j]`, summed over the lines. -/
def radiative_channel (a : nlte_atom K) (i j : Nat) : K :=
  ∑ l in Finset.range a.n_lines,
    ((if i = (a.lines l).ll ∧ j = (a.lines l).lu then R_lu a l else 0) +
     (if i = (a.lines l).lu ∧ j = (a.lines l).ll then R_ul a l else 0))

/-- What the non-thermal loop of `set_rates` adds to `rates[i][j]`, summed over the lines. -/
def nonthermal_channel (pc : physical_constants K) (a : nlte_atom K) (i j : Nat) : K :=
  ∑ l in Finset.range a.n_lines,
    (if i = (a.lines l).ll ∧ j = (a.lines l).lu then R_lu_nonthermal pc a l else 0)

/-- What the collisional loop of `set_rates` adds to `rates[i][j]`. -/
def collisional_channel (pc : physical_constants K) (ext : Externals K) (a : nlte_atom K)
    (T : K) (i j : Nat) : K :=
  if i = j then 0
  else if (a.levels i).ion ≠ (a.levels j).ion then 0
  else C_coll pc ext a T i j

/-- What the bound-free loop of `set_rates` adds to `rates[i][j]`, summed over the levels. -/
def bound_free_channel (pc : physical_constants K) (ext : Externals K) (a : nlte_atom K)
    (T ne : K) (i j : Nat) : K :=
  ∑ k in Finset.range a.n_levels,
    (if (a.levels k).ic = -1 then 0
     else
      (if i = k ∧ j = (a.levels k).ic.toNat then
        C_ion pc ext a T ne k + photoionization_rate pc ext (a.levels k).s_photo T else 0) +
      (if i = (a.levels k).ic.toNat ∧ j = k then
        C_rec pc ext a T ne k + R_rec ext a T ne k else 0))

/-- Outcome of the beta test of `solve_nlte` on the state `s` left by the update: every line
has `|beta_old - beta_new| / beta_new <= 0.1`, where `beta_old` is the beta stored in the
line and `beta_new` the one `compute_sobolev_tau` computes from the populations of `s`.
With the true exponential `beta_new = 0` arises only as the quotient `0 / 0` of the regular
branch at `tau = 0`; the ratio is then 0 here, while in the code it is not a number and the
test `> 0.1` is false, so the line passes the test there as well. -/
def betas_converged (pc : physical_constants K) (ext : Externals K)
    (s : nlte_atom K) (time : K) : Prop :=
  ∀ i, i < s.n_lines →
    |(s.lines i).beta - ((compute_sobolev_tau pc ext s i time).2.lines i).beta| /
      ((compute_sobolev_tau pc ext s i time).2.lines i).beta ≤ 0.1

/-- State at the end of iteration `k` of the loop of `solve_nlte` with escape feedback, when
no earlier iteration returned: `k` times a pass followed by the beta test. -/
def nlte_iterate (pc : physical_constants K) (ext : Externals K) (T ne time : K) :
    Nat → nlte_atom K → nlte_atom K
  | 0, a => a
  | k + 1, a =>
    (check_betas pc ext (nlte_pass pc ext (nlte_iterate pc ext T ne time k a) T ne) time).2

/-- Number of iterations the loop of `solve_nlte` runs with `iters` iterations left (the
value of `iter + 1` at a `return` inside the loop, `iters` when the loop runs out). -/
def nlte_loop_iters (pc : physical_constants K) (ext : Externals K) (T ne time : K) :
    Nat → nlte_atom K → Nat
  | 0, _ => 0
  | iters + 1, a =>
    let a := nlte_pass pc ext a T ne
    if !a.use_betas then 1
    else
      let r := check_betas pc ext a time
      if r.1 then 1 else 1 + nlte_loop_iters pc ext T ne time iters r.2

/-- The beta test of iteration `k + 1` of the loop of `solve_nlte` started in state `a`
succeeds (no earlier iteration having returned). -/
def converged_at (pc : physical_constants K) (ext : Externals K) (T ne time : K)
    (a : nlte_atom K) (k : Nat) : Prop :=
  betas_converged pc ext (nlte_pass pc ext (nlte_iterate pc ext T ne time k a) T ne) time

/-- Frequency of point `j` of a cross-section table, `x[j] * ev_to_ergs / h`. -/
def table_nu (pc : physical_constants K) (t : xy_array K) (j : Nat) : K :=
  t.x j * pc.ev_to_ergs / pc.h

/-- Integrand of the photoionization rate at point `j` of a cross-section table, in the
words of the specification: `4 * pi * sigma * J / (h * nu) * (1 - exp(-h * nu / (k * T)))`
with `J` the Planck function at `T`. -/
def photo_integrand (pc : physical_constants K) (ext : Externals K) (t : xy_array K)
    (T : K) (j : Nat) : K :=
  4 * pc.pi * t.y j * blackbody_nu pc ext T (table_nu pc t j) / (pc.h * table_nu pc t j) *
    (1 - ext.exp (-pc.h * table_nu pc t j / (pc.k * T)))

/-- Trapezoidal rule for the photoionization integrand over the points of a table: the sum
over consecutive points of `(f(nu_{j-1}) + f(nu_j)) / 2 * (nu_j - nu_{j-1})`. -/
def trapezoid_rule (pc : physical_constants K) (ext : Externals K) (t : xy_array K)
    (T : K) : K :=
  ∑ m in Finset.range (t.size - 1),
    (photo_integrand pc ext t T m + photo_integrand pc ext t T (m + 1)) / 2 *
      (table_nu pc t (m + 1) - table_nu pc t m)

/-- Right-endpoint rule for the photoionization integrand over the points of a table: the
sum over consecutive points of `f(nu_j) * (nu_j - nu_{j-1})`. -/
def right_endpoint_rule (pc : physical_constants K) (ext : Externals K) (t : xy_array K)
    (T : K) : K :=
  ∑ m in Finset.range (t.size - 1),
    photo_integrand pc ext t T (m + 1) * (table_nu pc t (m + 1) - table_nu pc t m)

/-- Two states hold the same species and the same settings: sizes, `n_dens`, `e_gamma`, the
two switches, and the atomic data of every level, ion and line in range.  The working
fields (level `n`, `n_lte`, `b`; ion `part`, `frac`; line `J`, `tau`, `etau`, `beta`; the
rates and the solver buffers) are left free. -/
def same_atomic_data (s1 s2 : nlte_atom K) : Prop :=
  s1.n_levels = s2.n_levels ∧ s1.n_ions = s2.n_ions ∧ s1.n_lines = s2.n_lines ∧
  s1.n_dens = s2.n_dens ∧ s1.e_gamma = s2.e_gamma ∧ s1.use_betas = s2.use_betas ∧
  s1.no_ground_recomb = s2.no_ground_recomb ∧
  (∀ i, i < s1.n_levels →
    (s1.levels i).id = (s2.levels i).id ∧ (s1.levels i).ion = (s2.levels i).ion ∧
    (s1.levels i).g = (s2.levels i).g ∧ (s1.levels i).E = (s2.levels i).E ∧
    (s1.levels i).E_ion = (s2.levels i).E_ion ∧ (s1.levels i).ic = (s2.levels i).ic ∧
    (s1.levels i).s_photo = (s2.levels i).s_photo ∧
    (s1.levels i).a_rec = (s2.levels i).a_rec) ∧
  (∀ k, k < s1.n_ions →
    (s1.ions k).stage = (s2.ions k).stage ∧ (s1.ions k).ground = (s2.ions k).ground ∧
    (s1.ions k).chi = (s2.ions k).chi) ∧
  (∀ l, l < s1.n_lines →
    (s1.lines l).ll = (s2.lines l).ll ∧ (s1.lines l).lu = (s2.lines l).lu ∧
    (s1.lines l).A_ul = (s2.lines l).A_ul ∧ (s1.lines l).B_ul = (s2.lines l).B_ul ∧
    (s1.lines l).B_lu = (s2.lines l).B_lu ∧ (s1.lines l).f_lu = (s2.lines l).f_lu ∧
    (s1.lines l).lam = (s2.lines l).lam ∧ (s1.lines l).nu = (s2.lines l).nu ∧
    (s1.lines l).bin = (s2.lines l).bin)

/-- Every index stored in the species points into its arrays: the ion of a level, the
ionization target of a level (or -1), and the two levels of a line. -/
def valid_indices (a : nlte_atom K) : Prop :=
  (∀ i, i < a.n_levels → (a.levels i).ion < a.n_ions ∧
    ((a.levels i).ic = -1 ∨ (a.levels i).ic.toNat < a.n_levels)) ∧
  (∀ l, l < a.n_lines → (a.lines l).ll < a.n_levels ∧ (a.lines l).lu < a.n_levels)

/-- Two states agree on every level, ion and line in range. -/
def same_records (s1 s2 : nlte_atom K) : Prop :=
  (∀ i, i < s1.n_levels → s1.levels i = s2.levels i) ∧
  (∀ k, k < s1.n_ions → s1.ions k = s2.ions k) ∧
  (∀ l, l < s1.n_lines → s1.lines l = s2.lines l)

/-- Two states hold the same working data: every level, ion and line in range, the rates
of the `n_levels` by `n_levels` block, and the four solver buffers. -/
def same_working (s1 s2 : nlte_atom K) : Prop :=
  same_records s1 s2 ∧
  (∀ i j, i < s1.n_levels → j < s1.n_levels → s1.rates i j = s2.rates i j) ∧
  s1.M_nlte = s2.M_nlte ∧ s1.b_nlte = s2.b_nlte ∧ s1.x_nlte = s2.x_nlte ∧
  s1.p_nlte = s2.p_nlte

/-! ### Opacities (`nlte_atom_opacities.cpp`) -/

/-- Class `locate_array` (declared outside the sources): a grid of `n` points `x[i]`. -/
structure locate_array (K : Type) where
  n : Nat
  x : Nat → K

/-- Size of a grid, `locate_array::size()`. -/
def locate_array.size (g : locate_array K) : Nat := g.n

/-- Members of class `nlte_atom` that only the opacity routines read. -/
structure opacity_members (K : Type) where
  nu_grid : locate_array K
  gas_temp_ : K
  line_beta_dop_ : K
  minimum_extinction_ : K

/-- Routines the opacity code calls but the sources do not define, as parameters. -/
structure OpacityExternals (K : Type) where
  /-- libm `sqrt`. -/
  sqrt : K → K
  /-- Interpolation `xy_array::value_at_with_zero_edges`. -/
  value_at_with_zero_edges : xy_array K → K → K
  /-- Bin search `locate_array::locate`. -/
  locate : locate_array K → K → Nat
  /-- Bin centre `locate_array::center`. -/
  center : locate_array K → Nat → K
  /-- Line profile `voigt_profile_.getProfile(x, a)`. -/
  getProfile : K → K → K

/-- First loop of both opacity routines: `opac[i] = 0; emis[i] = 0` for `i < opac.size()`. -/
def zero_arrays (opac emis : Nat → K) (opac_size : Nat) : (Nat → K) × (Nat → K) :=
  forLoop opac_size (fun i (r : (Nat → K) × (Nat → K)) =>
    (Function.update r.1 i 0, Function.update r.2 i 0)) (opac, emis)

/-- Local `lam_t` of `bound_free_opacity`. -/
def lam_t (pc : physical_constants K) (oext : OpacityExternals K) (m : opacity_members K) : K :=
  oext.sqrt (pc.h * pc.h / (2 * pc.pi * pc.m_e * pc.k * m.gas_temp_))

/-- Local array `nc_phifac` of `bound_free_opacity` (a `std::vector<double>(n_levels)`, zero
where the loop does not store). -/
def nc_phifac (pc : physical_constants K) (oext : OpacityExternals K) (a : nlte_atom K)
    (m : opacity_members K) : Nat → K :=
  forLoop a.n_levels (fun j (v : Nat → K) =>
    let ic := (a.levels j).ic
    if ic = -1 then v
    else
      let nc := a.n_dens * (a.levels ic.toNat).n
      let gl_o_gc := (1.0 * ((a.levels j).g : K)) / (1.0 * ((a.levels ic.toNat).g : K))
      Function.update v j (nc * gl_o_gc / 2 * lam_t pc oext m * lam_t pc oext m *
        lam_t pc oext m)) (fun _ => 0)

/-- Routine `nlte_atom::bound_free_opacity`: the arrays `opac` and `emis` it leaves. -/
def bound_free_opacity (pc : physical_constants K) (ext : Externals K)
    (oext : OpacityExternals K) (a : nlte_atom K) (m : opacity_members K)
    (opac emis : Nat → K) (opac_size : Nat) (ne : K) : (Nat → K) × (Nat → K) :=
  -- zero out arrays
  let r := zero_arrays opac emis opac_size
  let ng := m.nu_grid.size
  let kt_ev := pc.k_ev * m.gas_temp_
  let nc_phifac := nc_phifac pc oext a m
  forLoop ng (fun i (r : (Nat → K) × (Nat → K)) =>
    let r := (Function.update r.1 i 0, r.2)
    let nu := m.nu_grid.x i
    let E := pc.h * nu * pc.ergs_to_ev
    let emis_fac := 2 * pc.h * nu * nu * nu / pc.c / pc.c
    forLoop a.n_levels (fun j (r : (Nat → K) × (Nat → K)) =>
      -- check if above threshold
      if E < (a.levels j).E_ion then r
      else
        -- check if there is an ionization stage above
        let ic := (a.levels j).ic
        if ic = -1 then r
        else
          let zeta_net := ((a.levels j).E_ion - E) / kt_ev
          let ezeta_net := ext.exp zeta_net
          let sigma := oext.value_at_with_zero_edges (a.levels j).s_photo E
          (Function.update r.1 i
            (r.1 i + sigma * (a.n_dens * (a.levels j).n - nc_phifac j * ne * ezeta_net)),
           Function.update r.2 i
            (r.2 i + emis_fac * sigma * nc_phifac j * ezeta_net))) r) r

/-- Term that level `j` contributes to the extinction at photon energy `E`, in the words of
the specification:
`sigma_j(E) * (n_dens * n_j - n_dens * n_ic * (g_j / g_ic) * (lam_t^3 / 2) * n_e *
exp((E_ion_j - E) / kT))`. -/
def bound_free_term (pc : physical_constants K) (ext : Externals K)
    (oext : OpacityExternals K) (a : nlte_atom K) (m : opacity_members K) (ne E : K)
    (j : Nat) : K :=
  oext.value_at_with_zero_edges (a.levels j).s_photo E *
    (a.n_dens * (a.levels j).n -
      a.n_dens * (a.levels (a.levels j).ic.toNat).n *
        (((a.levels j).g : K) / ((a.levels (a.levels j).ic.toNat).g : K)) *
        (lam_t pc oext m ^ 3 / 2) * ne *
        ext.exp (((a.levels j).E_ion - E) / (pc.k_ev * m.gas_temp_)))

/-- Local `alpha_0` of `bound_bound_opacity` for the line record `l`, after the correction
for stimulated emission. -/
def alpha_0 (pc : physical_constants K) (a : nlte_atom K) (l : nlte_line K) : K :=
  let nlow := (a.levels l.ll).n
  let nup := (a.levels l.lu).n
  let glow : K := ((a.levels l.ll).g : K)
  let gup : K := ((a.levels l.lu).g : K)
  let alpha_0 := nlow * a.n_dens * gup / glow * l.A_ul / (8 * pc.pi) * pc.c * pc.c
  -- correction for stimulated emission
  alpha_0 * (1 - nup * glow / (nlow * gup))

/-- Body of the line loop of `bound_bound_opacity` for the line record `l = lines[i]`.  The
bins `inu1`, `inu2` that `locate` returns are array indices, hence natural numbers; the inner
loop runs over `inu1 <= j < inu2`. -/
def line_opacity (pc : physical_constants K) (oext : OpacityExternals K) (a : nlte_atom K)
    (m : opacity_members K) (l : nlte_line K) (r : (Nat → K) × (Nat → K)) :
    (Nat → K) × (Nat → K) :=
  let nlow := (a.levels l.ll).n
  let nup := (a.levels l.lu).n
  let nu_0 := l.nu
  let dnu := m.line_beta_dop_ * nu_0
  let gamma := l.A_ul
  let a_voigt := gamma / 4 / pc.pi / dnu
  -- extinction coefficient
  if nlow = 0 then r
  else
    let alpha_0 := alpha_0 pc a l
    if alpha_0 ≤ 0 then r
    -- don't bother calculating very small opacities
    else if alpha_0 / (nu_0 * nu_0 * dnu) < m.minimum_extinction_ then r
    else
      -- region to add to
      let nu_1 := nu_0 - dnu * 5
      let nu_2 := nu_0 + dnu * 5
      let inu1 := oext.locate m.nu_grid nu_1
      let inu2 := oext.locate m.nu_grid nu_2
      -- line emissivity
      let line_j := l.A_ul * nup * a.n_dens * pc.h / (4.0 * pc.pi)
      forLoop (inu2 - inu1) (fun k (r : (Nat → K) × (Nat → K)) =>
        let j := inu1 + k
        let nu := oext.center m.nu_grid j
        let x := (nu_0 - nu) / dnu
        let phi := oext.getProfile x a_voigt / dnu
        (Function.update r.1 j (r.1 j + alpha_0 / nu / nu * phi),
         Function.update r.2 j (r.2 j + line_j * nu * phi))) r

/-- Routine `nlte_atom::bound_bound_opacity`: the arrays `opac` and `emis` it leaves. -/
def bound_bound_opacity (pc : physical_constants K) (oext : OpacityExternals K)
    (a : nlte_atom K) (m : opacity_members K) (opac emis : Nat → K) (opac_size : Nat) :
    (Nat → K) × (Nat → K) :=
  -- zero out arrays
  let r := zero_arrays opac emis opac_size
  -- loop over all lines
  forLoop a.n_lines (fun i (r : (Nat → K) × (Nat → K)) =>
    line_opacity pc oext a m (a.lines i) r) r

/-- The line record `l` is one that `bound_bound_opacity` skips: empty lower level,
non-positive `alpha_0`, or line-centre extinction below `minimum_extinction_`. -/
def line_skipped (pc : physical_constants K) (a : nlte_atom K) (m : opacity_members K)
    (l : nlte_line K) : Prop :=
  (a.levels l.ll).n = 0 ∨ alpha_0 pc a l ≤ 0 ∨
    alpha_0 pc a l / (l.nu * l.nu * (m.line_beta_dop_ * l.nu)) < m.minimum_extinction_

/-- The species with line `k` taken out of the line list. -/
def remove_line (a : nlte_atom K) (k : Nat) : nlte_atom K :=
  { a with n_lines := a.n_lines - 1,
           lines := fun i => if i < k then a.lines i else a.lines (i + 1) }

/-! ### Model files (`grid_1D_sphere.cpp`) -/

/-- Record `zone` (declared outside the sources): the fields the two readers set.  The
vector `X_gas` is a function with its size. -/
structure zone (K : Type) where
  v0 : K
  rho : K
  T_gas : K
  e_rad : K
  mu : K
  X_gas : Nat → K
  X_gas_size : Nat

/-- The part of class `grid_1D_sphere` that the two readers touch. -/
structure grid_1D_sphere (K : Type) where
  n_zones : Nat
  n_elems : Nat
  z : Nat → zone K
  r_out : Nat → K
  r_out_min : K
  vol : Nat → K
  t_now : K
  elems_A : Nat → Int

/-- Store `z[i] = v`. -/
def set_zone (g : grid_1D_sphere K) (i : Nat) (v : zone K) : grid_1D_sphere K :=
  { g with z := Function.update g.z i v }

/-- Call `X_gas.resize(n)`: old entries kept, new ones zero. -/
def resize_X_gas (zi : zone K) (n : Nat) : zone K :=
  { zi with X_gas := fun k => if k < zi.X_gas_size then zi.X_gas k else 0, X_gas_size := n }

/-- Call `X_gas.push_back(x)`. -/
def push_back_X_gas (zi : zone K) (x : K) : zone K :=
  { zi with X_gas := Function.update zi.X_gas zi.X_gas_size x,
            X_gas_size := zi.X_gas_size + 1 }

/-- Block `Make sure initial compositions are normalized, and compute mu` of both readers
for one zone. -/
def normalize_composition (n_elems : Nat) (elems_A : Nat → Int) (norm : K) (zi : zone K) :
    zone K :=
  let zi := { zi with mu := 0 }
  forLoop n_elems (fun k (zi : zone K) =>
    let zi := { zi with X_gas := Function.update zi.X_gas k (zi.X_gas k / norm) }
    { zi with mu := zi.mu + zi.X_gas k * (elems_A k : K) }) zi

/-- Body of the zone loop of the mass-fraction block of `read_hdf5_file` (lines 190-208):
the read counter `cnt` and the grid. -/
def hdf5_zone (ctmp : Nat → K) (i : Nat) (r : Nat × grid_1D_sphere K) :
    Nat × grid_1D_sphere K :=
  let g := r.2
  let zi := resize_X_gas (g.z i) g.n_elems
  let t := forLoop g.n_elems (fun k (t : Nat × K × zone K) =>
    let zi := { t.2.2 with X_gas := Function.update t.2.2.X_gas k (ctmp t.1) }
    (t.1 + 1, t.2.1 + zi.X_gas k, zi)) (r.1, 0, zi)
  (t.1, set_zone g i (normalize_composition g.n_elems g.elems_A t.2.1 t.2.2))

/-- Mass-fraction block of `grid_1D_sphere::read_hdf5_file` (lines 185-208); `ctmp` is the
dataset `/comp` as read. -/
def read_hdf5_composition (g : grid_1D_sphere K) (ctmp : Nat → K) : grid_1D_sphere K :=
  (forLoop g.n_zones (hdf5_zone ctmp) (0, g)).2

/-- Body of the zone loop of `read_SNR_file` (lines 287-334): the position in the token
stream `infile` and the grid.  `a_rad` is the constant `pc::a`. -/
def SNR_zone (pc : physical_constants K) (ext : Externals K) (a_rad : K) (infile : Nat → K)
    (snr : Bool) (i : Nat) (r : Nat × grid_1D_sphere K) : Nat × grid_1D_sphere K :=
  let pos := r.1
  let g := r.2
  -- read state variables
  let r1 : Nat × grid_1D_sphere K :=
    if snr then
      let zi := { g.z i with v0 := infile pos, rho := infile (pos + 1),
                             T_gas := infile (pos + 2) }
      (pos + 3, { set_zone g i zi with r_out := Function.update g.r_out i (zi.v0 * g.t_now) })
    else
      let zi := { g.z i with v0 := infile (pos + 1), rho := infile (pos + 2),
                             T_gas := infile (pos + 3) }
      (pos + 4, { set_zone g i zi with r_out := Function.update g.r_out i (infile pos) })
  let pos := r1.1
  let g := r1.2
  -- read composition
  let t := forLoop g.n_elems (fun _ (t : Nat × K × zone K) =>
    let x := infile t.1
    (t.1 + 1, t.2.1 + x, push_back_X_gas t.2.2 x)) (pos, 0, g.z i)
  let zi := normalize_composition g.n_elems g.elems_A t.2.1 t.2.2
  -- assume LTE radiation field to start
  let zi := { zi with e_rad := a_rad * ext.pow zi.T_gas 4 }
  let g := set_zone g i zi
  -- calculate shell volume
  let r0 := if i = 0 then g.r_out_min else g.r_out (i - 1)
  let vol_i := 4.0 * pc.pi / 3.0 * (g.r_out i * g.r_out i * g.r_out i - r0 * r0 * r0)
  (t.1, { g with vol := Function.update g.vol i vol_i })

/-- Zone loop of `grid_1D_sphere::read_SNR_file` (lines 287-334), started at position `pos`
of the token stream. -/
def read_SNR_zones (pc : physical_constants K) (ext : Externals K) (a_rad : K)
    (infile : Nat → K) (snr : Bool) (pos : Nat) (g : grid_1D_sphere K) :
    Nat × grid_1D_sphere K :=
  forLoop g.n_zones (SNR_zone pc ext a_rad infile snr) (pos, g)

/-! ### Atomic data files (`AtomicData.cpp`) -/

/-- Record `AtomicLevel` (declared outside the sources): the fields
`read_atomic_data_newstyle` sets. -/
structure AtomicLevel (K : Type) where
  ion : Int
  g : Int
  cs : Int
  E : K
  E_ion : K
  ic : Int

/-- Record `AtomicLine` (declared outside the sources): the fields
`read_atomic_data_newstyle` sets. -/
structure AtomicLine (K : Type) where
  lu : Int
  ll : Int
  A_ul : K
  nu : K
  B_ul : K
  B_lu : K
  f_lu : K
  bin : Int

/-- Record `AtomicIon` (declared outside the sources). -/
structure AtomicIon (K : Type) where
  chi : K
  ground : Int
  stage : Int

/-- The part of class `IndividualAtomData` that the level and line blocks of
`read_atomic_data_newstyle` touch; a `std::vector` is a function with its size. -/
structure IndividualAtomData (K : Type) where
  n_ions_ : Int
  max_n_levels_ : Int
  ions_ : Nat → AtomicIon K
  levels_ : Nat → AtomicLevel K
  levels_size : Nat
  lines_ : Nat → AtomicLine K
  lines_size : Nat

/-- What the HDF5 file holds for one ion: the datasets `n_levels`, `level_g`, `level_cs`,
`level_E`, `n_lines`, `line_u`, `line_l`, `line_A` (a count is 0 when its dataset is
missing). -/
structure ion_datasets (K : Type) where
  n_levels : Int
  level_g : Nat → Int
  level_cs : Nat → Int
  level_E : Nat → K
  n_lines : Int
  line_u : Nat → Int
  line_l : Nat → Int
  line_A : Nat → K

/-- Call `levels_.push_back(lev)`. -/
def push_level (atom : IndividualAtomData K) (lev : AtomicLevel K) : IndividualAtomData K :=
  { atom with levels_ := Function.update atom.levels_ atom.levels_size lev,
              levels_size := atom.levels_size + 1 }

/-- Call `lines_.push_back(lin)`. -/
def push_line (atom : IndividualAtomData K) (lin : AtomicLine K) : IndividualAtomData K :=
  { atom with lines_ := Function.update atom.lines_ atom.lines_size lin,
              lines_size := atom.lines_size + 1 }

/-- Level block of `read_atomic_data_newstyle` for one ion (lines 261-304): the local
`tot_n_levels` after the cap, and the atom. -/
def add_levels (ion : Nat) (ibase : Int) (d : ion_datasets K) (atom : IndividualAtomData K) :
    Int × IndividualAtomData K :=
  let tot_n_levels := d.n_levels
  if tot_n_levels ≠ 0 then
    let chi := (atom.ions_ ion).chi
    -- Cap number of levels
    let tot_n_levels :=
      if tot_n_levels > atom.max_n_levels_ then atom.max_n_levels_ else tot_n_levels
    -- add in levels
    (tot_n_levels, forLoop tot_n_levels.toNat (fun i (atom : IndividualAtomData K) =>
      let g := d.level_g i
      let g := if g = 0 then 1 else g
      let E := d.level_E i
      push_level atom { ion := (ion : Int), g := g, cs := d.level_cs i, E := E,
                        E_ion := chi - E, ic := ibase + tot_n_levels }) atom)
  else (tot_n_levels, atom)

/-- Body of the line loop of `read_atomic_data_newstyle` (lines 337-380) for line `i` of
the ion.  The counter `n_lines_add` of the source is never read and is left out. -/
def add_line (pc : physical_constants K) (locate_within_bounds : K → Int) (ion : Nat)
    (tot_n_levels : Int) (d : ion_datasets K) (i : Nat) (atom : IndividualAtomData K) :
    IndividualAtomData K :=
  let ll := d.line_l i
  let lu := d.line_u i
  let A := d.line_A i
  -- skip lines that are to omitted levels
  if lu > tot_n_levels then atom
  else if ll > tot_n_levels then atom
  else
    -- offset the level index
    let lu := lu + (atom.ions_ ion).ground
    let ll := ll + (atom.ions_ ion).ground
    -- get wavelength/frequency
    let delta_E := (atom.levels_ lu.toNat).E - (atom.levels_ ll.toNat).E
    if delta_E = 0 then atom
    else
      let nu := delta_E * pc.ev_to_ergs / pc.h
      let lam := pc.c / nu * pc.cm_to_angs
      -- set Einstein Coeficients
      let gl : K := ((atom.levels_ ll.toNat).g : K)
      let gu : K := ((atom.levels_ lu.toNat).g : K)
      let B_ul := A * pc.c * pc.c / 2.0 / pc.h / nu / nu / nu
      let B_lu := B_ul * gu / gl
      -- set oscillator strength
      let lam_cm := lam * pc.angs_to_cm
      let f_lu := lam_cm * lam_cm * A * gu / gl / (8 * pc.pi * pc.sigma_tot)
      push_line atom { lu := lu, ll := ll, A_ul := A, nu := nu, B_ul := B_ul, B_lu := B_lu,
                       f_lu := f_lu, bin := locate_within_bounds nu }

/-- Line block of `read_atomic_data_newstyle` for one ion (lines 309-384). -/
def add_lines (pc : physical_constants K) (locate_within_bounds : K → Int) (ion : Nat)
    (tot_n_levels : Int) (d : ion_datasets K) (atom : IndividualAtomData K) :
    IndividualAtomData K :=
  if d.n_lines > 0 then
    forLoop d.n_lines.toNat (add_line pc locate_within_bounds ion tot_n_levels d) atom
  else atom

/-- Body of the ion loop of `read_atomic_data_newstyle` (lines 245-385, without the
photoionization data): the counter `lev_count` and the atom. -/
def read_ion (pc : physical_constants K) (locate_within_bounds : K → Int)
    (file : Nat → ion_datasets K) (ion : Nat) (r : Int × IndividualAtomData K) :
    Int × IndividualAtomData K :=
  let lev_count := r.1
  let atom := r.2
  let ibase := lev_count
  let ion_rec := { atom.ions_ ion with ground := ibase, stage := (ion : Int) }
  let atom := { atom with ions_ := Function.update atom.ions_ ion ion_rec }
  let t := add_levels ion ibase (file ion) atom
  let atom := add_lines pc locate_within_bounds ion t.1 (file ion) t.2
  (lev_count + t.1, atom)

/-- Ion loop of `AtomicData::read_atomic_data_newstyle` (lines 244-385): levels and lines
of every ion of the species, from the datasets `file ion`. -/
def read_atomic_data_newstyle (pc : physical_constants K) (locate_within_bounds : K → Int)
    (file : Nat → ion_datasets K) (atom : IndividualAtomData K) :
    Int × IndividualAtomData K :=
  forLoop atom.n_ions_.toNat (read_ion pc locate_within_bounds file) (0, atom)

end Model

/-! ## Concrete data for evaluating the definitions -/

section Concrete

variable (K : Type) [LinearOrderedField K]

/-- CGS values for the constants of `physical_constants.h`. -/
def pc_cgs : physical_constants K where
  pi := 3.14159265358979
  h := 6.6260755e-27
  c := 2.99792458e10
  k := 1.380658e-16
  k_ev := 8.6173324e-5
  m_e := 9.10938188e-28
  sigma_tot := 0.0265400193567
  ev_to_ergs := 1.60217646e-12
  ergs_to_ev := 6.24150934e11
  cm_to_angs := 1.0e8
  angs_to_cm := 1.0e-8

/-- Exact solution of a linear system of at most two unknowns by Cramer's rule (the zero
vector for larger systems). -/
def cramer2 (n : Nat) (M : Nat → Nat → K) (b : Nat → K) : Nat → K :=
  if n = 1 then fun i => if i = 0 then b 0 / M 0 0 else 0
  else if n = 2 then
    fun i =>
      if i = 0 then (b 0 * M 1 1 - M 0 1 * b 1) / (M 0 0 * M 1 1 - M 0 1 * M 1 0)
      else if i = 1 then (M 0 0 * b 1 - b 0 * M 1 0) / (M 0 0 * M 1 1 - M 0 1 * M 1 0)
      else 0
  else fun _ => 0

/-- Library routines built around given `exp` and `pow`: interpolation returns the first
ordinate of the table, the factorisation keeps the matrix, and the solve is `cramer2`. -/
def externals_of (exp : K → K) (pow : K → K → K) : Externals K where
  exp := exp
  pow := pow
  value_at := fun t _ => t.y 0
  LU_decomp := fun _ M => (M, fun i => i)
  LU_solve := fun n M _ b => cramer2 K n M b

/-- An empty table. -/
def empty_table : xy_array K := { n := 0, x := fun _ => 0, y := fun _ => 0 }

/-- A line record with every field zero. -/
def zero_line : nlte_line K :=
  { ll := 0, lu := 0, A_ul := 0, B_ul := 0, B_lu := 0, f_lu := 0, lam := 0,
    nu := 0, J := 0, tau := 0, etau := 0, beta := 0, bin := 0 }

/-- Toy species of the end-to-end scenarios: two ions with one level each, level 0
ionizing to level 1, no lines; `tbl` is the photoionization cross-section table of
level 0. -/
def toy_with (tbl : xy_array K) : nlte_atom K where
  n_ions := 2
  n_levels := 2
  n_lines := 0
  ions := fun i =>
    if i = 0 then { stage := 0, ground := 0, chi := 13.6, part := 0, frac := 0 }
    else { stage := 1, ground := 1, chi := 999999, part := 0, frac := 0 }
  levels := fun i =>
    if i = 0 then { id := 0, ion := 0, g := 2, E := 0, E_ion := 13.6, ic := 1, n := 0, n_lte := 0,
                    b := 0, s_photo := tbl, a_rec := empty_table K }
    else { id := 1, ion := 1, g := 1, E := 0, E_ion := 999999, ic := -1, n := 0, n_lte := 0,
           b := 0, s_photo := empty_table K, a_rec := empty_table K }
  lines := fun _ => zero_line K
  e_gamma := 0
  n_dens := 1
  use_betas := false
  no_ground_recomb := false
  rates := fun _ _ => 0
  M_nlte := fun _ _ => 0
  b_nlte := fun _ => 0
  x_nlte := fun _ => 0
  p_nlte := fun i => i

/-- The toy species without photoionization data. -/
def toy_atom : nlte_atom K := toy_with K (empty_table K)

/-- A two-point cross-section table: hydrogenic values at the threshold 13.6 eV and at
twice the threshold. -/
def photo_table : xy_array K :=
  { n := 2, x := fun j => if j = 0 then 13.6 else 27.2,
    y := fun j => if j = 0 then 6e-18 else 1.5e-18 }

/-- The toy species with the two-point photoionization table for level 0. -/
def toy_atom_photo : nlte_atom K := toy_with K (photo_table K)

/-- One ion with two levels (excitation energies 0 and 1 eV, weights 1) joined by one
forbidden line (`A_ul = 0`), with non-thermal deposition `e_gamma = 1`. -/
def two_level_atom : nlte_atom K where
  n_ions := 1
  n_levels := 2
  n_lines := 1
  ions := fun _ => { stage := 0, ground := 0, chi := 999999, part := 0, frac := 0 }
  levels := fun i =>
    if i = 0 then { id := 0, ion := 0, g := 1, E := 0, E_ion := 999999, ic := -1, n := 0,
                    n_lte := 0, b := 0, s_photo := empty_table K, a_rec := empty_table K }
    else { id := 1, ion := 0, g := 1, E := 1, E_ion := 999998, ic := -1, n := 0, n_lte := 0,
           b := 0, s_photo := empty_table K, a_rec := empty_table K }
  lines := fun _ => { zero_line K with ll := 0, lu := 1, lam := 12398.4, nu := 2.41799e14 }
  e_gamma := 1
  n_dens := 1
  use_betas := false
  no_ground_recomb := false
  rates := fun _ _ => 0
  M_nlte := fun _ _ => 0
  b_nlte := fun _ => 0
  x_nlte := fun _ => 0
  p_nlte := fun i => i

/-- The two-level species with no line and no non-thermal deposition (`n_lines = 0`,
`e_gamma = 0`): only the collisional channel acts. -/
def two_level_quiet : nlte_atom K := { two_level_atom K with n_lines := 0, e_gamma := 0 }

/-- The two-level species with given populations of the lower and the upper level. -/
def two_level_pops (nl nu : K) : nlte_atom K :=
  { two_level_atom K with
    levels := fun i =>
      if i = 0 then { (two_level_atom K).levels 0 with n := nl }
      else { (two_level_atom K).levels 1 with n := nu } }

/-- The two-level species with populations `nl`, `nu` and an allowed line between the two
levels (`f_lu = 0.5`, all three Einstein coefficients 1, stored `beta = 1`). -/
def two_level_line (nl nu : K) : nlte_atom K :=
  { two_level_pops K nl nu with
    lines := fun _ => { zero_line K with ll := 0, lu := 1, lam := 12398.4, nu := 2.41799e14,
                                         f_lu := 0.5, A_ul := 1, B_ul := 1, B_lu := 1,
                                         beta := 1 } }

/-- The two-level species with the allowed line, escape feedback enabled and non-thermal
deposition `eg`. -/
def two_level_feedback (eg : K) : nlte_atom K :=
  { two_level_line K 0 0 with use_betas := true, e_gamma := eg }

/-- A species with a heavily weighted level far above the ionization energy of its ion:
ion 0 (`chi = 0.86173324 eV`) has the levels 0 (`E = 0`, `g = 1`) and 1
(`E = 34.4693296 eV`, `g = 1e6`), ion 1 has the level 2. -/
def heavy_level_atom : nlte_atom K where
  n_ions := 2
  n_levels := 3
  n_lines := 0
  ions := fun i =>
    if i = 0 then { stage := 0, ground := 0, chi := 0.86173324, part := 0, frac := 0 }
    else { stage := 1, ground := 2, chi := 999999, part := 0, frac := 0 }
  levels := fun i =>
    if i = 0 then { id := 0, ion := 0, g := 1, E := 0, E_ion := 0.86173324, ic := 2, n := 0,
                    n_lte := 0, b := 0, s_photo := empty_table K, a_rec := empty_table K }
    else if i = 1 then { id := 1, ion := 0, g := 1000000, E := 34.4693296,
                         E_ion := -33.60759636, ic := 2, n := 0, n_lte := 0, b := 0,
                         s_photo := empty_table K, a_rec := empty_table K }
    else { id := 2, ion := 1, g := 1, E := 0, E_ion := 999999, ic := -1, n := 0, n_lte := 0,
           b := 0, s_photo := empty_table K, a_rec := empty_table K }
  lines := fun _ => zero_line K
  e_gamma := 0
  n_dens := 1
  use_betas := false
  no_ground_recomb := false
  rates := fun _ _ => 0
  M_nlte := fun _ _ => 0
  b_nlte := fun _ => 0
  x_nlte := fun _ => 0
  p_nlte := fun i => i

/-- Stand-ins for the routines of the opacity code: `sqrt` is the identity, the
interpolation is linear between the two table points around the argument and 0 outside the
range of the table (the zero edges), `locate` the first bin whose point is not below the
argument (at most 4), `center` the grid point, and the line profile is 1. -/
def oext_demo : OpacityExternals K where
  sqrt := fun x => x
  value_at_with_zero_edges := fun t x =>
    if x < t.x 0 then 0
    else if t.x (t.n - 1) < x then 0
    else forLoop (t.n - 1) (fun j v =>
      if t.x j ≤ x ∧ x ≤ t.x (j + 1) then
        t.y j + (x - t.x j) / (t.x (j + 1) - t.x j) * (t.y (j + 1) - t.y j)
      else v) (t.y 0)
  locate := fun g x =>
    if x ≤ g.x 0 then 0 else if x ≤ g.x 1 then 1 else if x ≤ g.x 2 then 2
    else if x ≤ g.x 3 then 3 else 4
  center := fun g j => g.x j
  getProfile := fun _ _ => 1

/-- Opacity members with a grid of four frequencies around the line of the two-level
species. -/
def toy_members : opacity_members K where
  nu_grid := { n := 4, x := fun i => if i = 0 then 1e14 else if i = 1 then 2e14
                                     else if i = 2 then 3e14 else 4e15 }
  gas_temp_ := 10000
  line_beta_dop_ := 0.5
  minimum_extinction_ := 0

/-- The toy species with populations 1 (level 0) and 0.5 (level 1) and the two-point
cross-section table for level 0. -/
def toy_populated : nlte_atom K :=
  { toy_atom_photo K with
    levels := fun i =>
      if i = 0 then { (toy_atom_photo K).levels 0 with n := 1 }
      else { (toy_atom_photo K).levels 1 with n := 0.5 } }

/-- A zone with every field zero and an empty composition vector. -/
def fresh_zone : zone K :=
  { v0 := 0, rho := 0, T_gas := 0, e_rad := 0, mu := 0, X_gas := fun _ => 0, X_gas_size := 0 }

/-- A grid of two fresh zones for two species. -/
def toy_grid : grid_1D_sphere K where
  n_zones := 2
  n_elems := 2
  z := fun _ => fresh_zone K
  r_out := fun _ => 0
  r_out_min := 0
  vol := fun _ => 0
  t_now := 1
  elems_A := fun k => if k = 0 then 1 else 4

/-- A stream of numbers for two zones in the `standard` layout: radius, velocity, density,
temperature, then the two mass fractions (3 and 1 for zone 0, 1 and 1 for zone 1). -/
def toy_stream (i : Nat) : K :=
  if i = 0 then 1 else if i = 1 then 10 else if i = 2 then 5 else if i = 3 then 1000
  else if i = 4 then 3 else if i = 5 then 1
  else if i = 6 then 2 else if i = 7 then 20 else if i = 8 then 5 else if i = 9 then 1000
  else 1

/-- An atom record before `read_atomic_data_newstyle`: one ion to read, at most two levels
kept, empty level and line lists. -/
def empty_atom_data : IndividualAtomData K where
  n_ions_ := 1
  max_n_levels_ := 2
  ions_ := fun _ => { chi := 0, ground := 0, stage := 0 }
  levels_ := fun _ => { ion := 0, g := 0, cs := 0, E := 0, E_ion := 0, ic := 0 }
  levels_size := 0
  lines_ := fun _ => { lu := 0, ll := 0, A_ul := 0, nu := 0, B_ul := 0, B_lu := 0, f_lu := 0,
                       bin := 0 }
  lines_size := 0

/-- Datasets of an ion with three levels (0, 1 and 2 eV) and two lines, `0 -> 1` and
`1 -> 2`; with at most two levels kept, level 2 is the first omitted level. -/
def three_level_file (_ : Nat) : ion_datasets K where
  n_levels := 3
  level_g := fun _ => 1
  level_cs := fun _ => 0
  level_E := fun i => if i = 0 then 0 else if i = 1 then 1 else 2
  n_lines := 2
  line_u := fun i => if i = 0 then 1 else 2
  line_l := fun i => if i = 0 then 0 else 1
  line_A := fun _ => 1

/-- The state `a` with every working field overwritten by an arbitrary number: level `n`,
`n_lte`, `b`; ion `part`, `frac`; line `J`, `tau`, `etau`, `beta`; the rates and the four
solver buffers.  The atomic data and the settings are those of `a`. -/
def scrambled (a : nlte_atom K) : nlte_atom K :=
  { a with
    levels := fun i => { a.levels i with n := 3, n_lte := 4, b := 5 }
    ions := fun k => { a.ions k with part := 6, frac := 7 }
    lines := fun l => { a.lines l with J := 8, tau := 9, etau := 10, beta := 11 }
    rates := fun _ _ => 12
    M_nlte := fun _ _ => 13
    b_nlte := fun _ => 14
    x_nlte := fun _ => 15
    p_nlte := fun _ => 0 }

/-- The toy species with the two-point cross-section table (13.6 to 27.2 eV), level 0
populated (`n = 1`, level 1 empty) and the ionization energy of level 0 set to the photon
energy `h * nu * ergs_to_ev` of the last bin (`nu = 4e15`, about 16.54 eV) of `toy_members`:
a photon of that bin is exactly at threshold, inside the range of the table. -/
def threshold_atom : nlte_atom K :=
  { toy_atom_photo K with
    levels := fun i =>
      if i = 0 then { (toy_atom_photo K).levels 0 with
                      n := 1, E_ion := (pc_cgs K).h * 4e15 * (pc_cgs K).ergs_to_ev }
      else (toy_atom_photo K).levels 1 }

end Concrete

/-- Rational stand-ins for the library routines, used to run the definitions on concrete
inputs: `exp x` is `2 ^ floor x` and `pow x y` is `x ^ floor y`. -/
def ext_demo : Externals ℚ :=
  externals_of ℚ (fun x => (2 : ℚ) ^ (⌊x⌋ : ℤ)) (fun x y => x ^ (⌊y⌋ : ℤ))

/-! ## Loop lemmas -/

set_option linter.unusedSectionVars false

section Loops

theorem forLoop_inv {σ : Type} (P : Nat → σ → Prop) (body : Nat → σ → σ) (s0 : σ) (n : Nat)
    (h0 : P 0 s0) (hs : ∀ k s, k < n → P k s → P (k + 1) (body k s)) :
    P n (forLoop n body s0) := by
  induction n with
  | zero => exact h0
  | succ m ih =>
    exact hs m _ (Nat.lt_succ_self m)
      (ih (fun k s hk hp => hs k s (Nat.lt_succ_of_lt hk) hp))

theorem forLoop_sum {K : Type} [LinearOrderedField K] (f : Nat → K) (n : Nat) :
    forLoop n (fun j (R : K) => R + f j) 0 = ∑ j in Finset.range n, f j := by
  induction n with
  | zero => rfl
  | succ m ih => rw [Finset.sum_range_succ, ← ih]; rfl

end Loops

section SystemLemmas

variable {K : Type} [LinearOrderedField K]

theorem same_inputs_refl (a : nlte_atom K) : same_inputs a a :=
  ⟨rfl, rfl, rfl, rfl, rfl, rfl, rfl, rfl, rfl, rfl, rfl⟩

theorem same_inputs_matrix_set (s a : nlte_atom K) (i j : Nat) (v : K)
    (h : same_inputs s a) : same_inputs (gsl_matrix_set s i j v) a := h

theorem gsl_matrix_set_apply (s : nlte_atom K) (i j i2 j2 : Nat) (v : K) :
    (gsl_matrix_set s i j v).M_nlte i2 j2 =
      if i2 = i ∧ j2 = j then v else s.M_nlte i2 j2 := by
  unfold gsl_matrix_set
  by_cases hi : i2 = i
  · subst hi
    by_cases hj : j2 = j
    · subst hj; simp
    · simp [Function.update_noteq hj, hj]
  · simp [Function.update_noteq hi, hi]

theorem gsl_vector_set_apply (s : nlte_atom K) (k i : Nat) (v : K) :
    (gsl_vector_set s k v).b_nlte i = if i = k then v else s.b_nlte i := by
  unfold gsl_vector_set
  simp [Function.update_apply]

/-- State after the diagonal loop of `build_system`. -/
theorem diag_loop (a : nlte_atom K) (m : Nat) :
    let s := forLoop m (fun i (s : nlte_atom K) =>
      let Rout := forLoop s.n_levels (fun j (Rout : K) => Rout + s.rates i j) (0.0 : K)
      let Rout := -1 * Rout
      gsl_matrix_set s i i Rout) a
    same_inputs s a ∧ s.b_nlte = a.b_nlte ∧
    ∀ i j, s.M_nlte i j =
      if i = j ∧ i < m then -1 * ∑ k in Finset.range a.n_levels, a.rates i k
      else a.M_nlte i j := by
  refine forLoop_inv (fun k (s : nlte_atom K) => same_inputs s a ∧ s.b_nlte = a.b_nlte ∧
    ∀ i j, s.M_nlte i j =
      if i = j ∧ i < k then -1 * ∑ k in Finset.range a.n_levels, a.rates i k
      else a.M_nlte i j) _ a m ⟨same_inputs_refl a, rfl, by simp⟩ ?_
  rintro k s - ⟨hin, hb, hM⟩
  refine ⟨same_inputs_matrix_set _ _ _ _ _ hin, hb, ?_⟩
  intro i j
  have h0 : ((0.0 : K)) = 0 := by norm_num
  simp only [gsl_matrix_set_apply, hM, hin.1, hin.2.2.2.1, h0, forLoop_sum]
  by_cases hik : i = k
  · subst hik
    by_cases hij : j = i
    · subst hij; simp
    · have : ¬ i = j := fun h => hij h.symm
      simp [hij, this]
  · by_cases hij : i = j
    · subst hij
      have : (i < k + 1) = (i < k) := by
        apply propext; constructor
        · intro h; omega
        · intro h; omega
      simp [hik, this]
    · simp [hik, hij]

/-- State after the inner off-diagonal loop of `build_system` for row `i`. -/
theorem offdiag_inner (a s0 : nlte_atom K) (i m : Nat) (h0 : same_inputs s0 a) :
    let s := forLoop m (fun j (s : nlte_atom K) =>
      if i ≠ j then gsl_matrix_set s i j (s.rates j i) else s) s0
    same_inputs s a ∧ s.b_nlte = s0.b_nlte ∧
    ∀ i2 j, s.M_nlte i2 j =
      if i2 = i ∧ j < m ∧ i ≠ j then a.rates j i else s0.M_nlte i2 j := by
  refine forLoop_inv (fun k (s : nlte_atom K) => same_inputs s a ∧ s.b_nlte = s0.b_nlte ∧
    ∀ i2 j, s.M_nlte i2 j =
      if i2 = i ∧ j < k ∧ i ≠ j then a.rates j i else s0.M_nlte i2 j) _ s0 m
    ⟨h0, rfl, by simp⟩ ?_
  rintro k s - ⟨hin, hb, hM⟩
  by_cases hik : i = k
  · subst hik
    refine ⟨by simpa using hin, by simpa using hb, ?_⟩
    intro i2 j
    simp only [ne_eq, not_true_eq_false, if_false, hM]
    by_cases hj : i = j
    · simp [hj]
    · have : (j < i + 1) = (j < i) := by
        apply propext; constructor
        · intro h; have : j ≠ i := fun e => hj e.symm
          omega
        · intro h; omega
      simp [this]
  · refine ⟨by simpa [hik] using same_inputs_matrix_set _ _ _ _ _ hin, by simpa [hik] using hb, ?_⟩
    intro i2 j
    simp only [ne_eq, hik, not_false_eq_true, if_true, gsl_matrix_set_apply, hM, hin.2.2.2.1]
    by_cases h2 : i2 = i
    · subst h2
      by_cases hjk : j = k
      · subst hjk; simp [hik]
      · have : (j < k + 1) = (j < k) := by
          apply propext; constructor
          · intro h; omega
          · intro h; omega
        simp [hjk, this]
    · simp [h2]

/-- State after both off-diagonal loops of `build_system`. -/
theorem offdiag_loop (a s0 : nlte_atom K) (m : Nat) (h0 : same_inputs s0 a) :
    let s := forLoop m (fun i (s : nlte_atom K) =>
      forLoop s.n_levels (fun j (s : nlte_atom K) =>
        if i ≠ j then gsl_matrix_set s i j (s.rates j i) else s) s) s0
    same_inputs s a ∧ s.b_nlte = s0.b_nlte ∧
    ∀ i j, s.M_nlte i j =
      if i < m ∧ j < a.n_levels ∧ i ≠ j then a.rates j i else s0.M_nlte i j := by
  refine forLoop_inv (fun k (s : nlte_atom K) => same_inputs s a ∧ s.b_nlte = s0.b_nlte ∧
    ∀ i j, s.M_nlte i j =
      if i < k ∧ j < a.n_levels ∧ i ≠ j then a.rates j i else s0.M_nlte i j) _ s0 m
    ⟨h0, rfl, by simp⟩ ?_
  rintro k s - ⟨hin, hb, hM⟩
  obtain ⟨h1, h2, h3⟩ := offdiag_inner a s k s.n_levels hin
  refine ⟨h1, h2.trans hb, ?_⟩
  intro i j
  rw [h3, hM, hin.1]
  by_cases hik : i = k
  · subst hik
    by_cases hc : j < a.n_levels ∧ i ≠ j
    · simp [hc]
    · have : ¬ (j < a.n_levels ∧ ¬ i = j) := hc
      simp [hc, this]
  · have : (i < k + 1) = (i < k) := by
      apply propext; constructor
      · intro h; omega
      · intro h; omega
    simp [hik, this]

/-- State after the conservation-row loop of `build_system`. -/
theorem lastrow_loop (a s0 : nlte_atom K) (m : Nat) (h0 : same_inputs s0 a) :
    let s := forLoop m (fun i (s : nlte_atom K) =>
      gsl_matrix_set s (s.n_levels - 1) i (s.levels i).n_lte) s0
    same_inputs s a ∧ s.b_nlte = s0.b_nlte ∧
    ∀ i j, s.M_nlte i j =
      if i = a.n_levels - 1 ∧ j < m then (a.levels j).n_lte else s0.M_nlte i j := by
  refine forLoop_inv (fun k (s : nlte_atom K) => same_inputs s a ∧ s.b_nlte = s0.b_nlte ∧
    ∀ i j, s.M_nlte i j =
      if i = a.n_levels - 1 ∧ j < k then (a.levels j).n_lte else s0.M_nlte i j) _ s0 m
    ⟨h0, rfl, by simp⟩ ?_
  rintro k s - ⟨hin, hb, hM⟩
  refine ⟨same_inputs_matrix_set _ _ _ _ _ hin, hb, ?_⟩
  intro i j
  simp only [gsl_matrix_set_apply, hM, hin.1, hin.2.2.2.2.1]
  by_cases hi : i = a.n_levels - 1
  · by_cases hjk : j = k
    · subst hjk; simp [hi]
    · have : (j < k + 1) = (j < k) := by
        apply propext; constructor
        · intro h; omega
        · intro h; omega
      simp [hi, hjk, this]
  · simp [hi]

/-- Closed form of `build_system`: inputs untouched, right-hand side the last unit vector,
matrix given by `system_entry` on the `n_levels` by `n_levels` block. -/
theorem build_system_spec (a : nlte_atom K) :
    same_inputs (build_system a) a ∧
    (∀ i, (build_system a).b_nlte i = if i = a.n_levels - 1 then 1 else 0) ∧
    ∀ i j, i < a.n_levels → j < a.n_levels →
      (build_system a).M_nlte i j = system_entry a i j := by
  let a0 : nlte_atom K :=
    { a with M_nlte := fun _ _ => 0, b_nlte := fun _ => 0, x_nlte := fun _ => 0,
             p_nlte := fun i => i }
  have ha0 : same_inputs a0 a := same_inputs_refl a
  obtain ⟨d1, d2, d3⟩ := diag_loop a0 a0.n_levels
  have d1a : same_inputs _ a := d1
  obtain ⟨o1, o2, o3⟩ := (fun (s1 : nlte_atom K) (h : same_inputs s1 a) =>
    offdiag_loop a s1 s1.n_levels h) _ d1a
  obtain ⟨l1, l2, l3⟩ := (fun (s1 : nlte_atom K) (h : same_inputs s1 a) =>
    lastrow_loop a s1 s1.n_levels h) _ o1
  have hone : ((1.0 : K)) = 1 := by norm_num
  have hn : a0.n_levels = a.n_levels := rfl
  have hr : a0.rates = a.rates := rfl
  have hM0 : a0.M_nlte = fun _ _ => 0 := rfl
  have hb0 : a0.b_nlte = fun _ => 0 := rfl
  refine ⟨l1, ?_, ?_⟩
  · intro i
    show (gsl_vector_set _ _ _).b_nlte i = _
    rw [gsl_vector_set_apply, l2, o2, d2, l1.1, hb0, hone]
  · intro i j hi hj
    refine (l3 i j).trans ?_
    rw [o3 i j, d3 i j, o1.1, d1a.1, hn, hr, hM0]
    unfold system_entry
    by_cases h1 : i = a.n_levels - 1
    · simp [h1, hj]
    · by_cases h2 : i = j
      · subst h2; simp [h1, hi]
      · simp [h1, h2, hi, hj]

end SystemLemmas

section RatesFrame

variable {K : Type} [LinearOrderedField K]

theorem same_but_rates_refl (a : nlte_atom K) : same_but_rates a a :=
  ⟨rfl, rfl, rfl, rfl, rfl, rfl, rfl, rfl, rfl, rfl, rfl, rfl, rfl, rfl⟩

theorem same_but_rates_set (s a : nlte_atom K) (i j : Nat) (v : K)
    (h : same_but_rates s a) : same_but_rates (set_rate s i j v) a := h

theorem same_but_rates_add (s a : nlte_atom K) (i j : Nat) (v : K)
    (h : same_but_rates s a) : same_but_rates (add_rate s i j v) a := h

/-- A loop whose body keeps every field but `rates` keeps them too. -/
theorem same_but_rates_loop (a s0 : nlte_atom K) (n : Nat)
    (body : Nat → nlte_atom K → nlte_atom K)
    (hb : ∀ k s, same_but_rates s a → same_but_rates (body k s) a)
    (h0 : same_but_rates s0 a) : same_but_rates (forLoop n body s0) a :=
  forLoop_inv (fun _ s => same_but_rates s a) body s0 n h0 (fun k s _ h => hb k s h)

/-- Routine `set_rates` writes to `rates` only. -/
theorem set_rates_frame (pc : physical_constants K) (ext : Externals K)
    (a : nlte_atom K) (T ne : K) : same_but_rates (set_rates pc ext a T ne) a := by
  unfold set_rates
  simp only []
  refine same_but_rates_loop _ _ _ _ (fun i s h =>
    same_but_rates_loop _ _ _ _ (fun j s h => same_but_rates_set _ _ _ _ _ h) h) ?_
  refine same_but_rates_loop _ _ _ _ (fun i s h => ?_) ?_
  · by_cases hic : (s.levels i).ic = -1
    · simpa [hic] using h
    · simp only [hic, if_false]
      exact same_but_rates_add _ _ _ _ _ (same_but_rates_add _ _ _ _ _
        (same_but_rates_add _ _ _ _ _ (same_but_rates_add _ _ _ _ _ h)))
  refine same_but_rates_loop _ _ _ _ (fun i s h =>
    same_but_rates_loop _ _ _ _ (fun j s h => ?_) h) ?_
  · by_cases hij : i = j
    · simpa [hij] using h
    · by_cases hion : (s.levels i).ion ≠ (s.levels j).ion
      · simpa [hij, hion] using h
      · simp only [hij, hion, if_false]
        exact same_but_rates_add _ _ _ _ _ h
  refine same_but_rates_loop _ _ _ _ (fun l s h => same_but_rates_add _ _ _ _ _ h) ?_
  refine same_but_rates_loop _ _ _ _ (fun l s h =>
    same_but_rates_add _ _ _ _ _ (same_but_rates_add _ _ _ _ _ h)) ?_
  exact same_but_rates_loop _ _ _ _ (fun i s h =>
    same_but_rates_loop _ _ _ _ (fun j s h => same_but_rates_set _ _ _ _ _ h) h)
    (same_but_rates_refl a)

end RatesFrame

section UpdateLemmas

variable {K : Type} [LinearOrderedField K]

theorem same_but_levels_refl (a : nlte_atom K) : same_but_levels a a :=
  ⟨rfl, rfl, rfl, rfl, rfl, rfl, rfl, rfl, rfl, rfl, rfl, rfl, rfl, rfl⟩

theorem same_but_ions_refl (a : nlte_atom K) : same_but_ions a a :=
  ⟨rfl, rfl, rfl, rfl, rfl, rfl, rfl, rfl, rfl, rfl, rfl, rfl, rfl, rfl⟩

theorem same_but_levels_set (s a : nlte_atom K) (i : Nat) (v : nlte_level K)
    (h : same_but_levels s a) : same_but_levels (set_level s i v) a := h

theorem same_but_ions_set (s a : nlte_atom K) (i : Nat) (v : nlte_ion K)
    (h : same_but_ions s a) : same_but_ions (set_ion s i v) a := h

theorem set_level_apply (s : nlte_atom K) (i k : Nat) (v : nlte_level K) :
    (set_level s i v).levels k = if k = i then v else s.levels k := by
  unfold set_level
  simp [Function.update_apply]

theorem set_ion_apply (s : nlte_atom K) (i k : Nat) (v : nlte_ion K) :
    (set_ion s i v).ions k = if k = i then v else s.ions k := by
  unfold set_ion
  simp [Function.update_apply]

theorem lt_succ_split (i k : Nat) (h : i ≠ k) : (i < k + 1) = (i < k) := by
  apply propext
  constructor
  · intro h1; omega
  · intro h1; omega

/-- State after the loop of `install_populations` that installs the populations. -/
theorem install_loop (s0 : nlte_atom K) (m : Nat) :
    let s := forLoop m (fun i (s : nlte_atom K) =>
      let b := s.x_nlte i
      let n_nlte := b * (s.levels i).n_lte
      set_level s i { s.levels i with n := n_nlte, b := b }) s0
    same_but_levels s s0 ∧
    ∀ i, s.levels i = if i < m then
        { s0.levels i with n := s0.x_nlte i * (s0.levels i).n_lte, b := s0.x_nlte i }
      else s0.levels i := by
  refine forLoop_inv (fun k (s : nlte_atom K) => same_but_levels s s0 ∧
    ∀ i, s.levels i = if i < k then
        { s0.levels i with n := s0.x_nlte i * (s0.levels i).n_lte, b := s0.x_nlte i }
      else s0.levels i) _ s0 m ⟨same_but_levels_refl s0, by simp⟩ ?_
  rintro k s - ⟨hin, hL⟩
  refine ⟨same_but_levels_set _ _ _ _ hin, ?_⟩
  intro i
  have hx : s.x_nlte = s0.x_nlte := hin.2.2.2.2.2.2.2.2.2.2.2.2.1
  simp only [set_level_apply, hL, hx]
  by_cases hik : i = k
  · subst hik; simp
  · simp [hik, lt_succ_split i k hik]

/-- State after the loop of `install_populations` that clears the ion fractions. -/
theorem clear_frac_loop (s0 : nlte_atom K) (m : Nat) :
    let s := forLoop m (fun i (s : nlte_atom K) =>
      set_ion s i { s.ions i with frac := 0 }) s0
    same_but_ions s s0 ∧
    ∀ k, s.ions k = if k < m then { s0.ions k with frac := 0 } else s0.ions k := by
  refine forLoop_inv (fun j (s : nlte_atom K) => same_but_ions s s0 ∧
    ∀ k, s.ions k = if k < j then { s0.ions k with frac := 0 } else s0.ions k) _ s0 m
    ⟨same_but_ions_refl s0, by simp⟩ ?_
  rintro j s - ⟨hin, hI⟩
  refine ⟨same_but_ions_set _ _ _ _ hin, ?_⟩
  intro k
  simp only [set_ion_apply, hI]
  by_cases hkj : k = j
  · subst hkj; simp
  · simp [hkj, lt_succ_split k j hkj]

/-- State after the loop of `install_populations` that adds every level population to the
fraction of its ion. -/
theorem accumulate_frac_loop (s0 : nlte_atom K) (m : Nat) :
    let s := forLoop m (fun i (s : nlte_atom K) =>
      let k := (s.levels i).ion
      set_ion s k { s.ions k with frac := (s.ions k).frac + (s.levels i).n }) s0
    same_but_ions s s0 ∧
    ∀ k, s.ions k = { s0.ions k with frac := (s0.ions k).frac +
      (∑ i in Finset.range m, if (s0.levels i).ion = k then (s0.levels i).n else 0) } := by
  refine forLoop_inv (fun j (s : nlte_atom K) => same_but_ions s s0 ∧
    ∀ k, s.ions k = { s0.ions k with frac := (s0.ions k).frac +
      (∑ i in Finset.range j, if (s0.levels i).ion = k then (s0.levels i).n else 0) }) _ s0 m
    ⟨same_but_ions_refl s0, by simp⟩ ?_
  rintro j s - ⟨hin, hI⟩
  refine ⟨same_but_ions_set _ _ _ _ hin, ?_⟩
  intro k
  have hl : s.levels = s0.levels := hin.2.2.2.2.1
  simp only [set_ion_apply, hI, hl, Finset.sum_range_succ]
  by_cases hk : k = (s0.levels j).ion
  · subst hk; simp [add_assoc]
  · have hk2 : ¬ (s0.levels j).ion = k := fun e => hk e.symm
    simp [hk, hk2]

/-- Closed form of `install_populations`: the populations are `x[i] * n_lte[i]`, the
departure coefficients are `x[i]`, and each ion fraction is the sum of the populations of
its levels. -/
theorem install_populations_spec (a : nlte_atom K) :
    (install_populations a).n_levels = a.n_levels ∧
    (install_populations a).n_ions = a.n_ions ∧
    (install_populations a).n_lines = a.n_lines ∧
    (install_populations a).lines = a.lines ∧
    (install_populations a).use_betas = a.use_betas ∧
    (install_populations a).x_nlte = a.x_nlte ∧
    (∀ i, (install_populations a).levels i = if i < a.n_levels then
        { a.levels i with n := a.x_nlte i * (a.levels i).n_lte, b := a.x_nlte i }
      else a.levels i) ∧
    ∀ k, (install_populations a).ions k = { a.ions k with
      frac := (if k < a.n_ions then 0 else (a.ions k).frac) +
        (∑ i in Finset.range a.n_levels,
          if (a.levels i).ion = k then a.x_nlte i * (a.levels i).n_lte else 0) } := by
  obtain ⟨i1, i2⟩ := install_loop a a.n_levels
  obtain ⟨c1, c2⟩ := (fun (s1 : nlte_atom K) => clear_frac_loop s1 s1.n_ions) _
  obtain ⟨f1, f2⟩ := (fun (s1 : nlte_atom K) => accumulate_frac_loop s1 s1.n_levels) _
  refine ⟨f1.1.trans (c1.1.trans i1.1), f1.2.1.trans (c1.2.1.trans i1.2.1),
    f1.2.2.1.trans (c1.2.2.1.trans i1.2.2.1),
    f1.2.2.2.2.2.1.trans (c1.2.2.2.2.2.1.trans i1.2.2.2.2.2.1),
    f1.2.2.2.2.2.2.1.trans (c1.2.2.2.2.2.2.1.trans i1.2.2.2.2.2.2.1),
    f1.2.2.2.2.2.2.2.2.2.2.2.2.1.trans (c1.2.2.2.2.2.2.2.2.2.2.2.2.1.trans
      i1.2.2.2.2.2.2.2.2.2.2.2.2.1), ?_, ?_⟩
  · intro i
    have e : (install_populations a).levels = (forLoop _ _ _ : nlte_atom K).levels :=
      f1.2.2.2.2.1.trans c1.2.2.2.2.1
    rw [e, i2 i]
  · intro k
    refine (f2 k).trans ?_
    rw [c2 k, c1.1, c1.2.2.2.2.1, i1.1, i1.2.1, i1.2.2.2.2.1]
    have hsum : ∀ L : Nat → nlte_level K,
        (∀ i, L i = if i < a.n_levels then
          { a.levels i with n := a.x_nlte i * (a.levels i).n_lte, b := a.x_nlte i }
          else a.levels i) →
        (∑ i in Finset.range a.n_levels, if (L i).ion = k then (L i).n else 0) =
        ∑ i in Finset.range a.n_levels,
          if (a.levels i).ion = k then a.x_nlte i * (a.levels i).n_lte else 0 := by
      intro L hL
      refine Finset.sum_congr rfl (fun i hi => ?_)
      have hi2 : i < a.n_levels := Finset.mem_range.mp hi
      rw [hL i]
      simp [hi2]
    rw [hsum _ i2]
    by_cases hk : k < a.n_ions
    · simp only [hk, if_true]
    · simp only [hk, if_false]

end UpdateLemmas

/-! ## Closed form of `solve_lte` -/

section LteLemmas

variable {K : Type} [LinearOrderedField K]

theorem same_but_pops_refl (a : nlte_atom K) : same_but_pops a a :=
  ⟨rfl, rfl, rfl, rfl, rfl, rfl, rfl, rfl, rfl, rfl, rfl, rfl, rfl⟩

theorem same_but_pops_trans (a b c : nlte_atom K) (h1 : same_but_pops a b)
    (h2 : same_but_pops b c) : same_but_pops a c := by
  obtain ⟨a1, a2, a3, a4, a5, a6, a7, a8, a9, a10, a11, a12, a13⟩ := h1
  obtain ⟨b1, b2, b3, b4, b5, b6, b7, b8, b9, b10, b11, b12, b13⟩ := h2
  exact ⟨a1.trans b1, a2.trans b2, a3.trans b3, a4.trans b4, a5.trans b5, a6.trans b6,
    a7.trans b7, a8.trans b8, a9.trans b9, a10.trans b10, a11.trans b11, a12.trans b12,
    a13.trans b13⟩

theorem same_but_pops_of_ions (s a : nlte_atom K) (h : same_but_ions s a) :
    same_but_pops s a := by
  obtain ⟨a1, a2, a3, a4, -, a5, a6, a7, a8, a9, a10, a11, a12, a13⟩ := h
  exact ⟨a1, a2, a3, a4, a5, a6, a7, a8, a9, a10, a11, a12, a13⟩

theorem same_but_pops_of_levels (s a : nlte_atom K) (h : same_but_levels s a) :
    same_but_pops s a := by
  obtain ⟨a1, a2, a3, a4, -, a5, a6, a7, a8, a9, a10, a11, a12, a13⟩ := h
  exact ⟨a1, a2, a3, a4, a5, a6, a7, a8, a9, a10, a11, a12, a13⟩

/-- State after the loop of `lte_partition` that clears the partition functions. -/
theorem zero_part_loop (s0 : nlte_atom K) (m : Nat) :
    let s := forLoop m (fun i (s : nlte_atom K) =>
      set_ion s i { s.ions i with part := 0 }) s0
    same_but_ions s s0 ∧
    ∀ k, s.ions k = if k < m then { s0.ions k with part := 0 } else s0.ions k := by
  refine forLoop_inv (fun j (s : nlte_atom K) => same_but_ions s s0 ∧
    ∀ k, s.ions k = if k < j then { s0.ions k with part := 0 } else s0.ions k) _ s0 m
    ⟨same_but_ions_refl s0, by simp⟩ ?_
  rintro j s - ⟨hin, hI⟩
  refine ⟨same_but_ions_set _ _ _ _ hin, ?_⟩
  intro k
  simp only [set_ion_apply, hI]
  by_cases hkj : k = j
  · subst hkj; simp
  · simp [hkj, lt_succ_split k j hkj]

/-- State after the loop of `lte_partition` that accumulates the Boltzmann weights. -/
theorem partition_loop (pc : physical_constants K) (ext : Externals K)
    (s0 : nlte_atom K) (T : K) (m : Nat) :
    let s := forLoop m (fun i (s : nlte_atom K) =>
      let s := set_level s i { s.levels i with
        n := ((s.levels i).g : K) * ext.exp (-(s.levels i).E / pc.k_ev / T) }
      let k := (s.levels i).ion
      set_ion s k { s.ions k with part := (s.ions k).part + (s.levels i).n }) s0
    same_but_pops s s0 ∧
    (∀ i, s.levels i =
      if i < m then { s0.levels i with n := boltz pc ext s0 T i } else s0.levels i) ∧
    ∀ k, s.ions k = { s0.ions k with part := (s0.ions k).part +
      (∑ i in Finset.range m, if (s0.levels i).ion = k then boltz pc ext s0 T i else 0) } := by
  refine forLoop_inv (fun j (s : nlte_atom K) => same_but_pops s s0 ∧
    (∀ i, s.levels i =
      if i < j then { s0.levels i with n := boltz pc ext s0 T i } else s0.levels i) ∧
    ∀ k, s.ions k = { s0.ions k with part := (s0.ions k).part +
      (∑ i in Finset.range j, if (s0.levels i).ion = k then boltz pc ext s0 T i else 0) }) _ s0 m
    ⟨same_but_pops_refl s0, by simp, by simp⟩ ?_
  rintro j s - ⟨hin, hL, hI⟩
  have hj : s.levels j = s0.levels j := by rw [hL j]; simp
  refine ⟨hin, ?_, ?_⟩
  · intro i
    show (set_level s j _).levels i = _
    rw [set_level_apply, hL i, hj]
    by_cases hij : i = j
    · subst hij; simp [boltz]
    · simp [hij, lt_succ_split i j hij]
  · intro k
    show (set_ion (set_level s j _) _ _).ions k = _
    rw [set_ion_apply]
    have e1 : ((set_level s j { s.levels j with
        n := ((s.levels j).g : K) * ext.exp (-(s.levels j).E / pc.k_ev / T) }).levels j).ion =
        (s0.levels j).ion := by
      rw [set_level_apply, if_pos rfl, hj]
    have e2 : ((set_level s j { s.levels j with
        n := ((s.levels j).g : K) * ext.exp (-(s.levels j).E / pc.k_ev / T) }).levels j).n =
        boltz pc ext s0 T j := by
      rw [set_level_apply, if_pos rfl, hj]
      rfl
    have e3 : (set_level s j { s.levels j with
        n := ((s.levels j).g : K) * ext.exp (-(s.levels j).E / pc.k_ev / T) }).ions = s.ions :=
      rfl
    simp only [e1, e2, e3, hI, Finset.sum_range_succ]
    by_cases hk : k = (s0.levels j).ion
    · subst hk; simp [add_assoc]
    · have hk2 : ¬ (s0.levels j).ion = k := fun e => hk e.symm
      simp [hk, hk2]

/-- Closed form of `lte_partition`. -/
theorem lte_partition_spec (pc : physical_constants K) (ext : Externals K)
    (a : nlte_atom K) (T : K) :
    same_but_pops (lte_partition pc ext a T) a ∧
    (∀ i, (lte_partition pc ext a T).levels i =
      if i < a.n_levels then { a.levels i with n := boltz pc ext a T i } else a.levels i) ∧
    ∀ k, (lte_partition pc ext a T).ions k = { a.ions k with
      part := (if k < a.n_ions then 0 else (a.ions k).part) + partition_fn pc ext a T k } := by
  obtain ⟨z1, z2⟩ := zero_part_loop a a.n_ions
  obtain ⟨q1, q2, q3⟩ := (fun (s1 : nlte_atom K) =>
    partition_loop pc ext s1 T s1.n_levels) _
  have hl : (forLoop a.n_ions (fun i (s : nlte_atom K) =>
      set_ion s i { s.ions i with part := 0 }) a).levels = a.levels := z1.2.2.2.2.1
  have hb : ∀ i, boltz pc ext (forLoop a.n_ions (fun i (s : nlte_atom K) =>
      set_ion s i { s.ions i with part := 0 }) a) T i = boltz pc ext a T i := by
    intro i
    unfold boltz
    rw [hl]
  refine ⟨same_but_pops_trans _ _ _ q1 (same_but_pops_of_ions _ _ z1), ?_, ?_⟩
  · intro i
    refine (q2 i).trans ?_
    rw [z1.1, hl, hb]
  · intro k
    refine (q3 k).trans ?_
    rw [z2 k, z1.1, hl]
    simp only [hb]
    unfold partition_fn
    by_cases hk : k < a.n_ions
    · simp [hk]
    · simp [hk]

/-- State after the Saha loop of `lte_saha`: the running state and `norm`. -/
theorem saha_loop (pc : physical_constants K) (ext : Externals K)
    (a : nlte_atom K) (T ne : K) (m : Nat) :
    let r := forLoop m (fun j (r : nlte_atom K × K) =>
      let i := j + 1
      let s := r.1
      let saha := ext.exp (-1.0 * (s.ions (i - 1)).chi / pc.k_ev / T)
      let saha := saha * ((s.ions i).part / (s.ions (i - 1)).part) *
        (2 / ne / ext.pow (pc.h * pc.h / (2.0 * pc.pi * pc.m_e * pc.k * T)) 1.5)
      let s := set_ion s i { s.ions i with frac := saha * (s.ions (i - 1)).frac }
      let s := if ne < 1e-50 then set_ion s i { s.ions i with frac := 0 } else s
      (s, r.2 + (s.ions i).frac)) (set_ion a 0 { a.ions 0 with frac := 1.0 }, 1.0)
    same_but_ions r.1 a ∧
    (∀ k, r.1.ions k = { a.ions k with frac :=
      (if k < m + 1 then saha_frac pc ext (ion_chi a) (fun k => (a.ions k).part) T ne k
      else (a.ions k).frac) }) ∧
    r.2 = 1.0 + ∑ i in Finset.range m,
      saha_frac pc ext (ion_chi a) (fun k => (a.ions k).part) T ne (i + 1) := by
  refine forLoop_inv (fun j (r : nlte_atom K × K) => same_but_ions r.1 a ∧
    (∀ k, r.1.ions k = { a.ions k with frac :=
      (if k < j + 1 then saha_frac pc ext (ion_chi a) (fun k => (a.ions k).part) T ne k
      else (a.ions k).frac) }) ∧
    r.2 = 1.0 + ∑ i in Finset.range j,
      saha_frac pc ext (ion_chi a) (fun k => (a.ions k).part) T ne (i + 1)) _ _ m
    ⟨same_but_ions_refl a, ?_, by simp⟩ ?_
  · intro k
    rw [set_ion_apply]
    by_cases hk : k = 0
    · subst hk; simp [saha_frac]
    · have : ¬ k < 1 := by omega
      simp [hk]
  rintro j r - ⟨hin, hI, hN⟩
  have hj : r.1.ions j = { a.ions j with frac :=
      (saha_frac pc ext (ion_chi a) (fun k => (a.ions k).part) T ne j) } := by
    rw [hI j]; simp
  have hj1 : r.1.ions (j + 1) = a.ions (j + 1) := by
    rw [hI (j + 1)]; simp
  have hF : saha_frac pc ext (ion_chi a) (fun k => (a.ions k).part) T ne (j + 1) =
      if ne < 1e-50 then 0
      else ext.exp (-1.0 * (a.ions j).chi / pc.k_ev / T) *
          ((a.ions (j + 1)).part / (a.ions j).part) *
          (2 / ne / ext.pow (pc.h * pc.h / (2.0 * pc.pi * pc.m_e * pc.k * T)) 1.5) *
        saha_frac pc ext (ion_chi a) (fun k => (a.ions k).part) T ne j := by
    simp [saha_frac, saha_ratio, saha_fac, ion_chi]
  by_cases hne : ne < 1e-50
  · rw [if_pos hne] at hF
    refine ⟨?_, ?_, ?_⟩
    · simp only [hne, if_true]
      exact hin
    · intro k
      simp only [hne, if_true, set_ion_apply, Nat.add_sub_cancel, hj, hj1, hI k]
      by_cases hk : k = j + 1
      · subst hk; rw [hF]; simp
      · simp [hk, lt_succ_split k (j + 1) hk]
    · simp only [hne, if_true, set_ion_apply, Finset.sum_range_succ, hN]
      rw [hF]
      simp
  · rw [if_neg hne] at hF
    refine ⟨?_, ?_, ?_⟩
    · simp only [hne, if_false]
      exact hin
    · intro k
      simp only [hne, if_false, set_ion_apply, Nat.add_sub_cancel, hj, hj1, hI k]
      by_cases hk : k = j + 1
      · subst hk; rw [hF]; simp
      · simp [hk, lt_succ_split k (j + 1) hk]
    · simp only [hne, if_false, set_ion_apply, Finset.sum_range_succ, hN,
        Nat.add_sub_cancel, hj, hj1]
      rw [hF]
      simp [add_assoc]

/-- State after the renormalisation loop of `lte_saha`. -/
theorem renorm_loop (s0 : nlte_atom K) (norm : K) (m : Nat) :
    let s := forLoop m (fun i (s : nlte_atom K) =>
      set_ion s i { s.ions i with frac := (s.ions i).frac / norm }) s0
    same_but_ions s s0 ∧
    ∀ k, s.ions k =
      if k < m then { s0.ions k with frac := (s0.ions k).frac / norm } else s0.ions k := by
  refine forLoop_inv (fun j (s : nlte_atom K) => same_but_ions s s0 ∧
    ∀ k, s.ions k =
      if k < j then { s0.ions k with frac := (s0.ions k).frac / norm } else s0.ions k) _ s0 m
    ⟨same_but_ions_refl s0, by simp⟩ ?_
  rintro j s - ⟨hin, hI⟩
  refine ⟨same_but_ions_set _ _ _ _ hin, ?_⟩
  intro k
  simp only [set_ion_apply, hI]
  by_cases hkj : k = j
  · subst hkj; simp
  · simp [hkj, lt_succ_split k j hkj]

theorem same_but_ions_trans (a b c : nlte_atom K) (h1 : same_but_ions a b)
    (h2 : same_but_ions b c) : same_but_ions a c := by
  obtain ⟨a1, a2, a3, a4, a5, a6, a7, a8, a9, a10, a11, a12, a13, a14⟩ := h1
  obtain ⟨b1, b2, b3, b4, b5, b6, b7, b8, b9, b10, b11, b12, b13, b14⟩ := h2
  exact ⟨a1.trans b1, a2.trans b2, a3.trans b3, a4.trans b4, a5.trans b5, a6.trans b6,
    a7.trans b7, a8.trans b8, a9.trans b9, a10.trans b10, a11.trans b11, a12.trans b12,
    a13.trans b13, a14.trans b14⟩

/-- Closed form of `lte_saha`: ion `k` gets its Saha fraction over the norm. -/
theorem lte_saha_spec (pc : physical_constants K) (ext : Externals K)
    (a : nlte_atom K) (T ne : K) :
    same_but_ions (lte_saha pc ext a T ne) a ∧
    ∀ k, k < a.n_ions → (lte_saha pc ext a T ne).ions k = { a.ions k with frac :=
      (saha_frac pc ext (ion_chi a) (fun k => (a.ions k).part) T ne k /
        saha_norm pc ext (ion_chi a) (fun k => (a.ions k).part) T ne a.n_ions) } := by
  have hS : same_but_ions (lte_saha_ratios pc ext a T ne).1 a ∧
      (∀ k, (lte_saha_ratios pc ext a T ne).1.ions k = { a.ions k with frac :=
        (if k < a.n_ions - 1 + 1
          then saha_frac pc ext (ion_chi a) (fun k => (a.ions k).part) T ne k
          else (a.ions k).frac) }) ∧
      (lte_saha_ratios pc ext a T ne).2 = 1.0 + ∑ i in Finset.range (a.n_ions - 1),
        saha_frac pc ext (ion_chi a) (fun k => (a.ions k).part) T ne (i + 1) :=
    saha_loop pc ext a T ne (a.n_ions - 1)
  obtain ⟨s1, s2, s3⟩ := hS
  have hR := renorm_loop (lte_saha_ratios pc ext a T ne).1 (lte_saha_ratios pc ext a T ne).2
    (lte_saha_ratios pc ext a T ne).1.n_ions
  have e0 : lte_saha pc ext a T ne = forLoop (lte_saha_ratios pc ext a T ne).1.n_ions
      (fun i (s : nlte_atom K) => set_ion s i { s.ions i with
        frac := (s.ions i).frac / (lte_saha_ratios pc ext a T ne).2 })
      (lte_saha_ratios pc ext a T ne).1 := rfl
  rw [e0]
  generalize lte_saha_ratios pc ext a T ne = r at s1 s2 s3 hR ⊢
  obtain ⟨r1, r2⟩ := hR
  refine ⟨same_but_ions_trans _ _ _ r1 s1, ?_⟩
  intro k hk
  refine (r2 k).trans ?_
  rw [s1.2.1, if_pos hk, s2 k, s3]
  have : k < a.n_ions - 1 + 1 := by omega
  simp only [this, if_true]
  rfl

/-- Closed form of `lte_levels`. -/
theorem lte_levels_spec (pc : physical_constants K) (ext : Externals K)
    (a : nlte_atom K) (T : K) :
    same_but_levels (lte_levels pc ext a T) a ∧
    ∀ i, (lte_levels pc ext a T).levels i =
      if i < a.n_levels then
        { a.levels i with
          n := ((a.ions (a.levels i).ion).frac * boltz pc ext a T i /
            (a.ions (a.levels i).ion).part),
          n_lte := ((a.ions (a.levels i).ion).frac * boltz pc ext a T i /
            (a.ions (a.levels i).ion).part),
          b := 1 }
      else a.levels i := by
  refine forLoop_inv (fun j (s : nlte_atom K) => same_but_levels s a ∧
    ∀ i, s.levels i =
      if i < j then
        { a.levels i with
          n := ((a.ions (a.levels i).ion).frac * boltz pc ext a T i /
            (a.ions (a.levels i).ion).part),
          n_lte := ((a.ions (a.levels i).ion).frac * boltz pc ext a T i /
            (a.ions (a.levels i).ion).part),
          b := 1 }
      else a.levels i) _ a a.n_levels ⟨same_but_levels_refl a, by simp⟩ ?_
  rintro j s - ⟨hin, hL⟩
  refine ⟨same_but_levels_set _ _ _ _ hin, ?_⟩
  intro i
  have hj : s.levels j = a.levels j := by rw [hL j]; simp
  have hi : s.ions = a.ions := hin.2.2.2.2.1
  simp only [set_level_apply, hL, hj, hi]
  by_cases hij : i = j
  · subst hij; simp [boltz, mul_assoc]
  · simp [hij, lt_succ_split i j hij]

theorem same_but_lines_refl (a : nlte_atom K) : same_but_lines a a :=
  ⟨rfl, rfl, rfl, rfl, rfl, rfl, rfl, rfl, rfl, rfl, rfl, rfl, rfl, rfl⟩

theorem same_but_lines_set (s a : nlte_atom K) (i : Nat) (v : nlte_line K)
    (h : same_but_lines s a) : same_but_lines (set_line s i v) a := h

/-- A call of `compute_sobolev_tau` writes to `lines` only. -/
theorem compute_sobolev_tau_frame (pc : physical_constants K) (ext : Externals K)
    (s a : nlte_atom K) (i : Nat) (time : K) (h : same_but_lines s a) :
    same_but_lines (compute_sobolev_tau pc ext s i time).2 a := by
  unfold compute_sobolev_tau
  simp only []
  split
  · exact same_but_lines_set _ _ _ _ h
  · split
    · exact same_but_lines_set _ _ _ _ h
    · exact same_but_lines_set _ _ _ _ h

/-- Loop `compute_sobolev_taus` writes to `lines` only. -/
theorem compute_sobolev_taus_frame (pc : physical_constants K) (ext : Externals K)
    (a : nlte_atom K) (time : K) :
    same_but_lines (compute_sobolev_taus pc ext a time) a :=
  forLoop_inv (fun _ (s : nlte_atom K) => same_but_lines s a) _ a a.n_lines
    (same_but_lines_refl a) (fun k s _ h => compute_sobolev_tau_frame pc ext s a k time h)

/-- Closed form of `solve_lte` on the ions and levels in range: the partition function of
ion `k` is `partition_fn`, its fraction is `lte_frac`, and level `i` gets the population
`frac * g * exp(-E / k_ev / T) / Z` of its ion, with departure coefficient 1. -/
theorem solve_lte_spec (pc : physical_constants K) (ext : Externals K)
    (a : nlte_atom K) (T ne time : K) :
    (solve_lte pc ext a T ne time).n_levels = a.n_levels ∧
    (solve_lte pc ext a T ne time).n_ions = a.n_ions ∧
    (∀ k, k < a.n_ions → (solve_lte pc ext a T ne time).ions k =
      { a.ions k with part := partition_fn pc ext a T k, frac := lte_frac pc ext a T ne k }) ∧
    ∀ i, i < a.n_levels → (solve_lte pc ext a T ne time).levels i =
      { a.levels i with
        n := (((solve_lte pc ext a T ne time).ions (a.levels i).ion).frac * boltz pc ext a T i /
          ((solve_lte pc ext a T ne time).ions (a.levels i).ion).part),
        n_lte := (((solve_lte pc ext a T ne time).ions (a.levels i).ion).frac *
          boltz pc ext a T i / ((solve_lte pc ext a T ne time).ions (a.levels i).ion).part),
        b := 1 } := by
  obtain ⟨p1, p2, p3⟩ := lte_partition_spec pc ext a T
  obtain ⟨q1, q2⟩ := lte_saha_spec pc ext (lte_partition pc ext a T) T ne
  obtain ⟨l1, l2⟩ := lte_levels_spec pc ext
    (lte_saha pc ext (lte_partition pc ext a T) T ne) T
  have t1 := compute_sobolev_taus_frame pc ext
    (lte_levels pc ext (lte_saha pc ext (lte_partition pc ext a T) T ne) T) time
  have e0 : solve_lte pc ext a T ne time = compute_sobolev_taus pc ext
    (lte_levels pc ext (lte_saha pc ext (lte_partition pc ext a T) T ne) T) time := rfl
  have hchi : ion_chi (lte_partition pc ext a T) = ion_chi a := by
    funext k
    unfold ion_chi
    rw [p3 k]
  have hpart : (fun k => ((lte_partition pc ext a T).ions k).part) = lte_part pc ext a T := by
    funext k
    rw [p3 k]
    rfl
  rw [hchi, hpart, p1.2.1] at q2
  have hb : ∀ i, boltz pc ext (lte_saha pc ext (lte_partition pc ext a T) T ne) T i =
      boltz pc ext a T i := by
    intro i
    unfold boltz
    rw [q1.2.2.2.2.1, p2 i]
    by_cases hi : i < a.n_levels
    · simp [hi]
    · simp [hi]
  have hions : (solve_lte pc ext a T ne time).ions =
      (lte_saha pc ext (lte_partition pc ext a T) T ne).ions := by
    rw [e0, t1.2.2.2.2.2.1, l1.2.2.2.2.1]
  have hlev : (solve_lte pc ext a T ne time).levels =
      (lte_levels pc ext (lte_saha pc ext (lte_partition pc ext a T) T ne) T).levels := by
    rw [e0, t1.2.2.2.2.1]
  refine ⟨?_, ?_, ?_, ?_⟩
  · rw [e0, t1.1, l1.1, q1.1, p1.1]
  · rw [e0, t1.2.1, l1.2.1, q1.2.1, p1.2.1]
  · intro k hk
    rw [hions, q2 k hk, p3 k]
    simp [hk, lte_frac]
  · intro i hi
    rw [hlev, l2 i, q1.1, p1.1, if_pos hi, hions]
    simp only [hb]
    rw [q1.2.2.2.2.1, p2 i, if_pos hi]

end LteLemmas

/-! ## The linear system of `solve_nlte` -/

section LinearSystem

variable {K : Type} [LinearOrderedField K]

/-- The vector installed by a pass is what the GSL routines return for the system that
`build_system` assembled from the rates of `set_rates`. -/
theorem nlte_pass_x_nlte (pc : physical_constants K) (ext : Externals K)
    (a : nlte_atom K) (T ne : K) :
    (nlte_pass pc ext a T ne).x_nlte =
      ext.LU_solve a.n_levels
        (ext.LU_decomp a.n_levels (build_system (set_rates pc ext a T ne)).M_nlte).1
        (ext.LU_decomp a.n_levels (build_system (set_rates pc ext a T ne)).M_nlte).2
        (build_system (set_rates pc ext a T ne)).b_nlte := by
  have hf := set_rates_frame pc ext a T ne
  obtain ⟨hin, -, -⟩ := build_system_spec (set_rates pc ext a T ne)
  have e := (install_populations_spec
    (linear_solve ext (build_system (set_rates pc ext a T ne)))).2.2.2.2.2.1
  have e2 : (nlte_pass pc ext a T ne).x_nlte =
      (linear_solve ext (build_system (set_rates pc ext a T ne))).x_nlte := e
  rw [e2]
  show ext.LU_solve (build_system (set_rates pc ext a T ne)).n_levels _ _ _ = _
  rw [hin.1, hf.1]

/-- The two by two system that `build_system` assembles. -/
theorem system_two (a : nlte_atom K) (h : a.n_levels = 2) :
    (build_system a).M_nlte 0 0 = -(a.rates 0 0 + a.rates 0 1) ∧
    (build_system a).M_nlte 0 1 = a.rates 1 0 ∧
    (build_system a).M_nlte 1 0 = (a.levels 0).n_lte ∧
    (build_system a).M_nlte 1 1 = (a.levels 1).n_lte ∧
    (build_system a).b_nlte 0 = 0 ∧ (build_system a).b_nlte 1 = 1 := by
  obtain ⟨-, hb, hM⟩ := build_system_spec a
  rw [h] at hb hM
  refine ⟨?_, ?_, ?_, ?_, ?_, ?_⟩
  · rw [hM 0 0 (by decide) (by decide)]
    simp [system_entry, h, Finset.sum_range_succ]
  · rw [hM 0 1 (by decide) (by decide)]
    simp [system_entry, h]
  · rw [hM 1 0 (by decide) (by decide)]
    simp [system_entry, h]
  · rw [hM 1 1 (by decide) (by decide)]
    simp [system_entry, h]
  · rw [hb 0]; simp
  · rw [hb 1]; simp

/-- Claim C1.  In an iteration of `solve_nlte` started from any state `a`, the system handed
to the solver is built from the rates left by `set_rates`: in every row `i < n - 1` the
diagonal entry is minus the sum of `rates[i][j]` over `j` and the entry in column `j ≠ i` is
`rates[j][i]`; the last row holds the LTE populations; `b` is 1 in its last entry and 0
elsewhere; and the departure coefficients are what the GSL routines return for exactly this
matrix and right-hand side. -/
theorem C1_linear_system (pc : physical_constants K) (ext : Externals K)
    (a : nlte_atom K) (T ne : K) :
    (∀ i j, i + 1 < a.n_levels → j < a.n_levels →
      (build_system (set_rates pc ext a T ne)).M_nlte i j =
        if j = i then -(∑ k in Finset.range a.n_levels, (set_rates pc ext a T ne).rates i k)
        else (set_rates pc ext a T ne).rates j i) ∧
    (∀ j, j < a.n_levels →
      (build_system (set_rates pc ext a T ne)).M_nlte (a.n_levels - 1) j = (a.levels j).n_lte) ∧
    (∀ i, i < a.n_levels →
      (build_system (set_rates pc ext a T ne)).b_nlte i = if i = a.n_levels - 1 then 1 else 0) ∧
    (nlte_pass pc ext a T ne).x_nlte =
      ext.LU_solve a.n_levels
        (ext.LU_decomp a.n_levels (build_system (set_rates pc ext a T ne)).M_nlte).1
        (ext.LU_decomp a.n_levels (build_system (set_rates pc ext a T ne)).M_nlte).2
        (build_system (set_rates pc ext a T ne)).b_nlte := by
  have hf := set_rates_frame pc ext a T ne
  obtain ⟨hin, hb, hM⟩ := build_system_spec (set_rates pc ext a T ne)
  have hn : (set_rates pc ext a T ne).n_levels = a.n_levels := hf.1
  have hl : (set_rates pc ext a T ne).levels = a.levels := hf.2.2.2.1
  refine ⟨?_, ?_, ?_, ?_⟩
  · intro i j hi hj
    rw [hM i j (by omega) (by omega)]
    unfold system_entry
    rw [hn]
    have h1 : ¬ i = a.n_levels - 1 := by omega
    by_cases hij : j = i
    · subst hij; simp [h1]
    · have : ¬ i = j := fun e => hij e.symm
      simp [h1, hij, this]
  · intro j hj
    rw [hM _ j (by omega) (by omega)]
    unfold system_entry
    simp [hn, hl]
  · intro i _
    rw [hb i, hn]
  · exact nlte_pass_x_nlte pc ext a T ne

end LinearSystem

/-- Instance of claim C1 on the toy species: entry `(0, 1)` of the matrix is the rate
from level 1 to level 0. -/
theorem C1_linear_system_witness :
    (build_system (set_rates (pc_cgs ℚ) ext_demo (toy_atom ℚ) 10000 100000000)).M_nlte 0 1 =
      (set_rates (pc_cgs ℚ) ext_demo (toy_atom ℚ) 10000 100000000).rates 1 0 :=
  ((C1_linear_system (pc_cgs ℚ) ext_demo (toy_atom ℚ) 10000 100000000).1 0 1
    (by decide) (by decide)).trans (if_neg (by decide))

section RowSums

variable {K : Type} [LinearOrderedField K]

/-- Sum of row `i < n - 1` of the assembled matrix: what flows into level `i` minus what
flows out of it. -/
theorem system_row_sum (a : nlte_atom K) (i : Nat) (hi : i + 1 < a.n_levels) :
    ∑ j in Finset.range a.n_levels, (build_system a).M_nlte i j =
      (∑ j in Finset.range a.n_levels, if j = i then 0 else a.rates j i) -
        ∑ j in Finset.range a.n_levels, a.rates i j := by
  obtain ⟨-, -, hM⟩ := build_system_spec a
  have h1 : ¬ i = a.n_levels - 1 := by omega
  have e : ∀ j ∈ Finset.range a.n_levels, (build_system a).M_nlte i j =
      (if j = i then 0 else a.rates j i) +
        (if j = i then -(∑ k in Finset.range a.n_levels, a.rates i k) else 0) := by
    intro j hj
    rw [hM i j (by omega) (Finset.mem_range.mp hj)]
    unfold system_entry
    by_cases hij : j = i
    · subst hij; simp [h1]
    · have : ¬ i = j := fun e => hij e.symm
      simp [h1, hij, this]
  rw [Finset.sum_congr rfl e, Finset.sum_add_distrib, Finset.sum_ite_eq']
  have hmem : i ∈ Finset.range a.n_levels := Finset.mem_range.mpr (by omega)
  simp only [hmem, if_true]
  ring

/-- Claim C2 (as the code has it).  Row `i < n - 1` of the matrix built in `solve_nlte` sums to
the total rate into level `i` minus the total rate out of it,
`(sum over j ≠ i of rates[j][i]) - (sum over j of rates[i][j])`, with `rates` as left by
`set_rates`; the sum is zero only when these two totals agree. -/
theorem C2_row_sum (pc : physical_constants K) (ext : Externals K)
    (a : nlte_atom K) (T ne : K) (i : Nat) (hi : i + 1 < a.n_levels) :
    ∑ j in Finset.range a.n_levels, (build_system (set_rates pc ext a T ne)).M_nlte i j =
      (∑ j in Finset.range a.n_levels,
          if j = i then 0 else (set_rates pc ext a T ne).rates j i) -
        ∑ j in Finset.range a.n_levels, (set_rates pc ext a T ne).rates i j := by
  have hn : (set_rates pc ext a T ne).n_levels = a.n_levels := (set_rates_frame pc ext a T ne).1
  have h := system_row_sum (set_rates pc ext a T ne) i (by omega)
  rw [hn] at h
  exact h

end RowSums

/-- Instance of claim C2 on the toy species (row 0). -/
theorem C2_row_sum_witness :
    ∑ j in Finset.range 2,
        (build_system (set_rates (pc_cgs ℚ) ext_demo (toy_atom ℚ) 10000 100000000)).M_nlte 0 j =
      (∑ j in Finset.range 2,
          if j = 0 then 0
          else (set_rates (pc_cgs ℚ) ext_demo (toy_atom ℚ) 10000 100000000).rates j 0) -
        ∑ j in Finset.range 2,
          (set_rates (pc_cgs ℚ) ext_demo (toy_atom ℚ) 10000 100000000).rates 0 j :=
  C2_row_sum (pc_cgs ℚ) ext_demo (toy_atom ℚ) 10000 100000000 0 (by decide)

/-! ## Particle conservation -/

section Conservation

variable {K : Type} [LinearOrderedField K]

/-- Summing, over the ions, the values of the levels each ion owns gives the sum over all
levels, when every level belongs to one of the ions. -/
theorem sum_over_ions (n m : Nat) (ion : Nat → Nat) (v : Nat → K)
    (h : ∀ i, i < n → ion i < m) :
    ∑ k in Finset.range m, ∑ i in Finset.range n, (if ion i = k then v i else 0) =
      ∑ i in Finset.range n, v i := by
  rw [Finset.sum_comm]
  refine Finset.sum_congr rfl (fun i hi => ?_)
  rw [Finset.sum_ite_eq]
  simp [h i (Finset.mem_range.mp hi)]

/-- State left by one pass of the loop body of `solve_nlte`, in terms of the state `a` it
starts from and the vector `x` the solver returned. -/
theorem nlte_pass_spec (pc : physical_constants K) (ext : Externals K)
    (a : nlte_atom K) (T ne : K) :
    (nlte_pass pc ext a T ne).n_levels = a.n_levels ∧
    (nlte_pass pc ext a T ne).n_ions = a.n_ions ∧
    (nlte_pass pc ext a T ne).n_lines = a.n_lines ∧
    (nlte_pass pc ext a T ne).lines = a.lines ∧
    (nlte_pass pc ext a T ne).use_betas = a.use_betas ∧
    (∀ i, (nlte_pass pc ext a T ne).levels i = if i < a.n_levels then
        { a.levels i with n := (nlte_pass pc ext a T ne).x_nlte i * (a.levels i).n_lte,
                          b := (nlte_pass pc ext a T ne).x_nlte i }
      else a.levels i) ∧
    ∀ k, (nlte_pass pc ext a T ne).ions k = { a.ions k with
      frac := (if k < a.n_ions then 0 else (a.ions k).frac) +
        (∑ i in Finset.range a.n_levels,
          if (a.levels i).ion = k
            then (nlte_pass pc ext a T ne).x_nlte i * (a.levels i).n_lte else 0) } := by
  have hf := set_rates_frame pc ext a T ne
  obtain ⟨hin, -, -⟩ := build_system_spec (set_rates pc ext a T ne)
  have e0 : nlte_pass pc ext a T ne =
      install_populations (linear_solve ext (build_system (set_rates pc ext a T ne))) := by
    unfold nlte_pass solve_and_update
    rfl
  rw [e0]
  generalize hr : build_system (set_rates pc ext a T ne) = r at hin ⊢
  obtain ⟨p1, p2, p3, p4, p5, p6, p7, p8⟩ := install_populations_spec (linear_solve ext r)
  have hx : (install_populations (linear_solve ext r)).x_nlte = (linear_solve ext r).x_nlte := p6
  have hn : (linear_solve ext r).n_levels = a.n_levels := hin.1.trans hf.1
  have hni : (linear_solve ext r).n_ions = a.n_ions := hin.2.1.trans hf.2.1
  have hl : (linear_solve ext r).levels = a.levels := hin.2.2.2.2.1.trans hf.2.2.2.1
  have hi : (linear_solve ext r).ions = a.ions := hin.2.2.2.2.2.1.trans hf.2.2.2.2.1
  refine ⟨p1.trans hn, p2.trans hni, p3.trans (hin.2.2.1.trans hf.2.2.1),
    p4.trans (hin.2.2.2.2.2.2.1.trans hf.2.2.2.2.2.1),
    p5.trans (hin.2.2.2.2.2.2.2.1.trans hf.2.2.2.2.2.2.1), ?_, ?_⟩
  · intro i
    have := p7 i
    rw [hn, hl] at this
    rw [hx]
    exact this
  · intro k
    have := p8 k
    rw [hn, hni, hl, hi] at this
    rw [hx]
    exact this

/-- Claim C3.  If the vector `x` left by the solver satisfies `M x = b` for the system built in
this iteration, then after the update the populations sum to 1, which is also the sum of
`x[i] * n_lte[i]`; each level has `b = x[i]` and `n = b * n_lte` with `n_lte` untouched; and
the recomputed ion fractions sum to 1 (every level belonging to one of the ions). -/
theorem C3_particle_conservation (pc : physical_constants K) (ext : Externals K)
    (a : nlte_atom K) (T ne : K) (hn : 0 < a.n_levels)
    (hion : ∀ i, i < a.n_levels → (a.levels i).ion < a.n_ions)
    (hx : ∀ i, i < a.n_levels →
      ∑ j in Finset.range a.n_levels,
        (build_system (set_rates pc ext a T ne)).M_nlte i j *
          (nlte_pass pc ext a T ne).x_nlte j =
      (build_system (set_rates pc ext a T ne)).b_nlte i) :
    ∑ i in Finset.range a.n_levels, ((nlte_pass pc ext a T ne).levels i).n = 1 ∧
    ∑ i in Finset.range a.n_levels,
      (nlte_pass pc ext a T ne).x_nlte i * (a.levels i).n_lte = 1 ∧
    (∀ i, i < a.n_levels →
      ((nlte_pass pc ext a T ne).levels i).b = (nlte_pass pc ext a T ne).x_nlte i ∧
      ((nlte_pass pc ext a T ne).levels i).n =
        ((nlte_pass pc ext a T ne).levels i).b * ((nlte_pass pc ext a T ne).levels i).n_lte ∧
      ((nlte_pass pc ext a T ne).levels i).n_lte = (a.levels i).n_lte) ∧
    ∑ k in Finset.range a.n_ions, ((nlte_pass pc ext a T ne).ions k).frac = 1 := by
  obtain ⟨-, -, -, -, -, hL, hI⟩ := nlte_pass_spec pc ext a T ne
  have hf := set_rates_frame pc ext a T ne
  obtain ⟨-, hb, hM⟩ := build_system_spec (set_rates pc ext a T ne)
  rw [hf.1] at hb hM
  have hM2 : ∀ j, j < a.n_levels →
      (build_system (set_rates pc ext a T ne)).M_nlte (a.n_levels - 1) j = (a.levels j).n_lte := by
    intro j hj
    rw [hM _ j (by omega) hj]
    unfold system_entry
    rw [hf.1, hf.2.2.2.1, if_pos rfl]
  generalize nlte_pass pc ext a T ne = s at hx hL hI ⊢
  generalize build_system (set_rates pc ext a T ne) = r at hx hb hM2
  -- the conservation row
  have hlast : ∑ i in Finset.range a.n_levels, s.x_nlte i * (a.levels i).n_lte = 1 := by
    have h := hx (a.n_levels - 1) (by omega)
    rw [hb, if_pos rfl] at h
    rw [← h]
    refine Finset.sum_congr rfl (fun j hj => ?_)
    rw [hM2 j (Finset.mem_range.mp hj), mul_comm]
  have hpop : ∑ i in Finset.range a.n_levels, (s.levels i).n = 1 := by
    rw [← hlast]
    refine Finset.sum_congr rfl (fun i hi => ?_)
    rw [hL i, if_pos (Finset.mem_range.mp hi)]
  refine ⟨hpop, hlast, ?_, ?_⟩
  · intro i hi
    rw [hL i, if_pos hi]
    exact ⟨rfl, rfl, rfl⟩
  · have e : ∀ k ∈ Finset.range a.n_ions, (s.ions k).frac =
        ∑ i in Finset.range a.n_levels, (if (a.levels i).ion = k
          then s.x_nlte i * (a.levels i).n_lte else 0) := by
      intro k hk
      rw [hI k]
      simp [Finset.mem_range.mp hk]
    rw [Finset.sum_congr rfl e, sum_over_ions _ _ _ _ hion, hlast]

end Conservation

/-- Instance of claim C3 on the toy species at `T = 10000`, `n_e = 1e8`, with the Cramer
solve: the populations after the first pass sum to 1. -/
theorem C3_particle_conservation_witness :
    ∑ i in Finset.range 2,
      ((nlte_pass (pc_cgs ℚ) ext_demo
        (nlte_init (pc_cgs ℚ) ext_demo (toy_atom ℚ) 10000 100000000 1000000)
        10000 100000000).levels i).n = 1 := by
  have h := (C3_particle_conservation (pc_cgs ℚ) ext_demo
    (nlte_init (pc_cgs ℚ) ext_demo (toy_atom ℚ) 10000 100000000 1000000) 10000 100000000
    (by decide!) (by decide!) (by decide!)).1
  rw [show (nlte_init (pc_cgs ℚ) ext_demo (toy_atom ℚ) 10000 100000000 1000000).n_levels = 2
    by decide!] at h
  exact h

/-! ## Ion fractions and level populations -/

section IonFractions

variable {K : Type} [LinearOrderedField K]

/-- The Boltzmann weights are positive when `exp` is and the statistical weights are at
least 1. -/
theorem boltz_pos (pc : physical_constants K) (ext : Externals K) (a : nlte_atom K) (T : K)
    (hexp : ∀ x, 0 < ext.exp x) (i : Nat) (hg : 1 ≤ (a.levels i).g) :
    0 < boltz pc ext a T i := by
  unfold boltz
  have h1 : (0 : K) < ((a.levels i).g : K) := by
    have : (0 : Int) < (a.levels i).g := by omega
    exact_mod_cast this
  exact mul_pos h1 (hexp _)

/-- An ion that owns a level has a positive partition function. -/
theorem partition_fn_pos (pc : physical_constants K) (ext : Externals K) (a : nlte_atom K)
    (T : K) (hexp : ∀ x, 0 < ext.exp x)
    (hg : ∀ i, i < a.n_levels → 1 ≤ (a.levels i).g)
    (k : Nat) (hown : ∃ i, i < a.n_levels ∧ (a.levels i).ion = k) :
    0 < partition_fn pc ext a T k := by
  unfold partition_fn
  obtain ⟨i0, hi0, hk0⟩ := hown
  refine Finset.sum_pos' (fun i hi => ?_) ⟨i0, Finset.mem_range.mpr hi0, ?_⟩
  · by_cases h : (a.levels i).ion = k
    · rw [if_pos h]
      exact le_of_lt (boltz_pos pc ext a T hexp i (hg i (Finset.mem_range.mp hi)))
    · rw [if_neg h]
  · rw [if_pos hk0]
    exact boltz_pos pc ext a T hexp i0 (hg i0 hi0)

/-- The round trip holds after `solve_lte` for every ion with a non-zero partition
function. -/
theorem solve_lte_consistent (pc : physical_constants K) (ext : Externals K)
    (a : nlte_atom K) (T ne time : K)
    (hZ : ∀ k, k < a.n_ions → partition_fn pc ext a T k ≠ 0) :
    ion_fracs_consistent (solve_lte pc ext a T ne time) := by
  obtain ⟨h1, h2, h3, h4⟩ := solve_lte_spec pc ext a T ne time
  intro k hk
  rw [h2] at hk
  rw [h1, h3 k hk, Finset.sum_filter]
  have e : ∀ i ∈ Finset.range a.n_levels,
      (if ((solve_lte pc ext a T ne time).levels i).ion = k
        then ((solve_lte pc ext a T ne time).levels i).n else 0) =
      lte_frac pc ext a T ne k *
        ((if (a.levels i).ion = k then boltz pc ext a T i else 0) /
          partition_fn pc ext a T k) := by
    intro i hi
    rw [h4 i (Finset.mem_range.mp hi)]
    by_cases hik : (a.levels i).ion = k
    · simp only [hik, if_true]
      rw [h3 k hk]
      simp only []
      rw [mul_div_assoc]
    · simp [hik]
  rw [Finset.sum_congr rfl e, ← Finset.mul_sum, ← Finset.sum_div]
  have hz := hZ k hk
  unfold partition_fn at hz ⊢
  rw [div_self hz, mul_one]

/-- The round trip holds after one pass of the loop body of `solve_nlte`. -/
theorem nlte_pass_consistent (pc : physical_constants K) (ext : Externals K)
    (a : nlte_atom K) (T ne : K) :
    ion_fracs_consistent (nlte_pass pc ext a T ne) := by
  obtain ⟨h1, h2, -, -, -, hL, hI⟩ := nlte_pass_spec pc ext a T ne
  intro k hk
  rw [h2] at hk
  rw [h1, hI k, Finset.sum_filter]
  simp only [hk, if_true, zero_add]
  refine Finset.sum_congr rfl (fun i hi => ?_)
  rw [hL i, if_pos (Finset.mem_range.mp hi)]

/-- States that differ in `lines` only are consistent together. -/
theorem consistent_of_same_but_lines (s a : nlte_atom K) (h : same_but_lines s a)
    (ha : ion_fracs_consistent a) : ion_fracs_consistent s := by
  intro k hk
  rw [h.2.1] at hk
  have := ha k hk
  rw [h.1, h.2.2.2.2.1, h.2.2.2.2.2.1]
  exact this

/-- The beta test of `solve_nlte` writes to `lines` only. -/
theorem check_betas_frame (pc : physical_constants K) (ext : Externals K)
    (a : nlte_atom K) (time : K) :
    same_but_lines (check_betas pc ext a time).2 a := by
  refine forLoop_inv (fun _ (r : Bool × nlte_atom K) => same_but_lines r.2 a) _ _ a.n_lines
    (same_but_lines_refl a) ?_
  intro k r _ h
  simp only []
  split
  · exact compute_sobolev_tau_frame pc ext r.2 a k time h
  · exact compute_sobolev_tau_frame pc ext r.2 a k time h

theorem nlte_loop_zero (pc : physical_constants K) (ext : Externals K) (T ne time : K)
    (a : nlte_atom K) : nlte_loop pc ext T ne time 0 a = (0, a) := rfl

theorem nlte_loop_succ (pc : physical_constants K) (ext : Externals K) (T ne time : K)
    (iters : Nat) (a : nlte_atom K) :
    nlte_loop pc ext T ne time (iters + 1) a =
      if !(nlte_pass pc ext a T ne).use_betas then (1, nlte_pass pc ext a T ne)
      else if (check_betas pc ext (nlte_pass pc ext a T ne) time).1
        then (1, (check_betas pc ext (nlte_pass pc ext a T ne) time).2)
        else nlte_loop pc ext T ne time iters
          (check_betas pc ext (nlte_pass pc ext a T ne) time).2 := rfl

theorem solve_nlte_eq (pc : physical_constants K) (ext : Externals K)
    (a : nlte_atom K) (T ne time : K) :
    solve_nlte pc ext a T ne time =
      nlte_loop pc ext T ne time 100 (nlte_init pc ext a T ne time) := rfl

/-- The round trip holds in the state the iteration loop of `solve_nlte` returns, when the
loop runs at least once or starts from a consistent state. -/
theorem nlte_loop_consistent (pc : physical_constants K) (ext : Externals K) (T ne time : K) :
    ∀ (iters : Nat) (a : nlte_atom K), (iters = 0 → ion_fracs_consistent a) →
      ion_fracs_consistent (nlte_loop pc ext T ne time iters a).2 := by
  intro iters
  induction iters with
  | zero =>
    intro a h
    rw [nlte_loop_zero]
    exact h rfl
  | succ m ih =>
    intro a _
    have hp := nlte_pass_consistent pc ext a T ne
    have hc := consistent_of_same_but_lines _ _
      (check_betas_frame pc ext (nlte_pass pc ext a T ne) time) hp
    rw [nlte_loop_succ]
    generalize nlte_pass pc ext a T ne = s at hp hc ⊢
    generalize check_betas pc ext s time = r at hc ⊢
    split
    · exact hp
    · split
      · exact hc
      · exact ih _ (fun _ => hc)

/-- Claim C4.  For every ion the populations of its levels add up to its fraction: after
`solve_lte`, when `exp` is positive, `T > 0`, `k_ev > 0`, the statistical weights are at
least 1 and every ion owns a level; after the solve and update of every iteration of `solve_nlte`; after the
beta test of that iteration; and in the state `solve_nlte` returns. -/
theorem C4_ion_fraction_round_trip (pc : physical_constants K) (ext : Externals K)
    (a : nlte_atom K) (T ne time : K) :
    ((∀ x, 0 < ext.exp x) → 0 < T → 0 < pc.k_ev →
      (∀ i, i < a.n_levels → 1 ≤ (a.levels i).g) →
      (∀ k, k < a.n_ions → ∃ i, i < a.n_levels ∧ (a.levels i).ion = k) →
      ion_fracs_consistent (solve_lte pc ext a T ne time)) ∧
    ion_fracs_consistent (nlte_pass pc ext a T ne) ∧
    ion_fracs_consistent (check_betas pc ext (nlte_pass pc ext a T ne) time).2 ∧
    ion_fracs_consistent (solve_nlte pc ext a T ne time).2 := by
  refine ⟨?_, nlte_pass_consistent pc ext a T ne, ?_, ?_⟩
  · intro hexp _ _ hg hown
    exact solve_lte_consistent pc ext a T ne time
      (fun k hk => ne_of_gt (partition_fn_pos pc ext a T hexp hg k (hown k hk)))
  · exact consistent_of_same_but_lines _ _
      (check_betas_frame pc ext (nlte_pass pc ext a T ne) time)
      (nlte_pass_consistent pc ext a T ne)
  · rw [solve_nlte_eq]
    exact nlte_loop_consistent pc ext T ne time 100 _ (fun h => absurd h (by decide))

end IonFractions

/-! ## Normalisation of the Saha fractions -/

section SahaNorm

variable {K : Type} [LinearOrderedField K]

/-- The fractions `solve_lte` leaves add up to `(sum of the Saha fractions) / norm`, and the
numerator is `norm` itself. -/
theorem lte_frac_sum (pc : physical_constants K) (ext : Externals K)
    (a : nlte_atom K) (T ne : K) (hn : 0 < a.n_ions)
    (hnorm : saha_norm pc ext (ion_chi a) (lte_part pc ext a T) T ne a.n_ions ≠ 0) :
    ∑ k in Finset.range a.n_ions, lte_frac pc ext a T ne k = 1 := by
  unfold lte_frac
  rw [← Finset.sum_div]
  have e : ∑ k in Finset.range a.n_ions,
      saha_frac pc ext (ion_chi a) (lte_part pc ext a T) T ne k =
      saha_norm pc ext (ion_chi a) (lte_part pc ext a T) T ne a.n_ions := by
    have hn2 : a.n_ions = (a.n_ions - 1) + 1 := by omega
    conv_lhs => rw [hn2]
    rw [Finset.sum_range_succ']
    unfold saha_norm
    rw [add_comm]
    rfl
  rw [e, div_self hnorm]

/-- Below the `1e-50` guard every Saha fraction past ion 0 is zero. -/
theorem saha_frac_small_ne (pc : physical_constants K) (ext : Externals K)
    (chi Z : Nat → K) (T ne : K) (hne : ne < 1e-50) (k : Nat) :
    saha_frac pc ext chi Z T ne (k + 1) = 0 := by
  simp [saha_frac, hne]

/-- Below the `1e-50` guard the norm is 1. -/
theorem saha_norm_small_ne (pc : physical_constants K) (ext : Externals K)
    (chi Z : Nat → K) (T ne : K) (hne : ne < 1e-50) (n : Nat) :
    saha_norm pc ext chi Z T ne n = 1 := by
  unfold saha_norm
  rw [Finset.sum_eq_zero (fun i _ => saha_frac_small_ne pc ext chi Z T ne hne i)]
  norm_num

/-- The Saha fractions of the ions in range are non-negative when `exp` and `pow` are
positive and the partition functions in range are non-negative. -/
theorem saha_frac_nonneg (pc : physical_constants K) (ext : Externals K)
    (chi Z : Nat → K) (T ne : K) (n : Nat)
    (hexp : ∀ x, 0 < ext.exp x) (hfac : 0 ≤ saha_fac pc ext T ne)
    (hZ : ∀ k, k < n → 0 ≤ Z k) :
    ∀ k, k < n → 0 ≤ saha_frac pc ext chi Z T ne k := by
  intro k
  induction k with
  | zero =>
    intro _
    unfold saha_frac
    norm_num
  | succ m ih =>
    intro hm
    unfold saha_frac
    by_cases hne : ne < 1e-50
    · simp [hne]
    · simp only [hne, if_false]
      refine mul_nonneg ?_ (ih (by omega))
      unfold saha_ratio
      refine mul_nonneg (mul_nonneg (le_of_lt (hexp _)) ?_) hfac
      exact div_nonneg (hZ _ hm) (hZ _ (by omega))

/-- The factor `2 / ne / pow(lt, 1.5)` is non-negative for `ne >= 0`, `T > 0`, positive
constants and a `pow` that is positive on positive bases. -/
theorem saha_fac_nonneg (pc : physical_constants K) (ext : Externals K) (T ne : K)
    (hT : 0 < T) (hne : 0 ≤ ne) (hpow : ∀ x y, 0 < x → 0 < ext.pow x y)
    (hpi : 0 < pc.pi) (hh : 0 < pc.h) (hme : 0 < pc.m_e) (hk : 0 < pc.k) :
    0 ≤ saha_fac pc ext T ne := by
  unfold saha_fac
  have h2 : ((2.0 : K)) = 2 := by norm_num
  have hlt : 0 < pc.h * pc.h / (2.0 * pc.pi * pc.m_e * pc.k * T) := by
    rw [h2]
    positivity
  exact div_nonneg (div_nonneg (by norm_num) hne) (le_of_lt (hpow _ _ hlt))

/-- Claim C5.  After `solve_lte` with at least one ion the ion fractions sum to exactly 1:
(a) for `n_e < 1e-50` ion 0 has fraction 1 and every other ion fraction 0; (b) for every
`T > 0` and `n_e >= 0`, with positive `exp`, `pow` and constants, statistical weights at
least 1 and every ion owning a level. -/
theorem C5_ion_fractions_sum_to_one (pc : physical_constants K) (ext : Externals K)
    (a : nlte_atom K) (T ne time : K) (hn : 0 < a.n_ions) :
    (ne < 1e-50 →
      ((solve_lte pc ext a T ne time).ions 0).frac = 1 ∧
      (∀ k, 0 < k → k < a.n_ions → ((solve_lte pc ext a T ne time).ions k).frac = 0) ∧
      ∑ k in Finset.range a.n_ions, ((solve_lte pc ext a T ne time).ions k).frac = 1) ∧
    (0 < T → 0 ≤ ne → (∀ x, 0 < ext.exp x) → (∀ x y, 0 < x → 0 < ext.pow x y) →
      0 < pc.pi → 0 < pc.h → 0 < pc.m_e → 0 < pc.k → 0 < pc.k_ev →
      (∀ i, i < a.n_levels → 1 ≤ (a.levels i).g) →
      (∀ k, k < a.n_ions → ∃ i, i < a.n_levels ∧ (a.levels i).ion = k) →
      ∑ k in Finset.range a.n_ions, ((solve_lte pc ext a T ne time).ions k).frac = 1) := by
  obtain ⟨-, -, h3, -⟩ := solve_lte_spec pc ext a T ne time
  have hsum : ∑ k in Finset.range a.n_ions, ((solve_lte pc ext a T ne time).ions k).frac =
      ∑ k in Finset.range a.n_ions, lte_frac pc ext a T ne k := by
    refine Finset.sum_congr rfl (fun k hk => ?_)
    rw [h3 k (Finset.mem_range.mp hk)]
  refine ⟨?_, ?_⟩
  · intro hne
    have hN := saha_norm_small_ne pc ext (ion_chi a) (lte_part pc ext a T) T ne hne a.n_ions
    refine ⟨?_, ?_, ?_⟩
    · rw [h3 0 hn]
      show lte_frac pc ext a T ne 0 = 1
      unfold lte_frac
      rw [hN]
      unfold saha_frac
      norm_num
    · intro k hk0 hk
      rw [h3 k hk]
      show lte_frac pc ext a T ne k = 0
      unfold lte_frac
      obtain ⟨m, rfl⟩ : ∃ m, k = m + 1 := ⟨k - 1, by omega⟩
      rw [saha_frac_small_ne pc ext _ _ T ne hne m, zero_div]
    · rw [hsum]
      exact lte_frac_sum pc ext a T ne hn (by rw [hN]; exact one_ne_zero)
  · intro hT hne hexp hpow hpi hh hme hk _ hg hown
    rw [hsum]
    refine lte_frac_sum pc ext a T ne hn (ne_of_gt ?_)
    have hZ : ∀ k, k < a.n_ions → 0 ≤ lte_part pc ext a T k := by
      intro k hk
      unfold lte_part
      rw [if_pos hk, zero_add]
      exact le_of_lt (partition_fn_pos pc ext a T hexp hg k (hown k hk))
    have hF := saha_frac_nonneg pc ext (ion_chi a) (lte_part pc ext a T) T ne a.n_ions hexp
      (saha_fac_nonneg pc ext T ne hT hne hpow hpi hh hme hk) hZ
    unfold saha_norm
    have h1 : ((1.0 : K)) = 1 := by norm_num
    rw [h1]
    have : 0 ≤ ∑ i in Finset.range (a.n_ions - 1),
        saha_frac pc ext (ion_chi a) (lte_part pc ext a T) T ne (i + 1) :=
      Finset.sum_nonneg (fun i hi => hF (i + 1) (by have := Finset.mem_range.mp hi; omega))
    linarith

end SahaNorm

/-! ## One pass without escape feedback -/

section OnePass

variable {K : Type} [LinearOrderedField K]

theorem same_config_of_pops (s a : nlte_atom K) (h : same_but_pops s a) : same_config s a :=
  ⟨h.1, h.2.1, h.2.2.1, h.2.2.2.2.2.1, h.2.2.2.2.2.2.1, h.2.2.2.2.2.2.2.1,
    h.2.2.2.2.2.2.2.2.1⟩

theorem same_config_of_lines (s a : nlte_atom K) (h : same_but_lines s a) : same_config s a :=
  ⟨h.1, h.2.1, h.2.2.1, h.2.2.2.2.2.2.1, h.2.2.2.2.2.2.2.1, h.2.2.2.2.2.2.2.2.1,
    h.2.2.2.2.2.2.2.2.2.1⟩

theorem same_config_trans (a b c : nlte_atom K) (h1 : same_config a b)
    (h2 : same_config b c) : same_config a c :=
  ⟨h1.1.trans h2.1, h1.2.1.trans h2.2.1, h1.2.2.1.trans h2.2.2.1,
    h1.2.2.2.1.trans h2.2.2.2.1, h1.2.2.2.2.1.trans h2.2.2.2.2.1,
    h1.2.2.2.2.2.1.trans h2.2.2.2.2.2.1, h1.2.2.2.2.2.2.trans h2.2.2.2.2.2.2⟩

/-- Routine `solve_lte` keeps the sizes and the caller's settings. -/
theorem solve_lte_config (pc : physical_constants K) (ext : Externals K)
    (a : nlte_atom K) (T ne time : K) : same_config (solve_lte pc ext a T ne time) a := by
  obtain ⟨p1, -, -⟩ := lte_partition_spec pc ext a T
  obtain ⟨q1, -⟩ := lte_saha_spec pc ext (lte_partition pc ext a T) T ne
  obtain ⟨l1, -⟩ := lte_levels_spec pc ext (lte_saha pc ext (lte_partition pc ext a T) T ne) T
  have t1 := compute_sobolev_taus_frame pc ext
    (lte_levels pc ext (lte_saha pc ext (lte_partition pc ext a T) T ne) T) time
  exact same_config_trans _ _ _ (same_config_of_lines _ _ t1)
    (same_config_trans _ _ _ (same_config_of_pops _ _ (same_but_pops_of_levels _ _ l1))
      (same_config_trans _ _ _ (same_config_of_pops _ _ (same_but_pops_of_ions _ _ q1))
        (same_config_of_pops _ _ p1)))

/-- The start of `solve_nlte` changes the lines only after `solve_lte`. -/
theorem nlte_init_frame (pc : physical_constants K) (ext : Externals K)
    (a : nlte_atom K) (T ne time : K) :
    same_but_lines (nlte_init pc ext a T ne time) (solve_lte pc ext a T ne time) :=
  forLoop_inv (fun _ (s : nlte_atom K) => same_but_lines s (solve_lte pc ext a T ne time)) _ _ _
    (same_but_lines_refl _) (fun _ _ _ h => same_but_lines_set _ _ _ _ h)

/-- With `use_betas` off `solve_nlte` makes exactly one pass and returns 1. -/
theorem solve_nlte_one_pass (pc : physical_constants K) (ext : Externals K)
    (a : nlte_atom K) (T ne time : K) (hub : a.use_betas = false) :
    solve_nlte pc ext a T ne time =
      (1, nlte_pass pc ext (nlte_init pc ext a T ne time) T ne) := by
  have h1 : (nlte_pass pc ext (nlte_init pc ext a T ne time) T ne).use_betas = false := by
    rw [(nlte_pass_spec pc ext _ T ne).2.2.2.2.1,
      (same_config_of_lines _ _ (nlte_init_frame pc ext a T ne time)).2.2.2.1,
      (solve_lte_config pc ext a T ne time).2.2.2.1, hub]
  rw [solve_nlte_eq, nlte_loop_succ, h1]
  rfl

/-- When the rates balance in every row but the last and the LTE populations sum to 1, the
all-ones vector solves the system that `build_system` assembles. -/
theorem ones_solve_system (a : nlte_atom K) (hn : 0 < a.n_levels)
    (hbal : ∀ i, i + 1 < a.n_levels → rates_balance a i)
    (hsum : ∑ i in Finset.range a.n_levels, (a.levels i).n_lte = 1) :
    solves a.n_levels (build_system a).M_nlte (build_system a).b_nlte (fun _ => 1) := by
  obtain ⟨-, hb, hM⟩ := build_system_spec a
  intro i hi
  simp only [mul_one]
  rw [hb i]
  by_cases hlast : i = a.n_levels - 1
  · rw [if_pos hlast, ← hsum]
    refine Finset.sum_congr rfl (fun j hj => ?_)
    rw [hM i j hi (Finset.mem_range.mp hj)]
    unfold system_entry
    rw [if_pos hlast]
  · rw [if_neg hlast, system_row_sum a i (by omega)]
    have := hbal i (by omega)
    unfold rates_balance at this
    rw [this, sub_self]

/-- A two by two block with non-zero determinant is not singular. -/
theorem not_singular_two (M : Nat → Nat → K)
    (hdet : M 0 0 * M 1 1 - M 0 1 * M 1 0 ≠ 0) : ¬ singular 2 M := by
  rintro ⟨v, ⟨i, hi, hv⟩, hs⟩
  have h0 := hs 0 (by decide)
  have h1 := hs 1 (by decide)
  simp only [Finset.sum_range_succ, Finset.sum_range_zero, zero_add] at h0 h1
  have e0 : (M 0 0 * M 1 1 - M 0 1 * M 1 0) * v 0 = 0 := by
    linear_combination M 1 1 * h0 - M 0 1 * h1
  have e1 : (M 0 0 * M 1 1 - M 0 1 * M 1 0) * v 1 = 0 := by
    linear_combination M 0 0 * h1 - M 1 0 * h0
  have v0 : v 0 = 0 := (mul_eq_zero.mp e0).resolve_left hdet
  have v1 : v 1 = 0 := (mul_eq_zero.mp e1).resolve_left hdet
  interval_cases i
  · exact hv v0
  · exact hv v1

/-- Claim C6 (as the code has it).  With escape feedback disabled `solve_nlte` makes exactly
one pass and returns 1.  If in that pass the rates left by `set_rates` balance at every level
but the last (as they do when every channel contributes zero), the LTE populations sum to 1,
the matrix is not singular and the solver returns a solution of `M x = b`, then every level
ends with `b = 1` and with the population `solve_lte` gave it. -/
theorem C6_lte_reproduced (pc : physical_constants K) (ext : Externals K)
    (a : nlte_atom K) (T ne time : K) (hub : a.use_betas = false) :
    solve_nlte pc ext a T ne time =
      (1, nlte_pass pc ext (nlte_init pc ext a T ne time) T ne) ∧
    (0 < a.n_levels →
      (∀ i, i + 1 < a.n_levels →
        rates_balance (set_rates pc ext (nlte_init pc ext a T ne time) T ne) i) →
      ∑ i in Finset.range a.n_levels, ((solve_lte pc ext a T ne time).levels i).n_lte = 1 →
      ¬ singular a.n_levels
        (build_system (set_rates pc ext (nlte_init pc ext a T ne time) T ne)).M_nlte →
      solves a.n_levels
        (build_system (set_rates pc ext (nlte_init pc ext a T ne time) T ne)).M_nlte
        (build_system (set_rates pc ext (nlte_init pc ext a T ne time) T ne)).b_nlte
        (solve_nlte pc ext a T ne time).2.x_nlte →
      ∀ i, i < a.n_levels →
        ((solve_nlte pc ext a T ne time).2.levels i).b = 1 ∧
        ((solve_nlte pc ext a T ne time).2.levels i).n =
          ((solve_lte pc ext a T ne time).levels i).n) := by
  have h1 := solve_nlte_one_pass pc ext a T ne time hub
  refine ⟨h1, ?_⟩
  intro hn hbal hsum hns hsol i hi
  rw [h1] at hsol ⊢
  simp only [] at hsol ⊢
  have hfi := nlte_init_frame pc ext a T ne time
  have hcfg := solve_lte_config pc ext a T ne time
  have hn0 : (nlte_init pc ext a T ne time).n_levels = a.n_levels := hfi.1.trans hcfg.1
  have hl0 : (nlte_init pc ext a T ne time).levels = (solve_lte pc ext a T ne time).levels :=
    hfi.2.2.2.2.1
  have hsr := set_rates_frame pc ext (nlte_init pc ext a T ne time) T ne
  obtain ⟨-, -, -, -, -, hL, -⟩ := nlte_pass_spec pc ext (nlte_init pc ext a T ne time) T ne
  have hones := ones_solve_system (set_rates pc ext (nlte_init pc ext a T ne time) T ne)
    (by rw [hsr.1, hn0]; exact hn)
    (by rw [hsr.1, hn0]; exact hbal)
    (by rw [hsr.1, hn0, hsr.2.2.2.1, hl0]; exact hsum)
  rw [hsr.1, hn0] at hones
  rw [hn0, hl0] at hL
  generalize nlte_pass pc ext (nlte_init pc ext a T ne time) T ne = s at hsol hL ⊢
  generalize (build_system (set_rates pc ext (nlte_init pc ext a T ne time) T ne)).M_nlte = M
    at hns hsol hones
  generalize (build_system (set_rates pc ext (nlte_init pc ext a T ne time) T ne)).b_nlte = b
    at hsol hones
  have hx : ∀ j, j < a.n_levels → s.x_nlte j = 1 := by
    by_contra hcon
    push_neg at hcon
    obtain ⟨j, hj, hne⟩ := hcon
    refine hns ⟨fun j => s.x_nlte j - 1, ⟨j, hj, sub_ne_zero.mpr hne⟩, ?_⟩
    intro i2 hi2
    have e1 := hsol i2 hi2
    have e2 := hones i2 hi2
    simp only [mul_sub, Finset.sum_sub_distrib, e1, e2, sub_self]
  rw [hL i, if_pos hi]
  simp only [hx i hi, one_mul]
  have h4 := (solve_lte_spec pc ext a T ne time).2.2.2 i hi
  constructor
  · trivial
  · rw [h4]

end OnePass

/-! ## The outcome of the linear solve -/

section SolveOutcome

variable {K : Type} [LinearOrderedField K]

/-- The iteration loop of `solve_nlte` returns 0 or 1. -/
theorem nlte_loop_code (pc : physical_constants K) (ext : Externals K) (T ne time : K) :
    ∀ (iters : Nat) (a : nlte_atom K),
      (nlte_loop pc ext T ne time iters a).1 = 0 ∨ (nlte_loop pc ext T ne time iters a).1 = 1 := by
  intro iters
  induction iters with
  | zero => intro a; left; rfl
  | succ m ih =>
    intro a
    rw [nlte_loop_succ]
    split
    · right; rfl
    · split
      · right; rfl
      · exact ih _

/-- Claim C7 (as the code has it).  `solve_nlte` never looks at the outcome of the GSL calls.
With escape feedback disabled it returns 1 after the first pass whatever the solver did; its
return code is always 0 or 1; and every pass installs, for each level, the departure
coefficient `x[i]` and the population `x[i] * n_lte[i]` from whatever vector `x` the solver
left for the matrix of that pass, singular or not. -/
theorem C7_solve_outcome_not_inspected (pc : physical_constants K) (ext : Externals K)
    (a : nlte_atom K) (T ne time : K) :
    (a.use_betas = false → (solve_nlte pc ext a T ne time).1 = 1) ∧
    ((solve_nlte pc ext a T ne time).1 = 0 ∨ (solve_nlte pc ext a T ne time).1 = 1) ∧
    ∀ i, i < a.n_levels →
      ((nlte_pass pc ext a T ne).levels i).b =
        ext.LU_solve a.n_levels
          (ext.LU_decomp a.n_levels (build_system (set_rates pc ext a T ne)).M_nlte).1
          (ext.LU_decomp a.n_levels (build_system (set_rates pc ext a T ne)).M_nlte).2
          (build_system (set_rates pc ext a T ne)).b_nlte i ∧
      ((nlte_pass pc ext a T ne).levels i).n =
        ext.LU_solve a.n_levels
          (ext.LU_decomp a.n_levels (build_system (set_rates pc ext a T ne)).M_nlte).1
          (ext.LU_decomp a.n_levels (build_system (set_rates pc ext a T ne)).M_nlte).2
          (build_system (set_rates pc ext a T ne)).b_nlte i * (a.levels i).n_lte := by
  refine ⟨?_, ?_, ?_⟩
  · intro hub
    rw [solve_nlte_one_pass pc ext a T ne time hub]
  · rw [solve_nlte_eq]
    exact nlte_loop_code pc ext T ne time 100 _
  · intro i hi
    have hL := (nlte_pass_spec pc ext a T ne).2.2.2.2.2.1 i
    rw [if_pos hi, nlte_pass_x_nlte] at hL
    rw [hL]
    exact ⟨rfl, rfl⟩

end SolveOutcome

/-! ## Sobolev optical depth: the clamped branches -/

section Sobolev

variable {K : Type} [LinearOrderedField K]

/-- Both clamping branches of `compute_sobolev_tau`, in both versions, return 0 and leave
the clamped line; the `nlte_atom.cpp` version prints exactly in the inversion branch. -/
theorem sobolev_clamped (pc : physical_constants K) (ext : Externals K)
    (a : nlte_atom K) (i : Nat) (time : K) (h : lower_empty a i ∨ inverted a i) :
    compute_sobolev_tau pc ext a i time = (0, set_line a i (clamped_line (a.lines i))) ∧
    compute_sobolev_tau_opac pc ext a i time = (0, set_line a i (clamped_line (a.lines i))) ∧
    (compute_sobolev_tau_prints a i = true ↔ ¬ lower_empty a i) := by
  unfold compute_sobolev_tau compute_sobolev_tau_opac compute_sobolev_tau_prints
  unfold lower_empty inverted at h
  unfold lower_empty
  simp only []
  by_cases h1 : (a.levels (a.lines i).ll).n < dbl_min
  · simp only [h1, if_true]
    exact ⟨rfl, rfl, by simp⟩
  · have h2 := h.resolve_left h1
    simp only [h1, if_false, h2, if_true]
    exact ⟨rfl, rfl, by simp⟩

/-- Claim C8.  When the lower-level population of line `i` is below the smallest positive
normal double, both versions of `compute_sobolev_tau` return 0 and store `tau = 0`,
`etau = 1`, `beta = 1` in line `i`, changing nothing else, whatever the upper-level
population, the statistical weights, the time and the other line data are. -/
theorem C8_empty_lower_level (pc : physical_constants K) (ext : Externals K)
    (a : nlte_atom K) (i : Nat) (time : K)
    (h : (a.levels (a.lines i).ll).n < dbl_min) :
    (compute_sobolev_tau pc ext a i time).1 = 0 ∧
    (compute_sobolev_tau pc ext a i time).2 =
      set_line a i { a.lines i with tau := 0, etau := 1, beta := 1 } ∧
    (((compute_sobolev_tau pc ext a i time).2.lines i).tau = 0 ∧
      ((compute_sobolev_tau pc ext a i time).2.lines i).etau = 1 ∧
      ((compute_sobolev_tau pc ext a i time).2.lines i).beta = 1) ∧
    (compute_sobolev_tau_opac pc ext a i time).1 = 0 ∧
    (compute_sobolev_tau_opac pc ext a i time).2 =
      set_line a i { a.lines i with tau := 0, etau := 1, beta := 1 } := by
  obtain ⟨h1, h2, -⟩ := sobolev_clamped pc ext a i time (Or.inl h)
  rw [h1, h2]
  refine ⟨rfl, rfl, ?_, rfl, rfl⟩
  simp [set_line, clamped_line]

/-- Claim C9.  When the populations of line `i` are inverted,
`n_upper * g_lower > n_lower * g_upper`, both versions of `compute_sobolev_tau` return 0 and
store `tau = 0`, `etau = 1`, `beta = 1`, whether or not the lower level also counts as
empty; the stored and returned `tau` is never negative. -/
theorem C9_inversion_clamped (pc : physical_constants K) (ext : Externals K)
    (a : nlte_atom K) (i : Nat) (time : K)
    (h : (a.levels (a.lines i).lu).n * ((a.levels (a.lines i).ll).g : K) >
      (a.levels (a.lines i).ll).n * ((a.levels (a.lines i).lu).g : K)) :
    (compute_sobolev_tau pc ext a i time).1 = 0 ∧
    (compute_sobolev_tau pc ext a i time).2 =
      set_line a i { a.lines i with tau := 0, etau := 1, beta := 1 } ∧
    (((compute_sobolev_tau pc ext a i time).2.lines i).tau = 0 ∧
      ((compute_sobolev_tau pc ext a i time).2.lines i).etau = 1 ∧
      ((compute_sobolev_tau pc ext a i time).2.lines i).beta = 1) ∧
    (compute_sobolev_tau_opac pc ext a i time).1 = 0 ∧
    (compute_sobolev_tau_opac pc ext a i time).2 =
      set_line a i { a.lines i with tau := 0, etau := 1, beta := 1 } := by
  obtain ⟨h1, h2, -⟩ := sobolev_clamped pc ext a i time (Or.inr h)
  rw [h1, h2]
  refine ⟨rfl, rfl, ?_, rfl, rfl⟩
  simp [set_line, clamped_line]

/-- Claim C10 (as the code has it).  An inversion leaves no trace in the state or the return
value: for an inverted line with a non-empty lower level and for a line with an empty lower
level alike, both versions of `compute_sobolev_tau` return 0 and change the state only by
storing `tau = 0`, `etau = 1`, `beta = 1` in the line.  The two cases differ only in the
message that the `nlte_atom.cpp` version prints for the inversion. -/
theorem C10_inversion_not_recorded (pc : physical_constants K) (ext : Externals K)
    (a : nlte_atom K) (i : Nat) (time : K) :
    (inverted a i → ¬ lower_empty a i →
      compute_sobolev_tau pc ext a i time = (0, set_line a i (clamped_line (a.lines i))) ∧
      compute_sobolev_tau_opac pc ext a i time =
        (0, set_line a i (clamped_line (a.lines i))) ∧
      compute_sobolev_tau_prints a i = true) ∧
    (lower_empty a i →
      compute_sobolev_tau pc ext a i time = (0, set_line a i (clamped_line (a.lines i))) ∧
      compute_sobolev_tau_opac pc ext a i time =
        (0, set_line a i (clamped_line (a.lines i))) ∧
      compute_sobolev_tau_prints a i = false) := by
  refine ⟨?_, ?_⟩
  · intro hinv hne
    obtain ⟨h1, h2, h3⟩ := sobolev_clamped pc ext a i time (Or.inr hinv)
    exact ⟨h1, h2, h3.mpr hne⟩
  · intro hem
    obtain ⟨h1, h2, h3⟩ := sobolev_clamped pc ext a i time (Or.inl hem)
    refine ⟨h1, h2, ?_⟩
    cases hp : compute_sobolev_tau_prints a i
    · rfl
    · exact absurd hem (h3.mp hp)

end Sobolev

/-! ## Sobolev optical depth: the regular branch -/

section SobolevRegular

variable {K : Type} [LinearOrderedField K]

/-- The regular branch of `compute_sobolev_tau`, in both versions: the optical depth is
returned and stored together with `etau` and `beta`. -/
theorem sobolev_regular (pc : physical_constants K) (ext : Externals K)
    (a : nlte_atom K) (i : Nat) (time : K) (h1 : ¬ lower_empty a i) (h2 : ¬ inverted a i) :
    compute_sobolev_tau pc ext a i time =
      (sobolev_tau pc a i time ((a.lines i).lam * pc.angs_to_cm),
       set_line a i (regular_line ext (a.lines i)
         (sobolev_tau pc a i time ((a.lines i).lam * pc.angs_to_cm)))) ∧
    compute_sobolev_tau_opac pc ext a i time =
      (sobolev_tau pc a i time (pc.c / (a.lines i).nu),
       set_line a i (regular_line ext (a.lines i)
         (sobolev_tau pc a i time (pc.c / (a.lines i).nu)))) := by
  unfold lower_empty at h1
  unfold inverted at h2
  unfold compute_sobolev_tau compute_sobolev_tau_opac
  simp only [h1, h2, if_false]
  exact ⟨rfl, rfl⟩

/-- In the regular branch the optical depth is a product of non-negative factors. -/
theorem sobolev_tau_nonneg (pc : physical_constants K) (a : nlte_atom K) (i : Nat)
    (time lam : K) (h1 : ¬ lower_empty a i) (h2 : ¬ inverted a i)
    (hgu : 1 ≤ (a.levels (a.lines i).lu).g) (hn : 0 ≤ a.n_dens) (hs : 0 ≤ pc.sigma_tot)
    (hf : 0 ≤ (a.lines i).f_lu) (ht : 0 ≤ time) (hl : 0 ≤ lam) :
    0 ≤ sobolev_tau pc a i time lam := by
  unfold lower_empty at h1
  unfold inverted at h2
  unfold sobolev_tau
  have hmin : (0 : K) < dbl_min := by unfold dbl_min; positivity
  have hnl : 0 < (a.levels (a.lines i).ll).n := lt_of_lt_of_le hmin (not_lt.mp h1)
  have hg : (0 : K) < ((a.levels (a.lines i).lu).g : K) := by
    have : (1 : K) ≤ ((a.levels (a.lines i).lu).g : K) := by exact_mod_cast hgu
    linarith
  have hden : 0 < (a.levels (a.lines i).ll).n * ((a.levels (a.lines i).lu).g : K) :=
    mul_pos hnl hg
  have hq : (a.levels (a.lines i).lu).n * ((a.levels (a.lines i).ll).g : K) /
      ((a.levels (a.lines i).ll).n * ((a.levels (a.lines i).lu).g : K)) ≤ 1 :=
    (div_le_one hden).mpr (not_lt.mp h2)
  have hb : 0 ≤ 1 - (a.levels (a.lines i).lu).n * ((a.levels (a.lines i).ll).g : K) /
      ((a.levels (a.lines i).ll).n * ((a.levels (a.lines i).lu).g : K)) := by linarith
  have hp : 0 ≤ (a.levels (a.lines i).ll).n * a.n_dens * pc.sigma_tot * (a.lines i).f_lu *
      time * lam := by
    have := hnl.le
    positivity
  exact mul_nonneg hp hb

theorem set_line_apply (a : nlte_atom K) (i : Nat) (l : nlte_line K) :
    (set_line a i l).lines i = l := by
  simp [set_line]

/-- Claim C12.  With upper-level weight at least 1 and non-negative `n_dens`, `f_lu`, `time`,
wavelength and constants, the optical depth `compute_sobolev_tau` returns is non-negative in
every branch and is the one it stores in the line; the same holds for the version of
`nlte_atom_opacities.cpp`, whose wavelength is `c / nu`.  (The signs of the populations and
the weight of the lower level are not needed.) -/
theorem C12_tau_nonneg (pc : physical_constants K) (ext : Externals K)
    (a : nlte_atom K) (i : Nat) (time : K)
    (hgu : 1 ≤ (a.levels (a.lines i).lu).g) (hn : 0 ≤ a.n_dens) (hs : 0 ≤ pc.sigma_tot)
    (hf : 0 ≤ (a.lines i).f_lu) (ht : 0 ≤ time) :
    (0 ≤ (a.lines i).lam → 0 ≤ pc.angs_to_cm →
      0 ≤ (compute_sobolev_tau pc ext a i time).1 ∧
      ((compute_sobolev_tau pc ext a i time).2.lines i).tau =
        (compute_sobolev_tau pc ext a i time).1) ∧
    (0 ≤ pc.c / (a.lines i).nu →
      0 ≤ (compute_sobolev_tau_opac pc ext a i time).1 ∧
      ((compute_sobolev_tau_opac pc ext a i time).2.lines i).tau =
        (compute_sobolev_tau_opac pc ext a i time).1) := by
  by_cases h1 : lower_empty a i
  · obtain ⟨e1, e2, -⟩ := sobolev_clamped pc ext a i time (Or.inl h1)
    rw [e1, e2]
    simp [set_line_apply, clamped_line]
  by_cases h2 : inverted a i
  · obtain ⟨e1, e2, -⟩ := sobolev_clamped pc ext a i time (Or.inr h2)
    rw [e1, e2]
    simp [set_line_apply, clamped_line]
  obtain ⟨e1, e2⟩ := sobolev_regular pc ext a i time h1 h2
  rw [e1, e2]
  refine ⟨fun hl ha => ⟨?_, ?_⟩, fun hl => ⟨?_, ?_⟩⟩
  · exact sobolev_tau_nonneg pc a i time _ h1 h2 hgu hn hs hf ht (mul_nonneg hl ha)
  · simp [set_line_apply, regular_line]
  · exact sobolev_tau_nonneg pc a i time _ h1 h2 hgu hn hs hf ht hl
  · simp [set_line_apply, regular_line]

/-- Claim C13.  In the regular case (lower level not empty, populations not inverted)
`compute_sobolev_tau` returns and stores
`tau = n_lower * n_dens * sigma_tot * f_lu * time * lambda * (1 - n_upper * g_lower /
(n_lower * g_upper))` (the value `sobolev_tau`) with `lambda = lam * angs_to_cm`, and stores
`etau = exp(-tau)` and `beta = (1 - exp(-tau)) / tau`, leaving every other field as it was;
the version of `nlte_atom_opacities.cpp` does the same with `lambda = c / nu`. -/
theorem C13_regular_case (pc : physical_constants K) (ext : Externals K)
    (a : nlte_atom K) (i : Nat) (time : K)
    (h1 : ¬ (a.levels (a.lines i).ll).n < dbl_min)
    (h2 : ¬ (a.levels (a.lines i).lu).n * ((a.levels (a.lines i).ll).g : K) >
      (a.levels (a.lines i).ll).n * ((a.levels (a.lines i).lu).g : K)) :
    ((compute_sobolev_tau pc ext a i time).1 =
        sobolev_tau pc a i time ((a.lines i).lam * pc.angs_to_cm) ∧
      ((compute_sobolev_tau pc ext a i time).2.lines i).tau =
        sobolev_tau pc a i time ((a.lines i).lam * pc.angs_to_cm) ∧
      ((compute_sobolev_tau pc ext a i time).2.lines i).etau =
        ext.exp (-sobolev_tau pc a i time ((a.lines i).lam * pc.angs_to_cm)) ∧
      ((compute_sobolev_tau pc ext a i time).2.lines i).beta =
        (1 - ext.exp (-sobolev_tau pc a i time ((a.lines i).lam * pc.angs_to_cm))) /
          sobolev_tau pc a i time ((a.lines i).lam * pc.angs_to_cm) ∧
      (compute_sobolev_tau pc ext a i time).2 =
        set_line a i { a.lines i with
          tau := ((compute_sobolev_tau pc ext a i time).2.lines i).tau,
          etau := ((compute_sobolev_tau pc ext a i time).2.lines i).etau,
          beta := ((compute_sobolev_tau pc ext a i time).2.lines i).beta }) ∧
    ((compute_sobolev_tau_opac pc ext a i time).1 =
        sobolev_tau pc a i time (pc.c / (a.lines i).nu) ∧
      ((compute_sobolev_tau_opac pc ext a i time).2.lines i).tau =
        sobolev_tau pc a i time (pc.c / (a.lines i).nu) ∧
      ((compute_sobolev_tau_opac pc ext a i time).2.lines i).etau =
        ext.exp (-sobolev_tau pc a i time (pc.c / (a.lines i).nu)) ∧
      ((compute_sobolev_tau_opac pc ext a i time).2.lines i).beta =
        (1 - ext.exp (-sobolev_tau pc a i time (pc.c / (a.lines i).nu))) /
          sobolev_tau pc a i time (pc.c / (a.lines i).nu) ∧
      (compute_sobolev_tau_opac pc ext a i time).2 =
        set_line a i { a.lines i with
          tau := ((compute_sobolev_tau_opac pc ext a i time).2.lines i).tau,
          etau := ((compute_sobolev_tau_opac pc ext a i time).2.lines i).etau,
          beta := ((compute_sobolev_tau_opac pc ext a i time).2.lines i).beta }) := by
  obtain ⟨e1, e2⟩ := sobolev_regular pc ext a i time h1 h2
  rw [e1, e2]
  simp [set_line_apply, regular_line]

end SobolevRegular

/-! ## The iteration loop of `solve_nlte` and its beta test -/

section BetaLoop

variable {K : Type} [LinearOrderedField K]

/-- The record `compute_sobolev_tau` leaves in line `i` depends on the state only through
the levels, the number density and line `i` itself. -/
theorem compute_sobolev_tau_line (pc : physical_constants K) (ext : Externals K)
    (s1 s2 : nlte_atom K) (i : Nat) (time : K) (hl : s1.levels = s2.levels)
    (hn : s1.n_dens = s2.n_dens) (hi : s1.lines i = s2.lines i) :
    (compute_sobolev_tau pc ext s1 i time).2.lines i =
      (compute_sobolev_tau pc ext s2 i time).2.lines i := by
  unfold compute_sobolev_tau
  simp only [hl, hn, hi]
  split
  · simp [set_line]
  · split <;> simp [set_line]

/-- Routine `compute_sobolev_tau` leaves the other lines alone. -/
theorem compute_sobolev_tau_other (pc : physical_constants K) (ext : Externals K)
    (s : nlte_atom K) (i j : Nat) (time : K) (h : j ≠ i) :
    (compute_sobolev_tau pc ext s i time).2.lines j = s.lines j := by
  unfold compute_sobolev_tau
  simp only []
  split
  · simp [set_line, Function.update_apply, h]
  · split <;> simp [set_line, Function.update_apply, h]

/-- Closed form of the beta test: it leaves the state `compute_sobolev_taus` leaves, and it
reports convergence exactly when every line moved by at most the tolerance. -/
theorem check_betas_spec (pc : physical_constants K) (ext : Externals K)
    (s : nlte_atom K) (time : K) :
    (check_betas pc ext s time).2 = compute_sobolev_taus pc ext s time ∧
    ((check_betas pc ext s time).1 = true ↔ betas_converged pc ext s time) := by
  unfold check_betas compute_sobolev_taus betas_converged
  simp only []
  generalize s.n_lines = n
  have key := forLoop_inv
    (fun k (r : Bool × nlte_atom K) =>
      r.2 = forLoop k (fun i (s : nlte_atom K) => (compute_sobolev_tau pc ext s i time).2) s ∧
      same_but_lines r.2 s ∧ (∀ j, k ≤ j → r.2.lines j = s.lines j) ∧
      (r.1 = true ↔ ∀ i, i < k →
        |(s.lines i).beta - ((compute_sobolev_tau pc ext s i time).2.lines i).beta| /
          ((compute_sobolev_tau pc ext s i time).2.lines i).beta ≤ 0.1))
    (fun i (r : Bool × nlte_atom K) =>
      if |(r.2.lines i).beta - ((compute_sobolev_tau pc ext r.2 i time).2.lines i).beta| /
          ((compute_sobolev_tau pc ext r.2 i time).2.lines i).beta > 0.1
      then (false, (compute_sobolev_tau pc ext r.2 i time).2)
      else (r.1, (compute_sobolev_tau pc ext r.2 i time).2))
    (true, s) n
    ⟨rfl, same_but_lines_refl s, fun _ _ => rfl, by simp⟩
    (by
      intro k r _ hP
      obtain ⟨h1, h2, h3, h4⟩ := hP
      have hline : (compute_sobolev_tau pc ext r.2 k time).2.lines k =
          (compute_sobolev_tau pc ext s k time).2.lines k :=
        compute_sobolev_tau_line pc ext r.2 s k time h2.2.2.2.2.1 h2.2.2.2.2.2.2.2.2.2.1
          (h3 k (le_refl k))
      have hold : r.2.lines k = s.lines k := h3 k (le_refl k)
      have hstate : ∀ b : Bool, ((b, (compute_sobolev_tau pc ext r.2 k time).2) :
          Bool × nlte_atom K).2 =
          forLoop (k + 1)
            (fun i (s : nlte_atom K) => (compute_sobolev_tau pc ext s i time).2) s := by
        intro b
        show (compute_sobolev_tau pc ext r.2 k time).2 = _
        rw [h1]
        rfl
      have hframe := compute_sobolev_tau_frame pc ext r.2 s k time h2
      have hrest : ∀ j, k + 1 ≤ j →
          (compute_sobolev_tau pc ext r.2 k time).2.lines j = s.lines j := by
        intro j hj
        rw [compute_sobolev_tau_other pc ext r.2 k j time (by omega)]
        exact h3 j (by omega)
      beta_reduce
      rw [hline, hold]
      by_cases hc : |(s.lines k).beta - ((compute_sobolev_tau pc ext s k time).2.lines k).beta| /
          ((compute_sobolev_tau pc ext s k time).2.lines k).beta > 0.1
      · rw [if_pos hc]
        refine ⟨hstate false, hframe, hrest, ?_⟩
        constructor
        · intro hf
          exact absurd hf (by simp)
        · intro hall
          exact absurd (hall k (Nat.lt_succ_self k)) (not_le.mpr hc)
      · rw [if_neg hc]
        refine ⟨hstate r.1, hframe, hrest, ?_⟩
        show r.1 = true ↔ _
        rw [h4]
        constructor
        · intro hall i hi
          by_cases hik : i = k
          · subst hik
            exact not_lt.mp hc
          · exact hall i (by omega)
        · intro hall i hi
          exact hall i (by omega))
  exact ⟨key.1, key.2.2.2⟩


theorem nlte_loop_iters_zero (pc : physical_constants K) (ext : Externals K) (T ne time : K)
    (a : nlte_atom K) : nlte_loop_iters pc ext T ne time 0 a = 0 := rfl

theorem nlte_loop_iters_succ (pc : physical_constants K) (ext : Externals K) (T ne time : K)
    (iters : Nat) (a : nlte_atom K) :
    nlte_loop_iters pc ext T ne time (iters + 1) a =
      if !(nlte_pass pc ext a T ne).use_betas then 1
      else if (check_betas pc ext (nlte_pass pc ext a T ne) time).1 then 1
        else 1 + nlte_loop_iters pc ext T ne time iters
          (check_betas pc ext (nlte_pass pc ext a T ne) time).2 := rfl

theorem nlte_iterate_succ (pc : physical_constants K) (ext : Externals K) (T ne time : K)
    (k : Nat) (a : nlte_atom K) :
    nlte_iterate pc ext T ne time (k + 1) a =
      (check_betas pc ext (nlte_pass pc ext (nlte_iterate pc ext T ne time k a) T ne) time).2 :=
  rfl

/-- The feedback switch is the same in every iteration. -/
theorem nlte_iterate_use_betas (pc : physical_constants K) (ext : Externals K)
    (T ne time : K) (k : Nat) (a : nlte_atom K) :
    (nlte_iterate pc ext T ne time k a).use_betas = a.use_betas := by
  induction k with
  | zero => rfl
  | succ m ih =>
    rw [nlte_iterate_succ, (check_betas_frame pc ext _ time).2.2.2.2.2.2.1,
      (nlte_pass_spec pc ext _ T ne).2.2.2.2.1, ih]

/-- The loop never runs more iterations than it is given, and runs at least one when it is
given one. -/
theorem nlte_loop_iters_le (pc : physical_constants K) (ext : Externals K) (T ne time : K) :
    ∀ (iters : Nat) (a : nlte_atom K),
      nlte_loop_iters pc ext T ne time iters a ≤ iters ∧
      (0 < iters → 1 ≤ nlte_loop_iters pc ext T ne time iters a) := by
  intro iters
  induction iters with
  | zero => intro a; exact ⟨le_refl 0, fun h => absurd h (lt_irrefl 0)⟩
  | succ m ih =>
    intro a
    rw [nlte_loop_iters_succ]
    generalize nlte_pass pc ext a T ne = s
    generalize check_betas pc ext s time = r
    split
    · exact ⟨by omega, fun _ => le_refl 1⟩
    · split
      · exact ⟨by omega, fun _ => le_refl 1⟩
      · have := (ih r.2).1
        exact ⟨by omega, fun _ => by omega⟩

/-- One iteration with escape feedback: the loop returns 1 when the beta test succeeds and
goes on with the iterations left when it fails. -/
theorem nlte_loop_step (pc : physical_constants K) (ext : Externals K) (T ne time : K)
    (iters : Nat) (a : nlte_atom K) (hub : a.use_betas = true) :
    (betas_converged pc ext (nlte_pass pc ext a T ne) time →
      nlte_loop pc ext T ne time (iters + 1) a =
        (1, nlte_iterate pc ext T ne time 1 a) ∧
      nlte_loop_iters pc ext T ne time (iters + 1) a = 1) ∧
    (¬ betas_converged pc ext (nlte_pass pc ext a T ne) time →
      nlte_loop pc ext T ne time (iters + 1) a =
        nlte_loop pc ext T ne time iters (nlte_iterate pc ext T ne time 1 a) ∧
      nlte_loop_iters pc ext T ne time (iters + 1) a =
        1 + nlte_loop_iters pc ext T ne time iters (nlte_iterate pc ext T ne time 1 a)) := by
  have h1 : (nlte_pass pc ext a T ne).use_betas = true := by
    rw [(nlte_pass_spec pc ext a T ne).2.2.2.2.1, hub]
  have h2 := (check_betas_spec pc ext (nlte_pass pc ext a T ne) time).2
  have h3 : nlte_iterate pc ext T ne time 1 a =
      (check_betas pc ext (nlte_pass pc ext a T ne) time).2 := rfl
  rw [nlte_loop_succ, nlte_loop_iters_succ, h1, h3]
  generalize nlte_pass pc ext a T ne = s at h2 ⊢
  generalize check_betas pc ext s time = r at h2 ⊢
  constructor
  · intro hc
    have hr : r.1 = true := h2.mpr hc
    simp [hr]
  · intro hc
    have hr : r.1 = false := by
      cases hb : r.1
      · rfl
      · exact absurd (h2.mp hb) hc
    simp [hr]

/-- While the beta test keeps failing the loop keeps going: after `k` failed iterations it
is in state `nlte_iterate k` with `k` iterations fewer left. -/
theorem nlte_loop_run (pc : physical_constants K) (ext : Externals K) (T ne time : K)
    (a : nlte_atom K) (hub : a.use_betas = true) :
    ∀ (k n : Nat), (∀ m, m < k → ¬ converged_at pc ext T ne time a m) →
      nlte_loop pc ext T ne time (n + k) a =
        nlte_loop pc ext T ne time n (nlte_iterate pc ext T ne time k a) ∧
      nlte_loop_iters pc ext T ne time (n + k) a =
        k + nlte_loop_iters pc ext T ne time n (nlte_iterate pc ext T ne time k a) := by
  intro k
  induction k with
  | zero =>
    intro n _
    exact ⟨rfl, (Nat.zero_add _).symm⟩
  | succ k ih =>
    intro n hall
    have e : n + (k + 1) = (n + 1) + k := by omega
    obtain ⟨i1, i2⟩ := ih (n + 1) (fun m hm => hall m (Nat.lt_succ_of_lt hm))
    have hk : ¬ betas_converged pc ext
        (nlte_pass pc ext (nlte_iterate pc ext T ne time k a) T ne) time :=
      hall k (Nat.lt_succ_self k)
    have hs := (nlte_loop_step pc ext T ne time n (nlte_iterate pc ext T ne time k a)
      ((nlte_iterate_use_betas pc ext T ne time k a).trans hub)).2 hk
    have h3 : nlte_iterate pc ext T ne time 1 (nlte_iterate pc ext T ne time k a) =
        nlte_iterate pc ext T ne time (k + 1) a := rfl
    rw [h3] at hs
    rw [e, i1, i2, hs.1, hs.2]
    exact ⟨rfl, by omega⟩

/-- The loop with escape feedback returns 1 at the first iteration whose beta test
succeeds. -/
theorem nlte_loop_first (pc : physical_constants K) (ext : Externals K) (T ne time : K)
    (a : nlte_atom K) (hub : a.use_betas = true) (k n : Nat)
    (hall : ∀ m, m < k → ¬ converged_at pc ext T ne time a m)
    (hk : converged_at pc ext T ne time a k) :
    nlte_loop pc ext T ne time (n + 1 + k) a =
      (1, nlte_iterate pc ext T ne time (k + 1) a) ∧
    nlte_loop_iters pc ext T ne time (n + 1 + k) a = k + 1 := by
  obtain ⟨i1, i2⟩ := nlte_loop_run pc ext T ne time a hub k (n + 1) hall
  have hs := (nlte_loop_step pc ext T ne time n (nlte_iterate pc ext T ne time k a)
    ((nlte_iterate_use_betas pc ext T ne time k a).trans hub)).1 hk
  have h3 : nlte_iterate pc ext T ne time 1 (nlte_iterate pc ext T ne time k a) =
      nlte_iterate pc ext T ne time (k + 1) a := rfl
  rw [h3] at hs
  rw [i1, i2, hs.1, hs.2]
  exact ⟨rfl, rfl⟩

/-- A loop with escape feedback that returns 0 had every one of its beta tests fail. -/
theorem nlte_loop_zero_code (pc : physical_constants K) (ext : Externals K) (T ne time : K)
    (a : nlte_atom K) (hub : a.use_betas = true) (n : Nat)
    (h0 : (nlte_loop pc ext T ne time n a).1 = 0) :
    ∀ k, k < n → ¬ converged_at pc ext T ne time a k := by
  intro k
  induction k using Nat.strong_induction_on with
  | _ k ih =>
    intro hk hc
    have e : n = (n - 1 - k) + 1 + k := by omega
    have h1 := (nlte_loop_first pc ext T ne time a hub k (n - 1 - k)
      (fun m hm => ih m hm (by omega)) hc).1
    rw [← e] at h1
    rw [h1] at h0
    exact absurd (show (1 : Int) = 0 from h0) (by decide)


/-- The state `solve_nlte` starts its loop from has the caller's feedback switch. -/
theorem nlte_init_use_betas (pc : physical_constants K) (ext : Externals K)
    (a : nlte_atom K) (T ne time : K) :
    (nlte_init pc ext a T ne time).use_betas = a.use_betas := by
  rw [(same_config_of_lines _ _ (nlte_init_frame pc ext a T ne time)).2.2.2.1,
    (solve_lte_config pc ext a T ne time).2.2.2.1]

/-- Claim C14.  With escape feedback disabled `solve_nlte` runs exactly one iteration (one
`set_rates`, one assembly and linear solve, one update of the populations) and returns 1;
the lines it returns are those the loop started from, so that no optical depth or escape
probability is recomputed after the solve. -/
theorem C14_single_pass (pc : physical_constants K) (ext : Externals K)
    (a : nlte_atom K) (T ne time : K) (hub : a.use_betas = false) :
    solve_nlte pc ext a T ne time =
      (1, install_populations (linear_solve ext (build_system
        (set_rates pc ext (nlte_init pc ext a T ne time) T ne)))) ∧
    nlte_loop_iters pc ext T ne time 100 (nlte_init pc ext a T ne time) = 1 ∧
    (solve_nlte pc ext a T ne time).2.lines = (nlte_init pc ext a T ne time).lines := by
  have h1 := solve_nlte_one_pass pc ext a T ne time hub
  have h2 : (nlte_pass pc ext (nlte_init pc ext a T ne time) T ne).use_betas = false := by
    rw [(nlte_pass_spec pc ext _ T ne).2.2.2.2.1, nlte_init_use_betas, hub]
  refine ⟨h1, ?_, ?_⟩
  · rw [nlte_loop_iters_succ, h2]
    rfl
  · rw [h1]
    show (nlte_pass pc ext (nlte_init pc ext a T ne time) T ne).lines = _
    exact (nlte_pass_spec pc ext _ T ne).2.2.2.1

/-- Claim C16.  For every input the loop of `solve_nlte` runs at least one and at most 100
iterations.  With escape feedback enabled, when the beta test fails in all 100 of them,
`solve_nlte` returns 0 and the levels (populations and departure coefficients) and the ions
(fractions) it leaves are exactly those of the 100th solve. -/
theorem C16_iteration_cap (pc : physical_constants K) (ext : Externals K)
    (a : nlte_atom K) (T ne time : K) :
    (1 ≤ nlte_loop_iters pc ext T ne time 100 (nlte_init pc ext a T ne time) ∧
      nlte_loop_iters pc ext T ne time 100 (nlte_init pc ext a T ne time) ≤ 100) ∧
    (a.use_betas = true →
      (∀ k, k < 100 → ¬ converged_at pc ext T ne time (nlte_init pc ext a T ne time) k) →
      (solve_nlte pc ext a T ne time).1 = 0 ∧
      nlte_loop_iters pc ext T ne time 100 (nlte_init pc ext a T ne time) = 100 ∧
      (solve_nlte pc ext a T ne time).2 =
        nlte_iterate pc ext T ne time 100 (nlte_init pc ext a T ne time) ∧
      (solve_nlte pc ext a T ne time).2.levels =
        (nlte_pass pc ext
          (nlte_iterate pc ext T ne time 99 (nlte_init pc ext a T ne time)) T ne).levels ∧
      (solve_nlte pc ext a T ne time).2.ions =
        (nlte_pass pc ext
          (nlte_iterate pc ext T ne time 99 (nlte_init pc ext a T ne time)) T ne).ions) := by
  refine ⟨⟨(nlte_loop_iters_le pc ext T ne time 100 _).2 (by decide),
    (nlte_loop_iters_le pc ext T ne time 100 _).1⟩, ?_⟩
  intro hub hall
  have hub0 : (nlte_init pc ext a T ne time).use_betas = true := by
    rw [nlte_init_use_betas, hub]
  obtain ⟨i1, i2⟩ := nlte_loop_run pc ext T ne time _ hub0 100 0 hall
  have e : 0 + 100 = 100 := rfl
  rw [e] at i1 i2
  rw [nlte_loop_zero] at i1
  rw [nlte_loop_iters_zero] at i2
  rw [solve_nlte_eq, i1, i2, nlte_iterate_succ pc ext T ne time 99]
  have hf := check_betas_frame pc ext
    (nlte_pass pc ext (nlte_iterate pc ext T ne time 99 (nlte_init pc ext a T ne time)) T ne)
    time
  generalize nlte_pass pc ext
    (nlte_iterate pc ext T ne time 99 (nlte_init pc ext a T ne time)) T ne = p at hf ⊢
  generalize check_betas pc ext p time = r at hf ⊢
  exact ⟨rfl, rfl, rfl, hf.2.2.2.2.1, hf.2.2.2.2.2.1⟩

end BetaLoop

/-! ## The rate channels of `set_rates` -/

section RateChannels

variable {K : Type} [LinearOrderedField K]

theorem set_rates_stages (pc : physical_constants K) (ext : Externals K)
    (a : nlte_atom K) (T ne : K) :
    set_rates pc ext a T ne =
      rates_weight (rates_bound_free pc ext (rates_collisional pc ext
        (rates_nonthermal pc (rates_radiative (rates_zero a))) T) T ne) := rfl

/-- A state that differs from `a` in `rates` only is `a` with other rates. -/
theorem same_but_rates_eq (s a : nlte_atom K) (h : same_but_rates s a) :
    s = { a with rates := s.rates } := by
  cases s
  cases a
  simp only [same_but_rates] at h
  obtain ⟨h1, h2, h3, h4, h5, h6, h7, h8, h9, h10, h11, h12, h13, h14⟩ := h
  subst h1 h2 h3 h4 h5 h6 h7 h8 h9 h10 h11 h12 h13 h14
  rfl

theorem set_rate_apply (s : nlte_atom K) (i j i2 j2 : Nat) (v : K) :
    (set_rate s i j v).rates i2 j2 = if i2 = i ∧ j2 = j then v else s.rates i2 j2 := by
  unfold set_rate
  by_cases hi : i2 = i
  · subst hi
    by_cases hj : j2 = j
    · subst hj
      simp
    · simp [Function.update_apply, hj]
  · simp [Function.update_apply, hi]

theorem add_rate_apply (s : nlte_atom K) (i j i2 j2 : Nat) (v : K) :
    (add_rate s i j v).rates i2 j2 =
      s.rates i2 j2 + (if i2 = i ∧ j2 = j then v else 0) := by
  unfold add_rate
  rw [set_rate_apply]
  by_cases h : i2 = i ∧ j2 = j
  · rw [if_pos h, if_pos h, h.1, h.2]
  · rw [if_neg h, if_neg h, add_zero]

/-- A loop whose body adds `c k i j` to `rates[i][j]` in step `k` and touches nothing else
adds the sum of the `c k i j`. -/
theorem rates_add_loop (a s0 : nlte_atom K) (n : Nat)
    (body : Nat → nlte_atom K → nlte_atom K) (c : Nat → Nat → Nat → K)
    (h0 : same_but_rates s0 a)
    (hb : ∀ k s, same_but_rates s a → same_but_rates (body k s) a ∧
      ∀ i j, (body k s).rates i j = s.rates i j + c k i j) :
    same_but_rates (forLoop n body s0) a ∧
    ∀ i j, (forLoop n body s0).rates i j = s0.rates i j + ∑ k in Finset.range n, c k i j := by
  refine forLoop_inv (fun m (s : nlte_atom K) => same_but_rates s a ∧
    ∀ i j, s.rates i j = s0.rates i j + ∑ k in Finset.range m, c k i j) body s0 n
    ⟨h0, fun i j => by simp⟩ ?_
  intro k s _ hP
  obtain ⟨h1, h2⟩ := hP
  refine ⟨(hb k s h1).1, fun i j => ?_⟩
  rw [(hb k s h1).2 i j, h2 i j, Finset.sum_range_succ, add_assoc]

/-- A double loop over the `n_levels` by `n_levels` block that stores `g i j (rates[i][j])`
in `rates[i][j]` and touches nothing else. -/
theorem rates_map_loop (a s0 : nlte_atom K) (g : Nat → Nat → K → K)
    (f : nlte_atom K → Nat → Nat → K)
    (hf : ∀ s i j, same_but_rates s a → f s i j = g i j (s.rates i j))
    (h0 : same_but_rates s0 a) :
    same_but_rates (forLoop a.n_levels (fun i (s : nlte_atom K) =>
      forLoop s.n_levels (fun j (s : nlte_atom K) => set_rate s i j (f s i j)) s) s0) a ∧
    ∀ i j, (forLoop a.n_levels (fun i (s : nlte_atom K) =>
      forLoop s.n_levels (fun j (s : nlte_atom K) => set_rate s i j (f s i j)) s) s0).rates i j =
      if i < a.n_levels ∧ j < a.n_levels then g i j (s0.rates i j) else s0.rates i j := by
  have inner : ∀ (i : Nat) (s1 : nlte_atom K), same_but_rates s1 a → ∀ m : Nat,
      same_but_rates (forLoop m (fun j (s : nlte_atom K) => set_rate s i j (f s i j)) s1) a ∧
      ∀ i2 j2, (forLoop m (fun j (s : nlte_atom K) => set_rate s i j (f s i j)) s1).rates i2 j2 =
        if i2 = i ∧ j2 < m then g i j2 (s1.rates i j2) else s1.rates i2 j2 := by
    intro i s1 h1 m
    refine forLoop_inv (fun m (s : nlte_atom K) => same_but_rates s a ∧
      ∀ i2 j2, s.rates i2 j2 =
        if i2 = i ∧ j2 < m then g i j2 (s1.rates i j2) else s1.rates i2 j2) _ s1 m
      ⟨h1, fun i2 j2 => by simp⟩ ?_
    intro k s _ hP
    obtain ⟨p1, p2⟩ := hP
    refine ⟨same_but_rates_set _ _ _ _ _ p1, fun i2 j2 => ?_⟩
    rw [set_rate_apply, hf s i k p1, p2 i k, p2 i2 j2]
    by_cases hi : i2 = i
    · by_cases hj : j2 = k
      · subst hi hj
        simp
      · have e : (j2 < k + 1) = (j2 < k) := lt_succ_split j2 k hj
        simp [hi, hj, e]
    · simp [hi]
  refine forLoop_inv (fun m (s : nlte_atom K) => same_but_rates s a ∧
    ∀ i j, s.rates i j =
      if i < m ∧ j < a.n_levels then g i j (s0.rates i j) else s0.rates i j) _ s0 a.n_levels
    ⟨h0, fun i j => by simp⟩ ?_
  intro k s _ hP
  obtain ⟨p1, p2⟩ := hP
  rw [p1.1]
  obtain ⟨q1, q2⟩ := inner k s p1 a.n_levels
  refine ⟨q1, fun i j => ?_⟩
  rw [q2 i j, p2 i j, p2 k j]
  by_cases hi : i = k
  · subst hi
    by_cases hj : j < a.n_levels
    · simp [hj]
    · simp [hj]
  · have e : (i < k + 1) = (i < k) := lt_succ_split i k hi
    simp [hi, e]


theorem R_ul_congr (s a : nlte_atom K) (h : same_but_rates s a) (l : Nat) :
    R_ul s l = R_ul a l := by
  rw [same_but_rates_eq s a h]
  rfl

theorem R_lu_congr (s a : nlte_atom K) (h : same_but_rates s a) (l : Nat) :
    R_lu s l = R_lu a l := by
  rw [same_but_rates_eq s a h]
  rfl

theorem R_lu_nonthermal_congr (pc : physical_constants K) (s a : nlte_atom K)
    (h : same_but_rates s a) (l : Nat) :
    R_lu_nonthermal pc s l = R_lu_nonthermal pc a l := by
  rw [same_but_rates_eq s a h]
  rfl

theorem C_coll_congr (pc : physical_constants K) (ext : Externals K) (s a : nlte_atom K)
    (h : same_but_rates s a) (T : K) (i j : Nat) :
    C_coll pc ext s T i j = C_coll pc ext a T i j := by
  rw [same_but_rates_eq s a h]
  rfl

theorem C_ion_congr (pc : physical_constants K) (ext : Externals K) (s a : nlte_atom K)
    (h : same_but_rates s a) (T ne : K) (i : Nat) :
    C_ion pc ext s T ne i = C_ion pc ext a T ne i := by
  rw [same_but_rates_eq s a h]
  rfl

theorem C_rec_congr (pc : physical_constants K) (ext : Externals K) (s a : nlte_atom K)
    (h : same_but_rates s a) (T ne : K) (i : Nat) :
    C_rec pc ext s T ne i = C_rec pc ext a T ne i := by
  rw [same_but_rates_eq s a h]
  rfl

theorem R_rec_congr (ext : Externals K) (s a : nlte_atom K)
    (h : same_but_rates s a) (T ne : K) (i : Nat) :
    R_rec ext s T ne i = R_rec ext a T ne i := by
  rw [same_but_rates_eq s a h]
  rfl

/-- Closed form of the first loop of `set_rates`: the block is cleared. -/
theorem rates_zero_spec (a : nlte_atom K) :
    same_but_rates (rates_zero a) a ∧
    ∀ i j, (rates_zero a).rates i j =
      if i < a.n_levels ∧ j < a.n_levels then 0 else a.rates i j :=
  rates_map_loop a a (fun _ _ _ => 0) (fun _ _ _ => 0) (fun _ _ _ _ => rfl)
    (same_but_rates_refl a)

/-- Closed form of the last loop of `set_rates`: every rate of the block is multiplied by
the LTE population of the level it leaves. -/
theorem rates_weight_spec (a : nlte_atom K) :
    same_but_rates (rates_weight a) a ∧
    ∀ i j, (rates_weight a).rates i j =
      if i < a.n_levels ∧ j < a.n_levels then a.rates i j * (a.levels i).n_lte
      else a.rates i j :=
  rates_map_loop a a (fun i _ r => r * (a.levels i).n_lte)
    (fun s i j => s.rates i j * (s.levels i).n_lte)
    (fun s i j h => by
      show s.rates i j * (s.levels i).n_lte = s.rates i j * (a.levels i).n_lte
      rw [h.2.2.2.1]) (same_but_rates_refl a)

/-- Closed form of the radiative loop of `set_rates`. -/
theorem rates_radiative_spec (a : nlte_atom K) :
    same_but_rates (rates_radiative a) a ∧
    ∀ i j, (rates_radiative a).rates i j = a.rates i j + radiative_channel a i j := by
  refine rates_add_loop a a a.n_lines radiative_step
    (fun l i j => (if i = (a.lines l).ll ∧ j = (a.lines l).lu then R_lu a l else 0) +
      (if i = (a.lines l).lu ∧ j = (a.lines l).ll then R_ul a l else 0))
    (same_but_rates_refl a) ?_
  intro l s h
  refine ⟨same_but_rates_add _ _ _ _ _ (same_but_rates_add _ _ _ _ _ h), fun i j => ?_⟩
  unfold radiative_step
  simp only []
  rw [add_rate_apply, add_rate_apply, R_ul_congr s a h, R_lu_congr s a h, h.2.2.2.2.2.1,
    add_assoc]

/-- Closed form of the non-thermal loop of `set_rates`. -/
theorem rates_nonthermal_spec (pc : physical_constants K) (a : nlte_atom K) :
    same_but_rates (rates_nonthermal pc a) a ∧
    ∀ i j, (rates_nonthermal pc a).rates i j = a.rates i j + nonthermal_channel pc a i j := by
  refine rates_add_loop a a a.n_lines _
    (fun l i j =>
      (if i = (a.lines l).ll ∧ j = (a.lines l).lu then R_lu_nonthermal pc a l else 0))
    (same_but_rates_refl a) ?_
  intro l s h
  refine ⟨same_but_rates_add _ _ _ _ _ h, fun i j => ?_⟩
  simp only []
  rw [add_rate_apply, R_lu_nonthermal_congr pc s a h, h.2.2.2.2.2.1]

/-- One step of the collisional loop adds the collisional channel of the pair, which is 0
for a skipped pair. -/
theorem collisional_step_spec (pc : physical_constants K) (ext : Externals K)
    (a s : nlte_atom K) (T : K) (i j : Nat) (h : same_but_rates s a) :
    same_but_rates (collisional_step pc ext T i j s) a ∧
    ∀ i2 j2, (collisional_step pc ext T i j s).rates i2 j2 =
      s.rates i2 j2 + (if i2 = i ∧ j2 = j then collisional_channel pc ext a T i j else 0) := by
  unfold collisional_step collisional_channel
  rw [h.2.2.2.1]
  by_cases hij : i = j
  · rw [if_pos hij, if_pos hij]
    exact ⟨h, fun i2 j2 => by simp⟩
  · rw [if_neg hij, if_neg hij]
    by_cases hion : (a.levels i).ion ≠ (a.levels j).ion
    · rw [if_pos hion, if_pos hion]
      exact ⟨h, fun i2 j2 => by simp⟩
    · rw [if_neg hion, if_neg hion]
      refine ⟨same_but_rates_add _ _ _ _ _ h, fun i2 j2 => ?_⟩
      rw [add_rate_apply, C_coll_congr pc ext s a h]

/-- Closed form of the collisional loop of `set_rates`. -/
theorem rates_collisional_spec (pc : physical_constants K) (ext : Externals K)
    (a : nlte_atom K) (T : K) :
    same_but_rates (rates_collisional pc ext a T) a ∧
    ∀ i j, (rates_collisional pc ext a T).rates i j =
      a.rates i j +
        (if i < a.n_levels ∧ j < a.n_levels then collisional_channel pc ext a T i j else 0) := by
  have key := rates_add_loop a a a.n_levels
    (fun i (s : nlte_atom K) =>
      forLoop s.n_levels (fun j (s : nlte_atom K) => collisional_step pc ext T i j s) s)
    (fun i i2 j2 => ∑ j in Finset.range a.n_levels,
      (if i2 = i ∧ j2 = j then collisional_channel pc ext a T i j else 0))
    (same_but_rates_refl a)
    (by
      intro i s h
      beta_reduce
      rw [h.1]
      exact rates_add_loop a s a.n_levels (fun j s => collisional_step pc ext T i j s)
        (fun j i2 j2 => (if i2 = i ∧ j2 = j then collisional_channel pc ext a T i j else 0))
        h (fun j s hs => collisional_step_spec pc ext a s T i j hs))
  refine ⟨key.1, fun i j => ?_⟩
  have e : (rates_collisional pc ext a T).rates i j = a.rates i j +
      ∑ k in Finset.range a.n_levels, ∑ m in Finset.range a.n_levels,
        (if i = k ∧ j = m then collisional_channel pc ext a T k m else 0) := key.2 i j
  rw [e]
  congr 1
  by_cases hi : i < a.n_levels
  · rw [Finset.sum_eq_single i]
    · by_cases hj : j < a.n_levels
      · rw [Finset.sum_eq_single j]
        · simp [hi, hj]
        · intro m _ hm
          simp [Ne.symm hm]
        · intro hm
          exact absurd (Finset.mem_range.mpr hj) hm
      · rw [if_neg (fun h => hj h.2)]
        refine Finset.sum_eq_zero (fun m hm => ?_)
        have : j ≠ m := fun h => hj (h ▸ Finset.mem_range.mp hm)
        simp [this]
    · intro k _ hk
      refine Finset.sum_eq_zero (fun m _ => ?_)
      simp [Ne.symm hk]
    · intro hk
      exact absurd (Finset.mem_range.mpr hi) hk
  · rw [if_neg (fun h => hi h.1)]
    refine Finset.sum_eq_zero (fun k hk => Finset.sum_eq_zero (fun m _ => ?_))
    have : i ≠ k := fun h => hi (h ▸ Finset.mem_range.mp hk)
    simp [this]

/-- One step of the bound-free loop. -/
theorem bound_free_step_spec (pc : physical_constants K) (ext : Externals K)
    (a s : nlte_atom K) (T ne : K) (k : Nat) (h : same_but_rates s a) :
    same_but_rates (bound_free_step pc ext T ne k s) a ∧
    ∀ i j, (bound_free_step pc ext T ne k s).rates i j =
      s.rates i j +
        (if (a.levels k).ic = -1 then 0
         else
          (if i = k ∧ j = (a.levels k).ic.toNat then
            C_ion pc ext a T ne k + photoionization_rate pc ext (a.levels k).s_photo T
           else 0) +
          (if i = (a.levels k).ic.toNat ∧ j = k then
            C_rec pc ext a T ne k + R_rec ext a T ne k else 0)) := by
  unfold bound_free_step
  simp only []
  have e0 : (s.levels k).ic = (a.levels k).ic := by rw [h.2.2.2.1]
  rw [e0]
  by_cases hic : (a.levels k).ic = -1
  · simp only [hic, if_true]
    exact ⟨h, fun i j => by simp⟩
  · simp only [hic, if_false]
    rw [C_ion_congr pc ext s a h]
    have g1 := same_but_rates_add s a k (a.levels k).ic.toNat (C_ion pc ext a T ne k) h
    have r1 := fun i j => add_rate_apply s k (a.levels k).ic.toNat i j (C_ion pc ext a T ne k)
    generalize add_rate s k (a.levels k).ic.toNat (C_ion pc ext a T ne k) = s1 at g1 r1 ⊢
    rw [C_rec_congr pc ext s1 a g1]
    have g2 := same_but_rates_add s1 a (a.levels k).ic.toNat k (C_rec pc ext a T ne k) g1
    have r2 := fun i j => add_rate_apply s1 (a.levels k).ic.toNat k i j (C_rec pc ext a T ne k)
    generalize add_rate s1 (a.levels k).ic.toNat k (C_rec pc ext a T ne k) = s2 at g2 r2 ⊢
    rw [R_rec_congr ext s2 a g2]
    have g3 := same_but_rates_add s2 a (a.levels k).ic.toNat k (R_rec ext a T ne k) g2
    have r3 := fun i j => add_rate_apply s2 (a.levels k).ic.toNat k i j (R_rec ext a T ne k)
    generalize add_rate s2 (a.levels k).ic.toNat k (R_rec ext a T ne k) = s3 at g3 r3 ⊢
    rw [g3.2.2.2.1]
    refine ⟨same_but_rates_add _ _ _ _ _ g3, fun i j => ?_⟩
    rw [add_rate_apply, r3, r2, r1]
    by_cases c1 : i = k ∧ j = (a.levels k).ic.toNat
    · by_cases c2 : i = (a.levels k).ic.toNat ∧ j = k
      · simp only [if_pos c1, if_pos c2]
        ring
      · simp only [if_pos c1, if_neg c2]
        ring
    · by_cases c2 : i = (a.levels k).ic.toNat ∧ j = k
      · simp only [if_neg c1, if_pos c2]
        ring
      · simp only [if_neg c1, if_neg c2]
        ring

/-- Closed form of the bound-free loop of `set_rates`. -/
theorem rates_bound_free_spec (pc : physical_constants K) (ext : Externals K)
    (a : nlte_atom K) (T ne : K) :
    same_but_rates (rates_bound_free pc ext a T ne) a ∧
    ∀ i j, (rates_bound_free pc ext a T ne).rates i j =
      a.rates i j + bound_free_channel pc ext a T ne i j :=
  rates_add_loop a a a.n_levels (bound_free_step pc ext T ne) _ (same_but_rates_refl a)
    (fun k s h => bound_free_step_spec pc ext a s T ne k h)

theorem radiative_channel_congr (s a : nlte_atom K) (h : same_but_rates s a) (i j : Nat) :
    radiative_channel s i j = radiative_channel a i j := by
  rw [same_but_rates_eq s a h]
  rfl

theorem nonthermal_channel_congr (pc : physical_constants K) (s a : nlte_atom K)
    (h : same_but_rates s a) (i j : Nat) :
    nonthermal_channel pc s i j = nonthermal_channel pc a i j := by
  rw [same_but_rates_eq s a h]
  rfl

theorem collisional_channel_congr (pc : physical_constants K) (ext : Externals K)
    (s a : nlte_atom K) (h : same_but_rates s a) (T : K) (i j : Nat) :
    collisional_channel pc ext s T i j = collisional_channel pc ext a T i j := by
  rw [same_but_rates_eq s a h]
  rfl

theorem bound_free_channel_congr (pc : physical_constants K) (ext : Externals K)
    (s a : nlte_atom K) (h : same_but_rates s a) (T ne : K) (i j : Nat) :
    bound_free_channel pc ext s T ne i j = bound_free_channel pc ext a T ne i j := by
  rw [same_but_rates_eq s a h]
  rfl

theorem same_but_rates_trans (a b c : nlte_atom K) (h1 : same_but_rates a b)
    (h2 : same_but_rates b c) : same_but_rates a c :=
  ⟨h1.1.trans h2.1, h1.2.1.trans h2.2.1, h1.2.2.1.trans h2.2.2.1,
    h1.2.2.2.1.trans h2.2.2.2.1, h1.2.2.2.2.1.trans h2.2.2.2.2.1,
    h1.2.2.2.2.2.1.trans h2.2.2.2.2.2.1, h1.2.2.2.2.2.2.1.trans h2.2.2.2.2.2.2.1,
    h1.2.2.2.2.2.2.2.1.trans h2.2.2.2.2.2.2.2.1,
    h1.2.2.2.2.2.2.2.2.1.trans h2.2.2.2.2.2.2.2.2.1,
    h1.2.2.2.2.2.2.2.2.2.1.trans h2.2.2.2.2.2.2.2.2.2.1,
    h1.2.2.2.2.2.2.2.2.2.2.1.trans h2.2.2.2.2.2.2.2.2.2.2.1,
    h1.2.2.2.2.2.2.2.2.2.2.2.1.trans h2.2.2.2.2.2.2.2.2.2.2.2.1,
    h1.2.2.2.2.2.2.2.2.2.2.2.2.1.trans h2.2.2.2.2.2.2.2.2.2.2.2.2.1,
    h1.2.2.2.2.2.2.2.2.2.2.2.2.2.trans h2.2.2.2.2.2.2.2.2.2.2.2.2.2⟩

/-- Closed form of `set_rates` on the block: the rate from level `i` to level `j` is the sum
of the four channels times the LTE population of level `i`. -/
theorem set_rates_spec (pc : physical_constants K) (ext : Externals K)
    (a : nlte_atom K) (T ne : K) (i j : Nat) (hi : i < a.n_levels) (hj : j < a.n_levels) :
    (set_rates pc ext a T ne).rates i j =
      (radiative_channel a i j + nonthermal_channel pc a i j +
        collisional_channel pc ext a T i j + bound_free_channel pc ext a T ne i j) *
        (a.levels i).n_lte := by
  rw [set_rates_stages]
  obtain ⟨z1, z2⟩ := rates_zero_spec a
  generalize rates_zero a = s0 at z1 z2 ⊢
  obtain ⟨r1, r2⟩ := rates_radiative_spec s0
  have r3 := same_but_rates_trans _ _ _ r1 z1
  generalize rates_radiative s0 = s1 at r1 r2 r3 ⊢
  obtain ⟨n1, n2⟩ := rates_nonthermal_spec pc s1
  have n3 := same_but_rates_trans _ _ _ n1 r3
  generalize rates_nonthermal pc s1 = s2 at n1 n2 n3 ⊢
  obtain ⟨c1, c2⟩ := rates_collisional_spec pc ext s2 T
  have c3 := same_but_rates_trans _ _ _ c1 n3
  generalize rates_collisional pc ext s2 T = s3 at c1 c2 c3 ⊢
  obtain ⟨b1, b2⟩ := rates_bound_free_spec pc ext s3 T ne
  have b3 := same_but_rates_trans _ _ _ b1 c3
  generalize rates_bound_free pc ext s3 T ne = s4 at b1 b2 b3 ⊢
  obtain ⟨w1, w2⟩ := rates_weight_spec s4
  rw [w2, b3.1, if_pos ⟨hi, hj⟩, b2, c2, n3.1, if_pos ⟨hi, hj⟩, n2, r2, z2,
    if_pos ⟨hi, hj⟩, b3.2.2.2.1, bound_free_channel_congr pc ext s3 a c3,
    collisional_channel_congr pc ext s2 a n3, nonthermal_channel_congr pc s1 a r3,
    radiative_channel_congr s0 a z1, zero_add]


/-- Claim C17.  The radiative bound-bound loop is the second stage of `set_rates`.  For every
line `l` it adds `R_lu` to the rate `ll -> lu` and `R_ul` to the rate `lu -> ll`, where
`R_lu = B_lu * J` and `R_ul = B_ul * J + A_ul`, both multiplied by the beta stored in the
line when `use_betas` is set, and without any beta when it is not; over all lines the loop
adds `radiative_channel` and changes nothing but `rates`.  The LTE weighting comes later. -/
theorem C17_radiative_channel (pc : physical_constants K) (ext : Externals K)
    (a : nlte_atom K) (T ne : K) :
    set_rates pc ext a T ne =
      rates_weight (rates_bound_free pc ext (rates_collisional pc ext
        (rates_nonthermal pc (rates_radiative (rates_zero a))) T) T ne) ∧
    (∀ (s : nlte_atom K) (l : Nat),
      radiative_step l s =
        add_rate (add_rate s (s.lines l).ll (s.lines l).lu (R_lu s l))
          (s.lines l).lu (s.lines l).ll (R_ul s l) ∧
      R_lu s l = (if s.use_betas then (s.lines l).B_lu * (s.lines l).J * (s.lines l).beta
        else (s.lines l).B_lu * (s.lines l).J) ∧
      R_ul s l = (if s.use_betas
        then ((s.lines l).B_ul * (s.lines l).J + (s.lines l).A_ul) * (s.lines l).beta
        else (s.lines l).B_ul * (s.lines l).J + (s.lines l).A_ul)) ∧
    (∀ s : nlte_atom K, same_but_rates (rates_radiative s) s ∧
      ∀ i j, (rates_radiative s).rates i j = s.rates i j +
        ∑ l in Finset.range s.n_lines,
          ((if i = (s.lines l).ll ∧ j = (s.lines l).lu then R_lu s l else 0) +
           (if i = (s.lines l).lu ∧ j = (s.lines l).ll then R_ul s l else 0))) :=
  ⟨rfl, fun _ _ => ⟨rfl, rfl, rfl⟩, fun s => rates_radiative_spec s⟩

/-- The two directions of a collisional transition between levels `i` (lower) and `j`
(upper): the downward rate is `2.16 * pow(zeta, -1.68) * pow(T, -1.5)` and the upward rate
is `C * g_j / g_i * exp(-zeta)` with the same `C`, where `zeta = (E_j - E_i) / k_ev / T`. -/
theorem C_coll_pair (pc : physical_constants K) (ext : Externals K) (s : nlte_atom K)
    (T : K) (i j : Nat) (hT : 0 < T) (hk : 0 < pc.k_ev)
    (hE : (s.levels i).E < (s.levels j).E) :
    C_coll pc ext s T j i =
      2.16 * ext.pow (((s.levels j).E - (s.levels i).E) / pc.k_ev / T) (-1.68) *
        ext.pow T (-1.5) ∧
    C_coll pc ext s T i j =
      2.16 * ext.pow (((s.levels j).E - (s.levels i).E) / pc.k_ev / T) (-1.68) *
        ext.pow T (-1.5) * ((s.levels j).g : K) / ((s.levels i).g : K) *
        ext.exp (-(((s.levels j).E - (s.levels i).E) / pc.k_ev / T)) := by
  have hpos : 0 < ((s.levels j).E - (s.levels i).E) / pc.k_ev / T :=
    div_pos (div_pos (by linarith) hk) hT
  have hneg : ((s.levels i).E - (s.levels j).E) / pc.k_ev / T < 0 :=
    div_neg_of_neg_of_pos (div_neg_of_neg_of_pos (by linarith) hk) hT
  have hflip : -1 * (((s.levels i).E - (s.levels j).E) / pc.k_ev / T) =
      ((s.levels j).E - (s.levels i).E) / pc.k_ev / T := by ring
  constructor
  · unfold C_coll
    simp only []
    rw [if_neg (not_lt.mpr hpos.le), if_neg (by linarith)]
  · unfold C_coll
    simp only []
    rw [if_pos hneg, if_pos (by linarith), hflip]

/-- Claim C18.  The collisional loop of `set_rates` adds `collisional_channel` to the block
and nothing else; it adds nothing for `i = j` and for levels of different ions.  For two
levels of the same ion, `i` the lower and `j` the upper, with
`zeta = |E_i - E_j| / (k_ev * T)`, the downward rate is
`2.16 * pow(zeta, -1.68) * pow(T, -1.5)` and the upward rate is the downward rate times
`(g_j / g_i) * exp(-zeta)`. -/
theorem C18_collisional_channel (pc : physical_constants K) (ext : Externals K)
    (a : nlte_atom K) (T : K) (hT : 0 < T) (hk : 0 < pc.k_ev) :
    (same_but_rates (rates_collisional pc ext a T) a ∧
      ∀ i j, (rates_collisional pc ext a T).rates i j = a.rates i j +
        (if i < a.n_levels ∧ j < a.n_levels then collisional_channel pc ext a T i j
         else 0)) ∧
    (∀ i j, i = j ∨ (a.levels i).ion ≠ (a.levels j).ion →
      collisional_channel pc ext a T i j = 0) ∧
    (∀ i j, (a.levels i).ion = (a.levels j).ion → (a.levels i).E < (a.levels j).E →
      collisional_channel pc ext a T j i =
        2.16 * ext.pow (|(a.levels i).E - (a.levels j).E| / (pc.k_ev * T)) (-1.68) *
          ext.pow T (-1.5) ∧
      collisional_channel pc ext a T i j =
        collisional_channel pc ext a T j i *
          ((((a.levels j).g : K) / ((a.levels i).g : K)) *
            ext.exp (-(|(a.levels i).E - (a.levels j).E| / (pc.k_ev * T))))) := by
  refine ⟨rates_collisional_spec pc ext a T, ?_, ?_⟩
  · intro i j h
    unfold collisional_channel
    rcases h with h | h
    · rw [if_pos h]
    · by_cases hij : i = j
      · rw [if_pos hij]
      · rw [if_neg hij, if_pos h]
  · intro i j hion hE
    have hij : i ≠ j := by
      intro h
      rw [h] at hE
      exact lt_irrefl _ hE
    have hz : |(a.levels i).E - (a.levels j).E| / (pc.k_ev * T) =
        ((a.levels j).E - (a.levels i).E) / pc.k_ev / T := by
      rw [abs_of_neg (by linarith), div_div]
      ring
    obtain ⟨h1, h2⟩ := C_coll_pair pc ext a T i j hT hk hE
    have c1 : collisional_channel pc ext a T j i = C_coll pc ext a T j i := by
      unfold collisional_channel
      rw [if_neg (Ne.symm hij), if_neg (not_not.mpr hion.symm)]
    have c2 : collisional_channel pc ext a T i j = C_coll pc ext a T i j := by
      unfold collisional_channel
      rw [if_neg hij, if_neg (not_not.mpr hion)]
    rw [c1, c2, h1, h2, hz]
    exact ⟨rfl, by ring⟩

theorem C_coll_levels (pc : physical_constants K) (ext : Externals K) (s1 s2 : nlte_atom K)
    (T : K) (i j : Nat) (h : s1.levels = s2.levels) :
    C_coll pc ext s1 T i j = C_coll pc ext s2 T i j := by
  unfold C_coll
  rw [h]

theorem C_ion_scaling (pc : physical_constants K) (ext : Externals K) (s : nlte_atom K)
    (T ne : K) (i : Nat) :
    C_ion pc ext s T ne i =
      (2.7 * ne) * (ext.pow T (-1.5) * ext.exp (-zeta_ion pc s T i) / zeta_ion pc s T i ^ 2) := by
  unfold C_ion
  simp only []
  ring

theorem C_rec_scaling (pc : physical_constants K) (ext : Externals K) (s : nlte_atom K)
    (T ne : K) (i : Nat) :
    C_rec pc ext s T ne i =
      (5.59080e-16 * (((s.levels i).g : K) / ((s.levels (s.levels i).ic.toNat).g : K)) *
        ne ^ 2) * (ext.pow T (-3) / zeta_ion pc s T i ^ 2) := by
  unfold C_rec
  simp only []
  ring

/-- Claim C20 (as the code has it).  For a level `i` with an ionization target `ic`, the
bound-free loop of `set_rates` adds `C_ion` and the photoionization rate to the rate
`i -> ic`, and `C_rec` and `R_rec` to the rate `ic -> i`.  With
`zeta = (chi - E_i) / k_ev / T`, the collisional ionization rate is
`2.7 * ne` times `pow(T, -1.5) * exp(-zeta) / zeta^2`, and the three-body recombination
rate is `5.59080e-16 * (g_i / g_c) * ne^2` times `pow(T, -3) / zeta^2`, with no factor
`exp(-zeta)`. -/
theorem C20_bound_free_scaling (pc : physical_constants K) (ext : Externals K)
    (s : nlte_atom K) (T ne : K) (i : Nat) (hic : (s.levels i).ic ≠ -1) :
    bound_free_step pc ext T ne i s =
      add_rate (add_rate (add_rate (add_rate s
        i (s.levels i).ic.toNat (C_ion pc ext s T ne i))
        (s.levels i).ic.toNat i (C_rec pc ext s T ne i))
        (s.levels i).ic.toNat i (R_rec ext s T ne i))
        i (s.levels i).ic.toNat (photoionization_rate pc ext (s.levels i).s_photo T) ∧
    zeta_ion pc s T i = ((s.ions (s.levels i).ion).chi - (s.levels i).E) / pc.k_ev / T ∧
    C_ion pc ext s T ne i =
      (2.7 * ne) *
        (ext.pow T (-1.5) * ext.exp (-zeta_ion pc s T i) / zeta_ion pc s T i ^ 2) ∧
    C_rec pc ext s T ne i =
      (5.59080e-16 * (((s.levels i).g : K) / ((s.levels (s.levels i).ic.toNat).g : K)) *
        ne ^ 2) * (ext.pow T (-3) / zeta_ion pc s T i ^ 2) := by
  refine ⟨?_, rfl, C_ion_scaling pc ext s T ne i, C_rec_scaling pc ext s T ne i⟩
  unfold bound_free_step
  simp only []
  rw [if_neg hic]
  rfl


end RateChannels

/-! ## The photoionization integral of `set_rates` -/

section Photo

variable {K : Type} [LinearOrderedField K]

/-- The photoionization integral of `set_rates` is the right-endpoint rule for the
integrand of the specification. -/
theorem photoionization_rate_spec (pc : physical_constants K) (ext : Externals K)
    (t : xy_array K) (T : K) :
    photoionization_rate pc ext t T = right_endpoint_rule pc ext t T := by
  unfold photoionization_rate right_endpoint_rule
  simp only []
  rw [forLoop_sum]
  refine Finset.sum_congr rfl (fun m _ => ?_)
  unfold photo_integrand table_nu
  have h1 : ((1.0 : K)) = 1 := by norm_num
  have e : -pc.h * (t.x (m + 1) * pc.ev_to_ergs / pc.h) / pc.k / T =
      -pc.h * (t.x (m + 1) * pc.ev_to_ergs / pc.h) / (pc.k * T) := by
    rw [div_div]
  rw [h1, e, Nat.add_sub_cancel]
  ring

/-- Claim C21 (as the code has it).  The photoionization rate that `set_rates` adds to the
rate `i -> ic` of a level with an ionization target is the right-endpoint rule, not the
trapezoidal rule, for the integrand
`f(nu) = 4 * pi * sigma(nu) * J(nu) / (h * nu) * (1 - exp(-h * nu / (k * T)))` over the
tabulated points: the sum over consecutive points of `f(nu_j) * (nu_j - nu_{j-1})`. -/
theorem C21_photoionization_rule (pc : physical_constants K) (ext : Externals K) (T ne : K) :
    (∀ t : xy_array K, photoionization_rate pc ext t T =
      ∑ m in Finset.range (t.size - 1),
        photo_integrand pc ext t T (m + 1) * (table_nu pc t (m + 1) - table_nu pc t m)) ∧
    (∀ (s : nlte_atom K) (i j : Nat),
      (rates_bound_free pc ext s T ne).rates i j = s.rates i j +
        ∑ k in Finset.range s.n_levels,
          (if (s.levels k).ic = -1 then 0
           else
            (if i = k ∧ j = (s.levels k).ic.toNat then
              C_ion pc ext s T ne k + photoionization_rate pc ext (s.levels k).s_photo T
             else 0) +
            (if i = (s.levels k).ic.toNat ∧ j = k then
              C_rec pc ext s T ne k + R_rec ext s T ne k else 0))) :=
  ⟨fun t => photoionization_rate_spec pc ext t T,
   fun s i j => (rates_bound_free_spec pc ext s T ne).2 i j⟩

end Photo

/-! ## The non-thermal channel, the closed form of the rates, and the column sums -/

section MoreChannels

variable {K : Type} [LinearOrderedField K]

/-- Claim C22.  The non-thermal loop of `set_rates` adds, for every line `l`, the amount
`R_lu_nonthermal` to the upward rate `ll -> lu` and touches no other entry; the amount is
`e_gamma / (n_dens * dE)` with `dE = (E_lu - E_ll) * ev_to_ergs` for a line whose lower level
is level 0, the ground level, and 0 for every other line; it does not change when the
oscillator strength of any line is changed. -/
theorem C22_nonthermal_channel (pc : physical_constants K) (a : nlte_atom K) :
    (same_but_rates (rates_nonthermal pc a) a ∧
      ∀ i j, (rates_nonthermal pc a).rates i j = a.rates i j +
        ∑ l in Finset.range a.n_lines,
          (if i = (a.lines l).ll ∧ j = (a.lines l).lu then R_lu_nonthermal pc a l else 0)) ∧
    (∀ l, (a.lines l).ll = 0 →
      R_lu_nonthermal pc a l =
        a.e_gamma / (a.n_dens *
          (((a.levels (a.lines l).lu).E - (a.levels (a.lines l).ll).E) * pc.ev_to_ergs))) ∧
    (∀ l, (a.lines l).ll ≠ 0 → R_lu_nonthermal pc a l = 0) ∧
    (∀ (l m : Nat) (f : K),
      R_lu_nonthermal pc (set_line a m { a.lines m with f_lu := f }) l =
        R_lu_nonthermal pc a l) := by
  refine ⟨rates_nonthermal_spec pc a, ?_, ?_, ?_⟩
  · intro l h
    unfold R_lu_nonthermal
    simp only []
    rw [if_neg (not_not.mpr h), div_div]
  · intro l h
    unfold R_lu_nonthermal
    simp only []
    rw [if_pos h]
  · intro l m f
    unfold R_lu_nonthermal set_line
    by_cases h : l = m
    · subst h
      simp
    · simp [Function.update_apply, h]

/-- Claim C23.  For levels `i` and `j` of the species, the value `rates[i][j]` that
`set_rates` leaves is the sum of the four channel contributions to the transition `i -> j`
(radiative, non-thermal, collisional, bound-free) times `n_lte[i]`; it does not depend on
what `rates` held before the call. -/
theorem C23_rates_closed_form (pc : physical_constants K) (ext : Externals K)
    (a : nlte_atom K) (T ne : K) (i j : Nat) (hi : i < a.n_levels) (hj : j < a.n_levels) :
    (set_rates pc ext a T ne).rates i j =
      (radiative_channel a i j + nonthermal_channel pc a i j +
        collisional_channel pc ext a T i j + bound_free_channel pc ext a T ne i j) *
        (a.levels i).n_lte ∧
    ∀ r : Nat → Nat → K,
      (set_rates pc ext { a with rates := r } T ne).rates i j =
        (set_rates pc ext a T ne).rates i j := by
  refine ⟨set_rates_spec pc ext a T ne i j hi hj, fun r => ?_⟩
  rw [set_rates_spec pc ext a T ne i j hi hj,
    set_rates_spec pc ext { a with rates := r } T ne i j hi hj]
  rfl

end MoreChannels

/-! ## Monotonicity of the Saha ratios in the temperature -/

section SahaMonotone

variable {K : Type} [LinearOrderedField K]

/-- The factor `2 / ne / pow(lt, 1.5)` is positive for `ne > 0`. -/
theorem saha_fac_pos (pc : physical_constants K) (ext : Externals K) (T ne : K)
    (hT : 0 < T) (hne : 0 < ne) (hpow : ∀ x, 0 < x → 0 < ext.pow x 1.5)
    (hpi : 0 < pc.pi) (hh : 0 < pc.h) (hme : 0 < pc.m_e) (hk : 0 < pc.k) :
    0 < saha_fac pc ext T ne := by
  unfold saha_fac
  have h2 : ((2.0 : K)) = 2 := by norm_num
  have hlt : 0 < pc.h * pc.h / (2.0 * pc.pi * pc.m_e * pc.k * T) := by
    rw [h2]
    positivity
  exact div_pos (div_pos (by norm_num) hne) (hpow _ hlt)

/-- Above the `1e-50` guard the Saha fractions of the ions in range are positive. -/
theorem saha_frac_pos (pc : physical_constants K) (ext : Externals K)
    (chi Z : Nat → K) (T ne : K) (n : Nat)
    (hexp : ∀ x, 0 < ext.exp x) (hfac : 0 < saha_fac pc ext T ne)
    (hne : ¬ ne < 1e-50) (hZ : ∀ k, k < n → 0 < Z k) :
    ∀ k, k < n → 0 < saha_frac pc ext chi Z T ne k := by
  intro k
  induction k with
  | zero =>
    intro _
    unfold saha_frac
    norm_num
  | succ m ih =>
    intro hm
    unfold saha_frac
    rw [if_neg hne]
    refine mul_pos ?_ (ih (by omega))
    unfold saha_ratio
    exact mul_pos (mul_pos (hexp _) (div_pos (hZ _ hm) (hZ _ (by omega)))) hfac

/-- Ratio of the fractions of two neighbouring ions after `solve_lte`: the Saha ratio. -/
theorem lte_frac_ratio (pc : physical_constants K) (ext : Externals K)
    (a : nlte_atom K) (T ne : K)
    (hexp : ∀ x, 0 < ext.exp x) (hpow : ∀ x, 0 < x → 0 < ext.pow x 1.5)
    (hpi : 0 < pc.pi) (hh : 0 < pc.h) (hme : 0 < pc.m_e) (hk : 0 < pc.k)
    (hT : 0 < T) (hne : 1e-50 ≤ ne)
    (hg : ∀ i, i < a.n_levels → 1 ≤ (a.levels i).g)
    (hown : ∀ k, k < a.n_ions → ∃ i, i < a.n_levels ∧ (a.levels i).ion = k)
    (i : Nat) (hi1 : 1 ≤ i) (hi : i < a.n_ions) :
    lte_frac pc ext a T ne i / lte_frac pc ext a T ne (i - 1) =
      saha_ratio pc ext (ion_chi a) (lte_part pc ext a T) T ne i ∧
    0 < lte_frac pc ext a T ne (i - 1) := by
  have hne0 : (0 : K) < ne := lt_of_lt_of_le (by norm_num) hne
  have hne1 : ¬ ne < 1e-50 := not_lt.mpr hne
  have hfac := saha_fac_pos pc ext T ne hT hne0 hpow hpi hh hme hk
  have hZ : ∀ k, k < a.n_ions → 0 < lte_part pc ext a T k := by
    intro k hk
    unfold lte_part
    rw [if_pos hk, zero_add]
    exact partition_fn_pos pc ext a T hexp hg k (hown k hk)
  have hF := saha_frac_pos pc ext (ion_chi a) (lte_part pc ext a T) T ne a.n_ions hexp hfac
    hne1 hZ
  have hN : 0 < saha_norm pc ext (ion_chi a) (lte_part pc ext a T) T ne a.n_ions := by
    unfold saha_norm
    have h1 : ((1.0 : K)) = 1 := by norm_num
    rw [h1]
    have : 0 ≤ ∑ i in Finset.range (a.n_ions - 1),
        saha_frac pc ext (ion_chi a) (lte_part pc ext a T) T ne (i + 1) :=
      Finset.sum_nonneg (fun i hi =>
        le_of_lt (hF (i + 1) (by have := Finset.mem_range.mp hi; omega)))
    linarith
  obtain ⟨m, rfl⟩ : ∃ m, i = m + 1 := ⟨i - 1, by omega⟩
  have hm : 0 < saha_frac pc ext (ion_chi a) (lte_part pc ext a T) T ne m := hF m (by omega)
  constructor
  · unfold lte_frac
    have es : saha_frac pc ext (ion_chi a) (lte_part pc ext a T) T ne (m + 1) =
        if ne < 1e-50 then 0
        else saha_ratio pc ext (ion_chi a) (lte_part pc ext a T) T ne (m + 1) *
          saha_frac pc ext (ion_chi a) (lte_part pc ext a T) T ne m := rfl
    rw [Nat.add_sub_cancel, div_div_div_cancel_right₀ (ne_of_gt hN), es, if_neg hne1,
      mul_div_assoc, div_self (ne_of_gt hm), mul_one]
  · rw [Nat.add_sub_cancel]
    unfold lte_frac
    exact div_pos hm hN

/-- The partition function does not decrease with temperature when the excitation energies
are non-negative. -/
theorem partition_fn_mono (pc : physical_constants K) (ext : Externals K)
    (a : nlte_atom K) (T1 T2 : K) (hmono : ∀ x y, x ≤ y → ext.exp x ≤ ext.exp y)
    (hk : 0 < pc.k_ev) (hT1 : 0 < T1) (hT : T1 ≤ T2)
    (hg : ∀ i, i < a.n_levels → 1 ≤ (a.levels i).g)
    (k : Nat) (hE : ∀ i, i < a.n_levels → (a.levels i).ion = k → 0 ≤ (a.levels i).E) :
    partition_fn pc ext a T1 k ≤ partition_fn pc ext a T2 k := by
  unfold partition_fn
  refine Finset.sum_le_sum (fun i hi => ?_)
  have hi2 := Finset.mem_range.mp hi
  by_cases h : (a.levels i).ion = k
  · rw [if_pos h, if_pos h]
    unfold boltz
    have hgi : (0 : K) ≤ ((a.levels i).g : K) := by
      have : (0 : Int) ≤ (a.levels i).g := by have := hg i hi2; omega
      exact_mod_cast this
    refine mul_le_mul_of_nonneg_left (hmono _ _ ?_) hgi
    have hT2 : 0 < T2 := lt_of_lt_of_le hT1 hT
    have hE0 := hE i hi2 h
    simp only [neg_div]
    rw [neg_le_neg_iff]
    exact div_le_div_of_nonneg_left (div_nonneg hE0 hk.le) hT1 hT
  · rw [if_neg h, if_neg h]

/-- Boltzmann factor of the ionization energy over the partition function of the lower ion:
it does not decrease with temperature when no level of that ion lies above the ionization
energy. -/
theorem saha_exp_over_partition_mono (pc : physical_constants K) (ext : Externals K)
    (a : nlte_atom K) (T1 T2 chi : K)
    (hmono : ∀ x y, x ≤ y → ext.exp x ≤ ext.exp y)
    (hadd : ∀ x y, ext.exp (x + y) = ext.exp x * ext.exp y)
    (hk : 0 < pc.k_ev) (hT1 : 0 < T1) (hT : T1 ≤ T2)
    (hg : ∀ i, i < a.n_levels → 1 ≤ (a.levels i).g)
    (k : Nat) (hE : ∀ i, i < a.n_levels → (a.levels i).ion = k → (a.levels i).E ≤ chi) :
    ext.exp (-1.0 * chi / pc.k_ev / T1) * partition_fn pc ext a T2 k ≤
      ext.exp (-1.0 * chi / pc.k_ev / T2) * partition_fn pc ext a T1 k := by
  have hT2 : 0 < T2 := lt_of_lt_of_le hT1 hT
  unfold partition_fn
  rw [Finset.mul_sum, Finset.mul_sum]
  refine Finset.sum_le_sum (fun i hi => ?_)
  have hi2 := Finset.mem_range.mp hi
  by_cases h : (a.levels i).ion = k
  · rw [if_pos h, if_pos h]
    unfold boltz
    have hgi : (0 : K) ≤ ((a.levels i).g : K) := by
      have : (0 : Int) ≤ (a.levels i).g := by have := hg i hi2; omega
      exact_mod_cast this
    have e1 : ext.exp (-1.0 * chi / pc.k_ev / T1) *
        (((a.levels i).g : K) * ext.exp (-(a.levels i).E / pc.k_ev / T2)) =
        ((a.levels i).g : K) *
          ext.exp (-1.0 * chi / pc.k_ev / T1 + -(a.levels i).E / pc.k_ev / T2) := by
      rw [hadd]
      ring
    have e2 : ext.exp (-1.0 * chi / pc.k_ev / T2) *
        (((a.levels i).g : K) * ext.exp (-(a.levels i).E / pc.k_ev / T1)) =
        ((a.levels i).g : K) *
          ext.exp (-1.0 * chi / pc.k_ev / T2 + -(a.levels i).E / pc.k_ev / T1) := by
      rw [hadd]
      ring
    rw [e1, e2]
    refine mul_le_mul_of_nonneg_left (hmono _ _ ?_) hgi
    have hE0 := hE i hi2 h
    have h1 : ((1.0 : K)) = 1 := by norm_num
    rw [h1]
    have hd : 0 ≤ (chi - (a.levels i).E) / pc.k_ev := div_nonneg (by linarith) hk.le
    have hinv : 1 / T2 ≤ 1 / T1 := one_div_le_one_div_of_le hT1 hT
    have key : -1 * chi / pc.k_ev / T2 + -(a.levels i).E / pc.k_ev / T1 -
        (-1 * chi / pc.k_ev / T1 + -(a.levels i).E / pc.k_ev / T2) =
        (chi - (a.levels i).E) / pc.k_ev * (1 / T1 - 1 / T2) := by
      field_simp
      ring
    have : 0 ≤ (chi - (a.levels i).E) / pc.k_ev * (1 / T1 - 1 / T2) :=
      mul_nonneg hd (by linarith)
    linarith
  · rw [if_neg h, if_neg h, mul_zero, mul_zero]

/-- The factor `2 / ne / pow(lt, 1.5)` does not decrease with temperature when `pow(., 1.5)`
is monotone and positive on positive bases. -/
theorem saha_fac_mono (pc : physical_constants K) (ext : Externals K) (T1 T2 ne : K)
    (hpow : ∀ x, 0 < x → 0 < ext.pow x 1.5)
    (hpmono : ∀ x y, 0 < x → x ≤ y → ext.pow x 1.5 ≤ ext.pow y 1.5)
    (hpi : 0 < pc.pi) (hh : 0 < pc.h) (hme : 0 < pc.m_e) (hk : 0 < pc.k)
    (hT1 : 0 < T1) (hT : T1 ≤ T2) (hne : 0 < ne) :
    saha_fac pc ext T1 ne ≤ saha_fac pc ext T2 ne := by
  have hT2 : 0 < T2 := lt_of_lt_of_le hT1 hT
  unfold saha_fac
  have h2 : ((2.0 : K)) = 2 := by norm_num
  rw [h2]
  have hl2 : 0 < pc.h * pc.h / (2 * pc.pi * pc.m_e * pc.k * T2) := by positivity
  have hle : pc.h * pc.h / (2 * pc.pi * pc.m_e * pc.k * T2) ≤
      pc.h * pc.h / (2 * pc.pi * pc.m_e * pc.k * T1) := by
    refine div_le_div_of_nonneg_left (by positivity) (by positivity) ?_
    exact mul_le_mul_of_nonneg_left hT (by positivity)
  exact div_le_div_of_nonneg_left (by positivity) (hpow _ hl2) (hpmono _ _ hl2 hle)


/-- Claim C26 (as the code has it).  Saha monotonicity holds for a species whose excitation
energies are non-negative and do not exceed the ionization energy of their ion: for
`n_e >= 1e-50` and `0 < T1 <= T2`, for every ion `i >= 1` the ratio
`ions[i].frac / ions[i-1].frac` left by `solve_lte` at `T2` is not smaller than the one left
at `T1`.  Here `exp` is positive, monotone and turns sums into products, `pow(., 1.5)` is
positive and monotone on positive bases, the constants are positive, the weights are at
least 1 and every ion owns a level. -/
theorem C26_saha_monotone (pc : physical_constants K) (ext : Externals K)
    (a : nlte_atom K) (T1 T2 ne time : K)
    (hexp : ∀ x, 0 < ext.exp x) (hmono : ∀ x y, x ≤ y → ext.exp x ≤ ext.exp y)
    (hadd : ∀ x y, ext.exp (x + y) = ext.exp x * ext.exp y)
    (hpow : ∀ x, 0 < x → 0 < ext.pow x 1.5)
    (hpmono : ∀ x y, 0 < x → x ≤ y → ext.pow x 1.5 ≤ ext.pow y 1.5)
    (hpi : 0 < pc.pi) (hh : 0 < pc.h) (hme : 0 < pc.m_e) (hk : 0 < pc.k)
    (hkev : 0 < pc.k_ev) (hT1 : 0 < T1) (hT : T1 ≤ T2) (hne : 1e-50 ≤ ne)
    (hg : ∀ i, i < a.n_levels → 1 ≤ (a.levels i).g)
    (hown : ∀ k, k < a.n_ions → ∃ i, i < a.n_levels ∧ (a.levels i).ion = k)
    (hE : ∀ i, i < a.n_levels →
      0 ≤ (a.levels i).E ∧ (a.levels i).E ≤ (a.ions (a.levels i).ion).chi)
    (i : Nat) (hi1 : 1 ≤ i) (hi : i < a.n_ions) :
    ((solve_lte pc ext a T1 ne time).ions i).frac /
        ((solve_lte pc ext a T1 ne time).ions (i - 1)).frac ≤
      ((solve_lte pc ext a T2 ne time).ions i).frac /
        ((solve_lte pc ext a T2 ne time).ions (i - 1)).frac := by
  have hT2 : 0 < T2 := lt_of_lt_of_le hT1 hT
  have hne0 : (0 : K) < ne := lt_of_lt_of_le (by norm_num) hne
  have f1 := (solve_lte_spec pc ext a T1 ne time).2.2.1
  have f2 := (solve_lte_spec pc ext a T2 ne time).2.2.1
  rw [f1 i hi, f1 (i - 1) (by omega), f2 i hi, f2 (i - 1) (by omega)]
  show lte_frac pc ext a T1 ne i / lte_frac pc ext a T1 ne (i - 1) ≤
    lte_frac pc ext a T2 ne i / lte_frac pc ext a T2 ne (i - 1)
  rw [(lte_frac_ratio pc ext a T1 ne hexp hpow hpi hh hme hk hT1 hne hg hown i hi1 hi).1,
    (lte_frac_ratio pc ext a T2 ne hexp hpow hpi hh hme hk hT2 hne hg hown i hi1 hi).1]
  unfold saha_ratio lte_part ion_chi
  rw [if_pos hi, if_pos (show i - 1 < a.n_ions by omega)]
  simp only [zero_add]
  have hP1 := partition_fn_pos pc ext a T1 hexp hg (i - 1) (hown (i - 1) (by omega))
  have hP2 := partition_fn_pos pc ext a T2 hexp hg (i - 1) (hown (i - 1) (by omega))
  have hQ1 := partition_fn_pos pc ext a T1 hexp hg i (hown i hi)
  have hQ := partition_fn_mono pc ext a T1 T2 hmono hkev hT1 hT hg i
    (fun l hl _ => (hE l hl).1)
  have hX := saha_exp_over_partition_mono pc ext a T1 T2 (a.ions (i - 1)).chi hmono hadd
    hkev hT1 hT hg (i - 1) (fun l hl hion => by
      have := (hE l hl).2
      rw [hion] at this
      exact this)
  have hF1 := saha_fac_pos pc ext T1 ne hT1 hne0 hpow hpi hh hme hk
  have hF := saha_fac_mono pc ext T1 T2 ne hpow hpmono hpi hh hme hk hT1 hT hne0
  generalize partition_fn pc ext a T1 (i - 1) = P1 at hP1 hX ⊢
  generalize partition_fn pc ext a T2 (i - 1) = P2 at hP2 hX ⊢
  generalize partition_fn pc ext a T1 i = Q1 at hQ1 hQ ⊢
  generalize partition_fn pc ext a T2 i = Q2 at hQ ⊢
  generalize saha_fac pc ext T1 ne = F1 at hF1 hF ⊢
  generalize saha_fac pc ext T2 ne = F2 at hF ⊢
  have he1 := hexp (-1.0 * (a.ions (i - 1)).chi / pc.k_ev / T1)
  have he2 := hexp (-1.0 * (a.ions (i - 1)).chi / pc.k_ev / T2)
  generalize ext.exp (-1.0 * (a.ions (i - 1)).chi / pc.k_ev / T1) = e1 at he1 hX ⊢
  generalize ext.exp (-1.0 * (a.ions (i - 1)).chi / pc.k_ev / T2) = e2 at he2 hX ⊢
  have hq : e1 / P1 ≤ e2 / P2 := by
    rw [div_le_div_iff₀ hP1 hP2]
    exact hX
  have r1 : e1 * (Q1 / P1) * F1 = e1 / P1 * Q1 * F1 := by ring
  have r2 : e2 * (Q2 / P2) * F2 = e2 / P2 * Q2 * F2 := by ring
  rw [r1, r2]
  have hq0 : 0 ≤ e1 / P1 := (div_pos he1 hP1).le
  have hq2 : 0 ≤ e2 / P2 := le_trans hq0 hq
  exact mul_le_mul (mul_le_mul hq hQ hQ1.le hq2) hF hF1.le
    (mul_nonneg hq2 (le_trans hQ1.le hQ))

end SahaMonotone

/-! ## Bound-free and bound-bound opacities -/

section Opacities

variable {K : Type} [LinearOrderedField K]

/-- Two loops whose bodies agree below the bound produce the same state. -/
theorem forLoop_congr {σ : Type} (f g : Nat → σ → σ) (s0 : σ) (n : Nat)
    (h : ∀ i s, i < n → f i s = g i s) : forLoop n f s0 = forLoop n g s0 := by
  induction n with
  | zero => rfl
  | succ m ih =>
    show f m (forLoop m f s0) = g m (forLoop m g s0)
    rw [ih (fun i s hi => h i s (Nat.lt_succ_of_lt hi)), h m _ (Nat.lt_succ_self m)]

/-- An iteration that leaves every state alone can be taken out of a loop. -/
theorem forLoop_skip {σ : Type} (f : Nat → σ → σ) (s0 : σ) (k n : Nat) (hk : k < n)
    (hskip : ∀ s, f k s = s) :
    forLoop n f s0 = forLoop (n - 1) (fun i s => if i < k then f i s else f (i + 1) s) s0 := by
  induction n with
  | zero => exact (Nat.not_lt_zero k hk).elim
  | succ m ih =>
    show f m (forLoop m f s0) = forLoop m (fun i s => if i < k then f i s else f (i + 1) s) s0
    by_cases hkm : k = m
    · subst hkm
      rw [hskip]
      exact forLoop_congr _ _ _ _ (fun i s hi => by simp only [if_pos hi])
    · have hlt : k < m := by omega
      rw [ih hlt]
      obtain ⟨p, hp⟩ : ∃ p, m = p + 1 := ⟨m - 1, by omega⟩
      subst hp
      show f (p + 1) (forLoop p _ s0) =
        (fun i s => if i < k then f i s else f (i + 1) s) p (forLoop p _ s0)
      have hpk : ¬ p < k := by omega
      simp only [if_neg hpk]

/-- The first loop of the opacity routines zeroes the first `opac_size` entries. -/
theorem zero_arrays_spec (opac emis : Nat → K) (n : Nat) :
    (∀ i, (zero_arrays opac emis n).1 i = if i < n then 0 else opac i) ∧
    (∀ i, (zero_arrays opac emis n).2 i = if i < n then 0 else emis i) := by
  unfold zero_arrays
  refine forLoop_inv (fun m (r : (Nat → K) × (Nat → K)) =>
    (∀ i, r.1 i = if i < m then 0 else opac i) ∧
    (∀ i, r.2 i = if i < m then 0 else emis i)) _ _ n ⟨fun i => by simp, fun i => by simp⟩ ?_
  intro k r _ hP
  obtain ⟨h1, h2⟩ := hP
  constructor
  · intro i
    show Function.update r.1 k 0 i = _
    by_cases hik : i = k
    · subst hik
      simp
    · rw [Function.update_noteq hik, h1 i]
      simp only [lt_succ_split i k hik]
  · intro i
    show Function.update r.2 k 0 i = _
    by_cases hik : i = k
    · subst hik
      simp
    · rw [Function.update_noteq hik, h2 i]
      simp only [lt_succ_split i k hik]

/-- The array `nc_phifac` on the levels of the species. -/
theorem nc_phifac_spec (pc : physical_constants K) (oext : OpacityExternals K)
    (a : nlte_atom K) (m : opacity_members K) (j : Nat) (hj : j < a.n_levels) :
    nc_phifac pc oext a m j =
      if (a.levels j).ic = -1 then 0
      else a.n_dens * (a.levels (a.levels j).ic.toNat).n *
        ((1.0 * ((a.levels j).g : K)) / (1.0 * ((a.levels (a.levels j).ic.toNat).g : K))) / 2 *
        lam_t pc oext m * lam_t pc oext m * lam_t pc oext m := by
  unfold nc_phifac
  have key := forLoop_inv (fun n (v : Nat → K) => ∀ j, v j =
      if j < n then
        (if (a.levels j).ic = -1 then 0
        else a.n_dens * (a.levels (a.levels j).ic.toNat).n *
          ((1.0 * ((a.levels j).g : K)) / (1.0 * ((a.levels (a.levels j).ic.toNat).g : K))) /
          2 * lam_t pc oext m * lam_t pc oext m * lam_t pc oext m)
      else 0)
    (fun j (v : Nat → K) =>
      let ic := (a.levels j).ic
      if ic = -1 then v
      else
        let nc := a.n_dens * (a.levels ic.toNat).n
        let gl_o_gc := (1.0 * ((a.levels j).g : K)) / (1.0 * ((a.levels ic.toNat).g : K))
        Function.update v j (nc * gl_o_gc / 2 * lam_t pc oext m * lam_t pc oext m *
          lam_t pc oext m)) (fun _ => 0) a.n_levels (fun j => by simp) ?_
  · rw [key j, if_pos hj]
  · intro k v _ hP j
    by_cases hic : (a.levels k).ic = -1
    · simp only [hic, if_true]
      rw [hP j]
      by_cases hjk : j = k
      · subst hjk
        simp [hic]
      · simp only [lt_succ_split j k hjk]
    · simp only [if_neg hic]
      by_cases hjk : j = k
      · subst hjk
        simp [hic]
      · rw [Function.update_noteq hjk, hP j]
        simp only [lt_succ_split j k hjk]

/-- A loop that adds `c j` to entry `i` of the first array and `d j` to entry `i` of the
second, except in the iterations where `skip j` holds. -/
theorem accum_loop (i : Nat) (skip : Nat → Prop) [DecidablePred skip] (c d : Nat → K)
    (r0 : (Nat → K) × (Nat → K)) (n : Nat) :
    forLoop n (fun j (r : (Nat → K) × (Nat → K)) =>
      if skip j then r
      else (Function.update r.1 i (r.1 i + c j), Function.update r.2 i (r.2 i + d j))) r0 =
    (Function.update r0.1 i (r0.1 i + ∑ j in Finset.range n, if skip j then 0 else c j),
     Function.update r0.2 i (r0.2 i + ∑ j in Finset.range n, if skip j then 0 else d j)) := by
  induction n with
  | zero => simp [forLoop]
  | succ p ih =>
    show (fun j (r : (Nat → K) × (Nat → K)) =>
      if skip j then r
      else (Function.update r.1 i (r.1 i + c j), Function.update r.2 i (r.2 i + d j))) p
      (forLoop p _ r0) = _
    rw [ih]
    by_cases hs : skip p
    · simp [hs, Finset.sum_range_succ]
    · simp [hs, Finset.sum_range_succ, add_assoc]

/-- Closed form of `bound_free_opacity` on the bins of the frequency grid: the extinction
is the sum of the level terms, the emissivity is what the zeroing loop left plus the sum of
the level terms, and only levels above threshold with an ionization target have a term. -/
theorem bound_free_opacity_spec (pc : physical_constants K) (ext : Externals K)
    (oext : OpacityExternals K) (a : nlte_atom K) (m : opacity_members K)
    (opac emis : Nat → K) (opac_size : Nat) (ne : K) (i : Nat) (hi : i < m.nu_grid.n) :
    (bound_free_opacity pc ext oext a m opac emis opac_size ne).1 i =
      ∑ j in Finset.range a.n_levels,
        (if pc.h * m.nu_grid.x i * pc.ergs_to_ev < (a.levels j).E_ion ∨ (a.levels j).ic = -1
         then 0
         else oext.value_at_with_zero_edges (a.levels j).s_photo
             (pc.h * m.nu_grid.x i * pc.ergs_to_ev) *
           (a.n_dens * (a.levels j).n - nc_phifac pc oext a m j * ne *
             ext.exp (((a.levels j).E_ion - pc.h * m.nu_grid.x i * pc.ergs_to_ev) /
               (pc.k_ev * m.gas_temp_)))) ∧
    (bound_free_opacity pc ext oext a m opac emis opac_size ne).2 i =
      (if i < opac_size then 0 else emis i) +
      ∑ j in Finset.range a.n_levels,
        (if pc.h * m.nu_grid.x i * pc.ergs_to_ev < (a.levels j).E_ion ∨ (a.levels j).ic = -1
         then 0
         else 2 * pc.h * m.nu_grid.x i * m.nu_grid.x i * m.nu_grid.x i / pc.c / pc.c *
           oext.value_at_with_zero_edges (a.levels j).s_photo
             (pc.h * m.nu_grid.x i * pc.ergs_to_ev) *
           nc_phifac pc oext a m j *
           ext.exp (((a.levels j).E_ion - pc.h * m.nu_grid.x i * pc.ergs_to_ev) /
             (pc.k_ev * m.gas_temp_))) := by
  have hz := zero_arrays_spec opac emis opac_size
  -- the body of the bin loop in closed form
  have hbody : ∀ (i : Nat) (r : (Nat → K) × (Nat → K)),
      forLoop a.n_levels (fun j (r : (Nat → K) × (Nat → K)) =>
        if pc.h * m.nu_grid.x i * pc.ergs_to_ev < (a.levels j).E_ion then r
        else
          let ic := (a.levels j).ic
          if ic = -1 then r
          else
            let zeta_net := ((a.levels j).E_ion - pc.h * m.nu_grid.x i * pc.ergs_to_ev) /
              (pc.k_ev * m.gas_temp_)
            let ezeta_net := ext.exp zeta_net
            let sigma := oext.value_at_with_zero_edges (a.levels j).s_photo
              (pc.h * m.nu_grid.x i * pc.ergs_to_ev)
            (Function.update r.1 i
              (r.1 i + sigma * (a.n_dens * (a.levels j).n -
                nc_phifac pc oext a m j * ne * ezeta_net)),
             Function.update r.2 i
              (r.2 i + 2 * pc.h * m.nu_grid.x i * m.nu_grid.x i * m.nu_grid.x i / pc.c / pc.c *
                sigma * nc_phifac pc oext a m j * ezeta_net)))
        (Function.update r.1 i 0, r.2) =
      (Function.update r.1 i (∑ j in Finset.range a.n_levels,
        (if pc.h * m.nu_grid.x i * pc.ergs_to_ev < (a.levels j).E_ion ∨ (a.levels j).ic = -1
         then 0
         else oext.value_at_with_zero_edges (a.levels j).s_photo
             (pc.h * m.nu_grid.x i * pc.ergs_to_ev) *
           (a.n_dens * (a.levels j).n - nc_phifac pc oext a m j * ne *
             ext.exp (((a.levels j).E_ion - pc.h * m.nu_grid.x i * pc.ergs_to_ev) /
               (pc.k_ev * m.gas_temp_))))),
       Function.update r.2 i (r.2 i + ∑ j in Finset.range a.n_levels,
        (if pc.h * m.nu_grid.x i * pc.ergs_to_ev < (a.levels j).E_ion ∨ (a.levels j).ic = -1
         then 0
         else 2 * pc.h * m.nu_grid.x i * m.nu_grid.x i * m.nu_grid.x i / pc.c / pc.c *
           oext.value_at_with_zero_edges (a.levels j).s_photo
             (pc.h * m.nu_grid.x i * pc.ergs_to_ev) *
           nc_phifac pc oext a m j *
           ext.exp (((a.levels j).E_ion - pc.h * m.nu_grid.x i * pc.ergs_to_ev) /
             (pc.k_ev * m.gas_temp_))))) := by
    intro i r
    have e := accum_loop i
      (fun j => pc.h * m.nu_grid.x i * pc.ergs_to_ev < (a.levels j).E_ion ∨
        (a.levels j).ic = -1)
      (fun j => oext.value_at_with_zero_edges (a.levels j).s_photo
             (pc.h * m.nu_grid.x i * pc.ergs_to_ev) *
           (a.n_dens * (a.levels j).n - nc_phifac pc oext a m j * ne *
             ext.exp (((a.levels j).E_ion - pc.h * m.nu_grid.x i * pc.ergs_to_ev) /
               (pc.k_ev * m.gas_temp_))))
      (fun j => 2 * pc.h * m.nu_grid.x i * m.nu_grid.x i * m.nu_grid.x i / pc.c / pc.c *
           oext.value_at_with_zero_edges (a.levels j).s_photo
             (pc.h * m.nu_grid.x i * pc.ergs_to_ev) *
           nc_phifac pc oext a m j *
           ext.exp (((a.levels j).E_ion - pc.h * m.nu_grid.x i * pc.ergs_to_ev) /
             (pc.k_ev * m.gas_temp_)))
      (Function.update r.1 i 0, r.2) a.n_levels
    have e2 : forLoop a.n_levels (fun j (r : (Nat → K) × (Nat → K)) =>
        if pc.h * m.nu_grid.x i * pc.ergs_to_ev < (a.levels j).E_ion then r
        else
          let ic := (a.levels j).ic
          if ic = -1 then r
          else
            let zeta_net := ((a.levels j).E_ion - pc.h * m.nu_grid.x i * pc.ergs_to_ev) /
              (pc.k_ev * m.gas_temp_)
            let ezeta_net := ext.exp zeta_net
            let sigma := oext.value_at_with_zero_edges (a.levels j).s_photo
              (pc.h * m.nu_grid.x i * pc.ergs_to_ev)
            (Function.update r.1 i
              (r.1 i + sigma * (a.n_dens * (a.levels j).n -
                nc_phifac pc oext a m j * ne * ezeta_net)),
             Function.update r.2 i
              (r.2 i + 2 * pc.h * m.nu_grid.x i * m.nu_grid.x i * m.nu_grid.x i / pc.c / pc.c *
                sigma * nc_phifac pc oext a m j * ezeta_net)))
        (Function.update r.1 i 0, r.2) =
        forLoop a.n_levels (fun j (r : (Nat → K) × (Nat → K)) =>
          if (pc.h * m.nu_grid.x i * pc.ergs_to_ev < (a.levels j).E_ion ∨
            (a.levels j).ic = -1) then r
          else (Function.update r.1 i (r.1 i +
              oext.value_at_with_zero_edges (a.levels j).s_photo
                (pc.h * m.nu_grid.x i * pc.ergs_to_ev) *
              (a.n_dens * (a.levels j).n - nc_phifac pc oext a m j * ne *
                ext.exp (((a.levels j).E_ion - pc.h * m.nu_grid.x i * pc.ergs_to_ev) /
                  (pc.k_ev * m.gas_temp_)))),
            Function.update r.2 i (r.2 i +
              2 * pc.h * m.nu_grid.x i * m.nu_grid.x i * m.nu_grid.x i / pc.c / pc.c *
              oext.value_at_with_zero_edges (a.levels j).s_photo
                (pc.h * m.nu_grid.x i * pc.ergs_to_ev) *
              nc_phifac pc oext a m j *
              ext.exp (((a.levels j).E_ion - pc.h * m.nu_grid.x i * pc.ergs_to_ev) /
                (pc.k_ev * m.gas_temp_)))))
          (Function.update r.1 i 0, r.2) := by
      refine forLoop_congr _ _ _ _ (fun j s _ => ?_)
      by_cases h1 : pc.h * m.nu_grid.x i * pc.ergs_to_ev < (a.levels j).E_ion
      · simp only [h1, if_true, true_or]
      · by_cases h2 : (a.levels j).ic = -1
        · simp only [h1, h2, if_true, if_false, or_true]
        · simp only [h1, h2, if_false, or_false]
    rw [e2, e]
    simp
  -- the bin loop
  have key := forLoop_inv (fun n (r : (Nat → K) × (Nat → K)) =>
      (∀ i, r.1 i = if i < n then
        ∑ j in Finset.range a.n_levels,
        (if pc.h * m.nu_grid.x i * pc.ergs_to_ev < (a.levels j).E_ion ∨ (a.levels j).ic = -1
         then 0
         else oext.value_at_with_zero_edges (a.levels j).s_photo
             (pc.h * m.nu_grid.x i * pc.ergs_to_ev) *
           (a.n_dens * (a.levels j).n - nc_phifac pc oext a m j * ne *
             ext.exp (((a.levels j).E_ion - pc.h * m.nu_grid.x i * pc.ergs_to_ev) /
               (pc.k_ev * m.gas_temp_))))
        else (zero_arrays opac emis opac_size).1 i) ∧
      (∀ i, r.2 i = if i < n then
        (zero_arrays opac emis opac_size).2 i + ∑ j in Finset.range a.n_levels,
        (if pc.h * m.nu_grid.x i * pc.ergs_to_ev < (a.levels j).E_ion ∨ (a.levels j).ic = -1
         then 0
         else 2 * pc.h * m.nu_grid.x i * m.nu_grid.x i * m.nu_grid.x i / pc.c / pc.c *
           oext.value_at_with_zero_edges (a.levels j).s_photo
             (pc.h * m.nu_grid.x i * pc.ergs_to_ev) *
           nc_phifac pc oext a m j *
           ext.exp (((a.levels j).E_ion - pc.h * m.nu_grid.x i * pc.ergs_to_ev) /
             (pc.k_ev * m.gas_temp_)))
        else (zero_arrays opac emis opac_size).2 i))
    (fun i (r : (Nat → K) × (Nat → K)) =>
      forLoop a.n_levels (fun j (r : (Nat → K) × (Nat → K)) =>
        if pc.h * m.nu_grid.x i * pc.ergs_to_ev < (a.levels j).E_ion then r
        else
          let ic := (a.levels j).ic
          if ic = -1 then r
          else
            let zeta_net := ((a.levels j).E_ion - pc.h * m.nu_grid.x i * pc.ergs_to_ev) /
              (pc.k_ev * m.gas_temp_)
            let ezeta_net := ext.exp zeta_net
            let sigma := oext.value_at_with_zero_edges (a.levels j).s_photo
              (pc.h * m.nu_grid.x i * pc.ergs_to_ev)
            (Function.update r.1 i
              (r.1 i + sigma * (a.n_dens * (a.levels j).n -
                nc_phifac pc oext a m j * ne * ezeta_net)),
             Function.update r.2 i
              (r.2 i + 2 * pc.h * m.nu_grid.x i * m.nu_grid.x i * m.nu_grid.x i / pc.c / pc.c *
                sigma * nc_phifac pc oext a m j * ezeta_net)))
        (Function.update r.1 i 0, r.2))
    (zero_arrays opac emis opac_size) m.nu_grid.n
    ⟨fun i => by simp, fun i => by simp⟩ ?_
  · have k1 := key.1 i
    have k2 := key.2 i
    rw [if_pos hi] at k1 k2
    rw [hz.2 i] at k2
    exact ⟨k1, k2⟩
  · intro k r _ hP
    obtain ⟨h1, h2⟩ := hP
    beta_reduce
    rw [hbody k r]
    constructor
    · intro i
      show Function.update r.1 k _ i = _
      by_cases hik : i = k
      · subst hik
        simp
      · rw [Function.update_noteq hik, h1 i]
        simp only [lt_succ_split i k hik]
    · intro i
      show Function.update r.2 k _ i = _
      by_cases hik : i = k
      · subst hik
        rw [Function.update_same, h2 i]
        simp
      · rw [Function.update_noteq hik, h2 i]
        simp only [lt_succ_split i k hik]

/-- Claim C24 (as the code has it): after `bound_free_opacity`, for every bin `i` of the
frequency grid, with
`E = h * nu_i` in eV, `opac[i]` is the sum over exactly the levels `j` with an ionization
target (`ic != -1`) whose threshold is reached (`E >= E_ion_j`) of
`sigma_j(E) * (n_dens * n_j - n_dens * n_ic * (g_j / g_ic) * (lam_t^3 / 2) * n_e *
exp((E_ion_j - E) / kT))`, and `emis[i]` is what the zeroing loop left plus the sum over the
same levels of `2 h nu^3 / c^2 * sigma_j(E) * nc_phifac[j] * exp((E_ion_j - E) / kT)`; every
other level contributes nothing to either. -/
theorem C24_bound_free_opacity (pc : physical_constants K) (ext : Externals K)
    (oext : OpacityExternals K) (a : nlte_atom K) (m : opacity_members K)
    (opac emis : Nat → K) (opac_size : Nat) (ne : K) (i : Nat) (hi : i < m.nu_grid.size) :
    (bound_free_opacity pc ext oext a m opac emis opac_size ne).1 i =
      ∑ j in Finset.range a.n_levels,
        (if (a.levels j).ic ≠ -1 ∧ (a.levels j).E_ion ≤ pc.h * m.nu_grid.x i * pc.ergs_to_ev
         then bound_free_term pc ext oext a m ne (pc.h * m.nu_grid.x i * pc.ergs_to_ev) j
         else 0) ∧
    (bound_free_opacity pc ext oext a m opac emis opac_size ne).2 i =
      (if i < opac_size then 0 else emis i) +
      ∑ j in Finset.range a.n_levels,
        (if (a.levels j).ic ≠ -1 ∧ (a.levels j).E_ion ≤ pc.h * m.nu_grid.x i * pc.ergs_to_ev
         then 2 * pc.h * m.nu_grid.x i * m.nu_grid.x i * m.nu_grid.x i / pc.c / pc.c *
           oext.value_at_with_zero_edges (a.levels j).s_photo
             (pc.h * m.nu_grid.x i * pc.ergs_to_ev) *
           (a.n_dens * (a.levels (a.levels j).ic.toNat).n *
             (((a.levels j).g : K) / ((a.levels (a.levels j).ic.toNat).g : K)) *
             (lam_t pc oext m ^ 3 / 2)) *
           ext.exp (((a.levels j).E_ion - pc.h * m.nu_grid.x i * pc.ergs_to_ev) /
             (pc.k_ev * m.gas_temp_))
         else 0) := by
  have h := bound_free_opacity_spec pc ext oext a m opac emis opac_size ne i hi
  have e1 : (1.0 : K) = 1 := by norm_num
  constructor
  · rw [h.1]
    refine Finset.sum_congr rfl (fun j hj => ?_)
    have hj2 : j < a.n_levels := Finset.mem_range.mp hj
    by_cases h1 : pc.h * m.nu_grid.x i * pc.ergs_to_ev < (a.levels j).E_ion
    · rw [if_pos (Or.inl h1), if_neg (fun c => absurd c.2 (not_le.mpr h1))]
    · by_cases h2 : (a.levels j).ic = -1
      · rw [if_pos (Or.inr h2), if_neg (fun c => c.1 h2)]
      · rw [if_neg (fun c => c.elim h1 h2), if_pos ⟨h2, not_lt.mp h1⟩,
          nc_phifac_spec pc oext a m j hj2, if_neg h2]
        unfold bound_free_term
        rw [e1]
        ring
  · rw [h.2]
    congr 1
    refine Finset.sum_congr rfl (fun j hj => ?_)
    have hj2 : j < a.n_levels := Finset.mem_range.mp hj
    by_cases h1 : pc.h * m.nu_grid.x i * pc.ergs_to_ev < (a.levels j).E_ion
    · rw [if_pos (Or.inl h1), if_neg (fun c => absurd c.2 (not_le.mpr h1))]
    · by_cases h2 : (a.levels j).ic = -1
      · rw [if_pos (Or.inr h2), if_neg (fun c => c.1 h2)]
      · rw [if_neg (fun c => c.elim h1 h2), if_pos ⟨h2, not_lt.mp h1⟩,
          nc_phifac_spec pc oext a m j hj2, if_neg h2]
        rw [e1]
        ring

/-- A line record that meets one of the three skip tests leaves the arrays alone. -/
theorem line_opacity_skipped (pc : physical_constants K) (oext : OpacityExternals K)
    (a : nlte_atom K) (m : opacity_members K) (l : nlte_line K)
    (r : (Nat → K) × (Nat → K)) (h : line_skipped pc a m l) :
    line_opacity pc oext a m l r = r := by
  unfold line_opacity
  by_cases h0 : (a.levels l.ll).n = 0
  · simp only [h0, if_true]
  · simp only [if_neg h0]
    by_cases h1 : alpha_0 pc a l ≤ 0
    · simp only [if_pos h1]
    · simp only [if_neg h1]
      rcases h with h | h | h
      · exact absurd h h0
      · exact absurd h h1
      · simp only [if_pos h]

/-- With positive populations of the lower level, positive density, weights, `A_ul`, `pi`
and `c`, the corrected `alpha_0` is non-positive exactly when
`n_up * g_low >= n_low * g_up`. -/
theorem alpha_0_nonpos_iff (pc : physical_constants K) (a : nlte_atom K) (l : nlte_line K)
    (hn : 0 < (a.levels l.ll).n) (hd : 0 < a.n_dens) (hgl : 0 < (a.levels l.ll).g)
    (hgu : 0 < (a.levels l.lu).g) (hA : 0 < l.A_ul) (hpi : 0 < pc.pi) (hc : 0 < pc.c) :
    alpha_0 pc a l ≤ 0 ↔
      (a.levels l.ll).n * ((a.levels l.lu).g : K) ≤
        (a.levels l.lu).n * ((a.levels l.ll).g : K) := by
  unfold alpha_0
  have hgl2 : (0 : K) < ((a.levels l.ll).g : K) := by exact_mod_cast hgl
  have hgu2 : (0 : K) < ((a.levels l.lu).g : K) := by exact_mod_cast hgu
  have hP : 0 < (a.levels l.ll).n * a.n_dens * ((a.levels l.lu).g : K) /
      ((a.levels l.ll).g : K) * l.A_ul / (8 * pc.pi) * pc.c * pc.c := by positivity
  have hden : 0 < (a.levels l.ll).n * ((a.levels l.lu).g : K) := mul_pos hn hgu2
  show (a.levels l.ll).n * a.n_dens * ((a.levels l.lu).g : K) /
      ((a.levels l.ll).g : K) * l.A_ul / (8 * pc.pi) * pc.c * pc.c *
      (1 - (a.levels l.lu).n * ((a.levels l.ll).g : K) /
        ((a.levels l.ll).n * ((a.levels l.lu).g : K))) ≤ 0 ↔ _
  generalize (a.levels l.ll).n * a.n_dens * ((a.levels l.lu).g : K) /
      ((a.levels l.ll).g : K) * l.A_ul / (8 * pc.pi) * pc.c * pc.c = P at hP
  constructor
  · intro h
    have h2 : 1 - (a.levels l.lu).n * ((a.levels l.ll).g : K) /
        ((a.levels l.ll).n * ((a.levels l.lu).g : K)) ≤ 0 := by
      by_contra hc2
      exact absurd h (not_le.mpr (mul_pos hP (not_le.mp hc2)))
    have h3 : 1 ≤ (a.levels l.lu).n * ((a.levels l.ll).g : K) /
        ((a.levels l.ll).n * ((a.levels l.lu).g : K)) := by linarith
    rwa [le_div_iff₀ hden, one_mul] at h3
  · intro h
    have h3 : 1 ≤ (a.levels l.lu).n * ((a.levels l.ll).g : K) /
        ((a.levels l.ll).n * ((a.levels l.lu).g : K)) := by
      rw [le_div_iff₀ hden, one_mul]
      exact h
    exact mul_nonpos_of_nonneg_of_nonpos hP.le (by linarith)

/-- C25: in `bound_bound_opacity`, a line whose lower level is empty, whose corrected
`alpha_0` is non-positive, or whose line-centre extinction `alpha_0 / (nu_0^2 * dnu)` is
below `minimum_extinction_` adds nothing: both output arrays equal the ones computed with
that line removed from the line list.  With positive populations, density, weights and
`A_ul`, the corrected `alpha_0` is non-positive exactly when
`n_up * g_low >= n_low * g_up`. -/
theorem C25_skipped_line (pc : physical_constants K) (oext : OpacityExternals K)
    (a : nlte_atom K) (m : opacity_members K) (opac emis : Nat → K) (opac_size : Nat)
    (k : Nat) (hk : k < a.n_lines)
    (hskip : (a.levels (a.lines k).ll).n = 0 ∨ alpha_0 pc a (a.lines k) ≤ 0 ∨
      alpha_0 pc a (a.lines k) /
        ((a.lines k).nu * (a.lines k).nu * (m.line_beta_dop_ * (a.lines k).nu)) <
        m.minimum_extinction_) :
    bound_bound_opacity pc oext a m opac emis opac_size =
      bound_bound_opacity pc oext (remove_line a k) m opac emis opac_size ∧
    (0 < (a.levels (a.lines k).ll).n → 0 < a.n_dens → 0 < (a.levels (a.lines k).ll).g →
      0 < (a.levels (a.lines k).lu).g → 0 < (a.lines k).A_ul → 0 < pc.pi → 0 < pc.c →
      (alpha_0 pc a (a.lines k) ≤ 0 ↔
        (a.levels (a.lines k).ll).n * ((a.levels (a.lines k).lu).g : K) ≤
          (a.levels (a.lines k).lu).n * ((a.levels (a.lines k).ll).g : K))) := by
  refine ⟨?_, fun hn hd hgl hgu hA hpi hc =>
    alpha_0_nonpos_iff pc a (a.lines k) hn hd hgl hgu hA hpi hc⟩
  unfold bound_bound_opacity
  show forLoop a.n_lines (fun i (r : (Nat → K) × (Nat → K)) =>
      line_opacity pc oext a m (a.lines i) r) (zero_arrays opac emis opac_size) =
    forLoop (a.n_lines - 1) (fun i (r : (Nat → K) × (Nat → K)) =>
      line_opacity pc oext (remove_line a k) m
        (if i < k then a.lines i else a.lines (i + 1)) r) (zero_arrays opac emis opac_size)
  rw [forLoop_skip (fun i (r : (Nat → K) × (Nat → K)) =>
      line_opacity pc oext a m (a.lines i) r) _ k a.n_lines hk
    (fun s => line_opacity_skipped pc oext a m (a.lines k) s hskip)]
  refine forLoop_congr _ _ _ _ (fun i s _ => ?_)
  by_cases hik : i < k
  · simp only [if_pos hik]
    rfl
  · simp only [if_neg hik]
    rfl

end Opacities

/-! ## Normalisation of the composition in the model readers -/

section ModelFiles

variable {K : Type} [LinearOrderedField K]

/-- The normalisation block divides the first `n_elems` entries by `norm` and keeps the
size of the vector. -/
theorem normalize_composition_spec (n : Nat) (A : Nat → Int) (norm : K) (zi : zone K) :
    (∀ k, (normalize_composition n A norm zi).X_gas k =
      if k < n then zi.X_gas k / norm else zi.X_gas k) ∧
    (normalize_composition n A norm zi).X_gas_size = zi.X_gas_size := by
  unfold normalize_composition
  refine forLoop_inv (fun m (z : zone K) =>
    (∀ k, z.X_gas k = if k < m then zi.X_gas k / norm else zi.X_gas k) ∧
    z.X_gas_size = zi.X_gas_size) _ _ n ⟨fun k => by simp, rfl⟩ ?_
  intro k z _ hP
  obtain ⟨h1, h2⟩ := hP
  refine ⟨fun j => ?_, h2⟩
  show Function.update z.X_gas k (z.X_gas k / norm) j = _
  by_cases hjk : j = k
  · subst hjk
    rw [Function.update_same, h1 j]
    simp
  · rw [Function.update_noteq hjk, h1 j]
    simp only [lt_succ_split j k hjk]

/-- The read loop of the mass-fraction block of `read_hdf5_file` for one zone: the counter
advances by `n`, `norm` is the sum of the values read, and entry `k` holds value `k`. -/
theorem hdf5_read_loop (ctmp : Nat → K) (cnt n : Nat) (zi : zone K) :
    (forLoop n (fun k (t : Nat × K × zone K) =>
      let zi := { t.2.2 with X_gas := Function.update t.2.2.X_gas k (ctmp t.1) }
      (t.1 + 1, t.2.1 + zi.X_gas k, zi)) (cnt, 0, zi)).1 = cnt + n ∧
    (forLoop n (fun k (t : Nat × K × zone K) =>
      let zi := { t.2.2 with X_gas := Function.update t.2.2.X_gas k (ctmp t.1) }
      (t.1 + 1, t.2.1 + zi.X_gas k, zi)) (cnt, 0, zi)).2.1 =
        ∑ k in Finset.range n, ctmp (cnt + k) ∧
    (∀ k, (forLoop n (fun k (t : Nat × K × zone K) =>
      let zi := { t.2.2 with X_gas := Function.update t.2.2.X_gas k (ctmp t.1) }
      (t.1 + 1, t.2.1 + zi.X_gas k, zi)) (cnt, 0, zi)).2.2.X_gas k =
        if k < n then ctmp (cnt + k) else zi.X_gas k) ∧
    (forLoop n (fun k (t : Nat × K × zone K) =>
      let zi := { t.2.2 with X_gas := Function.update t.2.2.X_gas k (ctmp t.1) }
      (t.1 + 1, t.2.1 + zi.X_gas k, zi)) (cnt, 0, zi)).2.2.X_gas_size = zi.X_gas_size := by
  refine forLoop_inv (fun m (t : Nat × K × zone K) =>
    t.1 = cnt + m ∧ t.2.1 = ∑ k in Finset.range m, ctmp (cnt + k) ∧
    (∀ k, t.2.2.X_gas k = if k < m then ctmp (cnt + k) else zi.X_gas k) ∧
    t.2.2.X_gas_size = zi.X_gas_size) _ _ n ⟨rfl, by simp, fun k => by simp, rfl⟩ ?_
  intro k t _ hP
  obtain ⟨h1, h2, h3, h4⟩ := hP
  refine ⟨?_, ?_, fun j => ?_, h4⟩
  · show t.1 + 1 = cnt + (k + 1)
    rw [h1, add_assoc]
  · show t.2.1 + Function.update t.2.2.X_gas k (ctmp t.1) k = _
    rw [Function.update_same, h2, h1, Finset.sum_range_succ]
  · show Function.update t.2.2.X_gas k (ctmp t.1) j = _
    by_cases hjk : j = k
    · subst hjk
      rw [Function.update_same, h1]
      simp
    · rw [Function.update_noteq hjk, h3 j]
      simp only [lt_succ_split j k hjk]

/-- One pass of the zone loop of the mass-fraction block of `read_hdf5_file`. -/
theorem hdf5_zone_spec (ctmp : Nat → K) (i : Nat) (r : Nat × grid_1D_sphere K) :
    (hdf5_zone ctmp i r).1 = r.1 + r.2.n_elems ∧
    (hdf5_zone ctmp i r).2.n_elems = r.2.n_elems ∧
    (∀ j, j ≠ i → (hdf5_zone ctmp i r).2.z j = r.2.z j) ∧
    ((hdf5_zone ctmp i r).2.z i).X_gas_size = r.2.n_elems ∧
    (∀ k, k < r.2.n_elems → ((hdf5_zone ctmp i r).2.z i).X_gas k =
      ctmp (r.1 + k) / ∑ k in Finset.range r.2.n_elems, ctmp (r.1 + k)) := by
  have hl := hdf5_read_loop ctmp r.1 r.2.n_elems (resize_X_gas (r.2.z i) r.2.n_elems)
  obtain ⟨l1, l2, l3, l4⟩ := hl
  unfold hdf5_zone
  refine ⟨l1, rfl, fun j hj => ?_, ?_, fun k hk => ?_⟩
  · show Function.update r.2.z i _ j = _
    rw [Function.update_noteq hj]
  · show (Function.update r.2.z i _ i).X_gas_size = _
    rw [Function.update_same, (normalize_composition_spec _ _ _ _).2, l4]
    rfl
  · show (Function.update r.2.z i _ i).X_gas k = _
    rw [Function.update_same, (normalize_composition_spec _ _ _ _).1 k, if_pos hk, l3 k,
      if_pos hk, l2]

/-- The mass-fraction block of `read_hdf5_file`: zone `i` holds values
`i * n_elems .. i * n_elems + n_elems - 1` of the dataset, each divided by their sum. -/
theorem read_hdf5_composition_spec (g : grid_1D_sphere K) (ctmp : Nat → K) (i : Nat)
    (hi : i < g.n_zones) :
    ((read_hdf5_composition g ctmp).z i).X_gas_size = g.n_elems ∧
    ∀ k, k < g.n_elems → ((read_hdf5_composition g ctmp).z i).X_gas k =
      ctmp (i * g.n_elems + k) / ∑ k in Finset.range g.n_elems, ctmp (i * g.n_elems + k) := by
  unfold read_hdf5_composition
  have key := forLoop_inv (fun m (r : Nat × grid_1D_sphere K) =>
    r.1 = m * g.n_elems ∧ r.2.n_elems = g.n_elems ∧
    ∀ i, i < m → (r.2.z i).X_gas_size = g.n_elems ∧
      ∀ k, k < g.n_elems → (r.2.z i).X_gas k =
        ctmp (i * g.n_elems + k) / ∑ k in Finset.range g.n_elems, ctmp (i * g.n_elems + k))
    (hdf5_zone ctmp) (0, g) g.n_zones
    ⟨by simp, rfl, fun i hi => (Nat.not_lt_zero i hi).elim⟩ ?_
  · exact key.2.2 i hi
  · intro m r _ hP
    obtain ⟨h1, h2, h3⟩ := hP
    obtain ⟨s1, s2, s3, s4, s5⟩ := hdf5_zone_spec ctmp m r
    refine ⟨?_, by rw [s2, h2], fun j hj => ?_⟩
    · rw [s1, h1, h2, Nat.succ_mul]
    · by_cases hjm : j = m
      · subst hjm
        rw [s4, h2]
        refine ⟨rfl, fun k hk => ?_⟩
        rw [s5 k (by rw [h2]; exact hk), h1, h2]
      · rw [s3 j hjm]
        exact h3 j (by omega)

/-- The read loop of `read_SNR_file` for one zone whose vector starts empty: the position
advances by `n`, `norm` is the sum of the numbers read, and they are appended to the
vector. -/
theorem SNR_read_loop (infile : Nat → K) (pos n : Nat) (zi : zone K)
    (h0 : zi.X_gas_size = 0) :
    (forLoop n (fun _ (t : Nat × K × zone K) =>
      let x := infile t.1
      (t.1 + 1, t.2.1 + x, push_back_X_gas t.2.2 x)) (pos, 0, zi)).1 = pos + n ∧
    (forLoop n (fun _ (t : Nat × K × zone K) =>
      let x := infile t.1
      (t.1 + 1, t.2.1 + x, push_back_X_gas t.2.2 x)) (pos, 0, zi)).2.1 =
        ∑ k in Finset.range n, infile (pos + k) ∧
    (∀ k, k < n → (forLoop n (fun _ (t : Nat × K × zone K) =>
      let x := infile t.1
      (t.1 + 1, t.2.1 + x, push_back_X_gas t.2.2 x)) (pos, 0, zi)).2.2.X_gas k =
        infile (pos + k)) ∧
    (forLoop n (fun _ (t : Nat × K × zone K) =>
      let x := infile t.1
      (t.1 + 1, t.2.1 + x, push_back_X_gas t.2.2 x)) (pos, 0, zi)).2.2.X_gas_size = n := by
  refine forLoop_inv (fun m (t : Nat × K × zone K) =>
    t.1 = pos + m ∧ t.2.1 = ∑ k in Finset.range m, infile (pos + k) ∧
    (∀ k, k < m → t.2.2.X_gas k = infile (pos + k)) ∧
    t.2.2.X_gas_size = m) _ _ n
    ⟨rfl, by simp, fun k hk => (Nat.not_lt_zero k hk).elim, h0⟩ ?_
  intro k t _ hP
  obtain ⟨h1, h2, h3, h4⟩ := hP
  refine ⟨?_, ?_, fun j hj => ?_, ?_⟩
  · show t.1 + 1 = pos + (k + 1)
    rw [h1, add_assoc]
  · show t.2.1 + infile t.1 = _
    rw [h2, h1, Finset.sum_range_succ]
  · show Function.update t.2.2.X_gas t.2.2.X_gas_size (infile t.1) j = _
    rw [h4]
    by_cases hjk : j = k
    · subst hjk
      rw [Function.update_same, h1]
    · rw [Function.update_noteq hjk, h3 j (by omega)]
  · show t.2.2.X_gas_size + 1 = _
    rw [h4]

/-- One pass of the zone loop of `read_SNR_file` on a zone whose composition vector is
empty; `stride` is the number of state variables read before the mass fractions. -/
theorem SNR_zone_spec (pc : physical_constants K) (ext : Externals K) (a_rad : K)
    (infile : Nat → K) (snr : Bool) (i : Nat) (r : Nat × grid_1D_sphere K)
    (hfresh : (r.2.z i).X_gas_size = 0) :
    (SNR_zone pc ext a_rad infile snr i r).1 =
      r.1 + (if snr then 3 else 4) + r.2.n_elems ∧
    (SNR_zone pc ext a_rad infile snr i r).2.n_elems = r.2.n_elems ∧
    (∀ j, j ≠ i → (SNR_zone pc ext a_rad infile snr i r).2.z j = r.2.z j) ∧
    ((SNR_zone pc ext a_rad infile snr i r).2.z i).X_gas_size = r.2.n_elems ∧
    (∀ k, k < r.2.n_elems → ((SNR_zone pc ext a_rad infile snr i r).2.z i).X_gas k =
      infile (r.1 + (if snr then 3 else 4) + k) /
        ∑ k in Finset.range r.2.n_elems, infile (r.1 + (if snr then 3 else 4) + k)) := by
  cases snr
  · -- standard layout: four state variables
    have hl := SNR_read_loop infile (r.1 + 4) r.2.n_elems
      { r.2.z i with v0 := infile (r.1 + 1), rho := infile (r.1 + 2),
                     T_gas := infile (r.1 + 3) } hfresh
    obtain ⟨l1, l2, l3, l4⟩ := hl
    unfold SNR_zone
    simp only [Bool.false_eq_true, if_false, set_zone, Function.update_same]
    refine ⟨l1, trivial, fun j hj => ?_, ?_, fun k hk => ?_⟩
    · simp only [Function.update_noteq hj]
    · rw [(normalize_composition_spec _ _ _ _).2]
      exact l4
    · rw [(normalize_composition_spec _ _ _ _).1 k, if_pos hk]
      exact congrArg₂ (fun a b => a / b) (l3 k hk) l2
  · -- snr layout: three state variables
    have hl := SNR_read_loop infile (r.1 + 3) r.2.n_elems
      { r.2.z i with v0 := infile r.1, rho := infile (r.1 + 1),
                     T_gas := infile (r.1 + 2) } hfresh
    obtain ⟨l1, l2, l3, l4⟩ := hl
    unfold SNR_zone
    simp only [if_true, set_zone, Function.update_same]
    refine ⟨l1, trivial, fun j hj => ?_, ?_, fun k hk => ?_⟩
    · simp only [Function.update_noteq hj]
    · rw [(normalize_composition_spec _ _ _ _).2]
      exact l4
    · rw [(normalize_composition_spec _ _ _ _).1 k, if_pos hk]
      exact congrArg₂ (fun a b => a / b) (l3 k hk) l2

/-- The zone loop of `read_SNR_file` on a grid whose composition vectors are empty: zone
`i` holds the mass fractions of its record, each divided by their sum. -/
theorem read_SNR_zones_spec (pc : physical_constants K) (ext : Externals K) (a_rad : K)
    (infile : Nat → K) (snr : Bool) (pos : Nat) (g : grid_1D_sphere K)
    (hfresh : ∀ i, i < g.n_zones → (g.z i).X_gas_size = 0) (i : Nat) (hi : i < g.n_zones) :
    (((read_SNR_zones pc ext a_rad infile snr pos g).2.z i).X_gas_size = g.n_elems) ∧
    ∀ k, k < g.n_elems → ((read_SNR_zones pc ext a_rad infile snr pos g).2.z i).X_gas k =
      infile (pos + i * ((if snr then 3 else 4) + g.n_elems) + (if snr then 3 else 4) + k) /
        ∑ k in Finset.range g.n_elems,
          infile (pos + i * ((if snr then 3 else 4) + g.n_elems) +
            (if snr then 3 else 4) + k) := by
  unfold read_SNR_zones
  have key := forLoop_inv (fun m (r : Nat × grid_1D_sphere K) =>
    r.1 = pos + m * ((if snr then 3 else 4) + g.n_elems) ∧ r.2.n_elems = g.n_elems ∧
    (∀ i, m ≤ i → i < g.n_zones → (r.2.z i).X_gas_size = 0) ∧
    ∀ i, i < m → (r.2.z i).X_gas_size = g.n_elems ∧
      ∀ k, k < g.n_elems → (r.2.z i).X_gas k =
        infile (pos + i * ((if snr then 3 else 4) + g.n_elems) + (if snr then 3 else 4) + k) /
          ∑ k in Finset.range g.n_elems,
            infile (pos + i * ((if snr then 3 else 4) + g.n_elems) +
              (if snr then 3 else 4) + k))
    (SNR_zone pc ext a_rad infile snr) (pos, g) g.n_zones
    ⟨by simp, rfl, fun i _ hi => hfresh i hi, fun i hi => (Nat.not_lt_zero i hi).elim⟩ ?_
  · exact key.2.2.2 i hi
  · intro m r hm hP
    obtain ⟨h1, h2, h3, h4⟩ := hP
    obtain ⟨s1, s2, s3, s4, s5⟩ := SNR_zone_spec pc ext a_rad infile snr m r
      (h3 m (le_refl m) hm)
    refine ⟨?_, by rw [s2, h2], fun j hj1 hj2 => ?_, fun j hj => ?_⟩
    · rw [s1, h1, h2, Nat.succ_mul]
      omega
    · rw [s3 j (by omega)]
      exact h3 j (by omega) hj2
    · by_cases hjm : j = m
      · subst hjm
        rw [s4, h2]
        refine ⟨rfl, fun k hk => ?_⟩
        rw [s5 k (by rw [h2]; exact hk), h1, h2]
      · rw [s3 j hjm]
        exact h4 j (by omega)

/-- Fractions `x k / S` of a non-zero sum `S` of `n` numbers add up to 1. -/
theorem fractions_sum_one (x y : Nat → K) (n : Nat)
    (hS : ∑ k in Finset.range n, x k ≠ 0)
    (hy : ∀ k, k < n → y k = x k / ∑ k in Finset.range n, x k) :
    ∑ k in Finset.range n, y k = 1 := by
  rw [Finset.sum_congr rfl (fun k hk => hy k (Finset.mem_range.mp hk)), ← Finset.sum_div,
    div_self hS]

/-- C27: after the mass-fraction block of `read_hdf5_file`, and after the zone loop of
`read_SNR_file` on a grid whose composition vectors start empty (as `read_model_file`
leaves them), for every zone whose input mass fractions have a non-zero sum each stored
`X_gas[k]` is the input value divided by the zone's input sum, and `X_gas` sums to 1. -/
theorem C27_composition_normalized (pc : physical_constants K) (ext : Externals K)
    (a_rad : K) (g : grid_1D_sphere K) (ctmp infile : Nat → K) (snr : Bool) (pos : Nat)
    (hfresh : ∀ i, i < g.n_zones → (g.z i).X_gas_size = 0) (i : Nat) (hi : i < g.n_zones) :
    (∑ k in Finset.range g.n_elems, ctmp (i * g.n_elems + k) ≠ 0 →
      ((read_hdf5_composition g ctmp).z i).X_gas_size = g.n_elems ∧
      (∀ k, k < g.n_elems → ((read_hdf5_composition g ctmp).z i).X_gas k =
        ctmp (i * g.n_elems + k) /
          ∑ k in Finset.range g.n_elems, ctmp (i * g.n_elems + k)) ∧
      ∑ k in Finset.range g.n_elems, ((read_hdf5_composition g ctmp).z i).X_gas k = 1) ∧
    (∑ k in Finset.range g.n_elems,
        infile (pos + i * ((if snr then 3 else 4) + g.n_elems) +
          (if snr then 3 else 4) + k) ≠ 0 →
      ((read_SNR_zones pc ext a_rad infile snr pos g).2.z i).X_gas_size = g.n_elems ∧
      (∀ k, k < g.n_elems → ((read_SNR_zones pc ext a_rad infile snr pos g).2.z i).X_gas k =
        infile (pos + i * ((if snr then 3 else 4) + g.n_elems) +
            (if snr then 3 else 4) + k) /
          ∑ k in Finset.range g.n_elems,
            infile (pos + i * ((if snr then 3 else 4) + g.n_elems) +
              (if snr then 3 else 4) + k)) ∧
      ∑ k in Finset.range g.n_elems,
        ((read_SNR_zones pc ext a_rad infile snr pos g).2.z i).X_gas k = 1) := by
  have h1 := read_hdf5_composition_spec g ctmp i hi
  have h2 := read_SNR_zones_spec pc ext a_rad infile snr pos g hfresh i hi
  exact ⟨fun hS => ⟨h1.1, h1.2, fractions_sum_one _ _ _ hS h1.2⟩,
    fun hS => ⟨h2.1, h2.2, fractions_sum_one _ _ _ hS h2.2⟩⟩

end ModelFiles

/-! ## No state is carried over between calls of `solve_nlte` -/

section CarryOver

variable {K : Type} [LinearOrderedField K]

theorem nlte_ion_ext (x y : nlte_ion K) (h1 : x.stage = y.stage) (h2 : x.ground = y.ground)
    (h3 : x.chi = y.chi) (h4 : x.part = y.part) (h5 : x.frac = y.frac) : x = y := by
  cases x
  cases y
  simp only [nlte_ion.mk.injEq]
  exact ⟨h1, h2, h3, h4, h5⟩

theorem nlte_level_ext (x y : nlte_level K) (h1 : x.id = y.id) (h2 : x.ion = y.ion)
    (h3 : x.g = y.g) (h4 : x.E = y.E) (h5 : x.E_ion = y.E_ion) (h6 : x.ic = y.ic)
    (h7 : x.n = y.n) (h8 : x.n_lte = y.n_lte) (h9 : x.b = y.b)
    (h10 : x.s_photo = y.s_photo) (h11 : x.a_rec = y.a_rec) : x = y := by
  cases x
  cases y
  simp only [nlte_level.mk.injEq]
  exact ⟨h1, h2, h3, h4, h5, h6, h7, h8, h9, h10, h11⟩

theorem nlte_line_ext (x y : nlte_line K) (h1 : x.ll = y.ll) (h2 : x.lu = y.lu)
    (h3 : x.A_ul = y.A_ul) (h4 : x.B_ul = y.B_ul) (h5 : x.B_lu = y.B_lu)
    (h6 : x.f_lu = y.f_lu) (h7 : x.lam = y.lam) (h8 : x.nu = y.nu) (h9 : x.J = y.J)
    (h10 : x.tau = y.tau) (h11 : x.etau = y.etau) (h12 : x.beta = y.beta)
    (h13 : x.bin = y.bin) : x = y := by
  cases x
  cases y
  simp only [nlte_line.mk.injEq]
  exact ⟨h1, h2, h3, h4, h5, h6, h7, h8, h9, h10, h11, h12, h13⟩

theorem same_atomic_data_refl (a : nlte_atom K) : same_atomic_data a a :=
  ⟨rfl, rfl, rfl, rfl, rfl, rfl, rfl,
    fun _ _ => ⟨rfl, rfl, rfl, rfl, rfl, rfl, rfl, rfl⟩,
    fun _ _ => ⟨rfl, rfl, rfl⟩,
    fun _ _ => ⟨rfl, rfl, rfl, rfl, rfl, rfl, rfl, rfl, rfl⟩⟩

theorem same_atomic_data_symm (a b : nlte_atom K) (h : same_atomic_data a b) :
    same_atomic_data b a := by
  obtain ⟨h1, h2, h3, h4, h5, h6, h7, hL, hI, hN⟩ := h
  refine ⟨h1.symm, h2.symm, h3.symm, h4.symm, h5.symm, h6.symm, h7.symm, fun i hi => ?_,
    fun k hk => ?_, fun l hl => ?_⟩
  · obtain ⟨a1, a2, a3, a4, a5, a6, a7, a8⟩ := hL i (by rw [h1]; exact hi)
    exact ⟨a1.symm, a2.symm, a3.symm, a4.symm, a5.symm, a6.symm, a7.symm, a8.symm⟩
  · obtain ⟨a1, a2, a3⟩ := hI k (by rw [h2]; exact hk)
    exact ⟨a1.symm, a2.symm, a3.symm⟩
  · obtain ⟨a1, a2, a3, a4, a5, a6, a7, a8, a9⟩ := hN l (by rw [h3]; exact hl)
    exact ⟨a1.symm, a2.symm, a3.symm, a4.symm, a5.symm, a6.symm, a7.symm, a8.symm, a9.symm⟩

theorem same_atomic_data_trans (a b c : nlte_atom K) (h : same_atomic_data a b)
    (g : same_atomic_data b c) : same_atomic_data a c := by
  obtain ⟨h1, h2, h3, h4, h5, h6, h7, hL, hI, hN⟩ := h
  obtain ⟨g1, g2, g3, g4, g5, g6, g7, gL, gI, gN⟩ := g
  refine ⟨h1.trans g1, h2.trans g2, h3.trans g3, h4.trans g4, h5.trans g5, h6.trans g6,
    h7.trans g7, fun i hi => ?_, fun k hk => ?_, fun l hl => ?_⟩
  · obtain ⟨a1, a2, a3, a4, a5, a6, a7, a8⟩ := hL i hi
    obtain ⟨b1, b2, b3, b4, b5, b6, b7, b8⟩ := gL i (by rw [← h1]; exact hi)
    exact ⟨a1.trans b1, a2.trans b2, a3.trans b3, a4.trans b4, a5.trans b5, a6.trans b6,
      a7.trans b7, a8.trans b8⟩
  · obtain ⟨a1, a2, a3⟩ := hI k hk
    obtain ⟨b1, b2, b3⟩ := gI k (by rw [← h2]; exact hk)
    exact ⟨a1.trans b1, a2.trans b2, a3.trans b3⟩
  · obtain ⟨a1, a2, a3, a4, a5, a6, a7, a8, a9⟩ := hN l hl
    obtain ⟨b1, b2, b3, b4, b5, b6, b7, b8, b9⟩ := gN l (by rw [← h3]; exact hl)
    exact ⟨a1.trans b1, a2.trans b2, a3.trans b3, a4.trans b4, a5.trans b5, a6.trans b6,
      a7.trans b7, a8.trans b8, a9.trans b9⟩

/-- Valid indices are a property of the atomic data. -/
theorem valid_indices_of_atomic (a b : nlte_atom K) (h : same_atomic_data a b)
    (hv : valid_indices a) : valid_indices b := by
  obtain ⟨h1, h2, h3, -, -, -, -, hL, -, hN⟩ := h
  refine ⟨fun i hi => ?_, fun l hl => ?_⟩
  · have hi2 : i < a.n_levels := by rw [h1]; exact hi
    obtain ⟨-, a2, -, -, -, a6, -, -⟩ := hL i hi2
    rw [← a2, ← a6, ← h2, ← h1]
    exact hv.1 i hi2
  · have hl2 : l < a.n_lines := by rw [h3]; exact hl
    obtain ⟨a1, a2, -⟩ := hN l hl2
    rw [← a1, ← a2, ← h1]
    exact hv.2 l hl2

/-- States with the same sizes and settings whose records agree in range hold the same
atomic data. -/
theorem atomic_of_records (a b : nlte_atom K) (hc : same_config a b)
    (hr : same_records a b) : same_atomic_data a b := by
  obtain ⟨c1, c2, c3, c4, c5, c6, c7⟩ := hc
  refine ⟨c1, c2, c3, c7, c6, c4, c5, fun i hi => ?_, fun k hk => ?_, fun l hl => ?_⟩
  · rw [hr.1 i hi]
    exact ⟨rfl, rfl, rfl, rfl, rfl, rfl, rfl, rfl⟩
  · rw [hr.2.1 k hk]
    exact ⟨rfl, rfl, rfl⟩
  · rw [hr.2.2 l hl]
    exact ⟨rfl, rfl, rfl, rfl, rfl, rfl, rfl, rfl, rfl⟩

theorem config_of_atomic (a b : nlte_atom K) (h : same_atomic_data a b) : same_config a b :=
  ⟨h.1, h.2.1, h.2.2.1, h.2.2.2.2.2.1, h.2.2.2.2.2.2.1, h.2.2.2.2.1, h.2.2.2.1⟩

theorem boltz_congr (pc : physical_constants K) (ext : Externals K) (a b : nlte_atom K)
    (T : K) (i : Nat) (h : same_atomic_data a b) (hi : i < a.n_levels) :
    boltz pc ext a T i = boltz pc ext b T i := by
  obtain ⟨-, -, -, -, -, -, -, hL, -, -⟩ := h
  obtain ⟨-, -, a3, a4, -⟩ := hL i hi
  unfold boltz
  rw [a3, a4]

theorem partition_fn_congr (pc : physical_constants K) (ext : Externals K)
    (a b : nlte_atom K) (T : K) (k : Nat) (h : same_atomic_data a b) :
    partition_fn pc ext a T k = partition_fn pc ext b T k := by
  unfold partition_fn
  rw [← h.1]
  refine Finset.sum_congr rfl (fun i hi => ?_)
  have hi2 := Finset.mem_range.mp hi
  rw [boltz_congr pc ext a b T i h hi2, (h.2.2.2.2.2.2.2.1 i hi2).2.1]

theorem saha_frac_congr (pc : physical_constants K) (ext : Externals K)
    (chi chi2 Z Z2 : Nat → K) (T ne : K) (k : Nat)
    (h : ∀ j, j ≤ k → chi j = chi2 j ∧ Z j = Z2 j) :
    saha_frac pc ext chi Z T ne k = saha_frac pc ext chi2 Z2 T ne k := by
  induction k with
  | zero => rfl
  | succ m ih =>
    have e1 : saha_frac pc ext chi Z T ne (m + 1) = if ne < 1e-50 then 0
        else saha_ratio pc ext chi Z T ne (m + 1) * saha_frac pc ext chi Z T ne m := rfl
    have e2 : saha_frac pc ext chi2 Z2 T ne (m + 1) = if ne < 1e-50 then 0
        else saha_ratio pc ext chi2 Z2 T ne (m + 1) * saha_frac pc ext chi2 Z2 T ne m := rfl
    have e3 : saha_ratio pc ext chi Z T ne (m + 1) = saha_ratio pc ext chi2 Z2 T ne (m + 1) := by
      unfold saha_ratio
      simp only [Nat.add_sub_cancel]
      rw [(h (m + 1) (le_refl _)).2, (h m (by omega)).1, (h m (by omega)).2]
    rw [e1, e2, ih (fun j hj => h j (by omega)), e3]

theorem saha_norm_congr (pc : physical_constants K) (ext : Externals K)
    (chi chi2 Z Z2 : Nat → K) (T ne : K) (n : Nat)
    (h : ∀ j, j < n → chi j = chi2 j ∧ Z j = Z2 j) :
    saha_norm pc ext chi Z T ne n = saha_norm pc ext chi2 Z2 T ne n := by
  unfold saha_norm
  congr 1
  refine Finset.sum_congr rfl (fun i hi => ?_)
  have hi2 := Finset.mem_range.mp hi
  exact saha_frac_congr pc ext chi chi2 Z Z2 T ne (i + 1) (fun j hj => h j (by omega))

theorem lte_frac_congr (pc : physical_constants K) (ext : Externals K)
    (a b : nlte_atom K) (T ne : K) (k : Nat) (h : same_atomic_data a b) (hk : k < a.n_ions) :
    lte_frac pc ext a T ne k = lte_frac pc ext b T ne k := by
  have hZ : ∀ j, j < a.n_ions →
      ion_chi a j = ion_chi b j ∧ lte_part pc ext a T j = lte_part pc ext b T j := by
    intro j hj
    refine ⟨(h.2.2.2.2.2.2.2.2.1 j hj).2.2, ?_⟩
    unfold lte_part
    rw [if_pos hj, if_pos (by rw [← h.2.1]; exact hj), partition_fn_congr pc ext a b T j h]
  unfold lte_frac
  rw [saha_frac_congr pc ext (ion_chi a) (ion_chi b) (lte_part pc ext a T)
      (lte_part pc ext b T) T ne k (fun j hj => hZ j (by omega)),
    saha_norm_congr pc ext (ion_chi a) (ion_chi b) (lte_part pc ext a T)
      (lte_part pc ext b T) T ne a.n_ions hZ, h.2.1]

/-- The ions and levels `solve_lte` leaves in range are determined by the atomic data. -/
theorem solve_lte_records (pc : physical_constants K) (ext : Externals K)
    (s t : nlte_atom K) (T ne time : K) (h : same_atomic_data s t) (hv : valid_indices s) :
    (∀ k, k < s.n_ions →
      (solve_lte pc ext s T ne time).ions k = (solve_lte pc ext t T ne time).ions k) ∧
    (∀ i, i < s.n_levels →
      (solve_lte pc ext s T ne time).levels i = (solve_lte pc ext t T ne time).levels i) := by
  obtain ⟨-, -, s3, s4⟩ := solve_lte_spec pc ext s T ne time
  obtain ⟨-, -, t3, t4⟩ := solve_lte_spec pc ext t T ne time
  have hions : ∀ k, k < s.n_ions →
      (solve_lte pc ext s T ne time).ions k = (solve_lte pc ext t T ne time).ions k := by
    intro k hk
    rw [s3 k hk, t3 k (by rw [← h.2.1]; exact hk)]
    obtain ⟨a1, a2, a3⟩ := h.2.2.2.2.2.2.2.2.1 k hk
    exact nlte_ion_ext _ _ a1 a2 a3 (partition_fn_congr pc ext s t T k h)
      (lte_frac_congr pc ext s t T ne k h hk)
  refine ⟨hions, fun i hi => ?_⟩
  rw [s4 i hi, t4 i (by rw [← h.1]; exact hi)]
  obtain ⟨a1, a2, a3, a4, a5, a6, a7, a8⟩ := h.2.2.2.2.2.2.2.1 i hi
  have e := hions (s.levels i).ion (hv.1 i hi).1
  have hn : ((solve_lte pc ext s T ne time).ions (s.levels i).ion).frac * boltz pc ext s T i /
        ((solve_lte pc ext s T ne time).ions (s.levels i).ion).part =
      ((solve_lte pc ext t T ne time).ions (t.levels i).ion).frac * boltz pc ext t T i /
        ((solve_lte pc ext t T ne time).ions (t.levels i).ion).part := by
    rw [← a2, ← e, boltz_congr pc ext s t T i h hi]
  exact nlte_level_ext _ _ a1 a2 a3 a4 a5 a6 hn hn rfl a7 a8

/-- Closed form of `compute_sobolev_taus` on the lines: line `l` in range holds the record
`compute_sobolev_tau` computes for it from the starting state. -/
theorem compute_sobolev_taus_lines (pc : physical_constants K) (ext : Externals K)
    (a : nlte_atom K) (time : K) (l : Nat) :
    (compute_sobolev_taus pc ext a time).lines l =
      if l < a.n_lines then (compute_sobolev_tau pc ext a l time).2.lines l
      else a.lines l := by
  unfold compute_sobolev_taus
  have key := forLoop_inv (fun m (s : nlte_atom K) => same_but_lines s a ∧
      ∀ l, s.lines l = if l < m then (compute_sobolev_tau pc ext a l time).2.lines l
        else a.lines l)
    (fun i (s : nlte_atom K) => (compute_sobolev_tau pc ext s i time).2) a a.n_lines
    ⟨same_but_lines_refl a, fun l => by simp⟩ ?_
  · exact key.2 l
  · intro k s _ hP
    obtain ⟨h1, h2⟩ := hP
    refine ⟨compute_sobolev_tau_frame pc ext s a k time h1, fun l => ?_⟩
    by_cases hlk : l = k
    · subst hlk
      have hl : s.lines l = a.lines l := by
        rw [h2 l]
        simp
      rw [compute_sobolev_tau_line pc ext s a l time h1.2.2.2.2.1 h1.2.2.2.2.2.2.2.2.2.1 hl]
      simp
    · rw [compute_sobolev_tau_other pc ext s k l time hlk, h2 l]
      simp only [lt_succ_split l k hlk]

/-- The line record `compute_sobolev_tau` leaves depends on the state only through line `i`,
its two levels and the number density. -/
theorem compute_sobolev_tau_local (pc : physical_constants K) (ext : Externals K)
    (s t : nlte_atom K) (i : Nat) (time : K) (hl : s.lines i = t.lines i)
    (hll : s.levels (s.lines i).ll = t.levels (s.lines i).ll)
    (hlu : s.levels (s.lines i).lu = t.levels (s.lines i).lu)
    (hd : s.n_dens = t.n_dens) :
    (compute_sobolev_tau pc ext s i time).2.lines i =
      (compute_sobolev_tau pc ext t i time).2.lines i := by
  unfold compute_sobolev_tau
  simp only [← hl, hll, hlu, hd]
  split
  · simp [set_line]
  · split <;> simp [set_line]

/-- The line record `compute_sobolev_tau` leaves does not depend on the `J`, `tau`, `etau`
and `beta` it finds, apart from keeping `J`. -/
theorem sobolev_line_erase (pc : physical_constants K) (ext : Externals K)
    (s : nlte_atom K) (i : Nat) (time v : K) :
    { (compute_sobolev_tau pc ext s i time).2.lines i with J := v } =
      (compute_sobolev_tau pc ext
        (set_line s i { s.lines i with J := v, tau := 0, etau := 0, beta := 0 }) i
          time).2.lines i := by
  unfold compute_sobolev_tau
  simp only [set_line, Function.update_same]
  split
  · simp
  · split <;> simp

/-- Closed form of the lines after the start of `solve_nlte`: line `l` in range is the
record `solve_lte` left with `J` set to the Planck function at the line. -/
theorem nlte_init_lines (pc : physical_constants K) (ext : Externals K)
    (a : nlte_atom K) (T ne time : K) (l : Nat) :
    (nlte_init pc ext a T ne time).lines l =
      if l < a.n_lines then
        { (solve_lte pc ext a T ne time).lines l with
          J := 1.0 * blackbody_nu pc ext T
            (pc.c / (((solve_lte pc ext a T ne time).lines l).lam * pc.angs_to_cm)) }
      else (solve_lte pc ext a T ne time).lines l := by
  unfold nlte_init
  have hn : (solve_lte pc ext a T ne time).n_lines = a.n_lines :=
    (solve_lte_config pc ext a T ne time).2.2.1
  simp only [hn]
  generalize solve_lte pc ext a T ne time = s0
  have key := forLoop_inv (fun m (s : nlte_atom K) =>
      ∀ l, s.lines l = if l < m then
        { s0.lines l with
          J := 1.0 * blackbody_nu pc ext T (pc.c / ((s0.lines l).lam * pc.angs_to_cm)) }
        else s0.lines l)
    (fun i (s : nlte_atom K) =>
      set_line s i { s.lines i with
        J := 1.0 * blackbody_nu pc ext T (pc.c / ((s.lines i).lam * pc.angs_to_cm)) })
    s0 a.n_lines (fun l => by simp) ?_
  · exact key l
  · intro k s _ hP l
    show Function.update s.lines k _ l = _
    by_cases hlk : l = k
    · subst hlk
      rw [Function.update_same, hP l]
      simp
    · rw [Function.update_noteq hlk, hP l]
      simp only [lt_succ_split l k hlk]

/-- The start of `solve_nlte` keeps the sizes and the caller's settings. -/
theorem nlte_init_config (pc : physical_constants K) (ext : Externals K)
    (a : nlte_atom K) (T ne time : K) : same_config (nlte_init pc ext a T ne time) a :=
  same_config_trans _ _ _ (same_config_of_lines _ _ (nlte_init_frame pc ext a T ne time))
    (solve_lte_config pc ext a T ne time)

/-- Closed form of a line in range after `solve_lte`. -/
theorem solve_lte_line (pc : physical_constants K) (ext : Externals K)
    (a : nlte_atom K) (T ne time : K) (l : Nat) (hl : l < a.n_lines) :
    (solve_lte pc ext a T ne time).lines l =
      (compute_sobolev_tau pc ext
        (lte_levels pc ext (lte_saha pc ext (lte_partition pc ext a T) T ne) T) l
          time).2.lines l := by
  have e0 : solve_lte pc ext a T ne time = compute_sobolev_taus pc ext
    (lte_levels pc ext (lte_saha pc ext (lte_partition pc ext a T) T ne) T) time := rfl
  obtain ⟨p1, -, -⟩ := lte_partition_spec pc ext a T
  obtain ⟨q1, -⟩ := lte_saha_spec pc ext (lte_partition pc ext a T) T ne
  obtain ⟨l1, -⟩ := lte_levels_spec pc ext (lte_saha pc ext (lte_partition pc ext a T) T ne) T
  have hn : (lte_levels pc ext (lte_saha pc ext (lte_partition pc ext a T) T ne) T).n_lines =
      a.n_lines := l1.2.2.1.trans (q1.2.2.1.trans p1.2.2.1)
  rw [e0, compute_sobolev_taus_lines, hn, if_pos hl]

/-- The state before the optical depths of `solve_lte`: its lines are the ones of the
starting state, its levels the ones `solve_lte` leaves, its density the given one. -/
theorem lte_levels_state (pc : physical_constants K) (ext : Externals K)
    (a : nlte_atom K) (T ne time : K) :
    (lte_levels pc ext (lte_saha pc ext (lte_partition pc ext a T) T ne) T).lines = a.lines ∧
    (lte_levels pc ext (lte_saha pc ext (lte_partition pc ext a T) T ne) T).levels =
      (solve_lte pc ext a T ne time).levels ∧
    (lte_levels pc ext (lte_saha pc ext (lte_partition pc ext a T) T ne) T).n_dens =
      a.n_dens := by
  obtain ⟨p1, -, -⟩ := lte_partition_spec pc ext a T
  obtain ⟨q1, -⟩ := lte_saha_spec pc ext (lte_partition pc ext a T) T ne
  obtain ⟨l1, -⟩ := lte_levels_spec pc ext (lte_saha pc ext (lte_partition pc ext a T) T ne) T
  have t1 := compute_sobolev_taus_frame pc ext
    (lte_levels pc ext (lte_saha pc ext (lte_partition pc ext a T) T ne) T) time
  have e0 : solve_lte pc ext a T ne time = compute_sobolev_taus pc ext
    (lte_levels pc ext (lte_saha pc ext (lte_partition pc ext a T) T ne) T) time := rfl
  refine ⟨?_, ?_, ?_⟩
  · exact l1.2.2.2.2.2.1.trans (q1.2.2.2.2.2.1.trans p1.2.2.2.2.1)
  · rw [e0]
    exact t1.2.2.2.2.1.symm
  · exact l1.2.2.2.2.2.2.2.2.2.1.trans (q1.2.2.2.2.2.2.2.2.2.1.trans p1.2.2.2.2.2.2.2.2.1)

/-- The levels, ions and lines that the start of `solve_nlte` leaves in range are determined
by the atomic data and the number density. -/
theorem nlte_init_records (pc : physical_constants K) (ext : Externals K)
    (s t : nlte_atom K) (T ne time : K) (h : same_atomic_data s t) (hv : valid_indices s) :
    same_records (nlte_init pc ext s T ne time) (nlte_init pc ext t T ne time) := by
  obtain ⟨c1, c2, c3, -⟩ := nlte_init_config pc ext s T ne time
  obtain ⟨r1, r2⟩ := solve_lte_records pc ext s t T ne time h hv
  have fs := nlte_init_frame pc ext s T ne time
  have ft := nlte_init_frame pc ext t T ne time
  refine ⟨fun i hi => ?_, fun k hk => ?_, fun l hl => ?_⟩
  · rw [c1] at hi
    rw [fs.2.2.2.2.1, ft.2.2.2.2.1]
    exact r2 i hi
  · rw [c2] at hk
    rw [fs.2.2.2.2.2.1, ft.2.2.2.2.2.1]
    exact r1 k hk
  · rw [c3] at hl
    have hl2 : l < t.n_lines := by rw [← h.2.2.1]; exact hl
    obtain ⟨a1, a2, a3, a4, a5, a6, a7, a8, a9⟩ := h.2.2.2.2.2.2.2.2.2 l hl
    obtain ⟨ls1, ls2, ls3⟩ := lte_levels_state pc ext s T ne time
    obtain ⟨lt1, lt2, lt3⟩ := lte_levels_state pc ext t T ne time
    -- the records left by `solve_lte` agree up to `J`
    have hlam : ∀ a : nlte_atom K, ∀ l, l < a.n_lines →
        ((solve_lte pc ext a T ne time).lines l).lam = (a.lines l).lam := by
      intro a l hl
      have e := sobolev_line_erase pc ext
        (lte_levels pc ext (lte_saha pc ext (lte_partition pc ext a T) T ne) T) l time 0
      rw [solve_lte_line pc ext a T ne time l hl]
      have e2 := congrArg nlte_line.lam e
      have e3 : ((compute_sobolev_tau pc ext
          (lte_levels pc ext (lte_saha pc ext (lte_partition pc ext a T) T ne) T) l
          time).2.lines l).lam = _ := e2
      rw [e3]
      unfold compute_sobolev_tau
      simp only [set_line, Function.update_same]
      rw [(lte_levels_state pc ext a T ne time).1]
      split
      · simp
      · split <;> simp
    have hJ : ∀ v : K, { (solve_lte pc ext s T ne time).lines l with J := v } =
        ({ (solve_lte pc ext t T ne time).lines l with J := v } : nlte_line K) := by
      intro v
      rw [solve_lte_line pc ext s T ne time l hl, solve_lte_line pc ext t T ne time l hl2,
        sobolev_line_erase, sobolev_line_erase]
      refine compute_sobolev_tau_local pc ext _ _ l time ?_ ?_ ?_ ?_
      · simp only [set_line, Function.update_same]
        rw [ls1, lt1]
        exact nlte_line_ext _ _ a1 a2 a3 a4 a5 a6 a7 a8 rfl rfl rfl rfl a9
      · show (lte_levels pc ext (lte_saha pc ext (lte_partition pc ext s T) T ne) T).levels _ =
          (lte_levels pc ext (lte_saha pc ext (lte_partition pc ext t T) T ne) T).levels _
        simp only [set_line, Function.update_same]
        rw [ls1, ls2, lt2]
        exact r2 _ (hv.2 l hl).1
      · show (lte_levels pc ext (lte_saha pc ext (lte_partition pc ext s T) T ne) T).levels _ =
          (lte_levels pc ext (lte_saha pc ext (lte_partition pc ext t T) T ne) T).levels _
        simp only [set_line, Function.update_same]
        rw [ls1, ls2, lt2]
        exact r2 _ (hv.2 l hl).2
      · show (lte_levels pc ext (lte_saha pc ext (lte_partition pc ext s T) T ne) T).n_dens =
          (lte_levels pc ext (lte_saha pc ext (lte_partition pc ext t T) T ne) T).n_dens
        rw [ls3, lt3]
        exact h.2.2.2.1
    rw [nlte_init_lines, nlte_init_lines, if_pos hl, if_pos hl2, hlam s l hl, hlam t l hl2,
      ← a7]
    exact hJ _

/-- The start of `solve_nlte` keeps the atomic data. -/
theorem nlte_init_atomic (pc : physical_constants K) (ext : Externals K)
    (a : nlte_atom K) (T ne time : K) :
    same_atomic_data (nlte_init pc ext a T ne time) a := by
  obtain ⟨c1, c2, c3, c4, c5, c6, c7⟩ := nlte_init_config pc ext a T ne time
  obtain ⟨-, -, s3, s4⟩ := solve_lte_spec pc ext a T ne time
  have fs := nlte_init_frame pc ext a T ne time
  refine ⟨c1, c2, c3, c7, c6, c4, c5, fun i hi => ?_, fun k hk => ?_, fun l hl => ?_⟩
  · rw [c1] at hi
    rw [fs.2.2.2.2.1, s4 i hi]
    exact ⟨rfl, rfl, rfl, rfl, rfl, rfl, rfl, rfl⟩
  · rw [c2] at hk
    rw [fs.2.2.2.2.2.1, s3 k hk]
    exact ⟨rfl, rfl, rfl⟩
  · rw [c3] at hl
    rw [nlte_init_lines, if_pos hl, solve_lte_line pc ext a T ne time l hl]
    have hx : ∀ x : nlte_line K, x = (compute_sobolev_tau pc ext
        (lte_levels pc ext (lte_saha pc ext (lte_partition pc ext a T) T ne) T) l
          time).2.lines l →
        x.ll = (a.lines l).ll ∧ x.lu = (a.lines l).lu ∧ x.A_ul = (a.lines l).A_ul ∧
        x.B_ul = (a.lines l).B_ul ∧ x.B_lu = (a.lines l).B_lu ∧ x.f_lu = (a.lines l).f_lu ∧
        x.lam = (a.lines l).lam ∧ x.nu = (a.lines l).nu ∧ x.bin = (a.lines l).bin := by
      intro x hx
      rw [hx]
      unfold compute_sobolev_tau
      simp only [set_line, Function.update_same]
      rw [(lte_levels_state pc ext a T ne time).1]
      split
      · simp
      · split <;> simp
    exact hx ((compute_sobolev_tau pc ext
        (lte_levels pc ext (lte_saha pc ext (lte_partition pc ext a T) T ne) T) l
          time).2.lines l) rfl

theorem radiative_channel_agree (s t : nlte_atom K) (hc : same_config s t)
    (hr : same_records s t) (i j : Nat) :
    radiative_channel s i j = radiative_channel t i j := by
  unfold radiative_channel
  rw [← hc.2.2.1]
  refine Finset.sum_congr rfl (fun l hl => ?_)
  have hl2 := Finset.mem_range.mp hl
  unfold R_lu R_ul
  rw [hr.2.2 l hl2, hc.2.2.2.1]

theorem nonthermal_channel_agree (pc : physical_constants K) (s t : nlte_atom K)
    (hc : same_config s t) (hr : same_records s t) (hv : valid_indices s) (i j : Nat) :
    nonthermal_channel pc s i j = nonthermal_channel pc t i j := by
  unfold nonthermal_channel
  rw [← hc.2.2.1]
  refine Finset.sum_congr rfl (fun l hl => ?_)
  have hl2 := Finset.mem_range.mp hl
  have e1 := hr.1 _ (hv.2 l hl2).1
  have e2 := hr.1 _ (hv.2 l hl2).2
  unfold R_lu_nonthermal
  simp only []
  rw [e1, e2, hr.2.2 l hl2, hc.2.2.2.2.2.1, hc.2.2.2.2.2.2]

theorem collisional_channel_agree (pc : physical_constants K) (ext : Externals K)
    (s t : nlte_atom K) (hr : same_records s t) (T : K) (i j : Nat)
    (hi : i < s.n_levels) (hj : j < s.n_levels) :
    collisional_channel pc ext s T i j = collisional_channel pc ext t T i j := by
  unfold collisional_channel C_coll
  rw [hr.1 i hi, hr.1 j hj]

theorem bound_free_channel_agree (pc : physical_constants K) (ext : Externals K)
    (s t : nlte_atom K) (hc : same_config s t) (hr : same_records s t)
    (hv : valid_indices s) (T ne : K) (i j : Nat) :
    bound_free_channel pc ext s T ne i j = bound_free_channel pc ext t T ne i j := by
  unfold bound_free_channel
  rw [← hc.1]
  refine Finset.sum_congr rfl (fun k hk => ?_)
  have hk2 := Finset.mem_range.mp hk
  have ek := hr.1 k hk2
  by_cases hic : (s.levels k).ic = -1
  · rw [if_pos hic, if_pos (by rw [← ek]; exact hic)]
  · have hic2 : ¬ (t.levels k).ic = -1 := by rw [← ek]; exact hic
    rw [if_neg hic, if_neg hic2]
    have ec := hr.1 _ ((hv.1 k hk2).2.resolve_left hic)
    have ei := hr.2.1 _ (hv.1 k hk2).1
    have h1 : C_ion pc ext s T ne k = C_ion pc ext t T ne k := by
      unfold C_ion zeta_ion
      simp only []
      rw [ei, ek]
    have h2 : C_rec pc ext s T ne k = C_rec pc ext t T ne k := by
      unfold C_rec zeta_ion
      simp only []
      rw [ec, ei, ek]
    have h3 : R_rec ext s T ne k = R_rec ext t T ne k := by
      unfold R_rec
      simp only []
      rw [ek, hc.2.2.2.2.1]
    rw [h1, h2, h3, ek]

/-- The rates `set_rates` leaves on the block are determined by the records in range. -/
theorem set_rates_agree (pc : physical_constants K) (ext : Externals K)
    (s t : nlte_atom K) (T ne : K) (hc : same_config s t) (hr : same_records s t)
    (hv : valid_indices s) (i j : Nat) (hi : i < s.n_levels) (hj : j < s.n_levels) :
    (set_rates pc ext s T ne).rates i j = (set_rates pc ext t T ne).rates i j := by
  rw [set_rates_spec pc ext s T ne i j hi hj,
    set_rates_spec pc ext t T ne i j (by rw [← hc.1]; exact hi) (by rw [← hc.1]; exact hj),
    radiative_channel_agree s t hc hr, nonthermal_channel_agree pc s t hc hr hv,
    collisional_channel_agree pc ext s t hr T i j hi hj,
    bound_free_channel_agree pc ext s t hc hr hv, hr.1 i hi]

/-- Closed form of the whole matrix `build_system` assembles: `system_entry` on the block,
zero elsewhere. -/
theorem build_system_matrix (a : nlte_atom K) (i j : Nat) :
    (build_system a).M_nlte i j =
      if i < a.n_levels ∧ j < a.n_levels then system_entry a i j else 0 := by
  let a0 : nlte_atom K :=
    { a with M_nlte := fun _ _ => 0, b_nlte := fun _ => 0, x_nlte := fun _ => 0,
             p_nlte := fun i => i }
  have ha0 : same_inputs a0 a := same_inputs_refl a
  obtain ⟨d1, d2, d3⟩ := diag_loop a0 a0.n_levels
  have d1a : same_inputs _ a := d1
  obtain ⟨o1, o2, o3⟩ := (fun (s1 : nlte_atom K) (h : same_inputs s1 a) =>
    offdiag_loop a s1 s1.n_levels h) _ d1a
  obtain ⟨l1, l2, l3⟩ := (fun (s1 : nlte_atom K) (h : same_inputs s1 a) =>
    lastrow_loop a s1 s1.n_levels h) _ o1
  have hn : a0.n_levels = a.n_levels := rfl
  have hr : a0.rates = a.rates := rfl
  have hM0 : a0.M_nlte = fun _ _ => 0 := rfl
  refine (l3 i j).trans ?_
  rw [o3 i j, d3 i j, o1.1, d1a.1, hn, hr, hM0]
  unfold system_entry
  by_cases hi : i < a.n_levels
  · by_cases hj : j < a.n_levels
    · have h0 : 0 < a.n_levels := by omega
      by_cases h1 : i = a.n_levels - 1
      · simp [h1, hj, h0]
      · by_cases h2 : i = j
        · subst h2; simp [h1, hi]
        · simp [h1, h2, hi, hj]
    · have h1 : ¬ (i = a.n_levels - 1 ∧ j < a.n_levels) := fun c => hj c.2
      have h2 : ¬ (i < a.n_levels ∧ j < a.n_levels ∧ i ≠ j) := fun c => hj c.2.1
      have h3 : ¬ (i = j ∧ i < a.n_levels) := fun c => hj (c.1 ▸ c.2)
      have h4 : ¬ (i < a.n_levels ∧ j < a.n_levels) := fun c => hj c.2
      rw [if_neg h1, if_neg h2, if_neg h3, if_neg h4]
  · have h1 : ¬ (i = a.n_levels - 1 ∧ j < a.n_levels) := fun c => by omega
    have h2 : ¬ (i < a.n_levels ∧ j < a.n_levels ∧ i ≠ j) := fun c => hi c.1
    have h3 : ¬ (i = j ∧ i < a.n_levels) := fun c => hi c.2
    have h4 : ¬ (i < a.n_levels ∧ j < a.n_levels) := fun c => hi c.1
    rw [if_neg h1, if_neg h2, if_neg h3, if_neg h4]

/-- The system `build_system` assembles after `set_rates` is determined by the records in
range. -/
theorem build_system_agree (pc : physical_constants K) (ext : Externals K)
    (s t : nlte_atom K) (T ne : K) (hc : same_config s t) (hr : same_records s t)
    (hv : valid_indices s) :
    (build_system (set_rates pc ext s T ne)).M_nlte =
      (build_system (set_rates pc ext t T ne)).M_nlte ∧
    (build_system (set_rates pc ext s T ne)).b_nlte =
      (build_system (set_rates pc ext t T ne)).b_nlte := by
  have fs := set_rates_frame pc ext s T ne
  have ft := set_rates_frame pc ext t T ne
  constructor
  · funext i j
    rw [build_system_matrix, build_system_matrix, fs.1, ft.1, ← hc.1]
    by_cases hij : i < s.n_levels ∧ j < s.n_levels
    · rw [if_pos hij, if_pos hij]
      unfold system_entry
      rw [fs.1, ft.1, ← hc.1, fs.2.2.2.1, ft.2.2.2.1, hr.1 j hij.2,
        set_rates_agree pc ext s t T ne hc hr hv j i hij.2 hij.1]
      congr 2
      congr 1
      refine Finset.sum_congr rfl (fun k hk => ?_)
      exact set_rates_agree pc ext s t T ne hc hr hv i k hij.1 (Finset.mem_range.mp hk)
    · rw [if_neg hij, if_neg hij]
  · funext i
    rw [(build_system_spec _).2.1 i, (build_system_spec _).2.1 i, fs.1, ft.1, hc.1]

/-- The update of the populations leaves the rates, the solver buffers other than `x` and
the settings alone. -/
theorem install_populations_buffers (a : nlte_atom K) :
    (install_populations a).rates = a.rates ∧
    (install_populations a).M_nlte = a.M_nlte ∧
    (install_populations a).b_nlte = a.b_nlte ∧
    (install_populations a).p_nlte = a.p_nlte ∧
    (install_populations a).no_ground_recomb = a.no_ground_recomb ∧
    (install_populations a).e_gamma = a.e_gamma ∧
    (install_populations a).n_dens = a.n_dens := by
  obtain ⟨i1, -⟩ := install_loop a a.n_levels
  obtain ⟨c1, -⟩ := (fun (s1 : nlte_atom K) => clear_frac_loop s1 s1.n_ions) _
  obtain ⟨f1, -⟩ := (fun (s1 : nlte_atom K) => accumulate_frac_loop s1 s1.n_levels) _
  exact ⟨f1.2.2.2.1.trans (c1.2.2.2.1.trans i1.2.2.2.1), f1.2.2.2.2.2.2.2.2.2.2.1.trans (c1.2.2.2.2.2.2.2.2.2.2.1.trans i1.2.2.2.2.2.2.2.2.2.2.1),
    f1.2.2.2.2.2.2.2.2.2.2.2.1.trans (c1.2.2.2.2.2.2.2.2.2.2.2.1.trans i1.2.2.2.2.2.2.2.2.2.2.2.1), f1.2.2.2.2.2.2.2.2.2.2.2.2.2.trans (c1.2.2.2.2.2.2.2.2.2.2.2.2.2.trans i1.2.2.2.2.2.2.2.2.2.2.2.2.2),
    f1.2.2.2.2.2.2.2.1.trans (c1.2.2.2.2.2.2.2.1.trans i1.2.2.2.2.2.2.2.1), f1.2.2.2.2.2.2.2.2.1.trans (c1.2.2.2.2.2.2.2.2.1.trans i1.2.2.2.2.2.2.2.2.1),
    f1.2.2.2.2.2.2.2.2.2.1.trans (c1.2.2.2.2.2.2.2.2.2.1.trans i1.2.2.2.2.2.2.2.2.2.1)⟩

/-- What a pass of `solve_nlte` leaves in the rates and the solver buffers. -/
theorem nlte_pass_buffers (pc : physical_constants K) (ext : Externals K)
    (a : nlte_atom K) (T ne : K) :
    (nlte_pass pc ext a T ne).rates = (set_rates pc ext a T ne).rates ∧
    (nlte_pass pc ext a T ne).M_nlte =
      (ext.LU_decomp a.n_levels (build_system (set_rates pc ext a T ne)).M_nlte).1 ∧
    (nlte_pass pc ext a T ne).b_nlte = (build_system (set_rates pc ext a T ne)).b_nlte ∧
    (nlte_pass pc ext a T ne).p_nlte =
      (ext.LU_decomp a.n_levels (build_system (set_rates pc ext a T ne)).M_nlte).2 ∧
    (nlte_pass pc ext a T ne).no_ground_recomb = a.no_ground_recomb ∧
    (nlte_pass pc ext a T ne).e_gamma = a.e_gamma ∧
    (nlte_pass pc ext a T ne).n_dens = a.n_dens := by
  have hf := set_rates_frame pc ext a T ne
  obtain ⟨hin, -, -⟩ := build_system_spec (set_rates pc ext a T ne)
  have e0 : nlte_pass pc ext a T ne =
      install_populations (linear_solve ext (build_system (set_rates pc ext a T ne))) := by
    unfold nlte_pass solve_and_update
    rfl
  rw [e0]
  have hn : (build_system (set_rates pc ext a T ne)).n_levels = a.n_levels := hin.1.trans hf.1
  rw [← hn]
  generalize build_system (set_rates pc ext a T ne) = r at hin ⊢
  obtain ⟨b1, b2, b3, b4, b5, b6, b7⟩ := install_populations_buffers (linear_solve ext r)
  refine ⟨b1.trans hin.2.2.2.1, b2, b3, b4, ?_, ?_, ?_⟩
  · exact b5.trans (hin.2.2.2.2.2.2.2.2.1.trans hf.2.2.2.2.2.2.2.1)
  · exact b6.trans (hin.2.2.2.2.2.2.2.2.2.1.trans hf.2.2.2.2.2.2.2.2.1)
  · exact b7.trans (hin.2.2.2.2.2.2.2.2.2.2.trans hf.2.2.2.2.2.2.2.2.2.1)

/-- A pass of `solve_nlte` keeps the sizes and the caller's settings. -/
theorem nlte_pass_config (pc : physical_constants K) (ext : Externals K)
    (a : nlte_atom K) (T ne : K) : same_config (nlte_pass pc ext a T ne) a := by
  obtain ⟨p1, p2, p3, -, p5, -, -⟩ := nlte_pass_spec pc ext a T ne
  obtain ⟨-, -, -, -, b5, b6, b7⟩ := nlte_pass_buffers pc ext a T ne
  exact ⟨p1, p2, p3, p5, b5, b6, b7⟩

/-- A pass of `solve_nlte` keeps the atomic data. -/
theorem nlte_pass_atomic (pc : physical_constants K) (ext : Externals K)
    (a : nlte_atom K) (T ne : K) : same_atomic_data (nlte_pass pc ext a T ne) a := by
  obtain ⟨c1, c2, c3, c4, c5, c6, c7⟩ := nlte_pass_config pc ext a T ne
  obtain ⟨-, -, -, p4, -, p6, p7⟩ := nlte_pass_spec pc ext a T ne
  refine ⟨c1, c2, c3, c7, c6, c4, c5, fun i hi => ?_, fun k hk => ?_, fun l hl => ?_⟩
  · rw [c1] at hi
    rw [p6 i, if_pos hi]
    exact ⟨rfl, rfl, rfl, rfl, rfl, rfl, rfl, rfl⟩
  · rw [p7 k]
    exact ⟨rfl, rfl, rfl⟩
  · rw [p4]
    exact ⟨rfl, rfl, rfl, rfl, rfl, rfl, rfl, rfl, rfl⟩

/-- Two passes of `solve_nlte` from states with the same sizes and settings whose records
agree in range leave the same working data. -/
theorem nlte_pass_agree (pc : physical_constants K) (ext : Externals K)
    (s t : nlte_atom K) (T ne : K) (hc : same_config s t) (hr : same_records s t)
    (hv : valid_indices s) :
    same_working (nlte_pass pc ext s T ne) (nlte_pass pc ext t T ne) := by
  obtain ⟨c1, c2, c3, -⟩ := nlte_pass_config pc ext s T ne
  obtain ⟨-, -, -, sl, -, s6, s7⟩ := nlte_pass_spec pc ext s T ne
  obtain ⟨-, -, -, tl, -, t6, t7⟩ := nlte_pass_spec pc ext t T ne
  obtain ⟨sb1, sb2, sb3, sb4, -⟩ := nlte_pass_buffers pc ext s T ne
  obtain ⟨tb1, tb2, tb3, tb4, -⟩ := nlte_pass_buffers pc ext t T ne
  obtain ⟨hM, hb⟩ := build_system_agree pc ext s t T ne hc hr hv
  have hx : (nlte_pass pc ext s T ne).x_nlte = (nlte_pass pc ext t T ne).x_nlte := by
    rw [nlte_pass_x_nlte, nlte_pass_x_nlte, hM, hb, hc.1]
  refine ⟨⟨fun i hi => ?_, fun k hk => ?_, fun l hl => ?_⟩, fun i j hi hj => ?_, ?_, ?_, hx, ?_⟩
  · rw [c1] at hi
    rw [s6 i, t6 i, if_pos hi, if_pos (by rw [← hc.1]; exact hi), hx, hr.1 i hi]
  · rw [c2] at hk
    rw [s7 k, t7 k, hx, hr.2.1 k hk, if_pos hk, if_pos (by rw [← hc.2.1]; exact hk), ← hc.1]
    have hsum : (∑ i in Finset.range s.n_levels, if (s.levels i).ion = k
        then (nlte_pass pc ext t T ne).x_nlte i * (s.levels i).n_lte else 0) =
        ∑ i in Finset.range s.n_levels, if (t.levels i).ion = k
        then (nlte_pass pc ext t T ne).x_nlte i * (t.levels i).n_lte else 0 := by
      refine Finset.sum_congr rfl (fun i hi => ?_)
      rw [hr.1 i (Finset.mem_range.mp hi)]
    rw [hsum]
  · rw [c3] at hl
    rw [sl, tl]
    exact hr.2.2 l hl
  · rw [c1] at hi hj
    rw [sb1, tb1]
    exact set_rates_agree pc ext s t T ne hc hr hv i j hi hj
  · rw [sb2, tb2, hM, hc.1]
  · rw [sb3, tb3, hb]
  · rw [sb4, tb4, hM, hc.1]

/-- The fields of the line record `compute_sobolev_tau` leaves other than `tau`, `etau` and
`beta` are the ones it found. -/
theorem sobolev_line_kept (pc : physical_constants K) (ext : Externals K)
    (a : nlte_atom K) (l : Nat) (time : K) :
    ((compute_sobolev_tau pc ext a l time).2.lines l).ll = (a.lines l).ll ∧
    ((compute_sobolev_tau pc ext a l time).2.lines l).lu = (a.lines l).lu ∧
    ((compute_sobolev_tau pc ext a l time).2.lines l).A_ul = (a.lines l).A_ul ∧
    ((compute_sobolev_tau pc ext a l time).2.lines l).B_ul = (a.lines l).B_ul ∧
    ((compute_sobolev_tau pc ext a l time).2.lines l).B_lu = (a.lines l).B_lu ∧
    ((compute_sobolev_tau pc ext a l time).2.lines l).f_lu = (a.lines l).f_lu ∧
    ((compute_sobolev_tau pc ext a l time).2.lines l).lam = (a.lines l).lam ∧
    ((compute_sobolev_tau pc ext a l time).2.lines l).nu = (a.lines l).nu ∧
    ((compute_sobolev_tau pc ext a l time).2.lines l).bin = (a.lines l).bin := by
  unfold compute_sobolev_tau
  simp only [set_line, Function.update_same]
  split
  · simp
  · split <;> simp

/-- The beta test keeps the atomic data. -/
theorem check_betas_atomic (pc : physical_constants K) (ext : Externals K)
    (a : nlte_atom K) (time : K) : same_atomic_data (check_betas pc ext a time).2 a := by
  have hf := check_betas_frame pc ext a time
  obtain ⟨c1, c2, c3, c4, c5, c6, c7⟩ := same_config_of_lines _ _ hf
  refine ⟨c1, c2, c3, c7, c6, c4, c5, fun i hi => ?_, fun k hk => ?_, fun l hl => ?_⟩
  · rw [hf.2.2.2.2.1]
    exact ⟨rfl, rfl, rfl, rfl, rfl, rfl, rfl, rfl⟩
  · rw [hf.2.2.2.2.2.1]
    exact ⟨rfl, rfl, rfl⟩
  · rw [c3] at hl
    rw [(check_betas_spec pc ext a time).1, compute_sobolev_taus_lines, if_pos hl]
    exact sobolev_line_kept pc ext a l time

/-- Two beta tests from states with the same sizes and settings that hold the same working
data give the same verdict and leave the same working data. -/
theorem check_betas_agree (pc : physical_constants K) (ext : Externals K)
    (s t : nlte_atom K) (time : K) (hc : same_config s t) (hv : valid_indices s)
    (hw : same_working s t) :
    (check_betas pc ext s time).1 = (check_betas pc ext t time).1 ∧
    same_working (check_betas pc ext s time).2 (check_betas pc ext t time).2 := by
  obtain ⟨hr, hw2, hw3, hw4, hw5, hw6⟩ := hw
  have fs := check_betas_frame pc ext s time
  have ft := check_betas_frame pc ext t time
  obtain ⟨ss, sv⟩ := check_betas_spec pc ext s time
  obtain ⟨ts, tv⟩ := check_betas_spec pc ext t time
  have hline : ∀ l, l < s.n_lines → (compute_sobolev_tau pc ext s l time).2.lines l =
      (compute_sobolev_tau pc ext t l time).2.lines l := fun l hl =>
    compute_sobolev_tau_local pc ext s t l time (hr.2.2 l hl) (hr.1 _ (hv.2 l hl).1)
      (hr.1 _ (hv.2 l hl).2) hc.2.2.2.2.2.2
  constructor
  · rw [Bool.eq_iff_iff, sv, tv]
    unfold betas_converged
    rw [← hc.2.2.1]
    constructor
    · intro h i hi
      rw [← hr.2.2 i hi, ← hline i hi]
      exact h i hi
    · intro h i hi
      rw [hr.2.2 i hi, hline i hi]
      exact h i hi
  · refine ⟨⟨fun i hi => ?_, fun k hk => ?_, fun l hl => ?_⟩, fun i j hi hj => ?_, ?_, ?_, ?_, ?_⟩
    · rw [fs.1] at hi
      rw [fs.2.2.2.2.1, ft.2.2.2.2.1]
      exact hr.1 i hi
    · rw [fs.2.1] at hk
      rw [fs.2.2.2.2.2.1, ft.2.2.2.2.2.1]
      exact hr.2.1 k hk
    · rw [fs.2.2.1] at hl
      rw [ss, ts, compute_sobolev_taus_lines, compute_sobolev_taus_lines, if_pos hl,
        if_pos (by rw [← hc.2.2.1]; exact hl)]
      exact hline l hl
    · rw [fs.1] at hi hj
      rw [fs.2.2.2.1, ft.2.2.2.1]
      exact hw2 i j hi hj
    · rw [fs.2.2.2.2.2.2.2.2.2.2.1, ft.2.2.2.2.2.2.2.2.2.2.1]
      exact hw3
    · rw [fs.2.2.2.2.2.2.2.2.2.2.2.1, ft.2.2.2.2.2.2.2.2.2.2.2.1]
      exact hw4
    · rw [fs.2.2.2.2.2.2.2.2.2.2.2.2.1, ft.2.2.2.2.2.2.2.2.2.2.2.2.1]
      exact hw5
    · rw [fs.2.2.2.2.2.2.2.2.2.2.2.2.2, ft.2.2.2.2.2.2.2.2.2.2.2.2.2]
      exact hw6

/-- The iteration loop of `solve_nlte`, run for at least one iteration from two states with
the same atomic data whose records agree in range, returns the same code and leaves the same
working data. -/
theorem nlte_loop_agree (pc : physical_constants K) (ext : Externals K) (T ne time : K)
    (iters : Nat) : ∀ s t : nlte_atom K, same_atomic_data s t → valid_indices s →
      same_records s t →
      (nlte_loop pc ext T ne time (iters + 1) s).1 =
        (nlte_loop pc ext T ne time (iters + 1) t).1 ∧
      same_working (nlte_loop pc ext T ne time (iters + 1) s).2
        (nlte_loop pc ext T ne time (iters + 1) t).2 := by
  induction iters with
  | zero =>
    intro s t hA hV hR
    have hc := config_of_atomic s t hA
    have hW := nlte_pass_agree pc ext s t T ne hc hR hV
    have hA2 : same_atomic_data (nlte_pass pc ext s T ne) (nlte_pass pc ext t T ne) :=
      same_atomic_data_trans _ _ _ (nlte_pass_atomic pc ext s T ne)
        (same_atomic_data_trans _ _ _ hA
          (same_atomic_data_symm _ _ (nlte_pass_atomic pc ext t T ne)))
    have hV2 : valid_indices (nlte_pass pc ext s T ne) :=
      valid_indices_of_atomic _ _ (same_atomic_data_symm _ _ (nlte_pass_atomic pc ext s T ne)) hV
    obtain ⟨k1, k2⟩ := check_betas_agree pc ext _ _ time (config_of_atomic _ _ hA2) hV2 hW
    have hub := hA2.2.2.2.2.2.1
    have e : ∀ a : nlte_atom K, nlte_loop pc ext T ne time (0 + 1) a =
        if !(nlte_pass pc ext a T ne).use_betas then (1, nlte_pass pc ext a T ne)
        else if (check_betas pc ext (nlte_pass pc ext a T ne) time).1
          then (1, (check_betas pc ext (nlte_pass pc ext a T ne) time).2)
          else (0, (check_betas pc ext (nlte_pass pc ext a T ne) time).2) := fun a => rfl
    rw [e s, e t]
    generalize nlte_pass pc ext s T ne = ps at hW hub k1 k2 ⊢
    generalize nlte_pass pc ext t T ne = pt at hW hub k1 k2 ⊢
    generalize check_betas pc ext ps time = cs at k1 k2 ⊢
    generalize check_betas pc ext pt time = ct at k1 k2 ⊢
    rw [← hub, ← k1]
    cases ps.use_betas
    · exact ⟨rfl, hW⟩
    · cases cs.1
      · exact ⟨rfl, k2⟩
      · exact ⟨rfl, k2⟩
  | succ n ih =>
    intro s t hA hV hR
    have hc := config_of_atomic s t hA
    have hW := nlte_pass_agree pc ext s t T ne hc hR hV
    have hA2 : same_atomic_data (nlte_pass pc ext s T ne) (nlte_pass pc ext t T ne) :=
      same_atomic_data_trans _ _ _ (nlte_pass_atomic pc ext s T ne)
        (same_atomic_data_trans _ _ _ hA
          (same_atomic_data_symm _ _ (nlte_pass_atomic pc ext t T ne)))
    have hV2 : valid_indices (nlte_pass pc ext s T ne) :=
      valid_indices_of_atomic _ _ (same_atomic_data_symm _ _ (nlte_pass_atomic pc ext s T ne)) hV
    obtain ⟨k1, k2⟩ := check_betas_agree pc ext _ _ time (config_of_atomic _ _ hA2) hV2 hW
    have hA3 : same_atomic_data (check_betas pc ext (nlte_pass pc ext s T ne) time).2
        (check_betas pc ext (nlte_pass pc ext t T ne) time).2 :=
      same_atomic_data_trans _ _ _ (check_betas_atomic pc ext _ time)
        (same_atomic_data_trans _ _ _ hA2
          (same_atomic_data_symm _ _ (check_betas_atomic pc ext _ time)))
    have hV3 : valid_indices (check_betas pc ext (nlte_pass pc ext s T ne) time).2 :=
      valid_indices_of_atomic _ _
        (same_atomic_data_symm _ _ (check_betas_atomic pc ext _ time)) hV2
    have hrec := ih _ _ hA3 hV3 k2.1
    have hub := hA2.2.2.2.2.2.1
    have e : ∀ a : nlte_atom K, nlte_loop pc ext T ne time (n + 1 + 1) a =
        if !(nlte_pass pc ext a T ne).use_betas then (1, nlte_pass pc ext a T ne)
        else if (check_betas pc ext (nlte_pass pc ext a T ne) time).1
          then (1, (check_betas pc ext (nlte_pass pc ext a T ne) time).2)
          else nlte_loop pc ext T ne time (n + 1)
            (check_betas pc ext (nlte_pass pc ext a T ne) time).2 := fun a => rfl
    rw [e s, e t]
    generalize nlte_pass pc ext s T ne = ps at hW hub k1 k2 hrec ⊢
    generalize nlte_pass pc ext t T ne = pt at hW hub k1 k2 hrec ⊢
    generalize check_betas pc ext ps time = cs at k1 k2 hrec ⊢
    generalize check_betas pc ext pt time = ct at k1 k2 hrec ⊢
    generalize nlte_loop pc ext T ne time (n + 1) cs.2 = ls at hrec ⊢
    generalize nlte_loop pc ext T ne time (n + 1) ct.2 = lt at hrec ⊢
    rw [← hub, ← k1]
    cases ps.use_betas
    · exact ⟨rfl, hW⟩
    · cases cs.1
      · exact hrec
      · exact ⟨rfl, k2⟩

/-- C29: `solve_nlte` carries nothing over.  Two runs at the same `T`, `n_e` and `time`
from states with the same atomic data (with indices in range), number density, `e_gamma`,
`use_betas` and `no_ground_recomb`, whatever their working fields hold, return the same
code and end with the same working fields: every level, ion and line in range, the rates
on the `n_levels` by `n_levels` block, and the buffers `M`, `b`, `x` and the permutation. -/
theorem C29_no_carry_over (pc : physical_constants K) (ext : Externals K)
    (s1 s2 : nlte_atom K) (T ne time : K) (hA : same_atomic_data s1 s2)
    (hV : valid_indices s1) :
    (solve_nlte pc ext s1 T ne time).1 = (solve_nlte pc ext s2 T ne time).1 ∧
    same_working (solve_nlte pc ext s1 T ne time).2 (solve_nlte pc ext s2 T ne time).2 := by
  have hR := nlte_init_records pc ext s1 s2 T ne time hA hV
  have hA2 : same_atomic_data (nlte_init pc ext s1 T ne time) (nlte_init pc ext s2 T ne time) :=
    same_atomic_data_trans _ _ _ (nlte_init_atomic pc ext s1 T ne time)
      (same_atomic_data_trans _ _ _ hA
        (same_atomic_data_symm _ _ (nlte_init_atomic pc ext s2 T ne time)))
  have hV2 : valid_indices (nlte_init pc ext s1 T ne time) :=
    valid_indices_of_atomic _ _
      (same_atomic_data_symm _ _ (nlte_init_atomic pc ext s1 T ne time)) hV
  have h := nlte_loop_agree pc ext T ne time 99 _ _ hA2 hV2 hR
  rw [solve_nlte_eq, solve_nlte_eq]
  exact h

end CarryOver

/-! ## Instances on the toy species -/

theorem ext_demo_exp_pos (x : ℚ) : 0 < ext_demo.exp x := by
  show (0 : ℚ) < (2 : ℚ) ^ (⌊x⌋ : ℤ)
  exact zpow_pos (by norm_num) _

theorem ext_demo_pow_pos (x y : ℚ) (hx : 0 < x) : 0 < ext_demo.pow x y := by
  show (0 : ℚ) < x ^ (⌊y⌋ : ℤ)
  exact zpow_pos hx _

/-- Instance of claim C4: the round trip after `solve_lte` on the toy species at
`T = 10000`, `n_e = 1e8`. -/
theorem C4_ion_fraction_round_trip_witness :
    ion_fracs_consistent
      (solve_lte (pc_cgs ℚ) ext_demo (toy_atom ℚ) 10000 100000000 1000000) :=
  (C4_ion_fraction_round_trip (pc_cgs ℚ) ext_demo (toy_atom ℚ) 10000 100000000 1000000).1
    ext_demo_exp_pos (by norm_num) (by norm_num [pc_cgs]) (by decide) (by decide)

/-- Instance of claim C5 on the toy species at `T = 10000`: the fractions sum to 1 both at
`n_e = 0` and at `n_e = 1e8`. -/
theorem C5_ion_fractions_sum_to_one_witness :
    ∑ k in Finset.range 2,
      ((solve_lte (pc_cgs ℚ) ext_demo (toy_atom ℚ) 10000 0 1000000).ions k).frac = 1 ∧
    ∑ k in Finset.range 2,
      ((solve_lte (pc_cgs ℚ) ext_demo (toy_atom ℚ) 10000 100000000 1000000).ions k).frac = 1 :=
  ⟨((C5_ion_fractions_sum_to_one (pc_cgs ℚ) ext_demo (toy_atom ℚ) 10000 0 1000000
      (by decide)).1 (by norm_num)).2.2,
   (C5_ion_fractions_sum_to_one (pc_cgs ℚ) ext_demo (toy_atom ℚ) 10000 100000000 1000000
      (by decide)).2 (by norm_num) (by norm_num) ext_demo_exp_pos ext_demo_pow_pos
      (by norm_num [pc_cgs]) (by norm_num [pc_cgs]) (by norm_num [pc_cgs])
      (by norm_num [pc_cgs]) (by norm_num [pc_cgs]) (by decide) (by decide)⟩

/-- Instance of claim C6 on the two-level species with only the collisional channel, at
`T = 10000`, `n_e = 1e8`: the rates balance, the matrix is regular, the Cramer solve is
exact, and level 1 keeps its LTE population with `b = 1`. -/
theorem C6_lte_reproduced_witness :
    ((solve_nlte (pc_cgs ℚ) ext_demo (two_level_quiet ℚ) 10000 100000000 1000000).2.levels 1).b
      = 1 ∧
    ((solve_nlte (pc_cgs ℚ) ext_demo (two_level_quiet ℚ) 10000 100000000 1000000).2.levels 1).n
      = ((solve_lte (pc_cgs ℚ) ext_demo (two_level_quiet ℚ) 10000 100000000 1000000).levels 1).n :=
  (C6_lte_reproduced (pc_cgs ℚ) ext_demo (two_level_quiet ℚ) 10000 100000000 1000000 rfl).2
    (by decide)
    (by intro i hi
        have hi0 : i = 0 := by
          have : i + 1 < 2 := hi
          omega
        subst hi0
        unfold rates_balance
        decide!)
    (by decide!)
    (not_singular_two _ (by decide!))
    (by unfold solves; decide!)
    1 (by decide)

/-- Instance of claim C7 on the toy species at `n_e = 0`, where the matrix is singular:
`solve_nlte` returns 1. -/
theorem C7_solve_outcome_not_inspected_witness :
    (solve_nlte (pc_cgs ℚ) ext_demo (toy_atom ℚ) 10000 0 1000000).1 = 1 :=
  (C7_solve_outcome_not_inspected (pc_cgs ℚ) ext_demo (toy_atom ℚ) 10000 0 1000000).1 rfl

/-- Instance of claim C8: two-level species with an empty lower level and upper-level
population 5. -/
theorem C8_empty_lower_level_witness :
    (compute_sobolev_tau (pc_cgs ℚ) ext_demo (two_level_pops ℚ 0 5) 0 1000000).1 = 0 ∧
    ((compute_sobolev_tau (pc_cgs ℚ) ext_demo (two_level_pops ℚ 0 5) 0 1000000).2.lines 0).beta
      = 1 :=
  ⟨(C8_empty_lower_level (pc_cgs ℚ) ext_demo (two_level_pops ℚ 0 5) 0 1000000
      (by decide!)).1,
   (C8_empty_lower_level (pc_cgs ℚ) ext_demo (two_level_pops ℚ 0 5) 0 1000000
      (by decide!)).2.2.1.2.2⟩

/-- Instance of claim C9: two-level species with populations 1 (lower) and 2 (upper) and
equal weights. -/
theorem C9_inversion_clamped_witness :
    (compute_sobolev_tau (pc_cgs ℚ) ext_demo (two_level_pops ℚ 1 2) 0 1000000).1 = 0 ∧
    ((compute_sobolev_tau (pc_cgs ℚ) ext_demo (two_level_pops ℚ 1 2) 0 1000000).2.lines 0).tau
      = 0 :=
  ⟨(C9_inversion_clamped (pc_cgs ℚ) ext_demo (two_level_pops ℚ 1 2) 0 1000000
      (by decide!)).1,
   (C9_inversion_clamped (pc_cgs ℚ) ext_demo (two_level_pops ℚ 1 2) 0 1000000
      (by decide!)).2.2.1.1⟩

/-- Instance of claim C10: the inverted two-level species (populations 1 and 2) and the one
with an empty lower level (populations 0 and 0). -/
theorem C10_inversion_not_recorded_witness :
    compute_sobolev_tau (pc_cgs ℚ) ext_demo (two_level_pops ℚ 1 2) 0 1000000 =
      (0, set_line (two_level_pops ℚ 1 2) 0 (clamped_line ((two_level_pops ℚ 1 2).lines 0))) ∧
    compute_sobolev_tau (pc_cgs ℚ) ext_demo (two_level_pops ℚ 0 0) 0 1000000 =
      (0, set_line (two_level_pops ℚ 0 0) 0 (clamped_line ((two_level_pops ℚ 0 0).lines 0))) :=
  ⟨((C10_inversion_not_recorded (pc_cgs ℚ) ext_demo (two_level_pops ℚ 1 2) 0 1000000).1
      (by unfold inverted; decide!) (by unfold lower_empty; decide!)).1,
   ((C10_inversion_not_recorded (pc_cgs ℚ) ext_demo (two_level_pops ℚ 0 0) 0 1000000).2
      (by unfold lower_empty; decide!)).1⟩

/-- Instance of claim C12: the allowed line of the two-level species with populations 1 and
0 at `time = 1e6`. -/
theorem C12_tau_nonneg_witness :
    0 ≤ (compute_sobolev_tau (pc_cgs ℚ) ext_demo (two_level_line ℚ 1 0) 0 1000000).1 ∧
    0 ≤ (compute_sobolev_tau_opac (pc_cgs ℚ) ext_demo (two_level_line ℚ 1 0) 0 1000000).1 :=
  ⟨((C12_tau_nonneg (pc_cgs ℚ) ext_demo (two_level_line ℚ 1 0) 0 1000000
      (by decide) (by decide!) (by decide!) (by decide!) (by decide!)).1
      (by decide!) (by decide!)).1,
   ((C12_tau_nonneg (pc_cgs ℚ) ext_demo (two_level_line ℚ 1 0) 0 1000000
      (by decide) (by decide!) (by decide!) (by decide!) (by decide!)).2
      (by decide!)).1⟩

/-- Instance of claim C13: the allowed line of the two-level species with populations 1 and
0 at `time = 1e6`. -/
theorem C13_regular_case_witness :
    (compute_sobolev_tau (pc_cgs ℚ) ext_demo (two_level_line ℚ 1 0) 0 1000000).1 =
      sobolev_tau (pc_cgs ℚ) (two_level_line ℚ 1 0) 0 1000000
        (((two_level_line ℚ 1 0).lines 0).lam * (pc_cgs ℚ).angs_to_cm) :=
  (C13_regular_case (pc_cgs ℚ) ext_demo (two_level_line ℚ 1 0) 0 1000000
    (by decide!) (by decide!)).1.1

/-- Instance of claim C14 on the two-level species with only the collisional channel. -/
theorem C14_single_pass_witness :
    (solve_nlte (pc_cgs ℚ) ext_demo (two_level_quiet ℚ) 10000 100000000 1000000).1 = 1 ∧
    nlte_loop_iters (pc_cgs ℚ) ext_demo 10000 100000000 1000000 100
      (nlte_init (pc_cgs ℚ) ext_demo (two_level_quiet ℚ) 10000 100000000 1000000) = 1 :=
  ⟨congrArg Prod.fst
     (C14_single_pass (pc_cgs ℚ) ext_demo (two_level_quiet ℚ) 10000 100000000 1000000 rfl).1,
   (C14_single_pass (pc_cgs ℚ) ext_demo (two_level_quiet ℚ) 10000 100000000 1000000 rfl).2.1⟩

set_option maxRecDepth 100000 in
/-- Instance of claim C16: the two-level species with the allowed line, escape feedback and
non-thermal deposition `8e-13`, at `T = 10000`, `n_e = 1e8`, `time = 1e9`.  The escape
probability alternates between two values, the beta test fails 100 times and `solve_nlte`
returns 0. -/
theorem C16_iteration_cap_witness :
    (solve_nlte (pc_cgs ℚ) ext_demo (two_level_feedback ℚ (8 / 10000000000000))
      10000 100000000 1000000000).1 = 0 ∧
    nlte_loop_iters (pc_cgs ℚ) ext_demo 10000 100000000 1000000000 100
      (nlte_init (pc_cgs ℚ) ext_demo (two_level_feedback ℚ (8 / 10000000000000))
        10000 100000000 1000000000) = 100 :=
  (fun h => ⟨h.1, h.2.1⟩)
    ((C16_iteration_cap (pc_cgs ℚ) ext_demo (two_level_feedback ℚ (8 / 10000000000000))
      10000 100000000 1000000000).2 rfl
      (nlte_loop_zero_code (pc_cgs ℚ) ext_demo 10000 100000000 1000000000 _ (by decide!) 100
        (by decide!)))

/-- Instance of claim C18: the two levels of the two-level species at `T = 10000`. -/
theorem C18_collisional_channel_witness :
    collisional_channel (pc_cgs ℚ) ext_demo (two_level_quiet ℚ) 10000 0 1 =
      collisional_channel (pc_cgs ℚ) ext_demo (two_level_quiet ℚ) 10000 1 0 *
        (((((two_level_quiet ℚ).levels 1).g : ℚ) / (((two_level_quiet ℚ).levels 0).g : ℚ)) *
          ext_demo.exp (-(|((two_level_quiet ℚ).levels 0).E - ((two_level_quiet ℚ).levels 1).E| /
            ((pc_cgs ℚ).k_ev * 10000)))) :=
  ((C18_collisional_channel (pc_cgs ℚ) ext_demo (two_level_quiet ℚ) 10000 (by norm_num)
    (by norm_num [pc_cgs])).2.2 0 1 (by decide) (by decide!)).2

/-- Instance of claim C20: level 0 of the toy species, which ionizes to level 1, at
`T = 10000`, `n_e = 1e8`. -/
theorem C20_bound_free_scaling_witness :
    C_rec (pc_cgs ℚ) ext_demo (toy_atom ℚ) 10000 100000000 0 =
      (5.59080e-16 * ((((toy_atom ℚ).levels 0).g : ℚ) /
        (((toy_atom ℚ).levels ((toy_atom ℚ).levels 0).ic.toNat).g : ℚ)) * 100000000 ^ 2) *
        (ext_demo.pow 10000 (-3) / zeta_ion (pc_cgs ℚ) (toy_atom ℚ) 10000 0 ^ 2) :=
  (C20_bound_free_scaling (pc_cgs ℚ) ext_demo (toy_atom ℚ) 10000 100000000 0
    (by decide)).2.2.2

/-- Instance of claim C21: the two-point table at `T = 10000`. -/
theorem C21_photoionization_rule_witness :
    photoionization_rate (pc_cgs ℚ) ext_demo (photo_table ℚ) 10000 =
      ∑ m in Finset.range ((photo_table ℚ).size - 1),
        photo_integrand (pc_cgs ℚ) ext_demo (photo_table ℚ) 10000 (m + 1) *
          (table_nu (pc_cgs ℚ) (photo_table ℚ) (m + 1) - table_nu (pc_cgs ℚ) (photo_table ℚ) m) :=
  (C21_photoionization_rule (pc_cgs ℚ) ext_demo 10000 100000000).1 (photo_table ℚ)

/-- Instance of claim C22: the line of the two-level species, which starts in level 0. -/
theorem C22_nonthermal_channel_witness :
    R_lu_nonthermal (pc_cgs ℚ) (two_level_atom ℚ) 0 =
      (two_level_atom ℚ).e_gamma / ((two_level_atom ℚ).n_dens *
        ((((two_level_atom ℚ).levels ((two_level_atom ℚ).lines 0).lu).E -
          ((two_level_atom ℚ).levels ((two_level_atom ℚ).lines 0).ll).E) *
            (pc_cgs ℚ).ev_to_ergs)) :=
  (C22_nonthermal_channel (pc_cgs ℚ) (two_level_atom ℚ)).2.1 0 (by decide)

/-- Instance of claim C23: the rate from level 0 to level 1 of the toy species. -/
theorem C23_rates_closed_form_witness :
    (set_rates (pc_cgs ℚ) ext_demo (toy_atom ℚ) 10000 100000000).rates 0 1 =
      (radiative_channel (toy_atom ℚ) 0 1 + nonthermal_channel (pc_cgs ℚ) (toy_atom ℚ) 0 1 +
        collisional_channel (pc_cgs ℚ) ext_demo (toy_atom ℚ) 10000 0 1 +
        bound_free_channel (pc_cgs ℚ) ext_demo (toy_atom ℚ) 10000 100000000 0 1) *
        ((toy_atom ℚ).levels 0).n_lte :=
  (C23_rates_closed_form (pc_cgs ℚ) ext_demo (toy_atom ℚ) 10000 100000000 0 1
    (by decide) (by decide)).1

/-- Instance of C24: bin 0 of the four-point grid for the populated toy species. -/
theorem C24_bound_free_opacity_witness :
    (0 : Nat) < (toy_members ℚ).nu_grid.size ∧
    (bound_free_opacity (pc_cgs ℚ) ext_demo (oext_demo ℚ) (toy_populated ℚ) (toy_members ℚ)
      (fun _ => 7) (fun _ => 7) 4 1).1 0 =
      ∑ j in Finset.range (toy_populated ℚ).n_levels,
        (if ((toy_populated ℚ).levels j).ic ≠ -1 ∧ ((toy_populated ℚ).levels j).E_ion ≤
            (pc_cgs ℚ).h * (toy_members ℚ).nu_grid.x 0 * (pc_cgs ℚ).ergs_to_ev
         then bound_free_term (pc_cgs ℚ) ext_demo (oext_demo ℚ) (toy_populated ℚ)
           (toy_members ℚ) 1
           ((pc_cgs ℚ).h * (toy_members ℚ).nu_grid.x 0 * (pc_cgs ℚ).ergs_to_ev) j
         else 0) :=
  ⟨by decide,
   (C24_bound_free_opacity (pc_cgs ℚ) ext_demo (oext_demo ℚ) (toy_populated ℚ)
    (toy_members ℚ) (fun _ => 7) (fun _ => 7) 4 1 0 (by decide)).1⟩

/-- Instance of C25: the line of the two-level species with an empty lower level. -/
theorem C25_skipped_line_witness :
    bound_bound_opacity (pc_cgs ℚ) (oext_demo ℚ) (two_level_pops ℚ 0 0) (toy_members ℚ)
        (fun _ => 7) (fun _ => 7) 4 =
      bound_bound_opacity (pc_cgs ℚ) (oext_demo ℚ) (remove_line (two_level_pops ℚ 0 0) 0)
        (toy_members ℚ) (fun _ => 7) (fun _ => 7) 4 :=
  (C25_skipped_line (pc_cgs ℚ) (oext_demo ℚ) (two_level_pops ℚ 0 0) (toy_members ℚ)
    (fun _ => 7) (fun _ => 7) 4 0 (by decide) (Or.inl rfl)).1

/-- Instance of C27 on the two-zone grid: zone 1 of the stream in the standard layout,
whose mass fractions 1 and 1 are stored as 1/2 and 1/2. -/
theorem C27_composition_normalized_witness :
    ((read_SNR_zones (pc_cgs ℚ) ext_demo 1 (toy_stream ℚ) false 0 (toy_grid ℚ)).2.z 1).X_gas_size
      = 2 ∧
    (∀ k, k < 2 → ((read_SNR_zones (pc_cgs ℚ) ext_demo 1 (toy_stream ℚ) false 0
        (toy_grid ℚ)).2.z 1).X_gas k = 1 / 2) ∧
    ∑ k in Finset.range 2,
      ((read_SNR_zones (pc_cgs ℚ) ext_demo 1 (toy_stream ℚ) false 0 (toy_grid ℚ)).2.z 1).X_gas k
        = 1 := by
  have h := (C27_composition_normalized (pc_cgs ℚ) ext_demo 1 (toy_grid ℚ) (toy_stream ℚ)
    (toy_stream ℚ) false 0 (fun _ _ => rfl) 1 (by decide)).2 (by decide!)
  refine ⟨h.1, fun k hk => ?_, h.2.2⟩
  have hk2 : k = 0 ∨ k = 1 := by omega
  rcases hk2 with hk2 | hk2
  · subst hk2
    rw [h.2.1 0 (by decide)]
    decide!
  · subst hk2
    rw [h.2.1 1 (by decide)]
    decide!

/-- C30 fails on the code.  An ion whose file lists three levels and the lines `0 -> 1` and
`1 -> 2`, read with `max_n_levels_ = 2`: the levels 0 and 1 are kept (`ground = 0`,
`k = 2`), and the line `1 -> 2` to the omitted level 2 passes the test
`lu > tot_n_levels` and is stored with `lu = 2 = ground + k`, one past the last level of the
list at that time. -/
theorem C30_line_to_omitted_level :
    (read_atomic_data_newstyle (pc_cgs ℚ) (fun _ => 0) (three_level_file ℚ)
      (empty_atom_data ℚ)).2.levels_size = 2 ∧
    ((read_atomic_data_newstyle (pc_cgs ℚ) (fun _ => 0) (three_level_file ℚ)
      (empty_atom_data ℚ)).2.ions_ 0).ground = 0 ∧
    (read_atomic_data_newstyle (pc_cgs ℚ) (fun _ => 0) (three_level_file ℚ)
      (empty_atom_data ℚ)).2.lines_size = 2 ∧
    ((read_atomic_data_newstyle (pc_cgs ℚ) (fun _ => 0) (three_level_file ℚ)
      (empty_atom_data ℚ)).2.lines_ 1).ll = 1 ∧
    ((read_atomic_data_newstyle (pc_cgs ℚ) (fun _ => 0) (three_level_file ℚ)
      (empty_atom_data ℚ)).2.lines_ 1).lu = 2 := by
  decide!

/-- Instance of C29: the two-level species with escape feedback, run from its clean state
and from the state with every working field scrambled. -/
theorem C29_no_carry_over_witness :
    (solve_nlte (pc_cgs ℚ) ext_demo (two_level_feedback ℚ 1) 10000 1 1).1 =
      (solve_nlte (pc_cgs ℚ) ext_demo (scrambled ℚ (two_level_feedback ℚ 1)) 10000 1 1).1 ∧
    same_working (solve_nlte (pc_cgs ℚ) ext_demo (two_level_feedback ℚ 1) 10000 1 1).2
      (solve_nlte (pc_cgs ℚ) ext_demo (scrambled ℚ (two_level_feedback ℚ 1)) 10000 1 1).2 :=
  C29_no_carry_over (pc_cgs ℚ) ext_demo (two_level_feedback ℚ 1)
    (scrambled ℚ (two_level_feedback ℚ 1)) 10000 1 1
    ⟨rfl, rfl, rfl, rfl, rfl, rfl, rfl,
      fun _ _ => ⟨rfl, rfl, rfl, rfl, rfl, rfl, rfl, rfl⟩,
      fun _ _ => ⟨rfl, rfl, rfl⟩,
      fun _ _ => ⟨rfl, rfl, rfl, rfl, rfl, rfl, rfl, rfl, rfl⟩⟩
    ⟨fun i hi => by
        have hi2 : i < 2 := hi
        have h : i = 0 ∨ i = 1 := by omega
        rcases h with h | h <;> subst h <;> exact ⟨by decide, Or.inl rfl⟩,
      fun _ _ => ⟨show (0 : Nat) < 2 by decide, show (1 : Nat) < 2 by decide⟩⟩

theorem threshold_facts :
    ((threshold_atom ℚ).levels 0).ic = 1 ∧ ((threshold_atom ℚ).levels 1).ic = -1 ∧
    ((threshold_atom ℚ).levels 0).E_ion =
      (pc_cgs ℚ).h * (toy_members ℚ).nu_grid.x 3 * (pc_cgs ℚ).ergs_to_ev ∧
    ((threshold_atom ℚ).levels 0).s_photo = photo_table ℚ ∧
    (threshold_atom ℚ).n_dens = 1 ∧ ((threshold_atom ℚ).levels 0).n = 1 ∧
    ((threshold_atom ℚ).levels 1).n = 0 ∧ (threshold_atom ℚ).n_levels = 2 :=
  ⟨rfl, rfl, by decide!, rfl, rfl, rfl, rfl, rfl⟩

theorem threshold_phifac (v : xy_array ℚ → ℚ → ℚ) :
    nc_phifac (pc_cgs ℚ) { oext_demo ℚ with value_at_with_zero_edges := v } (threshold_atom ℚ)
      (toy_members ℚ) 0 = 0 := by
  obtain ⟨i0, i1, -, -, hd, -, n1, hn⟩ := threshold_facts
  unfold nc_phifac
  rw [hn]
  simp only [forLoop, i0, i1, n1, hd]
  simp [n1]

theorem threshold_opacity (v : xy_array ℚ → ℚ → ℚ) :
    (bound_free_opacity (pc_cgs ℚ) ext_demo { oext_demo ℚ with value_at_with_zero_edges := v }
      (threshold_atom ℚ) (toy_members ℚ) (fun _ => 0) (fun _ => 0) 4 1).1 3 =
      v (photo_table ℚ)
        ((pc_cgs ℚ).h * (toy_members ℚ).nu_grid.x 3 * (pc_cgs ℚ).ergs_to_ev) := by
  obtain ⟨i0, i1, hE, hs, hd, n0, n1, hn⟩ := threshold_facts
  rw [(bound_free_opacity_spec (pc_cgs ℚ) ext_demo _ (threshold_atom ℚ) (toy_members ℚ)
    (fun _ => 0) (fun _ => 0) 4 1 3 (by decide)).1, hn, Finset.sum_range_succ,
    Finset.sum_range_succ, Finset.sum_range_zero, zero_add]
  rw [if_neg (by rw [hE, i0]; simp), if_pos (Or.inr i1), threshold_phifac v, hs, hd, n0]
  simp

theorem threshold_strict_sum (oext : OpacityExternals ℚ) :
    ∑ j in Finset.range (threshold_atom ℚ).n_levels,
      (if ((threshold_atom ℚ).levels j).ic ≠ -1 ∧ ((threshold_atom ℚ).levels j).E_ion <
          (pc_cgs ℚ).h * (toy_members ℚ).nu_grid.x 3 * (pc_cgs ℚ).ergs_to_ev
       then bound_free_term (pc_cgs ℚ) ext_demo oext (threshold_atom ℚ) (toy_members ℚ) 1
         ((pc_cgs ℚ).h * (toy_members ℚ).nu_grid.x 3 * (pc_cgs ℚ).ergs_to_ev) j
       else 0) = 0 := by
  obtain ⟨i0, i1, hE, hs, hd, n0, n1, hn⟩ := threshold_facts
  rw [hn, Finset.sum_range_succ, Finset.sum_range_succ, Finset.sum_range_zero, zero_add,
    if_neg (by rw [hE]; simp), if_neg (by rw [i1]; simp), add_zero]

/-- Claim C24 as the specification words it fails on the code.  Level 0 of the species has
an ionization target and its ionization energy exactly at the photon energy of bin 3 (about
16.54 eV), which lies inside the range of its cross-section table (13.6 to 27.2 eV): the
threshold is reached but not exceeded, and the code still adds the term of the level
(`sigma * n_dens * n_0`, the target level being empty), while the sum over the levels whose
threshold is exceeded is empty.  With the linear interpolation the extinction of the bin is
between 5.02e-18 and 5.03e-18 instead of 0, and whatever the interpolation routine returns,
the extinction differs from the sum of the claim unless the cross-section at that energy is
0. -/
theorem C24_counterexample :
    (((threshold_atom ℚ).levels 0).ic ≠ -1 ∧
      ((threshold_atom ℚ).levels 0).E_ion =
        (pc_cgs ℚ).h * (toy_members ℚ).nu_grid.x 3 * (pc_cgs ℚ).ergs_to_ev ∧
      (((threshold_atom ℚ).levels 0).s_photo).x 0 <
        (pc_cgs ℚ).h * (toy_members ℚ).nu_grid.x 3 * (pc_cgs ℚ).ergs_to_ev ∧
      (pc_cgs ℚ).h * (toy_members ℚ).nu_grid.x 3 * (pc_cgs ℚ).ergs_to_ev <
        (((threshold_atom ℚ).levels 0).s_photo).x 1) ∧
    (5.02e-18 < (bound_free_opacity (pc_cgs ℚ) ext_demo (oext_demo ℚ) (threshold_atom ℚ)
        (toy_members ℚ) (fun _ => 0) (fun _ => 0) 4 1).1 3 ∧
      (bound_free_opacity (pc_cgs ℚ) ext_demo (oext_demo ℚ) (threshold_atom ℚ)
        (toy_members ℚ) (fun _ => 0) (fun _ => 0) 4 1).1 3 < 5.03e-18 ∧
      ∑ j in Finset.range (threshold_atom ℚ).n_levels,
        (if ((threshold_atom ℚ).levels j).ic ≠ -1 ∧ ((threshold_atom ℚ).levels j).E_ion <
            (pc_cgs ℚ).h * (toy_members ℚ).nu_grid.x 3 * (pc_cgs ℚ).ergs_to_ev
         then bound_free_term (pc_cgs ℚ) ext_demo (oext_demo ℚ) (threshold_atom ℚ)
           (toy_members ℚ) 1
           ((pc_cgs ℚ).h * (toy_members ℚ).nu_grid.x 3 * (pc_cgs ℚ).ergs_to_ev) j
         else 0) = 0) ∧
    ¬ ∃ v : xy_array ℚ → ℚ → ℚ,
      v (photo_table ℚ)
        ((pc_cgs ℚ).h * (toy_members ℚ).nu_grid.x 3 * (pc_cgs ℚ).ergs_to_ev) ≠ 0 ∧
      (bound_free_opacity (pc_cgs ℚ) ext_demo
        { oext_demo ℚ with value_at_with_zero_edges := v } (threshold_atom ℚ)
        (toy_members ℚ) (fun _ => 0) (fun _ => 0) 4 1).1 3 =
      ∑ j in Finset.range (threshold_atom ℚ).n_levels,
        (if ((threshold_atom ℚ).levels j).ic ≠ -1 ∧ ((threshold_atom ℚ).levels j).E_ion <
            (pc_cgs ℚ).h * (toy_members ℚ).nu_grid.x 3 * (pc_cgs ℚ).ergs_to_ev
         then bound_free_term (pc_cgs ℚ) ext_demo
           { oext_demo ℚ with value_at_with_zero_edges := v } (threshold_atom ℚ)
           (toy_members ℚ) 1
           ((pc_cgs ℚ).h * (toy_members ℚ).nu_grid.x 3 * (pc_cgs ℚ).ergs_to_ev) j
         else 0) := by
  refine ⟨⟨by decide, by decide!, by decide!, by decide!⟩,
    ⟨by decide!, by decide!, threshold_strict_sum _⟩, ?_⟩
  rintro ⟨v, hv, h⟩
  rw [threshold_opacity v, threshold_strict_sum] at h
  exact hv h

theorem one_sub_exp_eq_zero (x : ℝ) : (1 - Real.exp x = 0) = (x = 0) := by
  apply propext
  constructor
  · intro h
    exact (Real.exp_eq_one_iff x).mp (sub_eq_zero.mp h).symm
  · intro h
    rw [h, Real.exp_zero, sub_self]

theorem exp_sub_one_eq_zero (x : ℝ) : (Real.exp x - 1 = 0) = (x = 0) := by
  apply propext
  constructor
  · intro h
    exact (Real.exp_eq_one_iff x).mp (sub_eq_zero.mp h)
  · intro h
    rw [h, Real.exp_zero, sub_self]

/-! First pass of `solve_nlte` on the toy species with photoionization data at `T = 10000`,
`n_e = 0`, with the real `exp` and `pow`: level 1 has LTE population 0, and the only rate
that can be non-zero is the photoionization of level 0. -/

theorem toy_photo_init_n_levels :
    (nlte_init (pc_cgs ℝ) (externals_of ℝ Real.exp (fun x y => x ^ y))
      (toy_atom_photo ℝ) 10000 0 1000000).n_levels = 2 := by
  simp [nlte_init, solve_lte, lte_levels, lte_saha, lte_saha_ratios, lte_partition,
    compute_sobolev_taus, forLoop, toy_atom_photo, toy_with, set_ion, set_level]

set_option maxHeartbeats 1000000 in
theorem toy_photo_init_n_lte_0 :
    ((nlte_init (pc_cgs ℝ) (externals_of ℝ Real.exp (fun x y => x ^ y))
      (toy_atom_photo ℝ) 10000 0 1000000).levels 0).n_lte = 1 := by
  simp [nlte_init, solve_lte, lte_levels, lte_saha, lte_saha_ratios, lte_partition,
    compute_sobolev_taus, forLoop, toy_atom_photo, toy_with, set_ion, set_level,
    Function.update_apply, externals_of]
  norm_num

set_option maxHeartbeats 1000000 in
theorem toy_photo_init_n_lte_1 :
    ((nlte_init (pc_cgs ℝ) (externals_of ℝ Real.exp (fun x y => x ^ y))
      (toy_atom_photo ℝ) 10000 0 1000000).levels 1).n_lte = 0 := by
  simp [nlte_init, solve_lte, lte_levels, lte_saha, lte_saha_ratios, lte_partition,
    compute_sobolev_taus, forLoop, toy_atom_photo, toy_with, set_ion, set_level,
    Function.update_apply, externals_of]

set_option maxHeartbeats 2000000 in
theorem toy_photo_rates_0_0 :
    (set_rates (pc_cgs ℝ) (externals_of ℝ Real.exp (fun x y => x ^ y))
      (nlte_init (pc_cgs ℝ) (externals_of ℝ Real.exp (fun x y => x ^ y))
        (toy_atom_photo ℝ) 10000 0 1000000) 10000 0).rates 0 0 = 0 := by
  simp [set_rates, nlte_init, solve_lte, lte_levels, lte_saha, lte_saha_ratios,
    lte_partition, compute_sobolev_taus, forLoop, toy_atom_photo, toy_with, photo_table, empty_table,
    set_ion, set_level, set_rate, add_rate, Function.update_apply, externals_of,
    xy_array.size, photoionization_rate]

set_option maxHeartbeats 2000000 in
theorem toy_photo_rates_1_0 :
    (set_rates (pc_cgs ℝ) (externals_of ℝ Real.exp (fun x y => x ^ y))
      (nlte_init (pc_cgs ℝ) (externals_of ℝ Real.exp (fun x y => x ^ y))
        (toy_atom_photo ℝ) 10000 0 1000000) 10000 0).rates 1 0 = 0 := by
  simp [set_rates, nlte_init, solve_lte, lte_levels, lte_saha, lte_saha_ratios,
    lte_partition, compute_sobolev_taus, forLoop, toy_atom_photo, toy_with, photo_table, empty_table,
    set_ion, set_level, set_rate, add_rate, Function.update_apply, externals_of,
    xy_array.size, photoionization_rate]

set_option maxHeartbeats 2000000 in
theorem toy_photo_rates_0_1 :
    (set_rates (pc_cgs ℝ) (externals_of ℝ Real.exp (fun x y => x ^ y))
      (nlte_init (pc_cgs ℝ) (externals_of ℝ Real.exp (fun x y => x ^ y))
        (toy_atom_photo ℝ) 10000 0 1000000) 10000 0).rates 0 1 ≠ 0 := by
  simp [set_rates, nlte_init, solve_lte, lte_levels, lte_saha, lte_saha_ratios,
    lte_partition, compute_sobolev_taus, forLoop, toy_atom_photo, toy_with, photo_table, empty_table,
    set_ion, set_level, set_rate, add_rate, Function.update_apply, externals_of,
    xy_array.size, photoionization_rate, pc_cgs, blackbody_nu]
  simp only [one_sub_exp_eq_zero, exp_sub_one_eq_zero]
  norm_num

/-- The system of the first pass on the toy species with photoionization data. -/
theorem toy_photo_system :
    (build_system (set_rates (pc_cgs ℝ) (externals_of ℝ Real.exp (fun x y => x ^ y))
      (nlte_init (pc_cgs ℝ) (externals_of ℝ Real.exp (fun x y => x ^ y))
        (toy_atom_photo ℝ) 10000 0 1000000) 10000 0)).M_nlte 0 0 ≠ 0 ∧
    (build_system (set_rates (pc_cgs ℝ) (externals_of ℝ Real.exp (fun x y => x ^ y))
      (nlte_init (pc_cgs ℝ) (externals_of ℝ Real.exp (fun x y => x ^ y))
        (toy_atom_photo ℝ) 10000 0 1000000) 10000 0)).M_nlte 0 1 = 0 ∧
    (build_system (set_rates (pc_cgs ℝ) (externals_of ℝ Real.exp (fun x y => x ^ y))
      (nlte_init (pc_cgs ℝ) (externals_of ℝ Real.exp (fun x y => x ^ y))
        (toy_atom_photo ℝ) 10000 0 1000000) 10000 0)).M_nlte 1 0 = 1 ∧
    (build_system (set_rates (pc_cgs ℝ) (externals_of ℝ Real.exp (fun x y => x ^ y))
      (nlte_init (pc_cgs ℝ) (externals_of ℝ Real.exp (fun x y => x ^ y))
        (toy_atom_photo ℝ) 10000 0 1000000) 10000 0)).M_nlte 1 1 = 0 ∧
    (build_system (set_rates (pc_cgs ℝ) (externals_of ℝ Real.exp (fun x y => x ^ y))
      (nlte_init (pc_cgs ℝ) (externals_of ℝ Real.exp (fun x y => x ^ y))
        (toy_atom_photo ℝ) 10000 0 1000000) 10000 0)).b_nlte 0 = 0 ∧
    (build_system (set_rates (pc_cgs ℝ) (externals_of ℝ Real.exp (fun x y => x ^ y))
      (nlte_init (pc_cgs ℝ) (externals_of ℝ Real.exp (fun x y => x ^ y))
        (toy_atom_photo ℝ) 10000 0 1000000) 10000 0)).b_nlte 1 = 1 := by
  have hn : (set_rates (pc_cgs ℝ) (externals_of ℝ Real.exp (fun x y => x ^ y))
      (nlte_init (pc_cgs ℝ) (externals_of ℝ Real.exp (fun x y => x ^ y))
        (toy_atom_photo ℝ) 10000 0 1000000) 10000 0).n_levels = 2 :=
    (set_rates_frame _ _ _ _ _).1.trans toy_photo_init_n_levels
  have hl := (set_rates_frame (pc_cgs ℝ) (externals_of ℝ Real.exp (fun x y => x ^ y))
      (nlte_init (pc_cgs ℝ) (externals_of ℝ Real.exp (fun x y => x ^ y))
        (toy_atom_photo ℝ) 10000 0 1000000) 10000 0).2.2.2.1
  obtain ⟨h00, h01, h10, h11, hb0, hb1⟩ := system_two _ hn
  refine ⟨?_, ?_, ?_, ?_, hb0, hb1⟩
  · rw [h00, toy_photo_rates_0_0, zero_add]
    exact neg_ne_zero.mpr toy_photo_rates_0_1
  · rw [h01, toy_photo_rates_1_0]
  · rw [h10, hl, toy_photo_init_n_lte_0]
  · rw [h11, hl, toy_photo_init_n_lte_1]

/-- Claim C2 fails on the code.  Toy species with a photoionization table, `T = 10000`,
`n_e = 0`, real `exp` and `pow`: in the first iteration of `solve_nlte` row 0 of the matrix
sums to minus the photoionization rate of level 0, which is not zero. -/
theorem C2_counterexample :
    ∑ j in Finset.range 2, (build_system (set_rates (pc_cgs ℝ) (externals_of ℝ Real.exp (fun x y => x ^ y))
      (nlte_init (pc_cgs ℝ) (externals_of ℝ Real.exp (fun x y => x ^ y))
        (toy_atom_photo ℝ) 10000 0 1000000) 10000 0)).M_nlte 0 j ≠ 0 := by
  obtain ⟨h00, h01, -, -, -, -⟩ := toy_photo_system
  rw [Finset.sum_range_succ, Finset.sum_range_succ, Finset.sum_range_zero, zero_add, h01,
    add_zero]
  exact h00

/-- Claim C7 fails on the code.  Toy species with a photoionization table, escape feedback
off, `T = 10000`, `n_e = 0`, real `exp` and `pow`: the matrix of the first pass is singular
and the system has no solution at all, yet `solve_nlte` returns 1 and leaves in every level
the population `x[i] * n_lte[i]` of the vector the failed solve left behind. -/
theorem C7_counterexample :
    singular 2 (build_system (set_rates (pc_cgs ℝ) (externals_of ℝ Real.exp (fun x y => x ^ y))
      (nlte_init (pc_cgs ℝ) (externals_of ℝ Real.exp (fun x y => x ^ y))
        (toy_atom_photo ℝ) 10000 0 1000000) 10000 0)).M_nlte ∧
    (¬ ∃ y : Nat → ℝ, solves 2 (build_system (set_rates (pc_cgs ℝ) (externals_of ℝ Real.exp (fun x y => x ^ y))
      (nlte_init (pc_cgs ℝ) (externals_of ℝ Real.exp (fun x y => x ^ y))
        (toy_atom_photo ℝ) 10000 0 1000000) 10000 0)).M_nlte
      (build_system (set_rates (pc_cgs ℝ) (externals_of ℝ Real.exp (fun x y => x ^ y))
      (nlte_init (pc_cgs ℝ) (externals_of ℝ Real.exp (fun x y => x ^ y))
        (toy_atom_photo ℝ) 10000 0 1000000) 10000 0)).b_nlte y) ∧
    (solve_nlte (pc_cgs ℝ) (externals_of ℝ Real.exp (fun x y => x ^ y))
      (toy_atom_photo ℝ) 10000 0 1000000).1 = 1 ∧
    ∀ i, i < 2 →
      ((solve_nlte (pc_cgs ℝ) (externals_of ℝ Real.exp (fun x y => x ^ y))
      (toy_atom_photo ℝ) 10000 0 1000000).2.levels i).n =
        (solve_nlte (pc_cgs ℝ) (externals_of ℝ Real.exp (fun x y => x ^ y))
      (toy_atom_photo ℝ) 10000 0 1000000).2.x_nlte i *
          ((nlte_init (pc_cgs ℝ) (externals_of ℝ Real.exp (fun x y => x ^ y))
            (toy_atom_photo ℝ) 10000 0 1000000).levels i).n_lte := by
  obtain ⟨h00, h01, h10, h11, hb0, hb1⟩ := toy_photo_system
  refine ⟨?_, ?_, ?_, ?_⟩
  · refine ⟨fun i => if i = 1 then 1 else 0, ⟨1, by decide, by simp⟩, ?_⟩
    intro i hi
    interval_cases i <;> simp [Finset.sum_range_succ, h01, h11]
  · rintro ⟨y, hy⟩
    have e0 := hy 0 (by decide)
    have e1 := hy 1 (by decide)
    simp only [Finset.sum_range_succ, Finset.sum_range_zero, zero_add, h01, h10, h11, hb0,
      hb1, zero_mul, add_zero, one_mul] at e0 e1
    have y0 : y 0 = 0 := (mul_eq_zero.mp e0).resolve_left h00
    rw [y0] at e1
    exact zero_ne_one e1
  · rw [solve_nlte_one_pass _ _ _ _ _ _ rfl]
  · intro i hi
    rw [solve_nlte_one_pass _ _ _ _ _ _ rfl]
    have hL := (nlte_pass_spec (pc_cgs ℝ) (externals_of ℝ Real.exp (fun x y => x ^ y))
      (nlte_init (pc_cgs ℝ) (externals_of ℝ Real.exp (fun x y => x ^ y))
        (toy_atom_photo ℝ) 10000 0 1000000) 10000 0).2.2.2.2.2.1 i
    rw [toy_photo_init_n_levels, if_pos hi] at hL
    show ((nlte_pass (pc_cgs ℝ) (externals_of ℝ Real.exp (fun x y => x ^ y))
      (nlte_init (pc_cgs ℝ) (externals_of ℝ Real.exp (fun x y => x ^ y))
        (toy_atom_photo ℝ) 10000 0 1000000) 10000 0).levels i).n = _
    rw [hL]

/-- Claim C10 fails on the code.  Two-level species with equal weights, once inverted
(populations 1 and 2) and once with an empty lower level (populations 0 and 0): in both
versions of `compute_sobolev_tau` the two calls return the same value 0 and leave the same
line records, and each leaves its own input state with only that line rewritten; nothing
tells the inversion from the empty level. -/
theorem C10_counterexample :
    inverted (two_level_pops ℝ 1 2) 0 ∧ ¬ lower_empty (two_level_pops ℝ 1 2) 0 ∧
    lower_empty (two_level_pops ℝ 0 0) 0 ∧ ¬ inverted (two_level_pops ℝ 0 0) 0 ∧
    (compute_sobolev_tau (pc_cgs ℝ) (externals_of ℝ Real.exp (fun x y => x ^ y))
        (two_level_pops ℝ 1 2) 0 1000000).1 =
      (compute_sobolev_tau (pc_cgs ℝ) (externals_of ℝ Real.exp (fun x y => x ^ y))
        (two_level_pops ℝ 0 0) 0 1000000).1 ∧
    (compute_sobolev_tau (pc_cgs ℝ) (externals_of ℝ Real.exp (fun x y => x ^ y))
        (two_level_pops ℝ 1 2) 0 1000000).2.lines =
      (compute_sobolev_tau (pc_cgs ℝ) (externals_of ℝ Real.exp (fun x y => x ^ y))
        (two_level_pops ℝ 0 0) 0 1000000).2.lines ∧
    (compute_sobolev_tau (pc_cgs ℝ) (externals_of ℝ Real.exp (fun x y => x ^ y))
        (two_level_pops ℝ 1 2) 0 1000000).2 =
      set_line (two_level_pops ℝ 1 2) 0 (clamped_line ((two_level_atom ℝ).lines 0)) ∧
    (compute_sobolev_tau (pc_cgs ℝ) (externals_of ℝ Real.exp (fun x y => x ^ y))
        (two_level_pops ℝ 0 0) 0 1000000).2 =
      set_line (two_level_pops ℝ 0 0) 0 (clamped_line ((two_level_atom ℝ).lines 0)) ∧
    compute_sobolev_tau_opac (pc_cgs ℝ) (externals_of ℝ Real.exp (fun x y => x ^ y))
        (two_level_pops ℝ 1 2) 0 1000000 =
      compute_sobolev_tau (pc_cgs ℝ) (externals_of ℝ Real.exp (fun x y => x ^ y))
        (two_level_pops ℝ 1 2) 0 1000000 ∧
    compute_sobolev_tau_opac (pc_cgs ℝ) (externals_of ℝ Real.exp (fun x y => x ^ y))
        (two_level_pops ℝ 0 0) 0 1000000 =
      compute_sobolev_tau (pc_cgs ℝ) (externals_of ℝ Real.exp (fun x y => x ^ y))
        (two_level_pops ℝ 0 0) 0 1000000 := by
  have hinv : inverted (two_level_pops ℝ 1 2) 0 := by
    unfold inverted
    norm_num [two_level_pops, two_level_atom, zero_line]
  have hne : ¬ lower_empty (two_level_pops ℝ 1 2) 0 := by
    unfold lower_empty dbl_min
    norm_num [two_level_pops, two_level_atom, zero_line]
  have hem : lower_empty (two_level_pops ℝ 0 0) 0 := by
    unfold lower_empty dbl_min
    norm_num [two_level_pops, two_level_atom, zero_line]
  have hni : ¬ inverted (two_level_pops ℝ 0 0) 0 := by
    unfold inverted
    norm_num [two_level_pops, two_level_atom, zero_line]
  obtain ⟨a1, a2, -⟩ := sobolev_clamped (pc_cgs ℝ) (externals_of ℝ Real.exp (fun x y => x ^ y))
    (two_level_pops ℝ 1 2) 0 1000000 (Or.inr hinv)
  obtain ⟨b1, b2, -⟩ := sobolev_clamped (pc_cgs ℝ) (externals_of ℝ Real.exp (fun x y => x ^ y))
    (two_level_pops ℝ 0 0) 0 1000000 (Or.inl hem)
  refine ⟨hinv, hne, hem, hni, ?_, ?_, ?_, ?_, ?_, ?_⟩
  · rw [a1, b1]
  · rw [a1, b1]; rfl
  · rw [a1]; rfl
  · rw [b1]; rfl
  · rw [a1, a2]
  · rw [b1, b2]

/-- With the true exponential the escape probability of a positive optical depth lies
strictly between 0 and 1. -/
theorem regular_line_beta_range (p : ℝ → ℝ → ℝ) (l : nlte_line ℝ) (tau : ℝ) (h : 0 < tau) :
    0 < (regular_line (externals_of ℝ Real.exp p) l tau).beta ∧
    (regular_line (externals_of ℝ Real.exp p) l tau).beta < 1 := by
  show 0 < (1 - Real.exp (-tau)) / tau ∧ (1 - Real.exp (-tau)) / tau < 1
  have h1 : Real.exp (-tau) < 1 := by
    have h0 := Real.exp_lt_exp.mpr (show -tau < 0 by linarith)
    rwa [Real.exp_zero] at h0
  have h2 : -tau + 1 < Real.exp (-tau) := Real.add_one_lt_exp (by linarith)
  refine ⟨div_pos (by linarith) h, ?_⟩
  rw [div_lt_one h]
  linarith

/-- Claim C11, where the code departs from it.  A line whose optical depth comes out as 0 in
the regular branch, here a forbidden line (`f_lu = 0`) with lower population 1 and upper
population 0, a line with equal populations and weights, and an allowed line at `time = 0`:
the lower level is not empty and nothing is inverted, the stored values are `tau = 0` and
`etau = exp(-0) = 1`, and the stored `beta` is the quotient `(1 - etau) / tau`, that is
`0 / 0`: not a number in IEEE arithmetic and 0 under the convention of this development, in
neither case a value in `(0, 1]`. -/
theorem C11_beta_at_zero_depth :
    (¬ lower_empty (two_level_pops ℝ 1 0) 0 ∧ ¬ inverted (two_level_pops ℝ 1 0) 0 ∧
      ((compute_sobolev_tau (pc_cgs ℝ) (externals_of ℝ Real.exp (fun x y => x ^ y))
        (two_level_pops ℝ 1 0) 0 1000000).2.lines 0).tau = 0 ∧
      ((compute_sobolev_tau (pc_cgs ℝ) (externals_of ℝ Real.exp (fun x y => x ^ y))
        (two_level_pops ℝ 1 0) 0 1000000).2.lines 0).etau = 1 ∧
      ((compute_sobolev_tau (pc_cgs ℝ) (externals_of ℝ Real.exp (fun x y => x ^ y))
        (two_level_pops ℝ 1 0) 0 1000000).2.lines 0).beta = (1 - 1) / 0 ∧
      ¬ (0 < ((compute_sobolev_tau (pc_cgs ℝ) (externals_of ℝ Real.exp (fun x y => x ^ y))
          (two_level_pops ℝ 1 0) 0 1000000).2.lines 0).beta)) ∧
    (¬ lower_empty (two_level_line ℝ 1 1) 0 ∧ ¬ inverted (two_level_line ℝ 1 1) 0 ∧
      ((compute_sobolev_tau (pc_cgs ℝ) (externals_of ℝ Real.exp (fun x y => x ^ y))
        (two_level_line ℝ 1 1) 0 1000000).2.lines 0).tau = 0 ∧
      ¬ (0 < ((compute_sobolev_tau (pc_cgs ℝ) (externals_of ℝ Real.exp (fun x y => x ^ y))
          (two_level_line ℝ 1 1) 0 1000000).2.lines 0).beta)) ∧
    (¬ lower_empty (two_level_line ℝ 1 0) 0 ∧ ¬ inverted (two_level_line ℝ 1 0) 0 ∧
      ((compute_sobolev_tau (pc_cgs ℝ) (externals_of ℝ Real.exp (fun x y => x ^ y))
        (two_level_line ℝ 1 0) 0 0).2.lines 0).tau = 0 ∧
      ¬ (0 < ((compute_sobolev_tau (pc_cgs ℝ) (externals_of ℝ Real.exp (fun x y => x ^ y))
          (two_level_line ℝ 1 0) 0 0).2.lines 0).beta)) := by
  have hmin : ¬ ((1 : ℝ) < dbl_min) := by
    unfold dbl_min
    norm_num
  have a1 : ¬ lower_empty (two_level_pops ℝ 1 0) 0 := by
    simpa [lower_empty, two_level_pops, two_level_atom] using hmin
  have b1 : ¬ inverted (two_level_pops ℝ 1 0) 0 := by
    simp [inverted, two_level_pops, two_level_atom]
  have a2 : ¬ lower_empty (two_level_line ℝ 1 1) 0 := by
    simpa [lower_empty, two_level_line, two_level_pops, two_level_atom] using hmin
  have b2 : ¬ inverted (two_level_line ℝ 1 1) 0 := by
    simp [inverted, two_level_line, two_level_pops, two_level_atom]
  have a3 : ¬ lower_empty (two_level_line ℝ 1 0) 0 := by
    simpa [lower_empty, two_level_line, two_level_pops, two_level_atom] using hmin
  have b3 : ¬ inverted (two_level_line ℝ 1 0) 0 := by
    simp [inverted, two_level_line, two_level_pops, two_level_atom]
  have t1 : sobolev_tau (pc_cgs ℝ) (two_level_pops ℝ 1 0) 0 1000000
      (((two_level_pops ℝ 1 0).lines 0).lam * (pc_cgs ℝ).angs_to_cm) = 0 := by
    simp [sobolev_tau, two_level_pops, two_level_atom, zero_line]
  have t2 : sobolev_tau (pc_cgs ℝ) (two_level_line ℝ 1 1) 0 1000000
      (((two_level_line ℝ 1 1).lines 0).lam * (pc_cgs ℝ).angs_to_cm) = 0 := by
    simp [sobolev_tau, two_level_line, two_level_pops, two_level_atom, zero_line]
  have t3 : sobolev_tau (pc_cgs ℝ) (two_level_line ℝ 1 0) 0 0
      (((two_level_line ℝ 1 0).lines 0).lam * (pc_cgs ℝ).angs_to_cm) = 0 := by
    simp [sobolev_tau, two_level_line, two_level_pops, two_level_atom, zero_line]
  rw [(sobolev_regular _ _ _ _ _ a1 b1).1, (sobolev_regular _ _ _ _ _ a2 b2).1,
    (sobolev_regular _ _ _ _ _ a3 b3).1, t1, t2, t3]
  simp [set_line_apply, regular_line, externals_of, a1, b1, a2, b2, a3, b3]

/-- Claim C20 as the specification words it fails for the three-body recombination.  For
level 0 of the toy species at `n_e = 1` there is no factor `F` independent of `T` with
`C_rec = F * pow(T, -3) * exp(-zeta) / zeta^2` for all `T > 0`: the temperatures 10000 and
20000 would need different factors. -/
theorem C20_counterexample :
    ¬ ∃ F : ℝ, ∀ T : ℝ, 0 < T →
      C_rec (pc_cgs ℝ) (externals_of ℝ Real.exp (fun x y => x ^ y)) (toy_atom ℝ) T 1 0 =
        F * ((externals_of ℝ Real.exp (fun x y => x ^ y)).pow T (-3) *
          (externals_of ℝ Real.exp (fun x y => x ^ y)).exp
            (-zeta_ion (pc_cgs ℝ) (toy_atom ℝ) T 0) /
          zeta_ion (pc_cgs ℝ) (toy_atom ℝ) T 0 ^ 2) := by
  rintro ⟨F, hF⟩
  have h1 := hF 10000 (by norm_num)
  have h2 := hF 20000 (by norm_num)
  rw [C_rec_scaling] at h1 h2
  simp [zeta_ion, toy_atom, toy_with, pc_cgs, externals_of] at h1 h2
  have hz1 : (0 : ℝ) < 13.6 / 86173324e-12 / 10000 := by norm_num
  have hz2 : (0 : ℝ) < 13.6 / 86173324e-12 / 20000 := by norm_num
  have hP1 : (0 : ℝ) < (10000 : ℝ) ^ (-3 : ℝ) := Real.rpow_pos_of_pos (by norm_num) _
  have hP2 : (0 : ℝ) < (20000 : ℝ) ^ (-3 : ℝ) := Real.rpow_pos_of_pos (by norm_num) _
  have k1 : (559080e-21 * 2 : ℝ) = F * Real.exp (-(13.6 / 86173324e-12 / 10000)) := by
    apply mul_right_cancel₀ (ne_of_gt (div_pos hP1 (pow_pos hz1 2)))
    rw [h1]
    ring
  have k2 : (559080e-21 * 2 : ℝ) = F * Real.exp (-(13.6 / 86173324e-12 / 20000)) := by
    apply mul_right_cancel₀ (ne_of_gt (div_pos hP2 (pow_pos hz2 2)))
    rw [h2]
    ring
  have hF0 : F ≠ 0 := by
    intro h0
    rw [h0, zero_mul] at k1
    norm_num at k1
  have he := mul_left_cancel₀ hF0 (k1.symm.trans k2)
  have hz := Real.exp_injective he
  norm_num at hz

/-- With the true exponential the photoionization integrand at a point of positive
frequency is `8 * pi * sigma * nu^2 / c^2 * exp(-h * nu / (k * T))`. -/
theorem photo_integrand_real (p : ℝ → ℝ → ℝ) (t : xy_array ℝ) (T : ℝ) (j : Nat)
    (hnu : 0 < table_nu (pc_cgs ℝ) t j) (hT : 0 < T) :
    photo_integrand (pc_cgs ℝ) (externals_of ℝ Real.exp p) t T j =
      8 * (pc_cgs ℝ).pi * t.y j * table_nu (pc_cgs ℝ) t j ^ 2 / (pc_cgs ℝ).c ^ 2 *
        Real.exp (-((pc_cgs ℝ).h * table_nu (pc_cgs ℝ) t j / ((pc_cgs ℝ).k * T))) := by
  have hh : (0 : ℝ) < (pc_cgs ℝ).h := by norm_num [pc_cgs]
  have hk : (0 : ℝ) < (pc_cgs ℝ).k := by norm_num [pc_cgs]
  have hc : (0 : ℝ) < (pc_cgs ℝ).c := by norm_num [pc_cgs]
  unfold photo_integrand blackbody_nu
  generalize table_nu (pc_cgs ℝ) t j = nu at hnu ⊢
  have hx : 0 < (pc_cgs ℝ).h * nu / ((pc_cgs ℝ).k * T) :=
    div_pos (mul_pos hh hnu) (mul_pos hk hT)
  show 4 * (pc_cgs ℝ).pi * t.y j *
      (2 * nu * nu * nu * (pc_cgs ℝ).h / (pc_cgs ℝ).c / (pc_cgs ℝ).c /
        (Real.exp ((pc_cgs ℝ).h * nu / (pc_cgs ℝ).k / T) - 1)) / ((pc_cgs ℝ).h * nu) *
      (1 - Real.exp (-(pc_cgs ℝ).h * nu / ((pc_cgs ℝ).k * T))) = _
  rw [div_div ((pc_cgs ℝ).h * nu), neg_mul, neg_div]
  generalize (pc_cgs ℝ).h * nu / ((pc_cgs ℝ).k * T) = x at hx ⊢
  have hE : 1 < Real.exp x := by
    have := Real.add_one_lt_exp (ne_of_gt hx)
    linarith
  rw [Real.exp_neg]
  have h1 : Real.exp x - 1 ≠ 0 := by linarith
  have h2 : Real.exp x ≠ 0 := by linarith
  have h3 : (pc_cgs ℝ).h * nu ≠ 0 := ne_of_gt (mul_pos hh hnu)
  field_simp
  ring

/-- Claim C21 as the specification words it fails on the code.  For the two-point
hydrogenic table (13.6 eV and 27.2 eV) at `T = 10000`, with the true exponential, the
photoionization rate of `set_rates` differs from the trapezoidal rule: the code counts
the integrand at 27.2 eV over the whole interval, the trapezoidal rule the mean of the
integrand at the two ends, and the two values of the integrand differ. -/
theorem C21_counterexample :
    photoionization_rate (pc_cgs ℝ) (externals_of ℝ Real.exp (fun x y => x ^ y))
        (photo_table ℝ) 10000 ≠
      trapezoid_rule (pc_cgs ℝ) (externals_of ℝ Real.exp (fun x y => x ^ y))
        (photo_table ℝ) 10000 := by
  rw [photoionization_rate_spec]
  have hs : (photo_table ℝ).size - 1 = 1 := rfl
  unfold right_endpoint_rule trapezoid_rule
  rw [hs, Finset.sum_range_one, Finset.sum_range_one]
  have n0 : table_nu (pc_cgs ℝ) (photo_table ℝ) 0 = 13.6 * 1.60217646e-12 / 6.6260755e-27 := by
    simp [table_nu, photo_table, pc_cgs]
  have n1 : table_nu (pc_cgs ℝ) (photo_table ℝ) (0 + 1) =
      2 * (13.6 * 1.60217646e-12 / 6.6260755e-27) := by
    simp [table_nu, photo_table, pc_cgs]
    norm_num
  have hn0 : (0 : ℝ) < 13.6 * 1.60217646e-12 / 6.6260755e-27 := by norm_num
  rw [photo_integrand_real _ _ _ 0 (by rw [n0]; exact hn0) (by norm_num),
    photo_integrand_real _ _ _ (0 + 1) (by rw [n1]; linarith) (by norm_num), n0, n1]
  generalize (13.6 * 1.60217646e-12 / 6.6260755e-27 : ℝ) = nu at hn0
  have y0 : (photo_table ℝ).y 0 = 6e-18 := by simp [photo_table]
  have y1 : (photo_table ℝ).y (0 + 1) = 1.5e-18 := by simp [photo_table]
  rw [y0, y1]
  have hh : (0 : ℝ) < (pc_cgs ℝ).h := by norm_num [pc_cgs]
  have hk : (0 : ℝ) < (pc_cgs ℝ).k := by norm_num [pc_cgs]
  have hc : (0 : ℝ) < (pc_cgs ℝ).c := by norm_num [pc_cgs]
  have hpi : (0 : ℝ) < (pc_cgs ℝ).pi := by norm_num [pc_cgs]
  have hx : 0 < (pc_cgs ℝ).h * nu / ((pc_cgs ℝ).k * 10000) :=
    div_pos (mul_pos hh hn0) (mul_pos hk (by norm_num))
  have e2 : (pc_cgs ℝ).h * (2 * nu) / ((pc_cgs ℝ).k * 10000) =
      2 * ((pc_cgs ℝ).h * nu / ((pc_cgs ℝ).k * 10000)) := by ring
  rw [e2]
  generalize (pc_cgs ℝ).h * nu / ((pc_cgs ℝ).k * 10000) = x at hx
  have hlt : Real.exp (-(2 * x)) < Real.exp (-x) := Real.exp_lt_exp.mpr (by linarith)
  intro h
  have hA : 0 < 8 * (pc_cgs ℝ).pi * 6e-18 * nu ^ 2 / (pc_cgs ℝ).c ^ 2 := by positivity
  have e1 : 8 * (pc_cgs ℝ).pi * 1.5e-18 * (2 * nu) ^ 2 / (pc_cgs ℝ).c ^ 2 =
      8 * (pc_cgs ℝ).pi * 6e-18 * nu ^ 2 / (pc_cgs ℝ).c ^ 2 := by ring
  rw [e1] at h
  generalize 8 * (pc_cgs ℝ).pi * 6e-18 * nu ^ 2 / (pc_cgs ℝ).c ^ 2 = A at hA h
  have hd : (2 * nu - nu) = nu := by ring
  rw [hd] at h
  have : A * Real.exp (-(2 * x)) * nu = A * Real.exp (-x) * nu := by linarith
  have h2 := mul_right_cancel₀ (ne_of_gt hn0) this
  have h3 := mul_left_cancel₀ (ne_of_gt hA) h2
  linarith

theorem real_rpow_facts :
    (∀ x : ℝ, 0 < x → 0 < x ^ (1.5 : ℝ)) ∧
    (∀ x y : ℝ, 0 < x → x ≤ y → x ^ (1.5 : ℝ) ≤ y ^ (1.5 : ℝ)) :=
  ⟨fun x hx => Real.rpow_pos_of_pos hx _,
   fun x y hx hxy => Real.rpow_le_rpow hx.le hxy (by norm_num)⟩

theorem heavy_ratio (T : ℝ) (hT : 0 < T) :
    ((solve_lte (pc_cgs ℝ) (externals_of ℝ Real.exp (fun x y => x ^ y))
        (heavy_level_atom ℝ) T 1 1000000).ions 1).frac /
      ((solve_lte (pc_cgs ℝ) (externals_of ℝ Real.exp (fun x y => x ^ y))
        (heavy_level_atom ℝ) T 1 1000000).ions 0).frac =
    Real.exp (-1.0 * 0.86173324 / 8.6173324e-5 / T) *
      (1 / (1 + 1000000 * Real.exp (-34.4693296 / 8.6173324e-5 / T))) *
      saha_fac (pc_cgs ℝ) (externals_of ℝ Real.exp (fun x y => x ^ y)) T 1 := by
  have f1 := (solve_lte_spec (pc_cgs ℝ) (externals_of ℝ Real.exp (fun x y => x ^ y))
    (heavy_level_atom ℝ) T 1 1000000).2.2.1
  rw [f1 1 (by decide), f1 0 (by decide)]
  show lte_frac _ _ _ T 1 1 / lte_frac _ _ _ T 1 (1 - 1) = _
  rw [(lte_frac_ratio (pc_cgs ℝ) (externals_of ℝ Real.exp (fun x y => x ^ y))
    (heavy_level_atom ℝ) T 1 (fun x => Real.exp_pos x) real_rpow_facts.1
    (by norm_num [pc_cgs]) (by norm_num [pc_cgs]) (by norm_num [pc_cgs]) (by norm_num [pc_cgs])
    hT (by norm_num)
    (by
      intro i hi
      have hi2 : i < 3 := hi
      have h : i = 0 ∨ i = 1 ∨ i = 2 := by omega
      rcases h with h | h | h <;> subst h <;> decide)
    (by
      intro k hk
      have hk2 : k < 2 := hk
      have h : k = 0 ∨ k = 1 := by omega
      rcases h with h | h
      · exact ⟨0, by decide, by rw [h]; rfl⟩
      · exact ⟨2, by decide, by rw [h]; rfl⟩)
    1 (le_refl 1) (by decide)).1]
  simp [saha_ratio, lte_part, partition_fn, boltz, ion_chi, heavy_level_atom,
    Finset.sum_range_succ, externals_of, pc_cgs]

theorem saha_fac_quadruple (T : ℝ) (hT : 0 < T) :
    saha_fac (pc_cgs ℝ) (externals_of ℝ Real.exp (fun x y => x ^ y)) (4 * T) 1 =
      8 * saha_fac (pc_cgs ℝ) (externals_of ℝ Real.exp (fun x y => x ^ y)) T 1 := by
  unfold saha_fac
  show 2 / 1 / ((pc_cgs ℝ).h * (pc_cgs ℝ).h /
      (2.0 * (pc_cgs ℝ).pi * (pc_cgs ℝ).m_e * (pc_cgs ℝ).k * (4 * T))) ^ (1.5 : ℝ) =
    8 * (2 / 1 / ((pc_cgs ℝ).h * (pc_cgs ℝ).h /
      (2.0 * (pc_cgs ℝ).pi * (pc_cgs ℝ).m_e * (pc_cgs ℝ).k * T)) ^ (1.5 : ℝ))
  have hL : 0 < (pc_cgs ℝ).h * (pc_cgs ℝ).h /
      (2.0 * (pc_cgs ℝ).pi * (pc_cgs ℝ).m_e * (pc_cgs ℝ).k * (4 * T)) := by
    have : (0 : ℝ) < (pc_cgs ℝ).h * (pc_cgs ℝ).h /
        (2.0 * (pc_cgs ℝ).pi * (pc_cgs ℝ).m_e * (pc_cgs ℝ).k) := by norm_num [pc_cgs]
    have e : (pc_cgs ℝ).h * (pc_cgs ℝ).h /
        (2.0 * (pc_cgs ℝ).pi * (pc_cgs ℝ).m_e * (pc_cgs ℝ).k * (4 * T)) =
        (pc_cgs ℝ).h * (pc_cgs ℝ).h /
          (2.0 * (pc_cgs ℝ).pi * (pc_cgs ℝ).m_e * (pc_cgs ℝ).k) / (4 * T) := by
      rw [div_div]
    rw [e]
    positivity
  have e4 : (pc_cgs ℝ).h * (pc_cgs ℝ).h /
      (2.0 * (pc_cgs ℝ).pi * (pc_cgs ℝ).m_e * (pc_cgs ℝ).k * T) =
      4 * ((pc_cgs ℝ).h * (pc_cgs ℝ).h /
        (2.0 * (pc_cgs ℝ).pi * (pc_cgs ℝ).m_e * (pc_cgs ℝ).k * (4 * T))) := by
    have hT0 : T ≠ 0 := ne_of_gt hT
    have hc : (2.0 * (pc_cgs ℝ).pi * (pc_cgs ℝ).m_e * (pc_cgs ℝ).k : ℝ) ≠ 0 := by
      norm_num [pc_cgs]
    field_simp
    ring
  have h48 : (4 : ℝ) ^ (1.5 : ℝ) = 8 := by
    have h4 : (4 : ℝ) = 2 ^ (2 : ℝ) := by norm_num
    rw [h4, ← Real.rpow_mul (by norm_num)]
    norm_num
  rw [e4]
  generalize (pc_cgs ℝ).h * (pc_cgs ℝ).h /
      (2.0 * (pc_cgs ℝ).pi * (pc_cgs ℝ).m_e * (pc_cgs ℝ).k * (4 * T)) = L at hL
  rw [Real.mul_rpow (by norm_num) hL.le, h48]
  have hp : 0 < L ^ (1.5 : ℝ) := Real.rpow_pos_of_pos hL _
  field_simp
  ring

/-- Claim C26 as the specification words it fails on the code.  A species with a heavily
weighted level far above the ionization energy of its ion (ion 0 with `chi = 0.86173324 eV`
has a level at `34.4693296 eV` with weight 1e6), `n_e = 1`, true `exp` and `pow`: the ratio
`ions[1].frac / ions[0].frac` left by `solve_lte` is smaller at `T = 40000` than at
`T = 10000`. -/
theorem C26_counterexample :
    ((solve_lte (pc_cgs ℝ) (externals_of ℝ Real.exp (fun x y => x ^ y))
        (heavy_level_atom ℝ) 40000 1 1000000).ions 1).frac /
      ((solve_lte (pc_cgs ℝ) (externals_of ℝ Real.exp (fun x y => x ^ y))
        (heavy_level_atom ℝ) 40000 1 1000000).ions 0).frac <
    ((solve_lte (pc_cgs ℝ) (externals_of ℝ Real.exp (fun x y => x ^ y))
        (heavy_level_atom ℝ) 10000 1 1000000).ions 1).frac /
      ((solve_lte (pc_cgs ℝ) (externals_of ℝ Real.exp (fun x y => x ^ y))
        (heavy_level_atom ℝ) 10000 1 1000000).ions 0).frac := by
  rw [heavy_ratio 40000 (by norm_num), heavy_ratio 10000 (by norm_num)]
  have hq : (40000 : ℝ) = 4 * 10000 := by norm_num
  have hF : 0 < saha_fac (pc_cgs ℝ) (externals_of ℝ Real.exp (fun x y => x ^ y)) 10000 1 :=
    saha_fac_pos _ _ _ _ (by norm_num) (by norm_num) real_rpow_facts.1
      (by norm_num [pc_cgs]) (by norm_num [pc_cgs]) (by norm_num [pc_cgs])
      (by norm_num [pc_cgs])
  have hs := saha_fac_quadruple 10000 (by norm_num)
  rw [← hq] at hs
  rw [hs]
  generalize saha_fac (pc_cgs ℝ) (externals_of ℝ Real.exp (fun x y => x ^ y)) 10000 1 = F
    at hF
  have a1 : (-1.0 * 0.86173324 / 8.6173324e-5 / 40000 : ℝ) = -(1 / 4) := by norm_num
  have a2 : (-34.4693296 / 8.6173324e-5 / 40000 : ℝ) = -10 := by norm_num
  have a3 : (-1.0 * 0.86173324 / 8.6173324e-5 / 10000 : ℝ) = -1 := by norm_num
  have a4 : (-34.4693296 / 8.6173324e-5 / 10000 : ℝ) = -40 := by norm_num
  rw [a1, a2, a3, a4]
  -- bounds on the exponentials
  have he_hi : Real.exp 1 < 2.7182818286 := Real.exp_one_lt_d9
  have he_lo : (2 : ℝ) < Real.exp 1 := lt_trans (by norm_num) Real.exp_one_gt_d9
  have h10 : Real.exp 10 < 22027 := by
    have e : Real.exp 10 = Real.exp 1 ^ 10 := by
      rw [← Real.exp_nat_mul]
      norm_num
    rw [e]
    calc Real.exp 1 ^ 10 < 2.7182818286 ^ 10 :=
          pow_lt_pow_left₀ he_hi (Real.exp_pos 1).le (by norm_num)
      _ < 22027 := by norm_num
  have h40 : (1000000 : ℝ) < Real.exp 40 := by
    have e : Real.exp 40 = Real.exp 1 ^ 40 := by
      rw [← Real.exp_nat_mul]
      norm_num
    rw [e]
    calc (1000000 : ℝ) < 2 ^ 40 := by norm_num
      _ < Real.exp 1 ^ 40 := pow_lt_pow_left₀ he_lo (by norm_num) (by norm_num)
  have hm10 : 1 / 22027 < Real.exp (-10) := by
    rw [Real.exp_neg, ← one_div]
    exact one_div_lt_one_div_of_lt (Real.exp_pos 10) h10
  have hm40 : Real.exp (-40) < 1 / 1000000 := by
    rw [Real.exp_neg, ← one_div]
    exact one_div_lt_one_div_of_lt (by norm_num) h40
  have hm40p := Real.exp_pos (-40)
  have hq1 : Real.exp (-(1 / 4)) < 1 := by
    have h0 := Real.exp_lt_exp.mpr (show (-(1 / 4) : ℝ) < 0 by norm_num)
    rwa [Real.exp_zero] at h0
  have hm1 : 1 / 2.7182818286 < Real.exp (-1) := by
    rw [Real.exp_neg, ← one_div]
    exact one_div_lt_one_div_of_lt (Real.exp_pos 1) he_hi
  have hq0 := Real.exp_pos (-(1 / 4))
  -- left side below 8 / 46.39 * F, right side above F / (2.7182818286 * 2)
  have hl : Real.exp (-(1 / 4)) * (1 / (1 + 1000000 * Real.exp (-10))) < 1 / 46 := by
    have hden : (46 : ℝ) < 1 + 1000000 * Real.exp (-10) := by
      have : (1000000 : ℝ) * (1 / 22027) < 1000000 * Real.exp (-10) :=
        mul_lt_mul_of_pos_left hm10 (by norm_num)
      have h2 : (45 : ℝ) < 1000000 * (1 / 22027) := by norm_num
      linarith
    have h1 : 1 / (1 + 1000000 * Real.exp (-10)) < 1 / 46 :=
      one_div_lt_one_div_of_lt (by norm_num) hden
    have h1p : 0 < 1 / (1 + 1000000 * Real.exp (-10)) := by positivity
    calc Real.exp (-(1 / 4)) * (1 / (1 + 1000000 * Real.exp (-10)))
        < 1 * (1 / (1 + 1000000 * Real.exp (-10))) := mul_lt_mul_of_pos_right hq1 h1p
      _ < 1 / 46 := by rw [one_mul]; exact h1
  have hr : 1 / 5.5 < Real.exp (-1) * (1 / (1 + 1000000 * Real.exp (-40))) := by
    have hden : 1 + 1000000 * Real.exp (-40) < 2 := by
      have : (1000000 : ℝ) * Real.exp (-40) < 1000000 * (1 / 1000000) :=
        mul_lt_mul_of_pos_left hm40 (by norm_num)
      linarith
    have h1 : 1 / 2 < 1 / (1 + 1000000 * Real.exp (-40)) :=
      one_div_lt_one_div_of_lt (by positivity) hden
    calc (1 / 5.5 : ℝ) < 1 / 2.7182818286 * (1 / 2) := by norm_num
      _ < Real.exp (-1) * (1 / 2) := mul_lt_mul_of_pos_right hm1 (by norm_num)
      _ < Real.exp (-1) * (1 / (1 + 1000000 * Real.exp (-40))) :=
          mul_lt_mul_of_pos_left h1 (Real.exp_pos _)
  generalize Real.exp (-(1 / 4)) * (1 / (1 + 1000000 * Real.exp (-10))) = A at hl
  generalize Real.exp (-1) * (1 / (1 + 1000000 * Real.exp (-40))) = B at hr
  have h8 : A * (8 * F) < B * F := by
    have : A * 8 < B := by
      have : (1 / 46 : ℝ) * 8 < 1 / 5.5 := by norm_num
      linarith
    calc A * (8 * F) = A * 8 * F := by ring
      _ < B * F := mul_lt_mul_of_pos_right this hF
  exact h8

/-- Instance of C26 on the toy species with the true `exp` and `pow`: from `T = 10000` to
`T = 20000` at `n_e = 1e8`. -/
theorem C26_saha_monotone_witness :
    ((solve_lte (pc_cgs ℝ) (externals_of ℝ Real.exp (fun x y => x ^ y))
        (toy_atom ℝ) 10000 1e8 1000000).ions 1).frac /
      ((solve_lte (pc_cgs ℝ) (externals_of ℝ Real.exp (fun x y => x ^ y))
        (toy_atom ℝ) 10000 1e8 1000000).ions (1 - 1)).frac ≤
    ((solve_lte (pc_cgs ℝ) (externals_of ℝ Real.exp (fun x y => x ^ y))
        (toy_atom ℝ) 20000 1e8 1000000).ions 1).frac /
      ((solve_lte (pc_cgs ℝ) (externals_of ℝ Real.exp (fun x y => x ^ y))
        (toy_atom ℝ) 20000 1e8 1000000).ions (1 - 1)).frac :=
  C26_saha_monotone (pc_cgs ℝ) (externals_of ℝ Real.exp (fun x y => x ^ y)) (toy_atom ℝ)
    10000 20000 1e8 1000000 (fun x => Real.exp_pos x)
    (fun _ _ h => Real.exp_le_exp.mpr h) (fun x y => Real.exp_add x y)
    real_rpow_facts.1 real_rpow_facts.2
    (by norm_num [pc_cgs]) (by norm_num [pc_cgs]) (by norm_num [pc_cgs])
    (by norm_num [pc_cgs]) (by norm_num [pc_cgs]) (by norm_num) (by norm_num) (by norm_num)
    (by
      intro i hi
      have hi2 : i < 2 := hi
      have h : i = 0 ∨ i = 1 := by omega
      rcases h with h | h <;> subst h <;> decide)
    (by
      intro k hk
      have hk2 : k < 2 := hk
      have h : k = 0 ∨ k = 1 := by omega
      rcases h with h | h
      · exact ⟨0, by decide, by rw [h]; rfl⟩
      · exact ⟨1, by decide, by rw [h]; rfl⟩)
    (by
      intro i hi
      have hi2 : i < 2 := hi
      have h : i = 0 ∨ i = 1 := by omega
      rcases h with h | h <;> subst h <;>
        norm_num [toy_atom, toy_with])
    1 (le_refl 1) (by decide)

theorem rpow_ten_thousand :
    (10000 : ℝ) ^ (-1.5 : ℝ) = 1 / 1000000 ∧ (10000 : ℝ) ^ (-3 : ℝ) = 1 / 1000000000000 := by
  have h4 : (10000 : ℝ) = 10 ^ (4 : ℝ) := by norm_num
  constructor
  · rw [h4, ← Real.rpow_mul (by norm_num)]
    have : (4 : ℝ) * (-1.5) = -6 := by norm_num
    rw [this, Real.rpow_neg (by norm_num)]
    norm_num
  · rw [h4, ← Real.rpow_mul (by norm_num)]
    have : (4 : ℝ) * (-3) = -12 := by norm_num
    rw [this, Real.rpow_neg (by norm_num)]
    norm_num

/-- LTE start of the toy species at `T = 10000`, `n_e = 1e8` with the true `exp` and `pow`:
the two populations are `1 / (1 + s)` and `s / (1 + s)` with `s` the Saha ratio
`exp(-chi / k_ev / T) / (n_e * (h^2 / (2 pi m_e k T))^1.5)`. -/
theorem toy_dense_lte :
    ((solve_lte (pc_cgs ℝ) (externals_of ℝ Real.exp (fun x y => x ^ y)) (toy_atom ℝ)
      10000 100000000 1000000).levels 0).n_lte =
      1 / (1 + Real.exp (-(13.6 / (pc_cgs ℝ).k_ev / 10000)) / (100000000 *
        ((pc_cgs ℝ).h * (pc_cgs ℝ).h /
          (2 * (pc_cgs ℝ).pi * (pc_cgs ℝ).m_e * (pc_cgs ℝ).k * 10000)) ^ (1.5 : ℝ))) ∧
    ((solve_lte (pc_cgs ℝ) (externals_of ℝ Real.exp (fun x y => x ^ y)) (toy_atom ℝ)
      10000 100000000 1000000).levels 1).n_lte =
      (Real.exp (-(13.6 / (pc_cgs ℝ).k_ev / 10000)) / (100000000 *
        ((pc_cgs ℝ).h * (pc_cgs ℝ).h /
          (2 * (pc_cgs ℝ).pi * (pc_cgs ℝ).m_e * (pc_cgs ℝ).k * 10000)) ^ (1.5 : ℝ))) /
      (1 + Real.exp (-(13.6 / (pc_cgs ℝ).k_ev / 10000)) / (100000000 *
        ((pc_cgs ℝ).h * (pc_cgs ℝ).h /
          (2 * (pc_cgs ℝ).pi * (pc_cgs ℝ).m_e * (pc_cgs ℝ).k * 10000)) ^ (1.5 : ℝ))) := by
  obtain ⟨s1, -, s3, s4⟩ := solve_lte_spec (pc_cgs ℝ) (externals_of ℝ Real.exp (fun x y => x ^ y))
    (toy_atom ℝ) 10000 100000000 1000000
  have i0 := s3 0 (by decide)
  have i1 := s3 1 (by decide)
  have l0 := s4 0 (by decide)
  have l1 := s4 1 (by decide)
  have e0 : ((toy_atom ℝ).levels 0).ion = 0 := rfl
  have e1 : ((toy_atom ℝ).levels 1).ion = 1 := rfl
  rw [e0, i0] at l0
  rw [e1, i1] at l1
  clear s1 s3 s4 i0 i1
  have hne : ¬ ((100000000 : ℝ) < 1e-50) := by norm_num
  have hL : 0 < ((pc_cgs ℝ).h * (pc_cgs ℝ).h /
      (2 * (pc_cgs ℝ).pi * (pc_cgs ℝ).m_e * (pc_cgs ℝ).k * 10000)) ^ (1.5 : ℝ) :=
    Real.rpow_pos_of_pos (by norm_num [pc_cgs]) _
  have hE := Real.exp_pos (-(13.6 / (pc_cgs ℝ).k_ev / 10000))
  have ha : (-(1.0 * 13.6) / (pc_cgs ℝ).k_ev / 10000 : ℝ) =
      -(13.6 / (pc_cgs ℝ).k_ev / 10000) := by ring
  have h2 : (2.0 : ℝ) = 2 := by norm_num
  have h1 : (1.0 : ℝ) = 1 := by norm_num
  constructor
  · rw [l0]
    clear l0 l1
    simp [lte_frac, saha_frac, saha_norm, saha_ratio, saha_fac, lte_part, partition_fn, boltz,
      ion_chi, toy_atom, toy_with, Finset.sum_range_succ, externals_of, hne]
    rw [ha, h2, h1]
    generalize Real.exp (-(13.6 / (pc_cgs ℝ).k_ev / 10000)) = E at hE
    generalize ((pc_cgs ℝ).h * (pc_cgs ℝ).h /
      (2 * (pc_cgs ℝ).pi * (pc_cgs ℝ).m_e * (pc_cgs ℝ).k * 10000)) ^ (1.5 : ℝ) = L at hL
    field_simp
  · rw [l1]
    clear l0 l1
    simp [lte_frac, saha_frac, saha_norm, saha_ratio, saha_fac, lte_part, partition_fn, boltz,
      ion_chi, toy_atom, toy_with, Finset.sum_range_succ, externals_of, hne]
    rw [ha, h2, h1]
    generalize Real.exp (-(13.6 / (pc_cgs ℝ).k_ev / 10000)) = E at hE
    generalize ((pc_cgs ℝ).h * (pc_cgs ℝ).h /
      (2 * (pc_cgs ℝ).pi * (pc_cgs ℝ).m_e * (pc_cgs ℝ).k * 10000)) ^ (1.5 : ℝ) = L at hL
    field_simp

set_option maxHeartbeats 1000000 in

/-- Rates of the first pass on the toy species at `T = 10000`, `n_e = 1e8` with the true
`exp` and `pow`: collisional ionization of level 0 and three-body recombination onto it,
each times the LTE population of the level it leaves. -/
theorem toy_dense_rates :
    (set_rates (pc_cgs ℝ) (externals_of ℝ Real.exp (fun x y => x ^ y))
      (nlte_init (pc_cgs ℝ) (externals_of ℝ Real.exp (fun x y => x ^ y)) (toy_atom ℝ)
        10000 100000000 1000000) 10000 100000000).n_levels = 2 ∧
    (set_rates (pc_cgs ℝ) (externals_of ℝ Real.exp (fun x y => x ^ y))
      (nlte_init (pc_cgs ℝ) (externals_of ℝ Real.exp (fun x y => x ^ y)) (toy_atom ℝ)
        10000 100000000 1000000) 10000 100000000).rates 0 0 = 0 ∧
    (set_rates (pc_cgs ℝ) (externals_of ℝ Real.exp (fun x y => x ^ y))
      (nlte_init (pc_cgs ℝ) (externals_of ℝ Real.exp (fun x y => x ^ y)) (toy_atom ℝ)
        10000 100000000 1000000) 10000 100000000).rates 0 1 =
      2.7 / (13.6 / (pc_cgs ℝ).k_ev / 10000) / (13.6 / (pc_cgs ℝ).k_ev / 10000) *
        (1 / 1000000) * Real.exp (-(13.6 / (pc_cgs ℝ).k_ev / 10000)) * 100000000 *
        ((solve_lte (pc_cgs ℝ) (externals_of ℝ Real.exp (fun x y => x ^ y)) (toy_atom ℝ)
          10000 100000000 1000000).levels 0).n_lte ∧
    (set_rates (pc_cgs ℝ) (externals_of ℝ Real.exp (fun x y => x ^ y))
      (nlte_init (pc_cgs ℝ) (externals_of ℝ Real.exp (fun x y => x ^ y)) (toy_atom ℝ)
        10000 100000000 1000000) 10000 100000000).rates 1 0 =
      5.59080e-16 / (13.6 / (pc_cgs ℝ).k_ev / 10000) / (13.6 / (pc_cgs ℝ).k_ev / 10000) *
        (1 / 1000000000000) * 2 / 1 * 100000000 * 100000000 *
        ((solve_lte (pc_cgs ℝ) (externals_of ℝ Real.exp (fun x y => x ^ y)) (toy_atom ℝ)
          10000 100000000 1000000).levels 1).n_lte ∧
    (set_rates (pc_cgs ℝ) (externals_of ℝ Real.exp (fun x y => x ^ y))
      (nlte_init (pc_cgs ℝ) (externals_of ℝ Real.exp (fun x y => x ^ y)) (toy_atom ℝ)
        10000 100000000 1000000) 10000 100000000).levels =
      (solve_lte (pc_cgs ℝ) (externals_of ℝ Real.exp (fun x y => x ^ y)) (toy_atom ℝ)
          10000 100000000 1000000).levels := by
  have hfr := nlte_init_frame (pc_cgs ℝ) (externals_of ℝ Real.exp (fun x y => x ^ y))
    (toy_atom ℝ) 10000 100000000 1000000
  have hcf := solve_lte_config (pc_cgs ℝ) (externals_of ℝ Real.exp (fun x y => x ^ y))
    (toy_atom ℝ) 10000 100000000 1000000
  obtain ⟨s1, -, s3, s4⟩ := solve_lte_spec (pc_cgs ℝ)
    (externals_of ℝ Real.exp (fun x y => x ^ y)) (toy_atom ℝ) 10000 100000000 1000000
  have hn0 : (nlte_init (pc_cgs ℝ) (externals_of ℝ Real.exp (fun x y => x ^ y)) (toy_atom ℝ)
      10000 100000000 1000000).n_levels = 2 := hfr.1.trans s1
  have hnl : (nlte_init (pc_cgs ℝ) (externals_of ℝ Real.exp (fun x y => x ^ y)) (toy_atom ℝ)
      10000 100000000 1000000).n_lines = 0 := hfr.2.2.1.trans hcf.2.2.1
  have hngr : (nlte_init (pc_cgs ℝ) (externals_of ℝ Real.exp (fun x y => x ^ y)) (toy_atom ℝ)
      10000 100000000 1000000).no_ground_recomb = false :=
    hfr.2.2.2.2.2.2.2.1.trans hcf.2.2.2.2.1
  have hlev := hfr.2.2.2.2.1
  have hion := hfr.2.2.2.2.2.1
  have i0 := s3 0 (by decide)
  have l0 := s4 0 (by decide)
  have l1 := s4 1 (by decide)
  have sf := set_rates_frame (pc_cgs ℝ) (externals_of ℝ Real.exp (fun x y => x ^ y))
    (nlte_init (pc_cgs ℝ) (externals_of ℝ Real.exp (fun x y => x ^ y)) (toy_atom ℝ)
        10000 100000000 1000000) 10000 100000000
  have f1 : ((toy_atom ℝ).levels 0).ic = 1 := rfl
  have f2 : ((toy_atom ℝ).levels 1).ic = -1 := rfl
  have f3 : ((toy_atom ℝ).levels 0).ion = 0 := rfl
  have f4 : ((toy_atom ℝ).levels 1).ion = 1 := rfl
  have f5 : ((toy_atom ℝ).levels 0).E = 0 := rfl
  have f6 : ((toy_atom ℝ).ions 0).chi = 13.6 := rfl
  have f7 : ((toy_atom ℝ).levels 0).g = 2 := rfl
  have f8 : ((toy_atom ℝ).levels 1).g = 1 := rfl
  have f9 : ((toy_atom ℝ).levels 0).s_photo = empty_table ℝ := rfl
  have f10 : ((toy_atom ℝ).levels 0).a_rec = empty_table ℝ := rfl
  have t1 : (1 : Int).toNat = 1 := rfl
  refine ⟨sf.1.trans hn0, ?_, ?_, ?_, sf.2.2.2.1.trans hlev⟩
  · rw [set_rates_spec _ _ _ _ _ 0 0 (by rw [hn0]; decide) (by rw [hn0]; decide)]
    unfold radiative_channel nonthermal_channel collisional_channel bound_free_channel
    rw [hnl, hn0, hlev]
    simp only [Finset.sum_range_succ, Finset.sum_range_zero, l0, l1, f1, f2, t1]
    simp
  · rw [set_rates_spec _ _ _ _ _ 0 1 (by rw [hn0]; decide) (by rw [hn0]; decide)]
    unfold radiative_channel nonthermal_channel collisional_channel bound_free_channel
      C_ion C_rec R_rec zeta_ion
    rw [hnl, hn0, hlev, hion]
    simp only [Finset.sum_range_succ, Finset.sum_range_zero, l0, l1, f1, f2, f3, f4, f5, f6,
      f7, f8, f9, f10, i0, t1]
    simp [photoionization_rate, empty_table, xy_array.size, forLoop, externals_of,
      rpow_ten_thousand.1]
  · rw [set_rates_spec _ _ _ _ _ 1 0 (by rw [hn0]; decide) (by rw [hn0]; decide)]
    unfold radiative_channel nonthermal_channel collisional_channel bound_free_channel
      C_ion C_rec R_rec zeta_ion
    rw [hnl, hn0, hlev, hion]
    simp only [Finset.sum_range_succ, Finset.sum_range_zero, l0, l1, f1, f2, f3, f4, f5, f6,
      f7, f8, f9, f10, i0, t1, hngr]
    simp [photoionization_rate, empty_table, xy_array.size, forLoop, externals_of,
      rpow_ten_thousand.2]

/-- Bounds on the cube of the thermal wavelength at `T = 10000` and on the Boltzmann
factor of the ionization energy of the toy species. -/
theorem toy_dense_constants :
    0.999992208 * 1.11816 / 2.7e21 <
      ((pc_cgs ℝ).h * (pc_cgs ℝ).h /
        (2 * (pc_cgs ℝ).pi * (pc_cgs ℝ).m_e * (pc_cgs ℝ).k * 10000)) ^ (1.5 : ℝ) ∧
    ((pc_cgs ℝ).h * (pc_cgs ℝ).h /
        (2 * (pc_cgs ℝ).pi * (pc_cgs ℝ).m_e * (pc_cgs ℝ).k * 10000)) ^ (1.5 : ℝ) <
      0.999992209 * 1.11816 / 2.7e21 ∧
    1 / 3 ^ 16 < Real.exp (-(13.6 / (pc_cgs ℝ).k_ev / 10000)) ∧
    (0 : ℝ) < 13.6 / (pc_cgs ℝ).k_ev / 10000 := by
  have hLam : (0 : ℝ) < (pc_cgs ℝ).h * (pc_cgs ℝ).h /
      (2 * (pc_cgs ℝ).pi * (pc_cgs ℝ).m_e * (pc_cgs ℝ).k * 10000) := by norm_num [pc_cgs]
  have hL : 0 < ((pc_cgs ℝ).h * (pc_cgs ℝ).h /
      (2 * (pc_cgs ℝ).pi * (pc_cgs ℝ).m_e * (pc_cgs ℝ).k * 10000)) ^ (1.5 : ℝ) :=
    Real.rpow_pos_of_pos hLam _
  have hsq : (((pc_cgs ℝ).h * (pc_cgs ℝ).h /
      (2 * (pc_cgs ℝ).pi * (pc_cgs ℝ).m_e * (pc_cgs ℝ).k * 10000)) ^ (1.5 : ℝ)) ^ 2 =
      ((pc_cgs ℝ).h * (pc_cgs ℝ).h /
        (2 * (pc_cgs ℝ).pi * (pc_cgs ℝ).m_e * (pc_cgs ℝ).k * 10000)) ^ 3 := by
    rw [← Real.rpow_natCast, ← Real.rpow_mul hLam.le]
    have : (1.5 : ℝ) * ((2 : ℕ) : ℝ) = ((3 : ℕ) : ℝ) := by norm_num
    rw [this, Real.rpow_natCast]
  refine ⟨?_, ?_, ?_, by norm_num [pc_cgs]⟩
  · refine lt_of_pow_lt_pow_left₀ 2 hL.le ?_
    rw [hsq]
    norm_num [pc_cgs]
  · refine lt_of_pow_lt_pow_left₀ 2 (by norm_num) ?_
    rw [hsq]
    norm_num [pc_cgs]
  · have h16 : Real.exp 16 < 3 ^ 16 := by
      have e : Real.exp 16 = Real.exp 1 ^ 16 := by
        rw [← Real.exp_nat_mul]
        norm_num
      rw [e]
      exact pow_lt_pow_left₀ (lt_trans Real.exp_one_lt_d9 (by norm_num)) (Real.exp_pos 1).le
        (by norm_num)
    have hz : (-16 : ℝ) ≤ -(13.6 / (pc_cgs ℝ).k_ev / 10000) := by norm_num [pc_cgs]
    have h1 : Real.exp (-16) ≤ Real.exp (-(13.6 / (pc_cgs ℝ).k_ev / 10000)) :=
      Real.exp_le_exp.mpr hz
    have h2 : 1 / (3 : ℝ) ^ 16 < Real.exp (-16) := by
      rw [Real.exp_neg, one_div]
      exact inv_strictAnti₀ (Real.exp_pos 16) h16
    exact lt_of_lt_of_le h2 h1

/-- First pass on the toy species at `T = 10000`, `n_e = 1e8`: the weighted ionization rate
is the weighted recombination rate times `2.7e21 / 1.11816` times the cube of the thermal
wavelength, which is between 0.999992208 and 0.999992209, and almost all of the species is
in the upper ion. -/
theorem toy_dense_facts :
    (set_rates (pc_cgs ℝ) (externals_of ℝ Real.exp (fun x y => x ^ y))
      (nlte_init (pc_cgs ℝ) (externals_of ℝ Real.exp (fun x y => x ^ y)) (toy_atom ℝ)
        10000 100000000 1000000) 10000 100000000).rates 0 0 = 0 ∧
    0 < (set_rates (pc_cgs ℝ) (externals_of ℝ Real.exp (fun x y => x ^ y))
      (nlte_init (pc_cgs ℝ) (externals_of ℝ Real.exp (fun x y => x ^ y)) (toy_atom ℝ)
        10000 100000000 1000000) 10000 100000000).rates 1 0 ∧
    0.999992208 * (set_rates (pc_cgs ℝ) (externals_of ℝ Real.exp (fun x y => x ^ y))
      (nlte_init (pc_cgs ℝ) (externals_of ℝ Real.exp (fun x y => x ^ y)) (toy_atom ℝ)
        10000 100000000 1000000) 10000 100000000).rates 1 0 <
      (set_rates (pc_cgs ℝ) (externals_of ℝ Real.exp (fun x y => x ^ y))
        (nlte_init (pc_cgs ℝ) (externals_of ℝ Real.exp (fun x y => x ^ y)) (toy_atom ℝ)
          10000 100000000 1000000) 10000 100000000).rates 0 1 ∧
    (set_rates (pc_cgs ℝ) (externals_of ℝ Real.exp (fun x y => x ^ y))
        (nlte_init (pc_cgs ℝ) (externals_of ℝ Real.exp (fun x y => x ^ y)) (toy_atom ℝ)
          10000 100000000 1000000) 10000 100000000).rates 0 1 <
      0.999992209 * (set_rates (pc_cgs ℝ) (externals_of ℝ Real.exp (fun x y => x ^ y))
        (nlte_init (pc_cgs ℝ) (externals_of ℝ Real.exp (fun x y => x ^ y)) (toy_atom ℝ)
          10000 100000000 1000000) 10000 100000000).rates 1 0 ∧
    0 < ((set_rates (pc_cgs ℝ) (externals_of ℝ Real.exp (fun x y => x ^ y))
      (nlte_init (pc_cgs ℝ) (externals_of ℝ Real.exp (fun x y => x ^ y)) (toy_atom ℝ)
        10000 100000000 1000000) 10000 100000000).levels 0).n_lte ∧
    0.999998 < ((set_rates (pc_cgs ℝ) (externals_of ℝ Real.exp (fun x y => x ^ y))
      (nlte_init (pc_cgs ℝ) (externals_of ℝ Real.exp (fun x y => x ^ y)) (toy_atom ℝ)
        10000 100000000 1000000) 10000 100000000).levels 1).n_lte ∧
    ((set_rates (pc_cgs ℝ) (externals_of ℝ Real.exp (fun x y => x ^ y))
      (nlte_init (pc_cgs ℝ) (externals_of ℝ Real.exp (fun x y => x ^ y)) (toy_atom ℝ)
        10000 100000000 1000000) 10000 100000000).levels 0).n_lte +
      ((set_rates (pc_cgs ℝ) (externals_of ℝ Real.exp (fun x y => x ^ y))
        (nlte_init (pc_cgs ℝ) (externals_of ℝ Real.exp (fun x y => x ^ y)) (toy_atom ℝ)
          10000 100000000 1000000) 10000 100000000).levels 1).n_lte = 1 := by
  obtain ⟨-, r00, r01, r10, hl⟩ := toy_dense_rates
  obtain ⟨n0, n1⟩ := toy_dense_lte
  obtain ⟨hlo, hhi, hE, hz⟩ := toy_dense_constants
  rw [r00, r01, r10, hl, n0, n1]
  generalize Real.exp (-(13.6 / (pc_cgs ℝ).k_ev / 10000)) = E at hE ⊢
  generalize ((pc_cgs ℝ).h * (pc_cgs ℝ).h /
    (2 * (pc_cgs ℝ).pi * (pc_cgs ℝ).m_e * (pc_cgs ℝ).k * 10000)) ^ (1.5 : ℝ) = L at hlo hhi ⊢
  generalize (13.6 / (pc_cgs ℝ).k_ev / 10000 : ℝ) = z at hz ⊢
  have hL : 0 < L := lt_trans (by norm_num) hlo
  have hE0 : 0 < E := lt_trans (by norm_num) hE
  have hs : 0 < E / (100000000 * L) := by positivity
  have hs2 : 500000 < E / (100000000 * L) := by
    rw [lt_div_iff₀ (by positivity)]
    have : 500000 * (100000000 * L) < 1 / 3 ^ 16 := by
      have := mul_lt_mul_of_pos_left hhi (show (0 : ℝ) < 500000 * 100000000 by norm_num)
      refine lt_trans (by linarith) (show (500000 * 100000000 : ℝ) *
        (0.999992209 * 1.11816 / 2.7e21) < 1 / 3 ^ 16 by norm_num)
    linarith
  have hsum : (1 : ℝ) + E / (100000000 * L) ≠ 0 := by linarith
  have hB : 0 < 5.59080e-16 / z / z * (1 / 1000000000000) * 2 / 1 * 100000000 * 100000000 *
      (E / (100000000 * L) / (1 + E / (100000000 * L))) := by positivity
  have hAB : 2.7 / z / z * (1 / 1000000) * E * 100000000 * (1 / (1 + E / (100000000 * L))) =
      (2.7e21 / 1.11816 * L) *
        (5.59080e-16 / z / z * (1 / 1000000000000) * 2 / 1 * 100000000 * 100000000 *
          (E / (100000000 * L) / (1 + E / (100000000 * L)))) := by
    field_simp
    ring
  have hc1 : (0.999992208 : ℝ) < 2.7e21 / 1.11816 * L := by
    have := mul_lt_mul_of_pos_left hlo (show (0 : ℝ) < 2.7e21 / 1.11816 by norm_num)
    refine lt_of_eq_of_lt ?_ this
    norm_num
  have hc2 : 2.7e21 / 1.11816 * L < (0.999992209 : ℝ) := by
    have := mul_lt_mul_of_pos_left hhi (show (0 : ℝ) < 2.7e21 / 1.11816 by norm_num)
    refine lt_of_lt_of_eq this ?_
    norm_num
  refine ⟨rfl, hB, ?_, ?_, by positivity, ?_, ?_⟩
  · rw [hAB]
    exact mul_lt_mul_of_pos_right hc1 hB
  · rw [hAB]
    exact mul_lt_mul_of_pos_right hc2 hB
  · rw [lt_div_iff₀ (by linarith)]
    linarith
  · field_simp

/-- Cramer's rule solves a two by two system with non-zero determinant. -/
theorem cramer2_solves (M : Nat → Nat → ℝ) (b : Nat → ℝ)
    (hdet : M 0 0 * M 1 1 - M 0 1 * M 1 0 ≠ 0) : solves 2 M b (cramer2 ℝ 2 M b) := by
  intro i hi
  have h : i = 0 ∨ i = 1 := by omega
  rcases h with h | h <;> subst h <;>
    simp [cramer2, Finset.sum_range_succ] <;> field_simp <;> ring

/-- A two-level system whose first row is `-r01 x0 + r10 x1 = 0` with `r01` slightly below
`r10`, and whose second row is `n0 x0 + n1 x1 = 1` with almost all weight on `n1`: the
first unknown is above 1 by about `1 - r01 / r10`. -/
theorem offset_of_imbalance (r01 r10 n0 n1 x0 x1 : ℝ) (hr : 0 < r10)
    (h1 : 0.999992208 * r10 < r01) (h2 : r01 < 0.999992209 * r10)
    (hn0 : 0 < n0) (hn1 : 0.999998 < n1) (hs : n0 + n1 = 1)
    (e0 : -(0 + r01) * x0 + r10 * x1 = 0) (e1 : n0 * x0 + n1 * x1 = 1) :
    1.0000077 < x0 ∧ x0 < 1.0000078 ∧ x1 < 1 := by
  have hx1 : x1 = r01 / r10 * x0 := by
    field_simp
    linarith
  have hq1 : 0.999992208 < r01 / r10 := by
    rw [lt_div_iff₀ hr]
    exact h1
  have hq2 : r01 / r10 < 0.999992209 := by
    rw [div_lt_iff₀ hr]
    exact h2
  generalize r01 / r10 = q at hx1 hq1 hq2
  subst hx1
  have hn1u : n1 < 1 := by linarith
  have hd : x0 * (n0 + n1 * q) = 1 := by linarith
  have hdl : 0.999992208 < n0 + n1 * q := by nlinarith
  have hdu : n0 + n1 * q < 1 - 0.999998 * (1 - 0.999992209) := by nlinarith
  have hd0 : 0 < n0 + n1 * q := by linarith
  have hx0 : x0 = 1 / (n0 + n1 * q) := by
    field_simp
    linarith
  have hq3 : q < n0 + n1 * q := by nlinarith
  refine ⟨?_, ?_, ?_⟩
  · rw [hx0, lt_div_iff₀ hd0]
    nlinarith
  · rw [hx0, div_lt_iff₀ hd0]
    nlinarith
  · rw [hx0, mul_one_div, div_lt_one hd0]
    exact hq3

set_option maxHeartbeats 1000000 in

/-- Claim C6 fails on the code, in the scenario the claim itself names.  Toy species (two
ions with one level each, no lines, no non-thermal deposition, no photoionization data),
escape feedback off, `T = 10000`, `n_e = 1e8`, `time = 1e6`, true `exp` and `pow`.  The
only rates are the collisional ionization of level 0 and the three-body recombination onto
it; weighted with the LTE populations they differ, the first being between 0.999992208 and
0.999992209 times the second (the literal `5.59080e-16` of the recombination rate is
`1.35 * (h^2 / (2 pi m_e k))^1.5` only to five digits).  So the rates do not balance, the
matrix is regular, the vector of ones does not solve the system, and every solution, in
particular the one `solve_nlte` installs, has `b` between 1.0000077 and 1.0000078 on level
0 and `b < 1` on level 1. -/
theorem C6_counterexample :
    ((toy_atom ℝ).use_betas = false ∧ (toy_atom ℝ).n_ions = 2 ∧ (toy_atom ℝ).n_levels = 2 ∧
      (toy_atom ℝ).n_lines = 0 ∧ (toy_atom ℝ).e_gamma = 0) ∧
    ((set_rates (pc_cgs ℝ) (externals_of ℝ Real.exp (fun x y => x ^ y))
        (nlte_init (pc_cgs ℝ) (externals_of ℝ Real.exp (fun x y => x ^ y)) (toy_atom ℝ)
          10000 100000000 1000000) 10000 100000000).rates 0 1 <
      (set_rates (pc_cgs ℝ) (externals_of ℝ Real.exp (fun x y => x ^ y))
        (nlte_init (pc_cgs ℝ) (externals_of ℝ Real.exp (fun x y => x ^ y)) (toy_atom ℝ)
          10000 100000000 1000000) 10000 100000000).rates 1 0 ∧
      ¬ rates_balance (set_rates (pc_cgs ℝ) (externals_of ℝ Real.exp (fun x y => x ^ y))
        (nlte_init (pc_cgs ℝ) (externals_of ℝ Real.exp (fun x y => x ^ y)) (toy_atom ℝ)
          10000 100000000 1000000) 10000 100000000) 0) ∧
    ¬ singular 2 (build_system (set_rates (pc_cgs ℝ)
        (externals_of ℝ Real.exp (fun x y => x ^ y))
        (nlte_init (pc_cgs ℝ) (externals_of ℝ Real.exp (fun x y => x ^ y)) (toy_atom ℝ)
          10000 100000000 1000000) 10000 100000000)).M_nlte ∧
    ¬ solves 2 (build_system (set_rates (pc_cgs ℝ)
        (externals_of ℝ Real.exp (fun x y => x ^ y))
        (nlte_init (pc_cgs ℝ) (externals_of ℝ Real.exp (fun x y => x ^ y)) (toy_atom ℝ)
          10000 100000000 1000000) 10000 100000000)).M_nlte
      (build_system (set_rates (pc_cgs ℝ) (externals_of ℝ Real.exp (fun x y => x ^ y))
        (nlte_init (pc_cgs ℝ) (externals_of ℝ Real.exp (fun x y => x ^ y)) (toy_atom ℝ)
          10000 100000000 1000000) 10000 100000000)).b_nlte (fun _ => 1) ∧
    (∀ x : Nat → ℝ, solves 2 (build_system (set_rates (pc_cgs ℝ)
        (externals_of ℝ Real.exp (fun x y => x ^ y))
        (nlte_init (pc_cgs ℝ) (externals_of ℝ Real.exp (fun x y => x ^ y)) (toy_atom ℝ)
          10000 100000000 1000000) 10000 100000000)).M_nlte
      (build_system (set_rates (pc_cgs ℝ) (externals_of ℝ Real.exp (fun x y => x ^ y))
        (nlte_init (pc_cgs ℝ) (externals_of ℝ Real.exp (fun x y => x ^ y)) (toy_atom ℝ)
          10000 100000000 1000000) 10000 100000000)).b_nlte x →
      1.0000077 < x 0 ∧ x 0 < 1.0000078 ∧ x 1 < 1) ∧
    (solve_nlte (pc_cgs ℝ) (externals_of ℝ Real.exp (fun x y => x ^ y)) (toy_atom ℝ)
      10000 100000000 1000000).1 = 1 ∧
    1.0000077 < ((solve_nlte (pc_cgs ℝ) (externals_of ℝ Real.exp (fun x y => x ^ y))
      (toy_atom ℝ) 10000 100000000 1000000).2.levels 0).b ∧
    ((solve_nlte (pc_cgs ℝ) (externals_of ℝ Real.exp (fun x y => x ^ y))
      (toy_atom ℝ) 10000 100000000 1000000).2.levels 0).b < 1.0000078 ∧
    ((solve_nlte (pc_cgs ℝ) (externals_of ℝ Real.exp (fun x y => x ^ y))
      (toy_atom ℝ) 10000 100000000 1000000).2.levels 1).b < 1 := by
  obtain ⟨hn, -, -, -, -⟩ := toy_dense_rates
  obtain ⟨r00, hr, h1, h2, hn0, hn1, hs⟩ := toy_dense_facts
  obtain ⟨h00, h01, h10, h11, hb0, hb1⟩ := system_two _ hn
  have hn00 : (nlte_init (pc_cgs ℝ) (externals_of ℝ Real.exp (fun x y => x ^ y)) (toy_atom ℝ)
      10000 100000000 1000000).n_levels = 2 := (set_rates_frame _ _ _ _ _).1.symm.trans hn
  have hpass := solve_nlte_one_pass (pc_cgs ℝ) (externals_of ℝ Real.exp (fun x y => x ^ y))
    (toy_atom ℝ) 10000 100000000 1000000 rfl
  have hx := nlte_pass_x_nlte (pc_cgs ℝ) (externals_of ℝ Real.exp (fun x y => x ^ y))
    (nlte_init (pc_cgs ℝ) (externals_of ℝ Real.exp (fun x y => x ^ y)) (toy_atom ℝ)
      10000 100000000 1000000) 10000 100000000
  have hL := (nlte_pass_spec (pc_cgs ℝ) (externals_of ℝ Real.exp (fun x y => x ^ y))
    (nlte_init (pc_cgs ℝ) (externals_of ℝ Real.exp (fun x y => x ^ y)) (toy_atom ℝ)
      10000 100000000 1000000) 10000 100000000).2.2.2.2.2.1
  rw [hn00] at hx hL
  rw [hpass]
  generalize nlte_pass (pc_cgs ℝ) (externals_of ℝ Real.exp (fun x y => x ^ y))
    (nlte_init (pc_cgs ℝ) (externals_of ℝ Real.exp (fun x y => x ^ y)) (toy_atom ℝ)
      10000 100000000 1000000) 10000 100000000 = P at hx hL ⊢
  generalize nlte_init (pc_cgs ℝ) (externals_of ℝ Real.exp (fun x y => x ^ y)) (toy_atom ℝ)
      10000 100000000 1000000 = S0 at *
  generalize set_rates (pc_cgs ℝ) (externals_of ℝ Real.exp (fun x y => x ^ y)) S0
    10000 100000000 = SR at *
  have hdet : (build_system SR).M_nlte 0 0 * (build_system SR).M_nlte 1 1 -
      (build_system SR).M_nlte 0 1 * (build_system SR).M_nlte 1 0 ≠ 0 := by
    rw [h00, h01, h10, h11, r00]
    have hp : 0 < SR.rates 0 1 := lt_trans (by positivity) h1
    have : (0 : ℝ) < (0 + SR.rates 0 1) * (SR.levels 1).n_lte +
        SR.rates 1 0 * (SR.levels 0).n_lte := by
      have hn1p : 0 < (SR.levels 1).n_lte := lt_trans (by norm_num) hn1
      positivity
    intro h
    linarith
  have hall : ∀ x : Nat → ℝ, solves 2 (build_system SR).M_nlte (build_system SR).b_nlte x →
      1.0000077 < x 0 ∧ x 0 < 1.0000078 ∧ x 1 < 1 := by
    intro x hxs
    have e0 := hxs 0 (by decide)
    have e1 := hxs 1 (by decide)
    rw [Finset.sum_range_succ, Finset.sum_range_succ, Finset.sum_range_zero, zero_add] at e0 e1
    rw [h00, h01, hb0, r00] at e0
    rw [h10, h11, hb1] at e1
    exact offset_of_imbalance _ _ _ _ _ _ hr h1 h2 hn0 hn1 hs e0 e1
  have hsol : solves 2 (build_system SR).M_nlte (build_system SR).b_nlte P.x_nlte := by
    rw [hx]
    exact cramer2_solves _ _ hdet
  have hP := hall _ hsol
  have hlt : SR.rates 0 1 < SR.rates 1 0 := by nlinarith
  refine ⟨⟨rfl, rfl, rfl, rfl, rfl⟩, ⟨hlt, ?_⟩, not_singular_two _ hdet, ?_, hall, rfl, ?_, ?_, ?_⟩
  · unfold rates_balance
    rw [hn]
    simp only [Finset.sum_range_succ, Finset.sum_range_zero, zero_add, if_true,
      show ((1 : Nat) = 0) = False by simp, if_false, r00]
    intro h
    linarith
  · intro h
    have := (hall _ h).1
    norm_num at this
  · show 1.0000077 < (P.levels 0).b
    rw [hL 0, if_pos (by decide)]
    exact hP.1
  · show (P.levels 0).b < 1.0000078
    rw [hL 0, if_pos (by decide)]
    exact hP.2.1
  · show (P.levels 1).b < 1
    rw [hL 1, if_pos (by decide)]
    exact hP.2.2

end Pubsed
